import Mathlib

/-!
# HLS playlist writer

A model of `structure.go` and `writer.go` of the `hls` package: the media playlist with its
ring buffer of segments, the master playlist, and the two encoders.

Conventions of the model.

* A Go `int` is an `Int`; `%` and `/` are the truncating `Int.tmod` and `Int.tdiv`. An `int`
  has 64 bits. The exported counter `SeqNo`, which a caller may set to any `int`, is
  incremented with the wrap-around of the machine (`wrapInt`). The unexported `head`, `tail`,
  `count` and `capacity` are bounded by the length of an allocated slice in every run, far
  from the word size, and their arithmetic is exact.
* A finite `float64` is a dyadic rational and is carried as a `ℚ`; comparison and `math.Ceil`
  are exact on such values. NaN and the infinities are outside the model. The conversion
  `int64(math.Ceil x)` is `int64 ⌈x⌉`: the integer `⌈x⌉` when it lies in the range of
  `int64`, and the smallest `int64` otherwise.
  A decimal constant of the Go source, such as `3.141`, denotes the nearest `float64`,
  `float64 (3141 / 1000)`. A `ℚ` has no negative zero.
* The encoders take the standard-library formatters as a parameter (`Formatters`).
  `stdFormatters` instantiates `strconv.FormatFloat` with the model `FormatFloat` of the
  format `'f'`, written from the documentation of package `strconv`; it rounds its argument
  to a float of `bitSize` bits before it prints it.
* A Go pointer is an `Option Ptr`, `none` for nil: an address into a `Heap` that maps
  addresses to objects. Two pointers are identical when the addresses are equal.
* A `string` and the `bytes.Buffer` cache are a `String`; `buf.Len() > 0` is `buf ≠ ""`.
* A function that returns an `error` yields a `Result`: a normal return without error, a
  normal return with an error (together with the state it leaves), or a run-time panic
  (index out of range, division by zero, nil dereference, negative `make` length).
-/

namespace Hls

/-! ## Types of `structure.go` -/

/-- Address of a heap object -/
abbrev Ptr := Nat

/-- The constant `minVer` -/
def minVer : Int := 3

/-- The type `MediaType int` -/
abbrev MediaType := Int

def MediaTypeEvent : MediaType := 1

def MediaTypeVOD : MediaType := 2

/-- The type `SCTE35Syntax int` -/
abbrev SCTE35Syntax := Int

def Syntax672014 : SCTE35Syntax := 0

def SyntaxOATCLS : SCTE35Syntax := 1

/-- The type `SCTE35CueType int` -/
abbrev SCTE35CueType := Int

def SCTE35CueStart : SCTE35CueType := 0

def SCTE35CueMid : SCTE35CueType := 1

def SCTE35CueEnd : SCTE35CueType := 2

/-- A `time.Time`: seconds since January 1 of year 1 (UTC), nanoseconds within the second, and
the zone offset in seconds east of UTC -/
structure Time where
  sec : Int := 0
  nsec : Int := 0
  zone : Int := 0
  deriving DecidableEq, Repr

/-- The method `Time.IsZero` -/
def Time.IsZero (t : Time) : Bool := t.sec = 0 ∧ t.nsec = 0

/-- The struct `Key` -/
structure Key where
  Method : String := ""
  URI : String := ""
  IV : String := ""
  Keyformat : String := ""
  Keyformatversions : String := ""
  deriving DecidableEq, Repr

/-- The struct `Map` -/
structure Map where
  URI : String := ""
  Limit : Int := 0
  Offset : Int := 0
  deriving DecidableEq, Repr

/-- The struct `SCTE` -/
structure SCTE where
  Syntax : SCTE35Syntax := 0
  CueType : SCTE35CueType := 0
  Cue : String := ""
  ID : String := ""
  Time : ℚ := 0
  Elapsed : ℚ := 0
  deriving DecidableEq, Repr

/-- The struct `Widevine` -/
structure Widevine where
  AudioChannels : Int := 0
  AudioFormat : Int := 0
  AudioProfileIDC : Int := 0
  AudioSampleSize : Int := 0
  AudioSamplingFrequency : Int := 0
  CypherVersion : String := ""
  ECM : String := ""
  VideoFormat : Int := 0
  VideoFrameRate : Int := 0
  VideoLevelIDC : Int := 0
  VideoProfileIDC : Int := 0
  VideoResolution : String := ""
  VideoSAR : String := ""
  deriving DecidableEq, Repr

/-- The struct `MediaSegment`; `Key`, `Map` and `SCTE` are pointers -/
structure MediaSegment where
  SeqID : Int := 0
  Title : String := ""
  URI : String := ""
  Duration : ℚ := 0
  Limit : Int := 0
  Offset : Int := 0
  Key : Option Ptr := none
  Map : Option Ptr := none
  Discontinuity : Bool := false
  SCTE : Option Ptr := none
  ProgramDateTime : Time := {}
  deriving DecidableEq, Repr

/-- The struct `MediaPlaylist`; `Segments` is a slice of segment pointers, and `Key`, `Map`
and `W` are pointers -/
structure MediaPlaylist where
  TargetDuration : ℚ := 0
  SeqNo : Int := 0
  Segments : List (Option Ptr) := []
  Args : String := ""
  Iframe : Bool := false
  Closed : Bool := false
  MediaType : MediaType := 0
  durationAsInt : Bool := false
  keyformat : Int := 0
  winsize : Int := 0
  capacity : Int := 0
  head : Int := 0
  tail : Int := 0
  count : Int := 0
  buf : String := ""
  ver : Int := 0
  Key : Option Ptr := none
  Map : Option Ptr := none
  W : Option Ptr := none
  deriving DecidableEq, Repr

/-- The struct `Alternative`; the field `Type` is written `Type_` -/
structure Alternative where
  GroupID : String := ""
  URI : String := ""
  Type_ : String := ""
  Language : String := ""
  Name : String := ""
  Default : Bool := false
  Autoselect : String := ""
  Forced : String := ""
  Characteristics : String := ""
  Subtitles : String := ""
  deriving DecidableEq, Repr

/-- The struct `VariantParams`; `Alternatives` is a slice of pointers, carried by value with
`none` for a nil entry -/
structure VariantParams where
  ProgramID : Int := 0
  Bandwidth : Int := 0
  Codecs : String := ""
  Resolution : String := ""
  Audio : String := ""
  Video : String := ""
  Subtitles : String := ""
  Captions : String := ""
  Name : String := ""
  Iframe : Bool := false
  Alternatives : List (Option Alternative) := []
  deriving DecidableEq, Repr

/-- The struct `Variant`, which embeds `VariantParams`; `Chunklist` is a pointer that the
writer stores and never follows -/
structure Variant extends VariantParams where
  URI : String := ""
  Chunklist : Option Ptr := none
  deriving DecidableEq, Repr

/-- The struct `MasterPlaylist`; `Variants` is a slice of pointers, carried by value with
`none` for a nil entry -/
structure MasterPlaylist where
  Variants : List (Option Variant) := []
  Args : String := ""
  CypherVersion : String := ""
  buf : String := ""
  ver : Int := 0
  deriving DecidableEq, Repr

/-- The objects behind the pointers: what each address holds, and the next unused address of
each kind that the package allocates -/
structure Heap where
  seg : Ptr → MediaSegment := fun _ => {}
  key : Ptr → Key := fun _ => {}
  map : Ptr → Map := fun _ => {}
  scte : Ptr → SCTE := fun _ => {}
  wv : Ptr → Widevine := fun _ => {}
  nextSeg : Ptr := 0
  nextKey : Ptr := 0
  nextMap : Ptr := 0

/-- An `error` value: the package variable `ErrPlaylistFull`, or the result of
`errors.New msg` -/
inductive Error where
  | ErrPlaylistFull
  | new (msg : String)
  deriving DecidableEq, Repr

/-- Outcome of a call that returns an `error`: `ok s` is a nil error with state `s`,
`error e s` a non-nil error `e` with the state `s` the call leaves, `panic` a run-time panic -/
inductive Result (σ : Type) where
  | ok (s : σ)
  | error (e : Error) (s : σ)
  | panic
  deriving DecidableEq, Repr

/-- Reading `s[i]` for an `int` index: `none` when the index is out of range -/
def index {α : Type} (s : List α) (i : Int) : Option α :=
  if 0 ≤ i then s[i.toNat]? else none

/-- The value of an `int` (64 bits, two's complement) after an arithmetic operation whose
exact result is `n`: the result wraps around modulo `2 ^ 64` -/
def wrapInt (n : Int) : Int := (n + 2 ^ 63) % 2 ^ 64 - 2 ^ 63

/-- The conversion `int64(x)` of a `float64` `x` whose value is the integer `n`. Inside the
range of `int64` it is `n`. Outside of it the language leaves the result to the
implementation; on amd64 it is the smallest `int64`, `-2 ^ 63`, and on every platform it is
some `int64`, hence not `n`. -/
def int64 (n : Int) : Int :=
  if -2 ^ 63 ≤ n ∧ n < 2 ^ 63 then n else -2 ^ 63

/-! ## The ring buffer of `writer.go` -/

/-- The function `checkVersion(ver *int, newver int)`, returning the value left in `*ver` -/
def checkVersion (ver newver : Int) : Int :=
  if ver < newver then newver else ver

/-- The function `QuickSegment`: allocates a segment and returns its address -/
def QuickSegment (h : Heap) (uri title : String) (duration : ℚ) : Ptr × Heap :=
  (h.nextSeg,
    { h with
      seg := Function.update h.seg h.nextSeg { URI := uri, Title := title, Duration := duration }
      nextSeg := h.nextSeg + 1 })

namespace MediaPlaylist

/-- The method `SetWinSize` -/
def SetWinSize (p : MediaPlaylist) (winsize : Int) : Result MediaPlaylist :=
  if winsize > p.capacity then
    .error (.new "capacity must be greater than winsize or equal") p
  else
    .ok { p with winsize := winsize }

/-- The method `WinSize` -/
def WinSize (p : MediaPlaylist) : Int := p.winsize

/-- The method `Count` -/
def Count (p : MediaPlaylist) : Int := p.count

/-- The method `Version` -/
def Version (p : MediaPlaylist) : Int := p.ver

/-- The method `SetVersion` -/
def SetVersion (p : MediaPlaylist) (ver : Int) : MediaPlaylist := { p with ver := ver }

/-- The method `last` -/
def last (p : MediaPlaylist) : Int :=
  if p.tail = 0 then p.capacity - 1 else p.tail - 1

/-- The method `Remove`; `p.SeqNo++` wraps around at the largest `int` -/
def Remove (p : MediaPlaylist) : Result MediaPlaylist :=
  if p.count = 0 then
    .error (.new "playlist is empty") p
  else if p.capacity = 0 then
    .panic -- (p.head + 1) % p.capacity divides by zero
  else
    .ok { p with
      head := Int.tmod (p.head + 1) p.capacity
      count := p.count - 1
      SeqNo := if p.Closed then p.SeqNo else wrapInt (p.SeqNo + 1)
      buf := "" }

/-- The method `Append`; `seg` is the segment pointer, and `h` the heap in which the
segment's duration is read -/
def Append (h : Heap) (p : MediaPlaylist) (seg : Option Ptr) : Result MediaPlaylist :=
  if p.head = p.tail ∧ p.count > 0 then
    .error .ErrPlaylistFull p
  else if ¬ (0 ≤ p.tail ∧ p.tail < p.Segments.length) then
    .panic -- p.Segments[p.tail] is out of range
  else if p.capacity = 0 then
    .panic -- (p.tail + 1) % p.capacity divides by zero
  else
    match seg with
    | none => .panic -- seg.Duration dereferences nil
    | some a =>
      .ok { p with
        Segments := p.Segments.set p.tail.toNat (some a)
        tail := Int.tmod (p.tail + 1) p.capacity
        count := p.count + 1
        TargetDuration :=
          if p.TargetDuration < (h.seg a).Duration then ((⌈(h.seg a).Duration⌉ : Int) : ℚ)
          else p.TargetDuration
        buf := "" }

/-- The method `ExtendCapacity` -/
def ExtendCapacity (p : MediaPlaylist) : Result MediaPlaylist :=
  if p.count = 0 then
    .error (.new "when extend capcity, cur count should > 0") p
  else if p.count < 0 then
    .panic -- make([]*MediaSegment, p.count) with a negative length
  else
    .ok { p with
      Segments := p.Segments ++ List.replicate p.count.toNat none
      capacity := ((p.Segments ++ List.replicate p.count.toNat (none : Option Ptr)).length : Int)
      tail := p.count }

/-- The method `AppendWithAutoExtend` -/
def AppendWithAutoExtend (h : Heap) (p : MediaPlaylist) (seg : Option Ptr) :
    Result MediaPlaylist :=
  if p.count > Int.tdiv (p.capacity * 2) 3 then
    match p.ExtendCapacity with
    | .ok q => Append h q seg
    | .error e q => .error e q
    | .panic => .panic
  else
    Append h p seg

/-- The method `Slide` -/
def Slide (h : Heap) (p : MediaPlaylist) (seg : Option Ptr) : Result MediaPlaylist :=
  if ¬ p.Closed then
    if p.count ≥ p.winsize then
      match p.Remove with
      | .ok q => Append h q seg
      | .error e q => .error e q
      | .panic => .panic
    else
      Append h p seg
  else
    .ok p

/-- The method `ResetCache` -/
def ResetCache (p : MediaPlaylist) : MediaPlaylist := { p with buf := "" }

/-- The method `Close` -/
def Close (p : MediaPlaylist) : MediaPlaylist :=
  { p with
    buf := if p.buf ≠ "" then p.buf ++ "#EXT-X-ENDLIST\n" else p.buf
    Closed := true }

/-- The method `DurationAsInt` -/
def DurationAsInt (p : MediaPlaylist) (yes : Bool) : MediaPlaylist :=
  { p with
    ver := if yes then checkVersion p.ver 3 else p.ver
    durationAsInt := yes }

/-- The segment that `p.Segments[p.last()]` points to; `none` when the index is out of range
or the slot is nil, the two cases in which a write through it panics -/
def lastSeg (p : MediaPlaylist) : Option Ptr :=
  (index p.Segments p.last).join

/-- The method `SetDefaultKey`: allocates the key -/
def SetDefaultKey (h : Heap) (p : MediaPlaylist)
    (method uri iv keyformat keyformatversions : String) : Result (MediaPlaylist × Heap) :=
  .ok ({ p with
          ver := if keyformat ≠ "" ∨ keyformatversions ≠ "" then checkVersion p.ver 5 else p.ver
          Key := some h.nextKey },
       { h with
          key := Function.update h.key h.nextKey ⟨method, uri, iv, keyformat, keyformatversions⟩
          nextKey := h.nextKey + 1 })

/-- The method `SetDefaultMap`: allocates the map -/
def SetDefaultMap (h : Heap) (p : MediaPlaylist) (uri : String) (limit offset : Int) :
    MediaPlaylist × Heap :=
  ({ p with ver := checkVersion p.ver 5, Map := some h.nextMap },
   { h with
      map := Function.update h.map h.nextMap ⟨uri, limit, offset⟩
      nextMap := h.nextMap + 1 })

/-- The method `SetIframeOnly` -/
def SetIframeOnly (p : MediaPlaylist) : MediaPlaylist :=
  { p with ver := checkVersion p.ver 4, Iframe := true }

/-- The method `SetKey`: allocates the key and stores its address in the last segment -/
def SetKey (h : Heap) (p : MediaPlaylist)
    (method uri iv keyformat keyformatversions : String) : Result (MediaPlaylist × Heap) :=
  if p.count = 0 then
    .error (.new "playlist is empty") (p, h)
  else
    match p.lastSeg with
    | none => .panic
    | some a =>
      .ok ({ p with
              ver :=
                if keyformat ≠ "" ∨ keyformatversions ≠ "" then checkVersion p.ver 5 else p.ver },
           { h with
              key :=
                Function.update h.key h.nextKey ⟨method, uri, iv, keyformat, keyformatversions⟩
              nextKey := h.nextKey + 1
              seg := Function.update h.seg a { h.seg a with Key := some h.nextKey } })

/-- The method `SetMap`: allocates the map and stores its address in the last segment -/
def SetMap (h : Heap) (p : MediaPlaylist) (uri : String) (limit offset : Int) :
    Result (MediaPlaylist × Heap) :=
  if p.count = 0 then
    .error (.new "playlist is empty") (p, h)
  else
    match p.lastSeg with
    | none => .panic
    | some a =>
      .ok ({ p with ver := checkVersion p.ver 5 },
           { h with
              map := Function.update h.map h.nextMap ⟨uri, limit, offset⟩
              nextMap := h.nextMap + 1
              seg := Function.update h.seg a { h.seg a with Map := some h.nextMap } })

/-- The method `SetRange` -/
def SetRange (h : Heap) (p : MediaPlaylist) (limit offset : Int) :
    Result (MediaPlaylist × Heap) :=
  if p.count = 0 then
    .error (.new "playlist is empty") (p, h)
  else
    match p.lastSeg with
    | none => .panic
    | some a =>
      .ok ({ p with ver := checkVersion p.ver 4 },
           { h with
              seg := Function.update h.seg a { h.seg a with Limit := limit, Offset := offset } })

/-- The method `SetSCTE35`; `scte35` is a pointer -/
def SetSCTE35 (h : Heap) (p : MediaPlaylist) (scte35 : Option Ptr) :
    Result (MediaPlaylist × Heap) :=
  if p.count = 0 then
    .error (.new "playlist is empty") (p, h)
  else
    match p.lastSeg with
    | none => .panic
    | some a =>
      .ok (p, { h with seg := Function.update h.seg a { h.seg a with SCTE := scte35 } })

/-- The method `SetDiscontinuity` -/
def SetDiscontinuity (h : Heap) (p : MediaPlaylist) : Result (MediaPlaylist × Heap) :=
  if p.count = 0 then
    .error (.new "playlist is empty") (p, h)
  else
    match p.lastSeg with
    | none => .panic
    | some a =>
      .ok (p, { h with seg := Function.update h.seg a { h.seg a with Discontinuity := true } })

/-- The method `SetProgramDateTime` -/
def SetProgramDateTime (h : Heap) (p : MediaPlaylist) (value : Time) :
    Result (MediaPlaylist × Heap) :=
  if p.count = 0 then
    .error (.new "playlist is empty") (p, h)
  else
    match p.lastSeg with
    | none => .panic
    | some a =>
      .ok (p, { h with seg := Function.update h.seg a { h.seg a with ProgramDateTime := value } })

end MediaPlaylist

/-- The function `NewMediaPlaylist`, which returns a playlist pointer and an error: `none`
stands for the nil playlist returned with an error -/
def NewMediaPlaylist (winsize capacity : Int) : Result (Option MediaPlaylist) :=
  match MediaPlaylist.SetWinSize { ver := minVer, capacity := capacity } winsize with
  | .error e _ => .error e none
  | .panic => .panic
  | .ok p =>
    if capacity < 0 then
      .panic -- make([]*MediaSegment, capacity) with a negative length
    else
      .ok (some { p with Segments := List.replicate capacity.toNat none })

/-! ## Number and time formatting -/

/-- The function `strconv.Itoa`, which is also `strconv.FormatInt(n, 10)` -/
def Itoa (n : Int) : String :=
  if n < 0 then "-" ++ Nat.repr n.natAbs else Nat.repr n.toNat

/-- The call `strconv.FormatUint(uint64(n), 10)`: the conversion to `uint64` wraps modulo
`2 ^ 64` -/
def FormatUint64 (n : Int) : String :=
  Nat.repr (n % 2 ^ 64).toNat

/-- The constant `DateTime`, the layout `time.RFC3339Nano` -/
def DateTime : String := "2006-01-02T15:04:05.999999999Z07:00"

/-- The standard-library formatters the encoder calls: `strconv.FormatFloat(x, fmt, prec,
bitSize)` and `t.Format(layout)`. They are parameters of the encoder. -/
structure Formatters where
  FormatFloat : ℚ → Char → Int → Int → String
  Format : Time → String → String

/-! ## The media playlist encoder -/

namespace MediaPlaylist

/-- The first lines of `Encode`: the `#EXTM3U` marker and the version -/
def headerVersion (p : MediaPlaylist) : String :=
  "#EXTM3U\n#EXT-X-VERSION:" ++ Itoa p.ver ++ "\n"

/-- The default key tag of `Encode` -/
def headerKey (h : Heap) (p : MediaPlaylist) : String :=
  match p.Key with
  | none => ""
  | some k =>
    "#EXT-X-KEY:" ++ "METHOD=" ++ (h.key k).Method ++
    (if (h.key k).Method ≠ "NONE" then
      ",URI=\"" ++ (h.key k).URI ++ "\"" ++
      (if (h.key k).IV ≠ "" then ",IV=" ++ (h.key k).IV else "") ++
      (if (h.key k).Keyformat ≠ "" then ",KEYFORMAT=\"" ++ (h.key k).Keyformat ++ "\"" else "") ++
      (if (h.key k).Keyformatversions ≠ "" then
        ",KEYFORMATVERSIONS=\"" ++ (h.key k).Keyformatversions ++ "\"" else "")
    else "") ++
    "\n"

/-- The default map tag of `Encode` -/
def headerMap (h : Heap) (p : MediaPlaylist) : String :=
  match p.Map with
  | none => ""
  | some m =>
    "#EXT-X-MAP:" ++ "URI=\"" ++ (h.map m).URI ++ "\"" ++
    (if (h.map m).Limit > 0 then
      ",BYTERANGE=" ++ Itoa (h.map m).Limit ++ "@" ++ Itoa (h.map m).Offset
    else "") ++
    "\n"

/-- The playlist type tag of `Encode` -/
def headerType (p : MediaPlaylist) : String :=
  if p.MediaType > 0 then
    "#EXT-X-PLAYLIST-TYPE:" ++
    (if p.MediaType = MediaTypeEvent then "EVENT\n" ++ "#EXT-X-ALLOW-CACHE:NO\n"
     else if p.MediaType = MediaTypeVOD then "VOD\n"
     else "")
  else ""

/-- The media sequence line of `Encode` -/
def headerSequence (p : MediaPlaylist) : String :=
  "#EXT-X-MEDIA-SEQUENCE:" ++ Itoa p.SeqNo ++ "\n"

/-- The target duration line of `Encode`, which prints
`strconv.FormatInt(int64(math.Ceil(p.TargetDuration)), 10)` -/
def headerTargetDuration (p : MediaPlaylist) : String :=
  "#EXT-X-TARGETDURATION:" ++ Itoa (int64 ⌈p.TargetDuration⌉) ++ "\n"

/-- The I-frames-only marker of `Encode` -/
def headerIframe (p : MediaPlaylist) : String :=
  if p.Iframe then "#EXT-X-I-FRAMES-ONLY\n" else ""

/-- The Widevine tags of `Encode` -/
def headerWidevine (h : Heap) (p : MediaPlaylist) : String :=
  match p.W with
  | none => ""
  | some w =>
    (if (h.wv w).AudioChannels ≠ 0 then
      "#WV-AUDIO-CHANNELS " ++ FormatUint64 (h.wv w).AudioChannels ++ "\n" else "") ++
    (if (h.wv w).AudioFormat ≠ 0 then
      "#WV-AUDIO-FORMAT " ++ FormatUint64 (h.wv w).AudioFormat ++ "\n" else "") ++
    (if (h.wv w).AudioProfileIDC ≠ 0 then
      "#WV-AUDIO-PROFILE-IDC " ++ FormatUint64 (h.wv w).AudioProfileIDC ++ "\n" else "") ++
    (if (h.wv w).AudioSampleSize ≠ 0 then
      "#WV-AUDIO-SAMPLE-SIZE " ++ FormatUint64 (h.wv w).AudioSampleSize ++ "\n" else "") ++
    (if (h.wv w).AudioSamplingFrequency ≠ 0 then
      "#WV-AUDIO-SAMPLING-FREQUENCY " ++ FormatUint64 (h.wv w).AudioSamplingFrequency ++ "\n"
     else "") ++
    (if (h.wv w).CypherVersion ≠ "" then
      "#WV-CYPHER-VERSION " ++ (h.wv w).CypherVersion ++ "\n" else "") ++
    (if (h.wv w).ECM ≠ "" then "#WV-ECM " ++ (h.wv w).ECM ++ "\n" else "") ++
    (if (h.wv w).VideoFormat ≠ 0 then
      "#WV-VIDEO-FORMAT " ++ FormatUint64 (h.wv w).VideoFormat ++ "\n" else "") ++
    (if (h.wv w).VideoFrameRate ≠ 0 then
      "#WV-VIDEO-FRAME-RATE " ++ FormatUint64 (h.wv w).VideoFrameRate ++ "\n" else "") ++
    (if (h.wv w).VideoLevelIDC ≠ 0 then
      "#WV-VIDEO-LEVEL-IDC" ++ FormatUint64 (h.wv w).VideoLevelIDC ++ "\n" else "") ++
    (if (h.wv w).VideoProfileIDC ≠ 0 then
      "#WV-VIDEO-PROFILE-IDC " ++ FormatUint64 (h.wv w).VideoProfileIDC ++ "\n" else "") ++
    (if (h.wv w).VideoResolution ≠ "" then
      "#WV-VIDEO-RESOLUTION " ++ (h.wv w).VideoResolution ++ "\n" else "") ++
    (if (h.wv w).VideoSAR ≠ "" then "#WV-VIDEO-SAR " ++ (h.wv w).VideoSAR ++ "\n" else "")

/-- Everything `Encode` writes before the segments -/
def header (h : Heap) (p : MediaPlaylist) : String :=
  headerVersion p ++ headerKey h p ++ headerMap h p ++ headerType p ++ headerSequence p ++
    headerTargetDuration p ++ headerIframe p ++ headerWidevine h p

/-- The SCTE-35 tags `Encode` writes for a segment -/
def segmentSCTE (F : Formatters) (h : Heap) (seg : MediaSegment) : String :=
  match seg.SCTE with
  | none => ""
  | some c =>
    if (h.scte c).Syntax = Syntax672014 then
      "#EXT-SCTE35:" ++ "CUE=\"" ++ (h.scte c).Cue ++ "\"" ++
      (if (h.scte c).ID ≠ "" then ",ID=\"" ++ (h.scte c).ID ++ "\"" else "") ++
      (if (h.scte c).Time ≠ 0 then ",TIME=" ++ F.FormatFloat (h.scte c).Time 'f' (-1) 64
       else "") ++
      "\n"
    else if (h.scte c).Syntax = SyntaxOATCLS then
      if (h.scte c).CueType = SCTE35CueStart then
        "#EXT-OATCLS-SCTE35:" ++ (h.scte c).Cue ++ "\n" ++
        "#EXT-X-CUE-OUT:" ++ F.FormatFloat (h.scte c).Time 'f' (-1) 64 ++ "\n"
      else if (h.scte c).CueType = SCTE35CueMid then
        "#EXT-X-CUE-OUT-CONT:" ++ "ElapsedTime=" ++
        F.FormatFloat (h.scte c).Elapsed 'f' (-1) 64 ++
        ",Duration=" ++ F.FormatFloat (h.scte c).Time 'f' (-1) 64 ++
        ",SCTE35=" ++ (h.scte c).Cue ++ "\n"
      else if (h.scte c).CueType = SCTE35CueEnd then
        "#EXT-X-CUE-IN" ++ "\n"
      else ""
    else ""

/-- The key tag `Encode` writes for a segment whose key is not the default key -/
def segmentKey (h : Heap) (p : MediaPlaylist) (seg : MediaSegment) : String :=
  match seg.Key with
  | none => ""
  | some k =>
    if p.Key ≠ seg.Key then
      "#EXT-X-KEY:" ++ "METHOD=" ++ (h.key k).Method ++
      (if (h.key k).Method ≠ "NONE" then
        ",URI=\"" ++ (h.key k).URI ++ "\"" ++
        (if (h.key k).IV ≠ "" then ",IV=" ++ (h.key k).IV else "") ++
        (if (h.key k).Keyformat ≠ "" then ",KEYFORMAT=\"" ++ (h.key k).Keyformat ++ "\""
         else "") ++
        (if (h.key k).Keyformatversions ≠ "" then
          ",KEYFORMATVERSIONS=\"" ++ (h.key k).Keyformatversions ++ "\"" else "")
      else "") ++
      "\n"
    else ""

/-- The map tag `Encode` writes for a segment when the playlist has no default map -/
def segmentMap (h : Heap) (p : MediaPlaylist) (seg : MediaSegment) : String :=
  match p.Map, seg.Map with
  | none, some m =>
    "#EXT-X-MAP:" ++ "URI=\"" ++ (h.map m).URI ++ "\"" ++
    (if (h.map m).Limit > 0 then
      ",BYTERANGE=" ++ Itoa (h.map m).Limit ++ "@" ++ Itoa (h.map m).Offset
    else "") ++
    "\n"
  | _, _ => ""

/-- The text `Encode` puts after `#EXTINF:` for a segment, and the duration cache
(`durationCache`, a map from duration to text) it leaves. With `durationAsInt` the text is
`strconv.FormatInt(int64(math.Ceil(seg.Duration)), 10)`. -/
def segmentDuration (F : Formatters) (p : MediaPlaylist) (seg : MediaSegment)
    (durationCache : List (ℚ × String)) : String × List (ℚ × String) :=
  match durationCache.lookup seg.Duration with
  | some str => (str, durationCache)
  | none =>
    if p.durationAsInt then
      (Itoa (int64 ⌈seg.Duration⌉),
        (seg.Duration, Itoa (int64 ⌈seg.Duration⌉)) :: durationCache)
    else
      (F.FormatFloat seg.Duration 'f' 3 32,
        (seg.Duration, F.FormatFloat seg.Duration 'f' 3 32) :: durationCache)

/-- What one pass of the loop of `Encode` writes for a segment, and the duration cache it
leaves -/
def writeSegment (F : Formatters) (h : Heap) (p : MediaPlaylist) (seg : MediaSegment)
    (durationCache : List (ℚ × String)) : String × List (ℚ × String) :=
  (segmentSCTE F h seg ++
    segmentKey h p seg ++
    (if seg.Discontinuity then "#EXT-X-DISCONTINUITY\n" else "") ++
    segmentMap h p seg ++
    (if ¬ seg.ProgramDateTime.IsZero then
      "#EXT-X-PROGRAM-DATE-TIME:" ++ F.Format seg.ProgramDateTime DateTime ++ "\n" else "") ++
    (if seg.Limit > 0 then
      "#EXT-X-BYTERANGE:" ++ Itoa seg.Limit ++ "@" ++ Itoa seg.Offset ++ "\n" else "") ++
    "#EXTINF:" ++ (segmentDuration F p seg durationCache).1 ++ "," ++ seg.Title ++ "\n" ++
    seg.URI ++ (if p.Args ≠ "" then "?" ++ p.Args else "") ++ "\n",
   (segmentDuration F p seg durationCache).2)

/-- The loop of `Encode` over the segments. The first argument is the loop variable `count`
(the loop runs while it is positive and decrements it each pass), `i` and `head` are the
variables of those names. The result is the text written, `none` when a pass panics. -/
def writeSegments (F : Formatters) (h : Heap) (p : MediaPlaylist) :
    Nat → Int → Int → List (ℚ × String) → Option String
  | 0, _, _, _ => some ""
  | count + 1, i, head, durationCache =>
    if i < p.winsize ∨ p.winsize = 0 then
      match index p.Segments head with
      | none => none -- p.Segments[head] is out of range
      | some slot =>
        if p.capacity = 0 then
          none -- (head + 1) % p.capacity divides by zero
        else
          match slot with
          | none => writeSegments F h p count i (Int.tmod (head + 1) p.capacity) durationCache
          | some a =>
            (writeSegments F h p count (if p.winsize > 0 then i + 1 else i)
                (Int.tmod (head + 1) p.capacity)
                (writeSegment F h p (h.seg a) durationCache).2).map
              (fun rest => (writeSegment F h p (h.seg a) durationCache).1 ++ rest)
    else
      some ""

/-- The method `Encode`: the playlist with its cache filled, whose `buf` is the text returned;
`none` when the call panics -/
def Encode (F : Formatters) (h : Heap) (p : MediaPlaylist) : Option MediaPlaylist :=
  if p.buf ≠ "" then
    some p
  else
    match writeSegments F h p p.count.toNat 0 p.head [] with
    | none => none
    | some segments =>
      some { p with
        buf := header h p ++ segments ++ (if p.Closed then "#EXT-X-ENDLIST\n" else "") }

/-- The method `String` (written `String_`): the text, and the playlist with its cache
filled -/
def String_ (F : Formatters) (h : Heap) (p : MediaPlaylist) : Option (String × MediaPlaylist) :=
  (Encode F h p).map (fun q => (q.buf, q))

end MediaPlaylist

/-! ## The master playlist -/

/-- The function `NewMasterPlaylist` -/
def NewMasterPlaylist : MasterPlaylist := { ver := minVer }

namespace MasterPlaylist

/-- The method `Append`; `chunklist` is a pointer -/
def Append (p : MasterPlaylist) (uri : String) (chunklist : Option Ptr)
    (params : VariantParams) : MasterPlaylist :=
  { p with
    Variants :=
      p.Variants ++ [some { toVariantParams := params, URI := uri, Chunklist := chunklist }]
    ver := if params.Alternatives.length > 0 then checkVersion p.ver 4 else p.ver
    buf := "" }

/-- The method `ResetCache` -/
def ResetCache (p : MasterPlaylist) : MasterPlaylist := { p with buf := "" }

/-- The method `Version` -/
def Version (p : MasterPlaylist) : Int := p.ver

/-- The method `SetVersion` -/
def SetVersion (p : MasterPlaylist) (ver : Int) : MasterPlaylist := { p with ver := ver }

/-- The key `altKey` of `Encode`: `fmt.Sprintf("%s-%s-%s-%s", ...)` -/
def altKey (alt : Alternative) : String :=
  alt.Type_ ++ "-" ++ alt.GroupID ++ "-" ++ alt.Name ++ "-" ++ alt.Language

/-- The `#EXT-X-MEDIA` line `Encode` writes for an alternative -/
def writeAlternative (alt : Alternative) : String :=
  "#EXT-X-MEDIA:" ++
  (if alt.Type_ ≠ "" then "TYPE=" ++ alt.Type_ else "") ++
  (if alt.GroupID ≠ "" then ",GROUP-ID=\"" ++ alt.GroupID ++ "\"" else "") ++
  (if alt.Name ≠ "" then ",NAME=\"" ++ alt.Name ++ "\"" else "") ++
  ",DEFAULT=" ++ (if alt.Default then "YES" else "NO") ++
  (if alt.Autoselect ≠ "" then ",AUTOSELECT=" ++ alt.Autoselect else "") ++
  (if alt.Language ≠ "" then ",LANGUAGE=\"" ++ alt.Language ++ "\"" else "") ++
  (if alt.Forced ≠ "" then ",FORCED=\"" ++ alt.Forced ++ "\"" else "") ++
  (if alt.Characteristics ≠ "" then ",CHARACTERISTICS=\"" ++ alt.Characteristics ++ "\""
   else "") ++
  (if alt.Subtitles ≠ "" then ",SUBTITLES=\"" ++ alt.Subtitles ++ "\"" else "") ++
  (if alt.URI ≠ "" then ",URI=\"" ++ alt.URI ++ "\"" else "") ++
  "\n"

/-- The inner loop of `Encode` over the alternatives of a variant; `altsWritten` is the set
of keys already written. The result is the text written and the set left, `none` when an
entry is nil. -/
def writeAlternatives : List (Option Alternative) → List String → Option (String × List String)
  | [], altsWritten => some ("", altsWritten)
  | none :: _, _ => none -- alt.Type dereferences nil
  | some alt :: rest, altsWritten =>
    if altKey alt ∈ altsWritten then
      writeAlternatives rest altsWritten
    else
      (writeAlternatives rest (altKey alt :: altsWritten)).map
        (fun r => (writeAlternative alt ++ r.1, r.2))

/-- The stream descriptor (and, for a variant that is not I-frame, the URI line) `Encode`
writes for a variant -/
def writeVariant (p : MasterPlaylist) (pl : Variant) : String :=
  if pl.Iframe then
    "#EXT-X-I-FRAME-STREAM-INF:PROGRAM-ID=" ++ FormatUint64 pl.ProgramID ++
    ",BANDWIDTH=" ++ FormatUint64 pl.Bandwidth ++
    (if pl.Codecs ≠ "" then ",CODECS=\"" ++ pl.Codecs ++ "\"" else "") ++
    (if pl.Resolution ≠ "" then ",RESOLUTION=" ++ pl.Resolution else "") ++
    (if pl.Video ≠ "" then ",VIDEO=\"" ++ pl.Video ++ "\"" else "") ++
    (if pl.URI ≠ "" then ",URI=\"" ++ pl.URI ++ "\"" else "") ++
    "\n"
  else
    "#EXT-X-STREAM-INF:PROGRAM-ID=" ++ FormatUint64 pl.ProgramID ++
    ",BANDWIDTH=" ++ FormatUint64 pl.Bandwidth ++
    (if pl.Codecs ≠ "" then ",CODECS=\"" ++ pl.Codecs ++ "\"" else "") ++
    (if pl.Resolution ≠ "" then ",RESOLUTION=" ++ pl.Resolution else "") ++
    (if pl.Audio ≠ "" then ",AUDIO=\"" ++ pl.Audio ++ "\"" else "") ++
    (if pl.Video ≠ "" then ",VIDEO=\"" ++ pl.Video ++ "\"" else "") ++
    (if pl.Captions ≠ "" then
      ",CLOSED-CAPTIONS=" ++
      (if pl.Captions = "NONE" then pl.Captions else "\"" ++ pl.Captions ++ "\"")
     else "") ++
    (if pl.Subtitles ≠ "" then ",SUBTITLES=\"" ++ pl.Subtitles ++ "\"" else "") ++
    (if pl.Name ≠ "" then ",NAME=\"" ++ pl.Name ++ "\"" else "") ++
    "\n" ++
    pl.URI ++
    (if p.Args ≠ "" then (if pl.URI.contains '?' then "&" else "?") ++ p.Args else "") ++
    "\n"

/-- The outer loop of `Encode` over the variants; the result is the text written, `none` when
a variant or one of its alternatives is nil -/
def writeVariants (p : MasterPlaylist) : List (Option Variant) → List String → Option String
  | [], _ => some ""
  | none :: _, _ => none -- pl.Alternatives dereferences nil
  | some pl :: rest, altsWritten =>
    match writeAlternatives pl.Alternatives altsWritten with
    | none => none
    | some (alts, altsWritten') =>
      (writeVariants p rest altsWritten').map (fun r => alts ++ writeVariant p pl ++ r)

/-- The method `Encode`: the playlist with its cache filled, whose `buf` is the text returned;
`none` when the call panics -/
def Encode (p : MasterPlaylist) : Option MasterPlaylist :=
  if p.buf ≠ "" then
    some p
  else
    match writeVariants p p.Variants [] with
    | none => none
    | some variants =>
      some { p with buf := "#EXTM3U\n#EXT-X-VERSION:" ++ Itoa p.ver ++ "\n" ++ variants }

/-- The method `String` (written `String_`): the text, and the playlist with its cache
filled -/
def String_ (p : MasterPlaylist) : Option (String × MasterPlaylist) :=
  p.Encode.map (fun q => (q.buf, q))

end MasterPlaylist

/-! ## Sequences of calls -/

/-- Consecutive calls of `Append`, one for each pointer of the list in order; the run stops
at the first call that does not return a nil error -/
def appendAll (h : Heap) : MediaPlaylist → List (Option Ptr) → Result MediaPlaylist
  | p, [] => .ok p
  | p, seg :: rest =>
    match p.Append h seg with
    | .ok q => appendAll h q rest
    | .error e q => .error e q
    | .panic => .panic

/-- The state a call leaves when it returns, with or without an error; `none` for a panic -/
def Result.state? {σ : Type} : Result σ → Option σ
  | .ok s => some s
  | .error _ s => some s
  | .panic => none

/-- In the heap `h'` the segment at address `a` is `s`, and every other segment is as in `h` -/
def segWritten (h h' : Heap) (a : Ptr) (s : MediaSegment) : Prop :=
  h'.seg a = s ∧ ∀ b, b ≠ a → h'.seg b = h.seg b

/-- A heap for the examples: the segment at address 0 lasts 9 seconds, every other segment
9.1 seconds -/
def exampleHeap : Heap :=
  { seg := fun a =>
      if a = 0 then { URI := "test01.ts", Title := "title", Duration := 9 }
      else { URI := "test02.ts", Title := "title", Duration := 91 / 10 } }

/-- Formatters for the examples, which print every float and time as `?` -/
def exampleFormatters : Formatters :=
  { FormatFloat := fun _ _ _ _ => "?", Format := fun _ _ => "?" }

/-- A playlist for the examples: one live segment, at address 0, in three slots -/
def examplePlaylist : MediaPlaylist :=
  { ver := 3, capacity := 3, winsize := 2, Segments := [some 0, none, none], tail := 1,
    count := 1, TargetDuration := 9 }

/-- The value `t` is what `Append` leaves in `TargetDuration` after the durations `L`, from 0:
it is 0 when `L` is empty, and otherwise the ceiling of the largest element of `L` -/
def IsCeilMax (t : ℚ) (L : List ℚ) : Prop :=
  (L = [] ∧ t = 0) ∨ ∃ m ∈ L, (∀ d ∈ L, d ≤ m) ∧ t = ((⌈m⌉ : Int) : ℚ)

/-- A buffer of `c` slots that has only been appended to, `k` times: the live segments are
the first `k` slots -/
structure Filled (p : MediaPlaylist) (c : Int) (k : Nat) : Prop where
  cap : p.capacity = c
  len : (p.Segments.length : Int) = c
  head : p.head = 0
  count : p.count = k
  tail : p.tail = Int.tmod k c
  le : (k : Int) ≤ c

/-! ## Descriptions in the words of the specification -/

/-- What the specification says of `Slide`: nothing when the playlist is closed, `Append` when
`count < winsize`, and otherwise `Remove` followed by `Append`, with the error of `Remove`
returned without appending when `Remove` fails -/
def SlideSpec (h : Heap) (p : MediaPlaylist) (seg : Option Ptr) : Result MediaPlaylist :=
  if p.Closed = true then
    .ok p
  else if p.count < p.winsize then
    p.Append h seg
  else
    match p.Remove with
    | .error e q => .error e q
    | .panic => .panic
    | .ok q => q.Append h seg

/-- What the specification says of an `EXT-X-KEY` tag, without the newline that ends it: the
method, and, only when the method is not `NONE`, the quoted URI, then the unquoted IV, the
quoted key format and the quoted key format versions, each of the three only if non-empty -/
def renderKey (k : Key) : String :=
  "#EXT-X-KEY:METHOD=" ++ k.Method ++
  (if k.Method = "NONE" then ""
   else
    ",URI=\"" ++ k.URI ++ "\"" ++
    (if k.IV = "" then "" else ",IV=" ++ k.IV) ++
    (if k.Keyformat = "" then "" else ",KEYFORMAT=\"" ++ k.Keyformat ++ "\"") ++
    (if k.Keyformatversions = "" then ""
     else ",KEYFORMATVERSIONS=\"" ++ k.Keyformatversions ++ "\""))

/-- What the specification says of an `EXT-X-MAP` tag, without the newline that ends it: the
quoted URI, followed by the byte range exactly when `Limit > 0` -/
def renderMap (m : Map) : String :=
  "#EXT-X-MAP:URI=\"" ++ m.URI ++ "\"" ++
  (if m.Limit > 0 then ",BYTERANGE=" ++ Itoa m.Limit ++ "@" ++ Itoa m.Offset else "")

/-! ## Sequences of calls with `Encode` -/

/-- One call of a sequence on a media playlist: `Encode`, `Append seg`, `Remove` or
`Slide seg` -/
inductive MediaCall where
  | Encode
  | Append (seg : Option Ptr)
  | Remove
  | Slide (seg : Option Ptr)

/-- The playlist a call leaves, whether it returns an error or not; `none` when it panics -/
def MediaPlaylist.call (F : Formatters) (h : Heap) (p : MediaPlaylist) :
    MediaCall → Option MediaPlaylist
  | .Encode => p.Encode F h
  | .Append seg => (p.Append h seg).state?
  | .Remove => p.Remove.state?
  | .Slide seg => (p.Slide h seg).state?

/-- The playlist a sequence of calls leaves; `none` when one of them panics -/
def MediaPlaylist.calls (F : Formatters) (h : Heap) :
    MediaPlaylist → List MediaCall → Option MediaPlaylist
  | p, [] => some p
  | p, c :: rest =>
    match p.call F h c with
    | none => none
    | some q => MediaPlaylist.calls F h q rest

/-- The bytes a call of `Encode` returns; `none` when it panics -/
def MediaPlaylist.encoded (F : Formatters) (h : Heap) (p : MediaPlaylist) : Option String :=
  (p.Encode F h).map (fun q => q.buf)

/-- The cache of the playlist is empty, or holds the bytes that encoding the playlist from an
empty cache produces -/
def MediaPlaylist.Coherent (F : Formatters) (h : Heap) (p : MediaPlaylist) : Prop :=
  p.buf = "" ∨ p.ResetCache.encoded F h = some p.buf

/-- One call of a sequence on a master playlist: `Encode` or `Append uri chunklist params` -/
inductive MasterCall where
  | Encode
  | Append (uri : String) (chunklist : Option Ptr) (params : VariantParams)

/-- The master playlist a call leaves; `none` when it panics -/
def MasterPlaylist.call (p : MasterPlaylist) : MasterCall → Option MasterPlaylist
  | .Encode => p.Encode
  | .Append uri chunklist params => some (p.Append uri chunklist params)

/-- The master playlist a sequence of calls leaves; `none` when one of them panics -/
def MasterPlaylist.calls : MasterPlaylist → List MasterCall → Option MasterPlaylist
  | p, [] => some p
  | p, c :: rest =>
    match p.call c with
    | none => none
    | some q => MasterPlaylist.calls q rest

/-- The bytes a call of `Encode` on a master playlist returns; `none` when it panics -/
def MasterPlaylist.encoded (p : MasterPlaylist) : Option String :=
  p.Encode.map (fun q => q.buf)

/-- The cache of the master playlist is empty, or holds the bytes that encoding it from an
empty cache produces -/
def MasterPlaylist.Coherent (p : MasterPlaylist) : Prop :=
  p.buf = "" ∨ p.ResetCache.encoded = some p.buf

/-! ## Mixes of `Append` and `AppendWithAutoExtend` -/

/-- One call of a mix of appends, of the segment at address `c.2`: `AppendWithAutoExtend`
when `c.1` is true, `Append` when it is false -/
def MediaPlaylist.appendCall (h : Heap) (p : MediaPlaylist) (c : Bool × Ptr) :
    Result MediaPlaylist :=
  if c.1 = true then p.AppendWithAutoExtend h (some c.2) else p.Append h (some c.2)

/-- Consecutive calls of a mix of appends; the run stops at the first call that does not
return a nil error -/
def appendMix (h : Heap) : MediaPlaylist → List (Bool × Ptr) → Result MediaPlaylist
  | p, [] => .ok p
  | p, c :: rest =>
    match p.appendCall h c with
    | .ok q => appendMix h q rest
    | .error e q => .error e q
    | .panic => .panic

/-- A buffer of `c ≥ 1` slots that has only been appended to, whose first slots hold the
segments `segs` in order -/
structure FilledWith (p : MediaPlaylist) (c : Int) (segs : List Ptr) : Prop where
  filled : Filled p c segs.length
  pos : 1 ≤ c
  slots : ∀ i (hi : i < segs.length), p.Segments[i]? = some (some segs[i])

/-! ## The lines of the master playlist -/

/-- The `#EXT-X-STREAM-INF` tag `Encode` writes for a variant that is not I-frame, without the
newline that ends it -/
def MasterPlaylist.streamInf (pl : Variant) : String :=
  "#EXT-X-STREAM-INF:PROGRAM-ID=" ++ FormatUint64 pl.ProgramID ++
  ",BANDWIDTH=" ++ FormatUint64 pl.Bandwidth ++
  (if pl.Codecs ≠ "" then ",CODECS=\"" ++ pl.Codecs ++ "\"" else "") ++
  (if pl.Resolution ≠ "" then ",RESOLUTION=" ++ pl.Resolution else "") ++
  (if pl.Audio ≠ "" then ",AUDIO=\"" ++ pl.Audio ++ "\"" else "") ++
  (if pl.Video ≠ "" then ",VIDEO=\"" ++ pl.Video ++ "\"" else "") ++
  (if pl.Captions ≠ "" then
    ",CLOSED-CAPTIONS=" ++
    (if pl.Captions = "NONE" then pl.Captions else "\"" ++ pl.Captions ++ "\"")
   else "") ++
  (if pl.Subtitles ≠ "" then ",SUBTITLES=\"" ++ pl.Subtitles ++ "\"" else "") ++
  (if pl.Name ≠ "" then ",NAME=\"" ++ pl.Name ++ "\"" else "")

/-- The `#EXT-X-I-FRAME-STREAM-INF` tag `Encode` writes for an I-frame variant, without the
newline that ends it -/
def MasterPlaylist.iframeStreamInf (pl : Variant) : String :=
  "#EXT-X-I-FRAME-STREAM-INF:PROGRAM-ID=" ++ FormatUint64 pl.ProgramID ++
  ",BANDWIDTH=" ++ FormatUint64 pl.Bandwidth ++
  (if pl.Codecs ≠ "" then ",CODECS=\"" ++ pl.Codecs ++ "\"" else "") ++
  (if pl.Resolution ≠ "" then ",RESOLUTION=" ++ pl.Resolution else "") ++
  (if pl.Video ≠ "" then ",VIDEO=\"" ++ pl.Video ++ "\"" else "") ++
  (if pl.URI ≠ "" then ",URI=\"" ++ pl.URI ++ "\"" else "")

/-- Consecutive calls of `Append` on a master playlist, one for each triple of the list in
order -/
def MasterPlaylist.appendAll (p : MasterPlaylist) :
    List (String × Option Ptr × VariantParams) → MasterPlaylist
  | [] => p
  | c :: rest => MasterPlaylist.appendAll (p.Append c.1 c.2.1 c.2.2) rest

/-- The variant a call `Append uri chunklist params` stores -/
def variantOf (c : String × Option Ptr × VariantParams) : Variant :=
  { toVariantParams := c.2.2, URI := c.1, Chunklist := c.2.1 }

/-! ## Master playlist lines in the words of the specification -/

/-- An attribute with a quoted value, written only if the value is non-empty -/
def quotedAttr (name value : String) : String :=
  if value = "" then "" else "," ++ name ++ "=\"" ++ value ++ "\""

/-- An attribute with an unquoted value, written only if the value is non-empty -/
def plainAttr (name value : String) : String :=
  if value = "" then "" else "," ++ name ++ "=" ++ value

/-- What the specification says of an `EXT-X-MEDIA` line, without the newline that ends it:
the unquoted type, the group, the name, `DEFAULT=YES` or `DEFAULT=NO`, the unquoted
autoselect value, the language, the forced and characteristics values, the subtitles and the
URI, each but `DEFAULT` only if non-empty -/
def renderMedia (alt : Alternative) : String :=
  "#EXT-X-MEDIA:" ++ (if alt.Type_ = "" then "" else "TYPE=" ++ alt.Type_) ++
  quotedAttr "GROUP-ID" alt.GroupID ++ quotedAttr "NAME" alt.Name ++
  (if alt.Default = true then ",DEFAULT=YES" else ",DEFAULT=NO") ++
  plainAttr "AUTOSELECT" alt.Autoselect ++ quotedAttr "LANGUAGE" alt.Language ++
  quotedAttr "FORCED" alt.Forced ++ quotedAttr "CHARACTERISTICS" alt.Characteristics ++
  quotedAttr "SUBTITLES" alt.Subtitles ++ quotedAttr "URI" alt.URI

/-- What the specification says of the stream descriptor of a variant that is not I-frame,
without the newline that ends it: the program id and the bandwidth in decimal, then the
codecs, the unquoted resolution, the audio and video groups, the closed captions (unquoted
exactly when the value is the literal `NONE`), the subtitles and the name, each only if
non-empty -/
def renderStreamInf (pl : Variant) : String :=
  "#EXT-X-STREAM-INF:PROGRAM-ID=" ++ Itoa pl.ProgramID ++ ",BANDWIDTH=" ++ Itoa pl.Bandwidth ++
  quotedAttr "CODECS" pl.Codecs ++ plainAttr "RESOLUTION" pl.Resolution ++
  quotedAttr "AUDIO" pl.Audio ++ quotedAttr "VIDEO" pl.Video ++
  (if pl.Captions = "NONE" then ",CLOSED-CAPTIONS=NONE"
   else quotedAttr "CLOSED-CAPTIONS" pl.Captions) ++
  quotedAttr "SUBTITLES" pl.Subtitles ++ quotedAttr "NAME" pl.Name

/-- What the specification says of the line after the stream descriptor: the URI alone when
the arguments are empty, and otherwise the URI, `&` if the URI contains `?` and `?` if it
does not, and the arguments -/
def renderVariantURI (args uri : String) : String :=
  if args = "" then uri
  else if uri.contains '?' then uri ++ "&" ++ args
  else uri ++ "?" ++ args

/-- The strings of a list written one after the other -/
def concatAll : List String → String
  | [] => ""
  | s :: rest => s ++ concatAll rest

/-- The key of an alternative in the words of the specification: its type, group, name and
language -/
def Alternative.key (a : Alternative) : String × String × String × String :=
  (a.Type_, a.GroupID, a.Name, a.Language)

/-- The alternatives of a list whose key is neither in `seen` nor the key of an earlier
alternative of the list, in the order of the list -/
def newAlternatives :
    List Alternative → List (String × String × String × String) → List Alternative
  | [], _ => []
  | a :: rest, seen =>
    if a.key ∈ seen then newAlternatives rest seen
    else a :: newAlternatives rest (a.key :: seen)

/-- What the specification says of the body of a master playlist: for each variant in
insertion order, the `EXT-X-MEDIA` lines of those of its alternatives whose key no earlier
alternative carries, then the lines of the variant -/
def renderVariants (p : MasterPlaylist) :
    List Variant → List (String × String × String × String) → String
  | [], _ => ""
  | v :: rest, seen =>
    concatAll ((newAlternatives v.Alternatives.reduceOption seen).map
        (fun a => renderMedia a ++ "\n")) ++
      MasterPlaylist.writeVariant p v ++
      renderVariants p rest (v.Alternatives.reduceOption.map Alternative.key ++ seen)

/-! ## The standard library function `strconv.FormatFloat`

`writer.go` formats floats with `strconv.FormatFloat(x, 'f', prec, bitSize)`, which is not
part of the package. The model below follows the documentation of `strconv` for the format
`'f'`: the value is first rounded to a float of `bitSize` bits; with `prec ≥ 0` it is written
with exactly `prec` digits after the decimal point, rounded to nearest with ties to even;
with `prec = -1` it is written with the fewest digits that identify the float uniquely, the
nearest such decimal if there are several. -/

/-- Rounding to the nearest integer, a tie going to the even one -/
def roundHalfEven (x : ℚ) : Int :=
  if 2 * (x - ⌊x⌋) < 1 then ⌊x⌋
  else if 1 < 2 * (x - ⌊x⌋) then ⌊x⌋ + 1
  else if ⌊x⌋ % 2 = 0 then ⌊x⌋
  else ⌊x⌋ + 1

/-- For `a > 0` and a base `b ≥ 2`, the exponent `k` with `b ^ k ≤ a < b ^ (k + 1)`. The
numbers of digits of the numerator and the denominator give it up to one. -/
def ilog (b : Nat) (a : ℚ) : Int :=
  if (b : ℚ) ^ (((Nat.toDigits b a.num.natAbs).length : Int) - (Nat.toDigits b a.den).length) ≤ a
  then ((Nat.toDigits b a.num.natAbs).length : Int) - (Nat.toDigits b a.den).length
  else ((Nat.toDigits b a.num.natAbs).length : Int) - (Nat.toDigits b a.den).length - 1

/-- The binary floating-point number nearest to `x`, a tie going to the even mantissa, in the
format with `mantbits` stored mantissa bits and least normal exponent `emin`. The exponent is
not bounded above: a result of magnitude `2 ^ (emax + 1)` or more stands for an infinity. -/
def roundFloat (mantbits : Nat) (emin : Int) (x : ℚ) : ℚ :=
  if x = 0 then 0
  else
    (if x < 0 then -1 else 1) *
      ((roundHalfEven (|x| / 2 ^ (max (ilog 2 |x|) emin - mantbits)) : ℚ) *
        2 ^ (max (ilog 2 |x|) emin - mantbits))

/-- The conversion `float32(x)` -/
def float32 (x : ℚ) : ℚ := roundFloat 23 (-126) x

/-- The nearest `float64`; a `float64` is its own nearest `float64` -/
def float64 (x : ℚ) : ℚ := roundFloat 52 (-1022) x

/-- The decimal notation of `n / 10 ^ prec` with exactly `prec` digits after the point, and
no point when `prec` is 0 -/
def fixedString (n prec : Nat) : String :=
  Nat.repr (n / 10 ^ prec) ++
    (if prec = 0 then ""
     else "." ++ String.mk (List.replicate (prec - (Nat.repr (n % 10 ^ prec)).length) '0') ++
       Nat.repr (n % 10 ^ prec))

/-- The search for the shortest decimal that rounds (by `rnd`) to the float `a > 0`: with the
last digit at the position `10 ^ e`, the candidates are `a` rounded down and up to that
position; the first position, from the left, at which a candidate rounds to `a` gives the
result, the nearer candidate if both do. -/
def shortestAux (rnd : ℚ → ℚ) (a : ℚ) : Nat → Int → ℚ
  | 0, _ => a
  | fuel + 1, e =>
    if rnd (⌊a / 10 ^ e⌋ * 10 ^ e) = a then
      if rnd (⌊a / 10 ^ e⌋ * 10 ^ e + 10 ^ e) = a then (roundHalfEven (a / 10 ^ e) : ℚ) * 10 ^ e
      else ⌊a / 10 ^ e⌋ * 10 ^ e
    else if rnd (⌊a / 10 ^ e⌋ * 10 ^ e + 10 ^ e) = a then ⌊a / 10 ^ e⌋ * 10 ^ e + 10 ^ e
    else shortestAux rnd a fuel (e - 1)

/-- The shortest decimal that rounds to the float `a > 0`. The search starts at the position
of the first digit of `a` and has enough steps to reach the last digit of `a`. -/
def shortest (rnd : ℚ → ℚ) (a : ℚ) : ℚ :=
  shortestAux rnd a ((ilog 10 a + (Nat.toDigits 2 a.den).length).toNat + 1) (ilog 10 a)

/-- The number of digits after the point that the decimal `v` needs -/
def fracDigits (v : ℚ) : Nat :=
  ((List.range (Nat.toDigits 2 v.den).length).find? (fun k => (v * 10 ^ k).den = 1)).getD 0

/-- The decimal notation of a decimal `v ≥ 0`, with the digits after the point that it needs -/
def decimalString (v : ℚ) : String :=
  fixedString ⌊v * 10 ^ fracDigits v⌋.toNat (fracDigits v)

/-- The function `strconv.FormatFloat(f, fmt, prec, bitSize)` for the format `'f'`, the only
one `writer.go` uses (`fmt` is not inspected), with `bitSize` 32 or 64 (any other value is
taken as 64) -/
def FormatFloat (f : ℚ) (_fmt : Char) (prec : Int) (bitSize : Int) : String :=
  if (if bitSize = 32 then (2 : ℚ) ^ 128 else 2 ^ 1024) ≤
      |if bitSize = 32 then float32 f else float64 f| then
    (if f < 0 then "-Inf" else "+Inf")
  else
    (if f < 0 then "-" else "") ++
      (if prec < 0 then
        decimalString (shortest (if bitSize = 32 then float32 else float64)
          |if bitSize = 32 then float32 f else float64 f|)
       else
        fixedString
          (roundHalfEven (|if bitSize = 32 then float32 f else float64 f| * 10 ^ prec.toNat)).toNat
          prec.toNat)

/-- The formatters of the Go standard library: `strconv.FormatFloat` as modelled above, while
`Time.Format` stays a parameter -/
def stdFormatters (Format : Time → String → String) : Formatters :=
  { FormatFloat := FormatFloat, Format := Format }

/-! ## The loop of `Encode` over the segments -/

/-- The text `Encode` computes for the duration `d` when the duration cache does not hold
it -/
def MediaPlaylist.durationText (F : Formatters) (p : MediaPlaylist) (d : ℚ) : String :=
  if p.durationAsInt then Itoa (int64 ⌈d⌉) else F.FormatFloat d 'f' 3 32

/-- Every entry of the duration cache holds the text that `Encode` computes for its duration,
as in every cache that `Encode` builds from the empty one -/
def CacheOk (F : Formatters) (p : MediaPlaylist) (durationCache : List (ℚ × String)) : Prop :=
  ∀ d s, durationCache.lookup d = some s → s = p.durationText F d

/-- The value of the variable `head` of `Encode` after `j` passes of the loop, from the value
`head`, for the capacity `capacity` -/
def slotFrom (capacity : Int) : Int → Nat → Int
  | head, 0 => head
  | head, j + 1 => slotFrom capacity (Int.tmod (head + 1) capacity) j

/-- The index of the slot that pass number `j` of the loop of `Encode` reads -/
def MediaPlaylist.slotAt (p : MediaPlaylist) (j : Nat) : Int :=
  slotFrom p.capacity p.head j

/-! ## Segment lines in the words of the specification -/

/-- What the specification says of the SCTE-35 lines of a cue. The legacy syntax writes one
line, with the quoted cue, the quoted id if non-empty and the time if not zero. The OATCLS
syntax writes two lines for a start cue, one line with the elapsed time, the duration and the
cue for a mid cue, and the line `#EXT-X-CUE-IN` for an end cue. -/
def renderSCTE (F : Formatters) (c : SCTE) : String :=
  if c.Syntax = Syntax672014 then
    "#EXT-SCTE35:CUE=\"" ++ c.Cue ++ "\"" ++ quotedAttr "ID" c.ID ++
      (if c.Time = 0 then "" else ",TIME=" ++ F.FormatFloat c.Time 'f' (-1) 64) ++ "\n"
  else if c.Syntax = SyntaxOATCLS then
    if c.CueType = SCTE35CueStart then
      "#EXT-OATCLS-SCTE35:" ++ c.Cue ++ "\n" ++
        "#EXT-X-CUE-OUT:" ++ F.FormatFloat c.Time 'f' (-1) 64 ++ "\n"
    else if c.CueType = SCTE35CueMid then
      "#EXT-X-CUE-OUT-CONT:ElapsedTime=" ++ F.FormatFloat c.Elapsed 'f' (-1) 64 ++
        ",Duration=" ++ F.FormatFloat c.Time 'f' (-1) 64 ++ ",SCTE35=" ++ c.Cue ++ "\n"
    else if c.CueType = SCTE35CueEnd then "#EXT-X-CUE-IN\n"
    else ""
  else ""

/-- What the specification says of the lines of a segment, in order: the SCTE lines if a cue
is set, the key tag if the segment has a key that is not the default key, the discontinuity
marker, the map tag if the playlist has no default map and the segment has a map, the
program date-time if not zero, the byte range if `Limit > 0`, the `#EXTINF` line with the
duration and the title, and the URI line, with `?` and the arguments of the playlist when
these are non-empty. Each segment's duration is formatted on its own. -/
def renderSegment (F : Formatters) (h : Heap) (p : MediaPlaylist) (seg : MediaSegment) :
    String :=
  (match seg.SCTE with
    | none => ""
    | some c => renderSCTE F (h.scte c)) ++
  (match seg.Key with
    | none => ""
    | some k => if p.Key = some k then "" else renderKey (h.key k) ++ "\n") ++
  (if seg.Discontinuity = true then "#EXT-X-DISCONTINUITY\n" else "") ++
  (match p.Map, seg.Map with
    | none, some m => renderMap (h.map m) ++ "\n"
    | _, _ => "") ++
  (if seg.ProgramDateTime.IsZero = true then ""
   else "#EXT-X-PROGRAM-DATE-TIME:" ++ F.Format seg.ProgramDateTime DateTime ++ "\n") ++
  (if seg.Limit > 0 then "#EXT-X-BYTERANGE:" ++ Itoa seg.Limit ++ "@" ++ Itoa seg.Offset ++ "\n"
   else "") ++
  ("#EXTINF:" ++ p.durationText F seg.Duration ++ "," ++ seg.Title ++ "\n") ++
  ((if p.Args = "" then seg.URI else seg.URI ++ "?" ++ p.Args) ++ "\n")

/-- The loop of `Encode` as the specification describes it, without the duration cache: the
slots are read from `head` onwards modulo the capacity, an empty slot is skipped, and each
segment is written by `renderSegment` -/
def renderSegments (F : Formatters) (h : Heap) (p : MediaPlaylist) :
    Nat → Int → Int → Option String
  | 0, _, _ => some ""
  | count + 1, i, head =>
    if i < p.winsize ∨ p.winsize = 0 then
      match index p.Segments head with
      | none => none
      | some slot =>
        if p.capacity = 0 then none
        else
          match slot with
          | none => renderSegments F h p count i (Int.tmod (head + 1) p.capacity)
          | some a =>
            (renderSegments F h p count (if p.winsize > 0 then i + 1 else i)
                (Int.tmod (head + 1) p.capacity)).map
              (fun rest => renderSegment F h p (h.seg a) ++ rest)
    else
      some ""

/-- The segments that the specification says `Encode` emits, given the contents `slots` of
the `count` slots from `head` onwards: those that are not empty, all of them when `winsize`
is 0, and the first `winsize` of them otherwise -/
def emitted (winsize : Int) (slots : List (Option Ptr)) : List Ptr :=
  if winsize = 0 then slots.reduceOption else slots.reduceOption.take winsize.toNat

/-- The duration `d ≥ 0` rounded to exactly three digits after the decimal point (a tie going
to the even digit), in decimal notation -/
def round3 (d : ℚ) : String :=
  fixedString (roundHalfEven (d * 1000)).toNat 3

/-- The heap of `ExampleMediaPlaylist`: the segment `test01.ts` of 5 seconds at address 0 and
the segment `test02.ts` of 6 seconds at the other addresses -/
def exampleMediaHeap : Heap :=
  { seg := fun a =>
      if a = 0 then { URI := "test01.ts", Duration := 5 }
      else { URI := "test02.ts", Duration := 6 } }

/-- The playlist of `ExampleMediaPlaylist`, as `NewMediaPlaylist(0, 2)` and the two calls of
`Append` leave it -/
def exampleMedia : MediaPlaylist :=
  { ver := 3, capacity := 2, Segments := [some 0, some 1], count := 2, TargetDuration := 6 }

/-- What the specification says of the first lines of a media playlist, in order: `#EXTM3U`,
the version, the default key tag and the default map tag if set, the playlist type (for
`EVENT` followed by `#EXT-X-ALLOW-CACHE:NO`), the media sequence number, the target duration
as the ceiling integer, and `#EXT-X-I-FRAMES-ONLY` if `Iframe` is set -/
def renderHeader (h : Heap) (p : MediaPlaylist) : String :=
  "#EXTM3U\n" ++ ("#EXT-X-VERSION:" ++ Itoa p.ver ++ "\n") ++
  (match p.Key with
    | none => ""
    | some k => renderKey (h.key k) ++ "\n") ++
  (match p.Map with
    | none => ""
    | some m => renderMap (h.map m) ++ "\n") ++
  (if p.MediaType = MediaTypeEvent then "#EXT-X-PLAYLIST-TYPE:EVENT\n#EXT-X-ALLOW-CACHE:NO\n"
   else if p.MediaType = MediaTypeVOD then "#EXT-X-PLAYLIST-TYPE:VOD\n"
   else "") ++
  ("#EXT-X-MEDIA-SEQUENCE:" ++ Itoa p.SeqNo ++ "\n") ++
  ("#EXT-X-TARGETDURATION:" ++ Itoa ⌈p.TargetDuration⌉ ++ "\n") ++
  (if p.Iframe = true then "#EXT-X-I-FRAMES-ONLY\n" else "")

/-! ## The Widevine block in the words of the specification -/

/-- A numeric field of the Widevine block as the specification has it: nothing for the default
value 0, and otherwise a line of its own with the tag name, one space, and the value -/
def wvNumber (tag : String) (v : Int) : String :=
  if v = 0 then "" else tag ++ " " ++ Itoa v ++ "\n"

/-- A string field of the Widevine block as the specification has it: nothing for the empty
string, and otherwise a line of its own with the tag name, one space, and the value -/
def wvText (tag : String) (v : String) : String :=
  if v = "" then "" else tag ++ " " ++ v ++ "\n"

/-- What the specification says of the Widevine block: the lines of the fields in the fixed
order audio channels, audio format, audio profile IDC, audio sample size, audio sampling
frequency, cypher version, ECM, video format, video frame rate, video level IDC, video profile
IDC, video resolution, video SAR -/
def renderWidevine (w : Widevine) : String :=
  wvNumber "#WV-AUDIO-CHANNELS" w.AudioChannels ++
  wvNumber "#WV-AUDIO-FORMAT" w.AudioFormat ++
  wvNumber "#WV-AUDIO-PROFILE-IDC" w.AudioProfileIDC ++
  wvNumber "#WV-AUDIO-SAMPLE-SIZE" w.AudioSampleSize ++
  wvNumber "#WV-AUDIO-SAMPLING-FREQUENCY" w.AudioSamplingFrequency ++
  wvText "#WV-CYPHER-VERSION" w.CypherVersion ++
  wvText "#WV-ECM" w.ECM ++
  wvNumber "#WV-VIDEO-FORMAT" w.VideoFormat ++
  wvNumber "#WV-VIDEO-FRAME-RATE" w.VideoFrameRate ++
  wvNumber "#WV-VIDEO-LEVEL-IDC" w.VideoLevelIDC ++
  wvNumber "#WV-VIDEO-PROFILE-IDC" w.VideoProfileIDC ++
  wvText "#WV-VIDEO-RESOLUTION" w.VideoResolution ++
  wvText "#WV-VIDEO-SAR" w.VideoSAR

/-- The Widevine fields that are Go `int`s are in the range in which the conversion to
`uint64` keeps the value -/
def Widevine.InRange (w : Widevine) : Prop :=
  (0 ≤ w.AudioChannels ∧ w.AudioChannels < 2 ^ 63) ∧
  (0 ≤ w.AudioFormat ∧ w.AudioFormat < 2 ^ 63) ∧
  (0 ≤ w.AudioProfileIDC ∧ w.AudioProfileIDC < 2 ^ 63) ∧
  (0 ≤ w.AudioSampleSize ∧ w.AudioSampleSize < 2 ^ 63) ∧
  (0 ≤ w.AudioSamplingFrequency ∧ w.AudioSamplingFrequency < 2 ^ 63) ∧
  (0 ≤ w.VideoFormat ∧ w.VideoFormat < 2 ^ 63) ∧
  (0 ≤ w.VideoFrameRate ∧ w.VideoFrameRate < 2 ^ 63) ∧
  (0 ≤ w.VideoLevelIDC ∧ w.VideoLevelIDC < 2 ^ 63) ∧
  (0 ≤ w.VideoProfileIDC ∧ w.VideoProfileIDC < 2 ^ 63)

/-- An alternative for the examples: English audio with the language tag `en-US` -/
def exampleAudio : Alternative :=
  { Type_ := "AUDIO", GroupID := "aac", Name := "English", Language := "en-US",
    URI := "a1.m3u8" }

/-- An alternative for the examples that differs from `exampleAudio` in name and language -/
def exampleAudioUS : Alternative :=
  { Type_ := "AUDIO", GroupID := "aac", Name := "English-en", Language := "US",
    URI := "a2.m3u8" }

/-! ## Sequences of calls on the ring buffer -/

/-- One call of a sequence on the ring buffer of a media playlist: `Append seg`,
`AppendWithAutoExtend seg`, `Remove`, `Slide seg` or `ExtendCapacity` -/
inductive RingCall where
  | Append (seg : Option Ptr)
  | AppendWithAutoExtend (seg : Option Ptr)
  | Remove
  | Slide (seg : Option Ptr)
  | ExtendCapacity
  deriving DecidableEq, Repr

/-- The outcome of one call -/
def MediaPlaylist.ringCall (h : Heap) (p : MediaPlaylist) : RingCall → Result MediaPlaylist
  | .Append seg => p.Append h seg
  | .AppendWithAutoExtend seg => p.AppendWithAutoExtend h seg
  | .Remove => p.Remove
  | .Slide seg => p.Slide h seg
  | .ExtendCapacity => p.ExtendCapacity

/-- The playlist a sequence of calls leaves, each call made on the state the call before it
left, whether that one returned an error or not; `none` when one of them panics -/
def ringCalls (h : Heap) : MediaPlaylist → List RingCall → Option MediaPlaylist
  | p, [] => some p
  | p, c :: rest =>
    match (p.ringCall h c).state? with
    | none => none
    | some q => ringCalls h q rest

/-- The segment a call appends: the segment of an `Append`, of an `AppendWithAutoExtend`, or
of a `Slide` on a playlist that is not closed, when the call returns a nil error -/
def MediaPlaylist.storedBy (h : Heap) (p : MediaPlaylist) : RingCall → List Ptr
  | .Append (some a) =>
    match p.Append h (some a) with
    | .ok _ => [a]
    | _ => []
  | .AppendWithAutoExtend (some a) =>
    match p.AppendWithAutoExtend h (some a) with
    | .ok _ => [a]
    | _ => []
  | .Slide (some a) =>
    if p.Closed then []
    else
      match p.Slide h (some a) with
      | .ok _ => [a]
      | _ => []
  | _ => []

/-- The segments the calls of a sequence appended, in the order of the calls -/
def appendedBy (h : Heap) : MediaPlaylist → List RingCall → List Ptr
  | _, [] => []
  | p, c :: rest =>
    p.storedBy h c ++
      (match (p.ringCall h c).state? with
        | none => []
        | some q => appendedBy h q rest)

/-- The call is an `Append`, a `Remove` or a `Slide` -/
def RingCall.basic : RingCall → Bool
  | .Append _ => true
  | .Remove => true
  | .Slide _ => true
  | _ => false

/-- The call carries no nil segment -/
def RingCall.nonNil : RingCall → Bool
  | .Append none => false
  | .AppendWithAutoExtend none => false
  | .Slide none => false
  | _ => true

/-- Consecutive calls of `Slide`, one for each pointer of the list in order; the run stops at
the first call that does not return a nil error -/
def slideAll (h : Heap) : MediaPlaylist → List (Option Ptr) → Result MediaPlaylist
  | p, [] => .ok p
  | p, seg :: rest =>
    match p.Slide h seg with
    | .ok q => slideAll h q rest
    | .error e q => .error e q
    | .panic => .panic

/-- A ring buffer of at least one slot whose live window, read from `head` onwards modulo the
capacity, holds the segments `segs` in order, `tail` being the slot after the window -/
structure Ring (p : MediaPlaylist) (segs : List Ptr) : Prop where
  pos : 1 ≤ p.capacity
  len : (p.Segments.length : Int) = p.capacity
  head0 : 0 ≤ p.head
  head1 : p.head < p.capacity
  count : p.count = segs.length
  le : (segs.length : Int) ≤ p.capacity
  tail : p.tail = (p.head + segs.length) % p.capacity
  slots : ∀ j : Nat, j < segs.length →
    index p.Segments ((p.head + j) % p.capacity) = (segs[j]?).map some

/-- The playlist that `NewMediaPlaylist(2, 3)` returns -/
def exampleRing : MediaPlaylist :=
  { ver := 3, winsize := 2, capacity := 3, Segments := [none, none, none] }

/-- A sequence of calls for the examples; the last `Append` finds the buffer full -/
def exampleRingCalls : List RingCall :=
  [.Append (some 0), .Append (some 1), .Remove, .Slide (some 2), .Slide (some 3),
    .Append (some 4), .Append (some 5)]

/-- The playlist that `NewMediaPlaylist(0, 2)` returns -/
def exampleVod2 : MediaPlaylist :=
  { ver := 3, capacity := 2, Segments := [none, none] }

/-- The playlist that `NewMediaPlaylist(0, 3)` returns -/
def exampleVod3 : MediaPlaylist :=
  { ver := 3, capacity := 3, Segments := [none, none, none] }

/-- Calls for the examples: two appends fill the buffer, a `Remove` moves `head`, and
`ExtendCapacity` follows -/
def extendAfterRemove : List RingCall :=
  [.Append (some 0), .Append (some 1), .Remove, .ExtendCapacity]

/-- Calls for the examples: three appends fill the buffer, a `Remove` moves `head`,
`ExtendCapacity` follows, and four more appends -/
def appendsAfterExtend : List RingCall :=
  [.Append (some 0), .Append (some 1), .Append (some 2), .Remove, .ExtendCapacity,
    .Append (some 3), .Append (some 4), .Append (some 5), .Append (some 6)]

/-- A heap for the examples in which the segment at address `a` has the URI `s<a>.ts` and
lasts 5 seconds -/
def numberedHeap : Heap :=
  { seg := fun a => { URI := "s" ++ Nat.repr a ++ ".ts", Duration := 5 } }

/-- A heap for the examples in which every segment has the URI `a.ts` and lasts `10 ^ 19`
seconds, a `float64` value above the largest `int64` -/
def longSegmentHeap : Heap :=
  { seg := fun _ => { URI := "a.ts", Duration := 10 ^ 19 } }

/-- The example playlist with its encoding in the cache, as `Encode` leaves it -/
def cachedExample : MediaPlaylist :=
  { examplePlaylist with
    buf := "#EXTM3U\n#EXT-X-VERSION:3\n#EXT-X-MEDIA-SEQUENCE:0\n" ++
      "#EXT-X-TARGETDURATION:9\n#EXTINF:?,title\ntest01.ts\n" }

/-- The example heap after `SetDiscontinuity` on the example playlist: the segment at
address 0 carries the discontinuity flag -/
def discontinuityHeap : Heap :=
  { exampleHeap with
    seg := Function.update exampleHeap.seg 0 { exampleHeap.seg 0 with Discontinuity := true } }

/-! ## Lemmas on the machine integers -/

theorem wrapInt_of_range {n : Int} (h0 : -2 ^ 63 ≤ n) (h1 : n < 2 ^ 63) : wrapInt n = n := by
  unfold wrapInt
  norm_num at h0 h1 ⊢
  omega

theorem wrapInt_range (n : Int) : -2 ^ 63 ≤ wrapInt n ∧ wrapInt n < 2 ^ 63 := by
  unfold wrapInt
  norm_num
  omega

theorem wrapInt_add (a b : Int) : wrapInt (wrapInt a + b) = wrapInt (a + b) := by
  unfold wrapInt
  norm_num
  omega

theorem wrapInt_idem (a : Int) : wrapInt (wrapInt a) = wrapInt a := by
  have h := wrapInt_add a 0
  simpa using h

theorem int64_of_range {n : Int} (h0 : -2 ^ 63 ≤ n) (h1 : n < 2 ^ 63) : int64 n = n := by
  simp only [int64, if_pos (And.intro h0 h1)]

theorem int64_of_large {n : Int} (h1 : 2 ^ 63 ≤ n) : int64 n = -2 ^ 63 := by
  have : ¬ (-2 ^ 63 ≤ n ∧ n < 2 ^ 63) := fun h => absurd h.2 (not_lt.mpr h1)
  simp only [int64, if_neg this]

theorem int64_range (n : Int) : -2 ^ 63 ≤ int64 n ∧ int64 n < 2 ^ 63 := by
  unfold int64
  split
  · assumption
  · norm_num

/-! ## Lemmas on the ring buffer -/

theorem index_eq_getElem? {α : Type} (s : List α) (i : Nat) : index s (i : Int) = s[i]? := by
  simp [index]

theorem Append_ok {h : Heap} {p : MediaPlaylist} {a : Ptr}
    (hfull : ¬ (p.head = p.tail ∧ p.count > 0))
    (htail : 0 ≤ p.tail ∧ p.tail < p.Segments.length) (hcap : p.capacity ≠ 0) :
    p.Append h (some a) = .ok { p with
        Segments := p.Segments.set p.tail.toNat (some a)
        tail := Int.tmod (p.tail + 1) p.capacity
        count := p.count + 1
        TargetDuration :=
          if p.TargetDuration < (h.seg a).Duration then ((⌈(h.seg a).Duration⌉ : Int) : ℚ)
          else p.TargetDuration
        buf := "" } := by
  simp only [MediaPlaylist.Append, if_neg hfull, htail, and_self, not_true_eq_false, if_false,
    if_neg hcap]

theorem NewMediaPlaylist_ok {winsize c : Int} (hc : 0 ≤ c) (hw : winsize ≤ c) :
    NewMediaPlaylist winsize c = .ok (some
      { ver := minVer, capacity := c, winsize := winsize,
        Segments := List.replicate c.toNat none }) := by
  have h1 : ¬ winsize > c := by omega
  have h2 : ¬ c < 0 := by omega
  simp [NewMediaPlaylist, MediaPlaylist.SetWinSize, h1, h2]

theorem Filled_new (winsize : Int) {c : Int} (hc : 0 ≤ c) :
    Filled { ver := minVer, capacity := c, winsize := winsize,
             Segments := List.replicate c.toNat none } c 0 where
  cap := rfl
  len := by simp [hc]
  head := rfl
  count := rfl
  tail := by simp
  le := by simpa using hc

theorem Filled.append_ok {p : MediaPlaylist} {c : Int} {k : Nat} (hp : Filled p c k)
    (hk : (k : Int) < c) (h : Heap) (a : Ptr) :
    ∃ q, p.Append h (some a) = .ok q ∧ Filled q c (k + 1) ∧
      q.Segments = p.Segments.set k (some a) ∧
      q.winsize = p.winsize ∧ q.ver = p.ver ∧ q.SeqNo = p.SeqNo ∧ q.Closed = p.Closed := by
  have hk0 : (0 : Int) ≤ k := Int.ofNat_nonneg k
  have htl : p.tail = k := by rw [hp.tail, Int.tmod_eq_of_lt hk0 hk]
  have hfull : ¬ (p.head = p.tail ∧ p.count > 0) := by
    rw [hp.head, htl, hp.count]; omega
  have htail : 0 ≤ p.tail ∧ p.tail < p.Segments.length := by
    rw [htl, hp.len]; omega
  have hcap : p.capacity ≠ 0 := by rw [hp.cap]; omega
  refine ⟨_, Append_ok hfull htail hcap, ?_, ?_, rfl, rfl, rfl, rfl⟩
  · refine ⟨hp.cap, ?_, hp.head, ?_, ?_, ?_⟩
    · simpa using hp.len
    · simp [hp.count]
    · simp [htl, hp.cap]
    · push_cast; omega
  · simp [htl]

theorem Filled.appendAll_ok (h : Heap) (c : Int) (segs : List Ptr) :
    ∀ (p : MediaPlaylist) (k : Nat), Filled p c k → ((k + segs.length : Nat) : Int) ≤ c →
    ∃ q, appendAll h p (segs.map some) = .ok q ∧ Filled q c (k + segs.length) ∧
      (∀ i (hi : i < segs.length), q.Segments[k + i]? = some (some segs[i])) ∧
      (∀ j, j < k → q.Segments[j]? = p.Segments[j]?) ∧
      q.winsize = p.winsize ∧ q.ver = p.ver ∧ q.SeqNo = p.SeqNo ∧ q.Closed = p.Closed := by
  induction segs with
  | nil =>
    intro p k hp _
    exact ⟨p, rfl, by simpa using hp, by simp, by simp, rfl, rfl, rfl, rfl⟩
  | cons a rest ih =>
    intro p k hp hle
    have hk : (k : Int) < c := by
      simp only [List.length_cons] at hle; omega
    obtain ⟨q1, hq1, hf1, hs1, hw1, hv1, hn1, hc1⟩ := hp.append_ok hk h a
    have hle1 : ((k + 1 + rest.length : Nat) : Int) ≤ c := by
      simp only [List.length_cons] at hle; omega
    obtain ⟨q, hq, hf, hs, hpre, hw, hv, hn, hcl⟩ := ih q1 (k + 1) hf1 hle1
    have hklen : k < p.Segments.length := by
      have := hp.len; omega
    refine ⟨q, ?_, ?_, ?_, ?_, hw.trans hw1, hv.trans hv1, hn.trans hn1, hcl.trans hc1⟩
    · simp only [List.map_cons, appendAll, hq1, hq]
    · have : k + (a :: rest).length = k + 1 + rest.length := by
        simp only [List.length_cons]; omega
      rw [this]; exact hf
    · intro i hi
      cases i with
      | zero =>
        have := hpre k (Nat.lt_succ_self k)
        simp only [Nat.add_zero, List.getElem_cons_zero]
        rw [this, hs1, List.getElem?_set]
        simp [hklen]
      | succ i =>
        have hi2 : i < rest.length := by simpa using hi
        have := hs i hi2
        simp only [List.getElem_cons_succ]
        rw [← this]
        congr 1
        omega
    · intro j hj
      rw [hpre j (by omega), hs1, List.getElem?_set]
      have : ¬ k = j := by omega
      simp [this]

theorem appendAll_append (h : Heap) (xs ys : List (Option Ptr)) :
    ∀ p, appendAll h p (xs ++ ys) =
      match appendAll h p xs with
      | .ok q => appendAll h q ys
      | .error e q => .error e q
      | .panic => .panic := by
  induction xs with
  | nil => intro p; rfl
  | cons x rest ih =>
    intro p
    simp only [List.cons_append, appendAll]
    cases hx : p.Append h x with
    | ok q => simpa using ih q
    | error e q => rfl
    | panic => rfl

theorem Append_full (h : Heap) (p : MediaPlaylist) (seg : Option Ptr)
    (hfull : p.head = p.tail ∧ p.count > 0) : p.Append h seg = .error .ErrPlaylistFull p := by
  simp only [MediaPlaylist.Append, if_pos hfull]

theorem Filled.full {p : MediaPlaylist} {c : Int} {k : Nat} (hp : Filled p c k)
    (hk : (k : Int) = c) (hc : 1 ≤ c) : p.head = p.tail ∧ p.count > 0 := by
  refine ⟨?_, ?_⟩
  · rw [hp.head, hp.tail, hk, Int.tmod_self]
  · rw [hp.count]; omega

theorem Remove_ok {p : MediaPlaylist} (h0 : p.count ≠ 0) (h1 : p.capacity ≠ 0) :
    p.Remove = .ok { p with
      head := Int.tmod (p.head + 1) p.capacity
      count := p.count - 1
      SeqNo := if p.Closed then p.SeqNo else wrapInt (p.SeqNo + 1)
      buf := "" } := by
  simp only [MediaPlaylist.Remove, if_neg h0, if_neg h1]

theorem SetWinSize_ok {p : MediaPlaylist} {w : Int} (hw : ¬ w > p.capacity) :
    p.SetWinSize w = .ok { p with winsize := w } := by
  simp only [MediaPlaylist.SetWinSize, if_neg hw]

theorem Append_ok_inv {h : Heap} {p q : MediaPlaylist} {seg : Option Ptr}
    (happ : p.Append h seg = .ok q) :
    ∃ a, seg = some a ∧ ¬ (p.head = p.tail ∧ p.count > 0) ∧
      (0 ≤ p.tail ∧ p.tail < p.Segments.length) ∧ p.capacity ≠ 0 ∧
      q = { p with
        Segments := p.Segments.set p.tail.toNat (some a)
        tail := Int.tmod (p.tail + 1) p.capacity
        count := p.count + 1
        TargetDuration :=
          if p.TargetDuration < (h.seg a).Duration then ((⌈(h.seg a).Duration⌉ : Int) : ℚ)
          else p.TargetDuration
        buf := "" } := by
  by_cases hfull : p.head = p.tail ∧ p.count > 0
  · simp [MediaPlaylist.Append, hfull] at happ
  · by_cases htail : 0 ≤ p.tail ∧ p.tail < p.Segments.length
    · by_cases hcap : p.capacity = 0
      · simp [MediaPlaylist.Append, hfull, htail, hcap] at happ
      · cases seg with
        | none => simp [MediaPlaylist.Append, hfull, htail, hcap] at happ
        | some a =>
          refine ⟨a, rfl, hfull, htail, hcap, ?_⟩
          rw [Append_ok hfull htail hcap] at happ
          exact (Result.ok.inj happ).symm
    · simp only [MediaPlaylist.Append, if_neg hfull, if_pos htail] at happ
      simp at happ

theorem checkVersion_eq_max (v n : Int) : checkVersion v n = max v n := by
  unfold checkVersion
  by_cases hlt : v < n
  · rw [if_pos hlt, max_eq_right (le_of_lt hlt)]
  · rw [if_neg hlt, max_eq_left (not_lt.mp hlt)]

theorem lastSeg_eq_some (p : MediaPlaylist) (a : Ptr) :
    p.lastSeg = some a ↔ index p.Segments p.last = some (some a) := by
  unfold MediaPlaylist.lastSeg
  cases index p.Segments p.last with
  | none => simp
  | some v => cases v <;> simp

theorem lastSeg_after_append {p q : MediaPlaylist} {a : Ptr}
    (htail : 0 ≤ p.tail ∧ p.tail < p.capacity) (hlen : p.capacity = p.Segments.length)
    (hS : q.Segments = p.Segments.set p.tail.toNat (some a))
    (ht : q.tail = Int.tmod (p.tail + 1) p.capacity) (hc : q.capacity = p.capacity) :
    q.lastSeg = some a := by
  have hlast : q.last = p.tail := by
    simp only [MediaPlaylist.last, ht, hc]
    by_cases hwrap : p.tail + 1 = p.capacity
    · rw [hwrap, Int.tmod_self]; simp; omega
    · have hlt : p.tail + 1 < p.capacity := by omega
      rw [Int.tmod_eq_of_lt (by omega) hlt]
      have : ¬ p.tail + 1 = 0 := by omega
      simp [this]
  have hnat : p.tail.toNat < p.Segments.length := by omega
  simp only [MediaPlaylist.lastSeg, hlast, index, if_pos htail.1, hS]
  simp [hnat]

theorem SetKey_ok {h : Heap} {p : MediaPlaylist} {a : Ptr} (h0 : p.count ≠ 0)
    (hl : p.lastSeg = some a) (method uri iv keyformat keyformatversions : String) :
    p.SetKey h method uri iv keyformat keyformatversions =
      .ok ({ p with
              ver :=
                if keyformat ≠ "" ∨ keyformatversions ≠ "" then checkVersion p.ver 5 else p.ver },
           { h with
              key :=
                Function.update h.key h.nextKey ⟨method, uri, iv, keyformat, keyformatversions⟩
              nextKey := h.nextKey + 1
              seg := Function.update h.seg a { h.seg a with Key := some h.nextKey } }) := by
  simp only [MediaPlaylist.SetKey, if_neg h0, hl]

theorem SetMap_ok {h : Heap} {p : MediaPlaylist} {a : Ptr} (h0 : p.count ≠ 0)
    (hl : p.lastSeg = some a) (uri : String) (limit offset : Int) :
    p.SetMap h uri limit offset =
      .ok ({ p with ver := checkVersion p.ver 5 },
           { h with
              map := Function.update h.map h.nextMap ⟨uri, limit, offset⟩
              nextMap := h.nextMap + 1
              seg := Function.update h.seg a { h.seg a with Map := some h.nextMap } }) := by
  simp only [MediaPlaylist.SetMap, if_neg h0, hl]

theorem SetRange_ok {h : Heap} {p : MediaPlaylist} {a : Ptr} (h0 : p.count ≠ 0)
    (hl : p.lastSeg = some a) (limit offset : Int) :
    p.SetRange h limit offset =
      .ok ({ p with ver := checkVersion p.ver 4 },
           { h with
              seg := Function.update h.seg a { h.seg a with Limit := limit, Offset := offset } })
    := by
  simp only [MediaPlaylist.SetRange, if_neg h0, hl]

theorem SetSCTE35_ok {h : Heap} {p : MediaPlaylist} {a : Ptr} (h0 : p.count ≠ 0)
    (hl : p.lastSeg = some a) (scte35 : Option Ptr) :
    p.SetSCTE35 h scte35 =
      .ok (p, { h with seg := Function.update h.seg a { h.seg a with SCTE := scte35 } }) := by
  simp only [MediaPlaylist.SetSCTE35, if_neg h0, hl]

theorem SetDiscontinuity_ok {h : Heap} {p : MediaPlaylist} {a : Ptr} (h0 : p.count ≠ 0)
    (hl : p.lastSeg = some a) :
    p.SetDiscontinuity h =
      .ok (p, { h with seg := Function.update h.seg a { h.seg a with Discontinuity := true } })
    := by
  simp only [MediaPlaylist.SetDiscontinuity, if_neg h0, hl]

theorem SetProgramDateTime_ok {h : Heap} {p : MediaPlaylist} {a : Ptr} (h0 : p.count ≠ 0)
    (hl : p.lastSeg = some a) (value : Time) :
    p.SetProgramDateTime h value =
      .ok (p, { h with
        seg := Function.update h.seg a { h.seg a with ProgramDateTime := value } }) := by
  simp only [MediaPlaylist.SetProgramDateTime, if_neg h0, hl]

theorem segWritten_update (h h' : Heap) (a : Ptr) (s : MediaSegment)
    (hseg : h'.seg = Function.update h.seg a s) : segWritten h h' a s := by
  refine ⟨by simp [hseg], fun b hb => by simp [hseg, Function.update, hb]⟩

theorem NewMediaPlaylist_ok_inv {winsize c : Int} {p0 : MediaPlaylist}
    (hnew : NewMediaPlaylist winsize c = .ok (some p0)) :
    0 ≤ c ∧ winsize ≤ c ∧
      p0 = { ver := minVer, capacity := c, winsize := winsize,
             Segments := List.replicate c.toNat none } := by
  by_cases hw : winsize > c
  · simp [NewMediaPlaylist, MediaPlaylist.SetWinSize, hw] at hnew
  · by_cases hc : c < 0
    · simp [NewMediaPlaylist, MediaPlaylist.SetWinSize, hw, hc] at hnew
    · have h0 : 0 ≤ c := by omega
      rw [NewMediaPlaylist_ok h0 (by omega)] at hnew
      refine ⟨h0, by omega, ?_⟩
      have := Result.ok.inj hnew
      exact (Option.some.inj this).symm

theorem Filled.append_inv {p q : MediaPlaylist} {c : Int} {k : Nat} (hp : Filled p c k)
    {h : Heap} {a : Ptr} (happ : p.Append h (some a) = .ok q) :
    Filled q c (k + 1) := by
  obtain ⟨b, hb, hfull, htail, hcap, -⟩ := Append_ok_inv happ
  have hklt : (k : Int) < c := by
    by_cases heq : (k : Int) = c
    · exfalso
      have hc1 : 1 ≤ c := by
        have := hp.len; omega
      exact hfull (hp.full heq hc1)
    · have := hp.le; omega
  obtain ⟨q', hq', hf, -⟩ := hp.append_ok hklt h a
  rw [happ] at hq'
  rw [Result.ok.inj hq']
  exact hf

theorem Filled.appendAll_inv (h : Heap) (c : Int) (segs : List Ptr) :
    ∀ (p q : MediaPlaylist) (k : Nat), Filled p c k →
      appendAll h p (segs.map some) = .ok q → Filled q c (k + segs.length) := by
  induction segs with
  | nil =>
    intro p q k hp happ
    simp only [List.map_nil, appendAll] at happ
    rw [← Result.ok.inj happ]
    simpa using hp
  | cons a rest ih =>
    intro p q k hp happ
    simp only [List.map_cons, appendAll] at happ
    cases hq1 : p.Append h (some a) with
    | ok q1 =>
      rw [hq1] at happ
      have := ih q1 q (k + 1) (hp.append_inv hq1) happ
      have hlen : k + (a :: rest).length = k + 1 + rest.length := by
        simp only [List.length_cons]; omega
      rw [hlen]; exact this
    | error e q1 => rw [hq1] at happ; simp at happ
    | panic => rw [hq1] at happ; simp at happ

theorem appendAll_frame (h : Heap) (segs : List (Option Ptr)) :
    ∀ (p q : MediaPlaylist), appendAll h p segs = .ok q →
      ∃ S t n T b, q = { p with Segments := S, tail := t, count := n, TargetDuration := T,
                                buf := b } ∧ (p.buf = "" → b = "") := by
  induction segs with
  | nil =>
    intro p q happ
    simp only [appendAll] at happ
    rw [← Result.ok.inj happ]
    exact ⟨_, _, _, _, _, rfl, id⟩
  | cons x rest ih =>
    intro p q happ
    simp only [appendAll] at happ
    cases hq1 : p.Append h x with
    | ok q1 =>
      rw [hq1] at happ
      obtain ⟨a, -, -, -, -, rfl⟩ := Append_ok_inv hq1
      obtain ⟨S, t, n, T, b, rfl, hb⟩ := ih _ q happ
      exact ⟨S, t, n, T, b, rfl, fun _ => hb rfl⟩
    | error e q1 => rw [hq1] at happ; simp at happ
    | panic => rw [hq1] at happ; simp at happ

theorem IsCeilMax.step {t d : ℚ} {L : List ℚ} (ht : IsCeilMax t L) (hd : 0 ≤ d) :
    IsCeilMax (if t < d then ((⌈d⌉ : Int) : ℚ) else t) (L ++ [d]) := by
  right
  rcases ht with ⟨rfl, rfl⟩ | ⟨m, hm, hmax, rfl⟩
  · refine ⟨d, by simp, by simp, ?_⟩
    by_cases hlt : (0 : ℚ) < d
    · simp [hlt]
    · have hd0 : d = 0 := le_antisymm (not_lt.mp hlt) hd
      simp [hd0]
  · by_cases hlt : ((⌈m⌉ : Int) : ℚ) < d
    · refine ⟨d, by simp, ?_, by simp [hlt]⟩
      intro x hx
      rcases List.mem_append.mp hx with hx | hx
      · exact le_of_lt (lt_of_le_of_lt ((hmax x hx).trans (Int.le_ceil m)) hlt)
      · simp at hx; exact le_of_eq hx
    · have hle : d ≤ ((⌈m⌉ : Int) : ℚ) := not_lt.mp hlt
      by_cases hdm : d ≤ m
      · refine ⟨m, by simp [hm], ?_, by simp [hlt]⟩
        intro x hx
        rcases List.mem_append.mp hx with hx | hx
        · exact hmax x hx
        · simp at hx; rw [hx]; exact hdm
      · have hmd : m ≤ d := le_of_lt (not_le.mp hdm)
        refine ⟨d, by simp, ?_, ?_⟩
        · intro x hx
          rcases List.mem_append.mp hx with hx | hx
          · exact (hmax x hx).trans hmd
          · simp at hx; exact le_of_eq hx
        · have h1 : ⌈d⌉ ≤ ⌈m⌉ := Int.ceil_le.mpr hle
          have h2 : ⌈m⌉ ≤ ⌈d⌉ := Int.ceil_mono hmd
          simp [hlt, le_antisymm h1 h2]

theorem appendAll_targetDuration (h : Heap) (segs : List Ptr) :
    ∀ (p q : MediaPlaylist) (L : List ℚ), IsCeilMax p.TargetDuration L →
      (∀ a ∈ segs, 0 ≤ (h.seg a).Duration) →
      appendAll h p (segs.map some) = .ok q →
      IsCeilMax q.TargetDuration (L ++ segs.map (fun a => (h.seg a).Duration)) := by
  induction segs with
  | nil =>
    intro p q L hL _ happ
    simp only [List.map_nil, appendAll] at happ
    rw [← Result.ok.inj happ]
    simpa using hL
  | cons a rest ih =>
    intro p q L hL hpos happ
    simp only [List.map_cons, appendAll] at happ
    cases hq1 : p.Append h (some a) with
    | ok q1 =>
      rw [hq1] at happ
      obtain ⟨b, hb, -, -, -, rfl⟩ := Append_ok_inv hq1
      cases hb
      have hstep := hL.step (hpos a (by simp))
      have := ih _ q (L ++ [(h.seg a).Duration]) hstep
        (fun x hx => hpos x (List.mem_cons_of_mem _ hx)) happ
      simpa using this
    | error e q1 => rw [hq1] at happ; simp at happ
    | panic => rw [hq1] at happ; simp at happ

theorem writeSegments_total (F : Formatters) (h : Heap) (p : MediaPlaylist)
    (hlen : p.capacity = p.Segments.length) (hcap : 0 < p.capacity) :
    ∀ (n : Nat) (i head : Int) (cache : List (ℚ × String)), 0 ≤ head → head < p.capacity →
      ∃ s, MediaPlaylist.writeSegments F h p n i head cache = some s := by
  intro n
  induction n with
  | zero => intro i head cache _ _; exact ⟨"", rfl⟩
  | succ n ih =>
    intro i head cache h0 h1
    have hnext0 : 0 ≤ Int.tmod (head + 1) p.capacity := Int.tmod_nonneg _ (by omega)
    have hnext1 : Int.tmod (head + 1) p.capacity < p.capacity := Int.tmod_lt_of_pos _ hcap
    have hcap0 : ¬ p.capacity = 0 := by omega
    have hidx : index p.Segments head = some (p.Segments.get ⟨head.toNat, by omega⟩) := by
      have hn : head.toNat < p.Segments.length := by omega
      simp [index, h0, hn]
    unfold MediaPlaylist.writeSegments
    by_cases hwin : i < p.winsize ∨ p.winsize = 0
    · rw [if_pos hwin, hidx]
      simp only [if_neg hcap0]
      cases p.Segments.get ⟨head.toNat, by omega⟩ with
      | none => exact ih _ _ _ hnext0 hnext1
      | some a =>
        obtain ⟨s, hs⟩ := ih (if p.winsize > 0 then i + 1 else i)
          (Int.tmod (head + 1) p.capacity)
          (MediaPlaylist.writeSegment F h p (h.seg a) cache).2 hnext0 hnext1
        exact ⟨(MediaPlaylist.writeSegment F h p (h.seg a) cache).1 ++ s,
          by simp only [hs, Option.map_some']⟩
    · exact ⟨"", by rw [if_neg hwin]⟩

theorem Encode_fresh {F : Formatters} {h : Heap} {p : MediaPlaylist} {segments : String}
    (hbuf : p.buf = "")
    (hseg : MediaPlaylist.writeSegments F h p p.count.toNat 0 p.head [] = some segments) :
    p.Encode F h = some { p with
      buf := MediaPlaylist.header h p ++ segments ++
        (if p.Closed then "#EXT-X-ENDLIST\n" else "") } := by
  simp only [MediaPlaylist.Encode, hbuf, ne_eq, not_true_eq_false, if_false, hseg]

theorem Append_ver {h : Heap} {p q : MediaPlaylist} {seg : Option Ptr}
    (hq : (p.Append h seg).state? = some q) : q.ver = p.ver := by
  unfold MediaPlaylist.Append at hq
  repeat' split at hq
  all_goals first
    | (simp [Result.state?] at hq; done)
    | (simp only [Result.state?, Option.some.injEq] at hq; subst hq; rfl)

theorem Remove_ver {p q : MediaPlaylist} (hq : p.Remove.state? = some q) : q.ver = p.ver := by
  unfold MediaPlaylist.Remove at hq
  repeat' split at hq
  all_goals first
    | (simp [Result.state?] at hq; done)
    | (simp only [Result.state?, Option.some.injEq] at hq; subst hq; rfl)

theorem ExtendCapacity_ver {p q : MediaPlaylist} (hq : p.ExtendCapacity.state? = some q) :
    q.ver = p.ver := by
  unfold MediaPlaylist.ExtendCapacity at hq
  repeat' split at hq
  all_goals first
    | (simp [Result.state?] at hq; done)
    | (simp only [Result.state?, Option.some.injEq] at hq; subst hq; rfl)

theorem Slide_ver {h : Heap} {p q : MediaPlaylist} {seg : Option Ptr}
    (hq : (p.Slide h seg).state? = some q) : q.ver = p.ver := by
  unfold MediaPlaylist.Slide at hq
  by_cases hc : p.Closed = true
  · rw [if_neg (not_not.mpr hc)] at hq
    simp only [Result.state?, Option.some.injEq] at hq
    rw [← hq]
  · rw [if_pos hc] at hq
    by_cases hw : p.count ≥ p.winsize
    · rw [if_pos hw] at hq
      cases hr : p.Remove with
      | ok r =>
        rw [hr] at hq
        exact (Append_ver hq).trans (Remove_ver (by rw [hr]; rfl))
      | error e r =>
        rw [hr] at hq
        simp only [Result.state?, Option.some.injEq] at hq
        rw [← hq]
        exact Remove_ver (by rw [hr]; rfl)
      | panic => rw [hr] at hq; simp [Result.state?] at hq
    · rw [if_neg hw] at hq
      exact Append_ver hq

theorem AppendWithAutoExtend_ver {h : Heap} {p q : MediaPlaylist} {seg : Option Ptr}
    (hq : (p.AppendWithAutoExtend h seg).state? = some q) : q.ver = p.ver := by
  unfold MediaPlaylist.AppendWithAutoExtend at hq
  by_cases hw : p.count > Int.tdiv (p.capacity * 2) 3
  · rw [if_pos hw] at hq
    cases hr : p.ExtendCapacity with
    | ok r =>
      rw [hr] at hq
      exact (Append_ver hq).trans (ExtendCapacity_ver (by rw [hr]; rfl))
    | error e r =>
      rw [hr] at hq
      simp only [Result.state?, Option.some.injEq] at hq
      rw [← hq]
      exact ExtendCapacity_ver (by rw [hr]; rfl)
    | panic => rw [hr] at hq; simp [Result.state?] at hq
  · rw [if_neg hw] at hq
    exact Append_ver hq

theorem Encode_ver {F : Formatters} {h : Heap} {p q : MediaPlaylist}
    (hq : p.Encode F h = some q) : q.ver = p.ver := by
  unfold MediaPlaylist.Encode at hq
  repeat' split at hq
  all_goals first
    | (simp at hq; done)
    | (simp only [Option.some.injEq] at hq; subst hq; rfl)

theorem setter_ver (p : MediaPlaylist) (h : Heap) {q : MediaPlaylist} {h' : Heap}
    {r : Result (MediaPlaylist × Heap)} {v : Int}
    (hr : r = .error (.new "playlist is empty") (p, h) ∨ r = .panic ∨
      ∃ g, r = .ok ({ p with ver := v }, g))
    (hq : r = .ok (q, h')) : q.ver = v := by
  rcases hr with rfl | rfl | ⟨g, rfl⟩
  · simp at hq
  · simp at hq
  · have := (Prod.mk.inj (Result.ok.inj hq)).1
    rw [← this]

theorem setter_state_ver (p : MediaPlaylist) (h : Heap) {q : MediaPlaylist} {h' : Heap}
    {r : Result (MediaPlaylist × Heap)}
    (hr : r = .error (.new "playlist is empty") (p, h) ∨ r = .panic ∨ ∃ g, r = .ok (p, g))
    (hq : r.state? = some (q, h')) : q.ver = p.ver := by
  rcases hr with rfl | rfl | ⟨g, rfl⟩
  · simp only [Result.state?, Option.some.injEq] at hq
    rw [← (Prod.mk.inj hq).1]
  · simp [Result.state?] at hq
  · simp only [Result.state?, Option.some.injEq] at hq
    rw [← (Prod.mk.inj hq).1]

/-! ## Lemmas on the cache -/

theorem append_ne_empty {a : String} (b : String) (ha : a ≠ "") : a ++ b ≠ "" := by
  intro hab
  apply ha
  have hd := congrArg String.data hab
  have h0 : ("" : String).data = [] := rfl
  rw [String.data_append, h0, List.append_eq_nil] at hd
  exact String.ext hd.1

theorem header_ne_empty (h : Heap) (p : MediaPlaylist) : MediaPlaylist.header h p ≠ "" := by
  unfold MediaPlaylist.header MediaPlaylist.headerVersion
  simp only [String.append_assoc]
  exact append_ne_empty _ (by decide)

theorem ResetCache_of_empty {p : MediaPlaylist} (hb : p.buf = "") : p.ResetCache = p := by
  cases p
  simp only [MediaPlaylist.ResetCache] at *
  simp [hb]

theorem Encode_cached {F : Formatters} {h : Heap} {p : MediaPlaylist} (hb : p.buf ≠ "") :
    p.Encode F h = some p := by
  simp only [MediaPlaylist.Encode, if_pos hb]

theorem Encode_cases {F : Formatters} {h : Heap} {p q : MediaPlaylist}
    (hq : p.Encode F h = some q) :
    (p.buf ≠ "" ∧ q = p) ∨
    (p.buf = "" ∧ ∃ segments,
      MediaPlaylist.writeSegments F h p p.count.toNat 0 p.head [] = some segments ∧
      q = { p with
        buf := MediaPlaylist.header h p ++ segments ++
          (if p.Closed then "#EXT-X-ENDLIST\n" else "") }) := by
  by_cases hb : p.buf ≠ ""
  · left
    rw [Encode_cached hb] at hq
    exact ⟨hb, (Option.some.inj hq).symm⟩
  · right
    have hb' : p.buf = "" := not_not.mp hb
    refine ⟨hb', ?_⟩
    cases hs : MediaPlaylist.writeSegments F h p p.count.toNat 0 p.head [] with
    | none => simp [MediaPlaylist.Encode, hb', hs] at hq
    | some segments =>
      rw [Encode_fresh hb' hs] at hq
      exact ⟨segments, rfl, (Option.some.inj hq).symm⟩

theorem Encode_buf_ne_empty {F : Formatters} {h : Heap} {p q : MediaPlaylist}
    (hq : p.Encode F h = some q) : q.buf ≠ "" := by
  rcases Encode_cases hq with ⟨hb, rfl⟩ | ⟨-, segments, -, rfl⟩
  · exact hb
  · show MediaPlaylist.header h p ++ segments ++ _ ≠ ""
    rw [String.append_assoc]
    exact append_ne_empty _ (header_ne_empty h p)

theorem Encode_twice {F : Formatters} {h : Heap} {p q : MediaPlaylist}
    (hq : p.Encode F h = some q) : q.Encode F h = some q :=
  Encode_cached (Encode_buf_ne_empty hq)

theorem MediaPlaylist.Coherent.encoded_eq {F : Formatters} {h : Heap} {p : MediaPlaylist}
    (hp : p.Coherent F h) : p.encoded F h = p.ResetCache.encoded F h := by
  by_cases hb : p.buf = ""
  · rw [ResetCache_of_empty hb]
  · rcases hp with hp | hp
    · exact absurd hp hb
    · rw [hp]
      simp only [MediaPlaylist.encoded, Encode_cached hb, Option.map_some']

theorem MediaPlaylist.Coherent.of_empty {F : Formatters} {h : Heap} {p : MediaPlaylist} (hb : p.buf = "") :
    p.Coherent F h := Or.inl hb

theorem MediaPlaylist.Coherent.encode {F : Formatters} {h : Heap} {p q : MediaPlaylist}
    (hp : p.Coherent F h) (hq : p.Encode F h = some q) : q.Coherent F h := by
  rcases Encode_cases hq with ⟨-, rfl⟩ | ⟨hb, segments, hs, rfl⟩
  · exact hp
  · right
    have hreset : MediaPlaylist.ResetCache { p with
        buf := MediaPlaylist.header h p ++ segments ++
          (if p.Closed then "#EXT-X-ENDLIST\n" else "") } = p := by
      rw [← ResetCache_of_empty hb]
      rfl
    rw [hreset]
    simp only [MediaPlaylist.encoded, Encode_fresh hb hs, Option.map_some']

theorem Append_state_buf {h : Heap} {p q : MediaPlaylist} {seg : Option Ptr}
    (hq : (p.Append h seg).state? = some q) : q = p ∨ q.buf = "" := by
  unfold MediaPlaylist.Append at hq
  repeat' split at hq
  all_goals first
    | (simp [Result.state?] at hq; done)
    | (simp only [Result.state?, Option.some.injEq] at hq; subst hq; first | (left; rfl) | (right; rfl))

theorem Remove_state_buf {p q : MediaPlaylist} (hq : p.Remove.state? = some q) :
    q = p ∨ q.buf = "" := by
  unfold MediaPlaylist.Remove at hq
  repeat' split at hq
  all_goals first
    | (simp [Result.state?] at hq; done)
    | (simp only [Result.state?, Option.some.injEq] at hq; subst hq; first | (left; rfl) | (right; rfl))

theorem Slide_state_buf {h : Heap} {p q : MediaPlaylist} {seg : Option Ptr}
    (hq : (p.Slide h seg).state? = some q) : q = p ∨ q.buf = "" := by
  unfold MediaPlaylist.Slide at hq
  by_cases hc : p.Closed = true
  · rw [if_neg (not_not.mpr hc)] at hq
    simp only [Result.state?, Option.some.injEq] at hq
    exact Or.inl hq.symm
  · rw [if_pos hc] at hq
    by_cases hw : p.count ≥ p.winsize
    · rw [if_pos hw] at hq
      cases hr : p.Remove with
      | ok r =>
        rw [hr] at hq
        rcases @Remove_state_buf p r (by rw [hr]; rfl) with rfl | hrb
        · exact Append_state_buf hq
        · rcases Append_state_buf hq with rfl | hqb
          · exact Or.inr hrb
          · exact Or.inr hqb
      | error e r =>
        rw [hr] at hq
        simp only [Result.state?, Option.some.injEq] at hq
        rw [← hq]
        exact Remove_state_buf (by rw [hr]; rfl)
      | panic => rw [hr] at hq; simp [Result.state?] at hq
    · rw [if_neg hw] at hq
      exact Append_state_buf hq

theorem MediaPlaylist.Coherent.call {F : Formatters} {h : Heap} {p q : MediaPlaylist} {c : MediaCall}
    (hp : p.Coherent F h) (hq : p.call F h c = some q) : q.Coherent F h := by
  cases c with
  | Encode => exact hp.encode hq
  | Append seg =>
    rcases Append_state_buf hq with rfl | hb
    · exact hp
    · exact Or.inl hb
  | Remove =>
    rcases Remove_state_buf hq with rfl | hb
    · exact hp
    · exact Or.inl hb
  | Slide seg =>
    rcases Slide_state_buf hq with rfl | hb
    · exact hp
    · exact Or.inl hb

theorem MediaPlaylist.Coherent.calls {F : Formatters} {h : Heap} (cs : List MediaCall) :
    ∀ {p q : MediaPlaylist}, p.Coherent F h → p.calls F h cs = some q → q.Coherent F h := by
  induction cs with
  | nil =>
    intro p q hp hq
    simp only [MediaPlaylist.calls, Option.some.injEq] at hq
    rw [← hq]; exact hp
  | cons c rest ih =>
    intro p q hp hq
    simp only [MediaPlaylist.calls] at hq
    cases hc : p.call F h c with
    | none => rw [hc] at hq; simp at hq
    | some r =>
      rw [hc] at hq
      exact ih (hp.call hc) hq

theorem MasterPlaylist.ResetCache_of_empty_master {p : MasterPlaylist} (hb : p.buf = "") :
    p.ResetCache = p := by
  cases p
  simp only [MasterPlaylist.ResetCache] at *
  simp [hb]

theorem MasterPlaylist.Encode_cached_master {p : MasterPlaylist} (hb : p.buf ≠ "") :
    p.Encode = some p := by
  simp only [MasterPlaylist.Encode, if_pos hb]

theorem MasterPlaylist.Encode_fresh_master {p : MasterPlaylist} {variants : String}
    (hb : p.buf = "") (hv : MasterPlaylist.writeVariants p p.Variants [] = some variants) :
    p.Encode = some { p with
      buf := "#EXTM3U\n#EXT-X-VERSION:" ++ Itoa p.ver ++ "\n" ++ variants } := by
  simp only [MasterPlaylist.Encode, hb, ne_eq, not_true_eq_false, if_false, hv]

theorem MasterPlaylist.Encode_cases_master {p q : MasterPlaylist} (hq : p.Encode = some q) :
    (p.buf ≠ "" ∧ q = p) ∨
    (p.buf = "" ∧ ∃ variants,
      MasterPlaylist.writeVariants p p.Variants [] = some variants ∧
      q = { p with buf := "#EXTM3U\n#EXT-X-VERSION:" ++ Itoa p.ver ++ "\n" ++ variants }) := by
  by_cases hb : p.buf ≠ ""
  · left
    rw [MasterPlaylist.Encode_cached_master hb] at hq
    exact ⟨hb, (Option.some.inj hq).symm⟩
  · right
    have hb' : p.buf = "" := not_not.mp hb
    refine ⟨hb', ?_⟩
    cases hv : MasterPlaylist.writeVariants p p.Variants [] with
    | none => simp [MasterPlaylist.Encode, hb', hv] at hq
    | some variants =>
      rw [MasterPlaylist.Encode_fresh_master hb' hv] at hq
      exact ⟨variants, rfl, (Option.some.inj hq).symm⟩

theorem MasterPlaylist.Encode_buf_ne_empty_master {p q : MasterPlaylist} (hq : p.Encode = some q) :
    q.buf ≠ "" := by
  rcases MasterPlaylist.Encode_cases_master hq with ⟨hb, rfl⟩ | ⟨-, variants, -, rfl⟩
  · exact hb
  · show "#EXTM3U\n#EXT-X-VERSION:" ++ Itoa p.ver ++ "\n" ++ variants ≠ ""
    simp only [String.append_assoc]
    exact append_ne_empty _ (by decide)

theorem MasterPlaylist.Encode_twice_master {p q : MasterPlaylist} (hq : p.Encode = some q) :
    q.Encode = some q :=
  MasterPlaylist.Encode_cached_master (MasterPlaylist.Encode_buf_ne_empty_master hq)

theorem MasterPlaylist.Coherent.encoded_eq_master {p : MasterPlaylist} (hp : p.Coherent) :
    p.encoded = p.ResetCache.encoded := by
  by_cases hb : p.buf = ""
  · rw [MasterPlaylist.ResetCache_of_empty_master hb]
  · rcases hp with hp | hp
    · exact absurd hp hb
    · rw [hp]
      simp only [MasterPlaylist.encoded, MasterPlaylist.Encode_cached_master hb, Option.map_some']

theorem MasterPlaylist.Coherent.call_master {p q : MasterPlaylist} {c : MasterCall}
    (hp : p.Coherent) (hq : p.call c = some q) : q.Coherent := by
  cases c with
  | Encode =>
    rcases MasterPlaylist.Encode_cases_master hq with ⟨-, rfl⟩ | ⟨hb, variants, hv, rfl⟩
    · exact hp
    · right
      have hreset : MasterPlaylist.ResetCache { p with
          buf := "#EXTM3U\n#EXT-X-VERSION:" ++ Itoa p.ver ++ "\n" ++ variants } = p := by
        rw [← MasterPlaylist.ResetCache_of_empty_master hb]
        rfl
      rw [hreset]
      simp only [MasterPlaylist.encoded, MasterPlaylist.Encode_fresh_master hb hv, Option.map_some']
  | Append uri chunklist params =>
    simp only [MasterPlaylist.call, Option.some.injEq] at hq
    rw [← hq]
    exact Or.inl rfl

theorem MasterPlaylist.Coherent.calls_master (cs : List MasterCall) :
    ∀ {p q : MasterPlaylist}, p.Coherent → p.calls cs = some q → q.Coherent := by
  induction cs with
  | nil =>
    intro p q hp hq
    simp only [MasterPlaylist.calls, Option.some.injEq] at hq
    rw [← hq]; exact hp
  | cons c rest ih =>
    intro p q hp hq
    simp only [MasterPlaylist.calls] at hq
    cases hc : p.call c with
    | none => rw [hc] at hq; simp at hq
    | some r =>
      rw [hc] at hq
      exact ih (hp.call_master hc) hq

theorem Encode_total (F : Formatters) (h : Heap) {p : MediaPlaylist}
    (hlen : p.capacity = p.Segments.length) (hcap : 0 < p.capacity)
    (h0 : 0 ≤ p.head) (h1 : p.head < p.capacity) : ∃ q, p.Encode F h = some q := by
  by_cases hb : p.buf ≠ ""
  · exact ⟨p, Encode_cached hb⟩
  · obtain ⟨segments, hs⟩ := writeSegments_total F h p hlen hcap p.count.toNat 0 p.head [] h0 h1
    exact ⟨_, Encode_fresh (not_not.mp hb) hs⟩

theorem Encode_frame {F : Formatters} {h : Heap} {p q : MediaPlaylist}
    (hq : p.Encode F h = some q) : ∃ b, q = { p with buf := b } := by
  rcases Encode_cases hq with ⟨-, hqp⟩ | ⟨-, segments, -, hqp⟩
  · exact ⟨p.buf, by rw [hqp]⟩
  · exact ⟨_, hqp⟩

theorem MasterPlaylist.writeAlternatives_total :
    ∀ (alts : List (Option Alternative)) (w : List String), (∀ x ∈ alts, x ≠ none) →
      ∃ r, MasterPlaylist.writeAlternatives alts w = some r := by
  intro alts
  induction alts with
  | nil => intro w _; exact ⟨("", w), rfl⟩
  | cons x rest ih =>
    intro w hx
    cases x with
    | none => exact absurd rfl (hx none (by simp))
    | some alt =>
      have hrest : ∀ y ∈ rest, y ≠ none := fun y hy => hx y (List.mem_cons_of_mem _ hy)
      unfold MasterPlaylist.writeAlternatives
      by_cases hmem : MasterPlaylist.altKey alt ∈ w
      · rw [if_pos hmem]; exact ih w hrest
      · rw [if_neg hmem]
        obtain ⟨r, hr⟩ := ih (MasterPlaylist.altKey alt :: w) hrest
        exact ⟨(MasterPlaylist.writeAlternative alt ++ r.1, r.2), by rw [hr]; rfl⟩

theorem MasterPlaylist.writeVariants_total (p : MasterPlaylist) :
    ∀ (vs : List (Option Variant)) (w : List String),
      (∀ x ∈ vs, ∃ v, x = some v ∧ ∀ y ∈ v.Alternatives, y ≠ none) →
      ∃ s, MasterPlaylist.writeVariants p vs w = some s := by
  intro vs
  induction vs with
  | nil => intro w _; exact ⟨"", rfl⟩
  | cons x rest ih =>
    intro w hx
    obtain ⟨v, rfl, hv⟩ := hx x (by simp)
    have hrest : ∀ y ∈ rest, ∃ v, y = some v ∧ ∀ z ∈ v.Alternatives, z ≠ none :=
      fun y hy => hx y (List.mem_cons_of_mem _ hy)
    obtain ⟨r, hr⟩ := MasterPlaylist.writeAlternatives_total v.Alternatives w hv
    obtain ⟨s, hs⟩ := ih r.2 hrest
    refine ⟨r.1 ++ MasterPlaylist.writeVariant p v ++ s, ?_⟩
    simp only [MasterPlaylist.writeVariants, hr, hs, Option.map_some']

theorem MasterPlaylist.Encode_total_master {p : MasterPlaylist}
    (hv : ∀ x ∈ p.Variants, ∃ v, x = some v ∧ ∀ y ∈ v.Alternatives, y ≠ none) :
    ∃ q, p.Encode = some q := by
  by_cases hb : p.buf ≠ ""
  · exact ⟨p, MasterPlaylist.Encode_cached_master hb⟩
  · obtain ⟨s, hs⟩ := MasterPlaylist.writeVariants_total p p.Variants [] hv
    exact ⟨_, MasterPlaylist.Encode_fresh_master (not_not.mp hb) hs⟩

theorem MasterPlaylist.Encode_frame_master {p q : MasterPlaylist} (hq : p.Encode = some q) :
    ∃ b, q = { p with buf := b } := by
  rcases MasterPlaylist.Encode_cases_master hq with ⟨-, hqp⟩ | ⟨-, variants, -, hqp⟩
  · exact ⟨p.buf, by rw [hqp]⟩
  · exact ⟨_, hqp⟩

theorem Append_ok_shape {h : Heap} {p q : MediaPlaylist} {seg : Option Ptr}
    (hq : p.Append h seg = .ok q) :
    q.capacity = p.capacity ∧ q.Segments.length = p.Segments.length ∧ q.head = p.head := by
  obtain ⟨a, -, -, -, -, rfl⟩ := Append_ok_inv hq
  exact ⟨rfl, by simp, rfl⟩

/-! ## Lemmas on the encoder -/

theorem segmentMap_of_default (h : Heap) {p : MediaPlaylist} {m : Ptr} (hmap : p.Map = some m)
    (seg : MediaSegment) : MediaPlaylist.segmentMap h p seg = "" := by
  simp only [MediaPlaylist.segmentMap, hmap]

theorem writeSegment_of_default (F : Formatters) {h h' : Heap} {p : MediaPlaylist} {m : Ptr}
    (hmap : p.Map = some m) (hkey : h'.key = h.key) (hscte : h'.scte = h.scte)
    {s s' : MediaSegment} (hs : { s' with Map := none } = { s with Map := none })
    (cache : List (ℚ × String)) :
    MediaPlaylist.writeSegment F h' p s' cache = MediaPlaylist.writeSegment F h p s cache := by
  have e1 : s'.SCTE = s.SCTE := by
    have := congrArg MediaSegment.SCTE hs; exact this
  have e2 : s'.Key = s.Key := by
    have := congrArg MediaSegment.Key hs; exact this
  have e3 : s'.Discontinuity = s.Discontinuity := by
    have := congrArg MediaSegment.Discontinuity hs; exact this
  have e4 : s'.ProgramDateTime = s.ProgramDateTime := by
    have := congrArg MediaSegment.ProgramDateTime hs; exact this
  have e5 : s'.Limit = s.Limit := by
    have := congrArg MediaSegment.Limit hs; exact this
  have e6 : s'.Offset = s.Offset := by
    have := congrArg MediaSegment.Offset hs; exact this
  have e7 : s'.Duration = s.Duration := by
    have := congrArg MediaSegment.Duration hs; exact this
  have e8 : s'.Title = s.Title := by
    have := congrArg MediaSegment.Title hs; exact this
  have e9 : s'.URI = s.URI := by
    have := congrArg MediaSegment.URI hs; exact this
  simp only [MediaPlaylist.writeSegment, MediaPlaylist.segmentSCTE, MediaPlaylist.segmentKey,
    MediaPlaylist.segmentDuration, segmentMap_of_default _ hmap, e1, e2, e3, e4, e5, e6, e7,
    e8, e9, hkey, hscte]

theorem writeSegments_of_default (F : Formatters) {h h' : Heap} {p : MediaPlaylist} {m : Ptr}
    (hmap : p.Map = some m) (hkey : h'.key = h.key) (hscte : h'.scte = h.scte)
    (hseg : ∀ a, { h'.seg a with Map := none } = { h.seg a with Map := none }) :
    ∀ (n : Nat) (i head : Int) (cache : List (ℚ × String)),
      MediaPlaylist.writeSegments F h' p n i head cache =
        MediaPlaylist.writeSegments F h p n i head cache := by
  intro n
  induction n with
  | zero => intro i head cache; rfl
  | succ n ih =>
    intro i head cache
    unfold MediaPlaylist.writeSegments
    by_cases hwin : i < p.winsize ∨ p.winsize = 0
    · rw [if_pos hwin, if_pos hwin]
      cases index p.Segments head with
      | none => rfl
      | some slot =>
        by_cases hcap : p.capacity = 0
        · simp only [if_pos hcap]
        · simp only [if_neg hcap]
          cases slot with
          | none => exact ih _ _ _
          | some a =>
            simp only [writeSegment_of_default F hmap hkey hscte (hseg a) cache, ih]
    · rw [if_neg hwin, if_neg hwin]

theorem writeSegments_buf (F : Formatters) (h : Heap) (p : MediaPlaylist) (b : String) :
    ∀ (n : Nat) (i head : Int) (cache : List (ℚ × String)),
      MediaPlaylist.writeSegments F h { p with buf := b } n i head cache =
        MediaPlaylist.writeSegments F h p n i head cache := by
  intro n
  induction n with
  | zero => intro i head cache; rfl
  | succ n ih =>
    intro i head cache
    unfold MediaPlaylist.writeSegments
    simp only [ih]
    rfl

theorem ExtendCapacity_ok {p : MediaPlaylist} (hc : p.count > 0) :
    p.ExtendCapacity = .ok { p with
      Segments := p.Segments ++ List.replicate p.count.toNat none
      capacity := ((p.Segments ++ List.replicate p.count.toNat (none : Option Ptr)).length : Int)
      tail := p.count } := by
  have h0 : ¬ p.count = 0 := by omega
  have h1 : ¬ p.count < 0 := by omega
  simp only [MediaPlaylist.ExtendCapacity, if_neg h0, if_neg h1]

/-! ## Lemmas on appends with extension -/

theorem FilledWith.append {p : MediaPlaylist} {c : Int} {segs : List Ptr}
    (hp : FilledWith p c segs) (hk : (segs.length : Int) < c) (h : Heap) (a : Ptr) :
    ∃ q, p.Append h (some a) = .ok q ∧ FilledWith q c (segs ++ [a]) := by
  obtain ⟨q, hq, hf, hs, -⟩ := hp.filled.append_ok hk h a
  have hklen : segs.length < p.Segments.length := by
    have := hp.filled.len; omega
  refine ⟨q, hq, ?_, hp.pos, ?_⟩
  · simpa using hf
  · intro i hi
    rw [hs, List.getElem?_set]
    by_cases hik : segs.length = i
    · subst hik
      simp [hklen]
    · have hi' : i < segs.length := by
        simp only [List.length_append, List.length_singleton] at hi; omega
      rw [if_neg hik, hp.slots i hi', List.getElem_append_left hi']

theorem FilledWith.not_full {p : MediaPlaylist} {c : Int} {segs : List Ptr}
    (hp : FilledWith p c segs) (hnf : ¬ (p.head = p.tail ∧ p.count > 0)) :
    (segs.length : Int) < c := by
  by_cases heq : (segs.length : Int) = c
  · exact absurd (hp.filled.full heq hp.pos) hnf
  · have := hp.filled.le; omega

theorem FilledWith.extend {p : MediaPlaylist} {c : Int} {segs : List Ptr}
    (hp : FilledWith p c segs) (hk : 0 < segs.length) :
    ∃ q, p.ExtendCapacity = .ok q ∧ FilledWith q (c + segs.length) segs := by
  have hcount : p.count = segs.length := hp.filled.count
  have hpos : p.count > 0 := by rw [hcount]; omega
  refine ⟨_, ExtendCapacity_ok hpos, ?_, ?_, ?_⟩
  · refine ⟨?_, ?_, hp.filled.head, hcount, ?_, ?_⟩
    · show ((p.Segments ++ List.replicate p.count.toNat (none : Option Ptr)).length : Int) = _
      rw [List.length_append, List.length_replicate, hcount]
      have := hp.filled.len
      push_cast
      omega
    · show ((p.Segments ++ List.replicate p.count.toNat (none : Option Ptr)).length : Int) = _
      rw [List.length_append, List.length_replicate, hcount]
      have := hp.filled.len
      push_cast
      omega
    · show p.count = Int.tmod segs.length (c + segs.length)
      rw [hcount, Int.tmod_eq_of_lt (by omega) (by have := hp.pos; omega)]
    · have := hp.pos; omega
  · have := hp.pos; omega
  · intro i hi
    show (p.Segments ++ List.replicate p.count.toNat (none : Option Ptr))[i]? = _
    have hlen : i < p.Segments.length := by
      have h1 := hp.filled.len
      have h2 := hp.filled.le
      omega
    rw [List.getElem?_append_left hlen]
    exact hp.slots i hi

theorem FilledWith.autoExtend {p : MediaPlaylist} {c : Int} {segs : List Ptr}
    (hp : FilledWith p c segs) (h : Heap) (a : Ptr) :
    ∃ q c', p.AppendWithAutoExtend h (some a) = .ok q ∧ FilledWith q c' (segs ++ [a]) := by
  have hcount : p.count = segs.length := hp.filled.count
  have hcap : p.capacity = c := hp.filled.cap
  have hc1 := hp.pos
  have hdiv : Int.tdiv (p.capacity * 2) 3 = (c * 2) / 3 := by
    rw [hcap]; exact Int.tdiv_eq_ediv (by omega) (by omega)
  unfold MediaPlaylist.AppendWithAutoExtend
  by_cases hgt : p.count > Int.tdiv (p.capacity * 2) 3
  · rw [if_pos hgt]
    have hk : 0 < segs.length := by
      rw [hdiv, hcount] at hgt; omega
    obtain ⟨q1, hq1, hf1⟩ := hp.extend hk
    obtain ⟨q, hq, hf⟩ := hf1.append (by omega) h a
    exact ⟨q, _, by rw [hq1]; exact hq, hf⟩
  · rw [if_neg hgt]
    have hk : (segs.length : Int) < c := by
      rw [hdiv, hcount] at hgt; omega
    obtain ⟨q, hq, hf⟩ := hp.append hk h a
    exact ⟨q, c, hq, hf⟩

theorem FilledWith.window {p : MediaPlaylist} {c : Int} {segs : List Ptr}
    (hp : FilledWith p c segs) :
    p.Count = segs.length ∧ p.head = 0 ∧
    ∀ i (hi : i < segs.length),
      index p.Segments (Int.tmod (p.head + i) p.capacity) = some (some segs[i]) := by
  refine ⟨hp.filled.count, hp.filled.head, ?_⟩
  intro i hi
  have hic : (i : Int) < c := by have := hp.filled.le; omega
  rw [hp.filled.head, hp.filled.cap, Int.zero_add,
    Int.tmod_eq_of_lt (Int.ofNat_nonneg i) hic, index_eq_getElem?]
  exact hp.slots i hi

theorem FilledWith.appendMix_ok (h : Heap) (calls : List (Bool × Ptr)) :
    ∀ (p : MediaPlaylist) (c : Int) (segs : List Ptr), FilledWith p c segs →
      (∀ pre a post q, calls = pre ++ (false, a) :: post → appendMix h p pre = .ok q →
        ¬ (q.head = q.tail ∧ q.count > 0)) →
      ∃ q c', appendMix h p calls = .ok q ∧
        FilledWith q c' (segs ++ calls.map (fun x => x.2)) := by
  induction calls with
  | nil =>
    intro p c segs hp _
    exact ⟨p, c, rfl, by simpa using hp⟩
  | cons x rest ih =>
    intro p c segs hp hmix
    obtain ⟨b, a⟩ := x
    have hstep : ∃ q1 c1, p.appendCall h (b, a) = .ok q1 ∧ FilledWith q1 c1 (segs ++ [a]) := by
      cases b with
      | true =>
        obtain ⟨q1, c1, hq1, hf1⟩ := hp.autoExtend h a
        exact ⟨q1, c1, by simpa [MediaPlaylist.appendCall] using hq1, hf1⟩
      | false =>
        have hnf := hmix [] a rest p rfl rfl
        obtain ⟨q1, hq1, hf1⟩ := hp.append (hp.not_full hnf) h a
        exact ⟨q1, c, by simpa [MediaPlaylist.appendCall] using hq1, hf1⟩
    obtain ⟨q1, c1, hq1, hf1⟩ := hstep
    have hmix1 : ∀ pre a' post q, rest = pre ++ (false, a') :: post →
        appendMix h q1 pre = .ok q → ¬ (q.head = q.tail ∧ q.count > 0) := by
      intro pre a' post q hrest hpre
      refine hmix ((b, a) :: pre) a' post q (by rw [hrest]; rfl) ?_
      simp only [appendMix, hq1, hpre]
    obtain ⟨q, c', hq, hf⟩ := ih q1 c1 (segs ++ [a]) hf1 hmix1
    refine ⟨q, c', ?_, ?_⟩
    · simp only [appendMix, hq1, hq]
    · simpa using hf

/-! ## Lemmas on the setters and the cache -/

theorem ExtendCapacity_buf {p q : MediaPlaylist} (hq : p.ExtendCapacity = .ok q) :
    q.buf = p.buf := by
  unfold MediaPlaylist.ExtendCapacity at hq
  repeat' split at hq
  all_goals first
    | (simp at hq; done)
    | (injection hq with hq; subst hq; rfl)

theorem SetWinSize_buf {p q : MediaPlaylist} {winsize : Int}
    (hq : p.SetWinSize winsize = .ok q) : q.buf = p.buf := by
  unfold MediaPlaylist.SetWinSize at hq
  repeat' split at hq
  all_goals first
    | (simp at hq; done)
    | (injection hq with hq; subst hq; rfl)

theorem SetDefaultKey_buf {h h' : Heap} {p q : MediaPlaylist}
    {method uri iv keyformat keyformatversions : String}
    (hq : p.SetDefaultKey h method uri iv keyformat keyformatversions = .ok (q, h')) :
    q.buf = p.buf := by
  unfold MediaPlaylist.SetDefaultKey at hq
  injection hq with hq
  injection hq with h1 h2
  subst h1
  rfl

theorem SetKey_buf {h h' : Heap} {p q : MediaPlaylist}
    {method uri iv keyformat keyformatversions : String}
    (hq : p.SetKey h method uri iv keyformat keyformatversions = .ok (q, h')) :
    q.buf = p.buf := by
  unfold MediaPlaylist.SetKey at hq
  repeat' split at hq
  all_goals first
    | (simp at hq; done)
    | (injection hq with hq; injection hq with h1 h2; subst h1; rfl)

theorem SetMap_buf {h h' : Heap} {p q : MediaPlaylist} {uri : String} {limit offset : Int}
    (hq : p.SetMap h uri limit offset = .ok (q, h')) : q.buf = p.buf := by
  unfold MediaPlaylist.SetMap at hq
  repeat' split at hq
  all_goals first
    | (simp at hq; done)
    | (injection hq with hq; injection hq with h1 h2; subst h1; rfl)

theorem SetRange_buf {h h' : Heap} {p q : MediaPlaylist} {limit offset : Int}
    (hq : p.SetRange h limit offset = .ok (q, h')) : q.buf = p.buf := by
  unfold MediaPlaylist.SetRange at hq
  repeat' split at hq
  all_goals first
    | (simp at hq; done)
    | (injection hq with hq; injection hq with h1 h2; subst h1; rfl)

theorem SetSCTE35_buf {h h' : Heap} {p q : MediaPlaylist} {scte35 : Option Ptr}
    (hq : p.SetSCTE35 h scte35 = .ok (q, h')) : q.buf = p.buf := by
  unfold MediaPlaylist.SetSCTE35 at hq
  repeat' split at hq
  all_goals first
    | (simp at hq; done)
    | (injection hq with hq; injection hq with h1 h2; subst h1; rfl)

theorem SetDiscontinuity_buf {h h' : Heap} {p q : MediaPlaylist}
    (hq : p.SetDiscontinuity h = .ok (q, h')) : q.buf = p.buf := by
  unfold MediaPlaylist.SetDiscontinuity at hq
  repeat' split at hq
  all_goals first
    | (simp at hq; done)
    | (injection hq with hq; injection hq with h1 h2; subst h1; rfl)

theorem SetProgramDateTime_buf {h h' : Heap} {p q : MediaPlaylist} {value : Time}
    (hq : p.SetProgramDateTime h value = .ok (q, h')) : q.buf = p.buf := by
  unfold MediaPlaylist.SetProgramDateTime at hq
  repeat' split at hq
  all_goals first
    | (simp at hq; done)
    | (injection hq with hq; injection hq with h1 h2; subst h1; rfl)

theorem Encode_of_buf (F : Formatters) (h : Heap) {p q : MediaPlaylist} (hp : p.buf ≠ "")
    (hq : q.buf = p.buf) : q.buf = p.buf ∧ q.Encode F h = some q :=
  ⟨hq, Encode_cached (by rw [hq]; exact hp)⟩

theorem examplePlaylist_Encode :
    MediaPlaylist.Encode exampleFormatters exampleHeap examplePlaylist =
      some { examplePlaylist with
        buf := "#EXTM3U\n#EXT-X-VERSION:3\n#EXT-X-MEDIA-SEQUENCE:0\n" ++
          "#EXT-X-TARGETDURATION:9\n#EXTINF:?,title\ntest01.ts\n" } := by
  have h9 : (⌈(9 : ℚ)⌉ : Int) = 9 := by
    rw [Int.ceil_eq_iff]; norm_num
  have i3 : Itoa 3 = "3" := by decide
  have i0 : Itoa 0 = "0" := by decide
  have i9 : Itoa 9 = "9" := by decide
  have t1 : Int.tmod 1 3 = 1 := by decide
  have j9 : int64 9 = 9 := by decide
  simp [MediaPlaylist.Encode, examplePlaylist, MediaPlaylist.writeSegments,
    MediaPlaylist.writeSegment, MediaPlaylist.segmentDuration, MediaPlaylist.segmentSCTE,
    MediaPlaylist.segmentKey, MediaPlaylist.segmentMap, MediaPlaylist.header,
    MediaPlaylist.headerVersion, MediaPlaylist.headerKey, MediaPlaylist.headerMap,
    MediaPlaylist.headerType, MediaPlaylist.headerSequence, MediaPlaylist.headerTargetDuration,
    MediaPlaylist.headerIframe, MediaPlaylist.headerWidevine, exampleHeap, exampleFormatters,
    index, h9, j9, i3, i0, i9, t1, Time.IsZero]

/-! ## Lemmas on the master playlist -/

theorem quotedAttr_of (name pre v : String) (hpre : pre = "," ++ name ++ "=\"") :
    (if v ≠ "" then pre ++ v ++ "\"" else "") = quotedAttr name v := by
  subst hpre
  by_cases hv : v = "" <;> simp [quotedAttr, hv]

theorem plainAttr_of (name pre v : String) (hpre : pre = "," ++ name ++ "=") :
    (if v ≠ "" then pre ++ v else "") = plainAttr name v := by
  subst hpre
  by_cases hv : v = "" <;> simp [plainAttr, hv]

theorem writeAlternative_eq (alt : Alternative) :
    MasterPlaylist.writeAlternative alt = renderMedia alt ++ "\n" := by
  simp only [MasterPlaylist.writeAlternative, renderMedia]
  rw [quotedAttr_of "GROUP-ID" ",GROUP-ID=\"" _ (by decide), quotedAttr_of "NAME" ",NAME=\"" _ (by decide),
    plainAttr_of "AUTOSELECT" ",AUTOSELECT=" _ (by decide), quotedAttr_of "LANGUAGE" ",LANGUAGE=\"" _ (by decide),
    quotedAttr_of "FORCED" ",FORCED=\"" _ (by decide), quotedAttr_of "CHARACTERISTICS" ",CHARACTERISTICS=\"" _ (by decide),
    quotedAttr_of "SUBTITLES" ",SUBTITLES=\"" _ (by decide), quotedAttr_of "URI" ",URI=\"" _ (by decide)]
  by_cases h1 : alt.Type_ = "" <;> by_cases h4 : alt.Default = true <;>
    simp [h1, h4, String.append_assoc]

theorem FormatUint64_eq_Itoa {n : Int} (h0 : 0 ≤ n) (h1 : n < 2 ^ 64) :
    FormatUint64 n = Itoa n := by
  have hn : ¬ n < 0 := by omega
  simp only [FormatUint64, Itoa, if_neg hn]
  rw [Int.emod_eq_of_lt h0 h1]

theorem streamInf_eq (pl : Variant) (hp0 : 0 ≤ pl.ProgramID) (hp1 : pl.ProgramID < 2 ^ 64)
    (hb0 : 0 ≤ pl.Bandwidth) (hb1 : pl.Bandwidth < 2 ^ 64) :
    MasterPlaylist.streamInf pl = renderStreamInf pl := by
  simp only [MasterPlaylist.streamInf, renderStreamInf,
    FormatUint64_eq_Itoa hp0 hp1, FormatUint64_eq_Itoa hb0 hb1]
  rw [quotedAttr_of "CODECS" ",CODECS=\"" _ (by decide), plainAttr_of "RESOLUTION" ",RESOLUTION=" _ (by decide),
    quotedAttr_of "AUDIO" ",AUDIO=\"" _ (by decide), quotedAttr_of "VIDEO" ",VIDEO=\"" _ (by decide),
    quotedAttr_of "SUBTITLES" ",SUBTITLES=\"" _ (by decide), quotedAttr_of "NAME" ",NAME=\"" _ (by decide)]
  by_cases h5 : pl.Captions = "" <;> by_cases h6 : pl.Captions = "NONE" <;>
    simp [h5, h6, quotedAttr, String.ext_iff]

theorem iframeStreamInf_eq (pl : Variant) :
    MasterPlaylist.iframeStreamInf pl =
      "#EXT-X-I-FRAME-STREAM-INF:PROGRAM-ID=" ++ FormatUint64 pl.ProgramID ++
      ",BANDWIDTH=" ++ FormatUint64 pl.Bandwidth ++ quotedAttr "CODECS" pl.Codecs ++
      plainAttr "RESOLUTION" pl.Resolution ++ quotedAttr "VIDEO" pl.Video ++
      quotedAttr "URI" pl.URI := by
  simp only [MasterPlaylist.iframeStreamInf]
  rw [quotedAttr_of "CODECS" ",CODECS=\"" _ (by decide), plainAttr_of "RESOLUTION" ",RESOLUTION=" _ (by decide),
    quotedAttr_of "VIDEO" ",VIDEO=\"" _ (by decide), quotedAttr_of "URI" ",URI=\"" _ (by decide)]

theorem writeVariant_eq (p : MasterPlaylist) (pl : Variant) :
    MasterPlaylist.writeVariant p pl =
      if pl.Iframe then MasterPlaylist.iframeStreamInf pl ++ "\n"
      else MasterPlaylist.streamInf pl ++ "\n" ++ renderVariantURI p.Args pl.URI ++ "\n" := by
  simp only [MasterPlaylist.writeVariant, MasterPlaylist.iframeStreamInf,
    MasterPlaylist.streamInf, renderVariantURI]
  by_cases hI : pl.Iframe = true
  · simp only [hI, if_true]
  · simp only [hI, if_false, Bool.false_eq_true]
    by_cases ha : p.Args = "" <;> by_cases hq : pl.URI.contains '?' = true <;>
      simp [ha, hq, String.append_assoc]

theorem MasterPlaylist.writeAlternatives_written :
    ∀ (alts : List (Option Alternative)) (w : List String) (r : String × List String),
      MasterPlaylist.writeAlternatives alts w = some r →
      ∃ written : List Alternative, (written.map some).Sublist alts ∧
        r.1 = concatAll (written.map MasterPlaylist.writeAlternative) := by
  intro alts
  induction alts with
  | nil =>
    intro w r hr
    simp only [MasterPlaylist.writeAlternatives, Option.some.injEq] at hr
    subst hr
    exact ⟨[], List.Sublist.slnil, rfl⟩
  | cons x rest ih =>
    intro w r hr
    cases x with
    | none => simp [MasterPlaylist.writeAlternatives] at hr
    | some alt =>
      simp only [MasterPlaylist.writeAlternatives] at hr
      by_cases hk : MasterPlaylist.altKey alt ∈ w
      · rw [if_pos hk] at hr
        obtain ⟨written, hsub, hw⟩ := ih w r hr
        exact ⟨written, hsub.cons _, hw⟩
      · rw [if_neg hk] at hr
        cases hrest : MasterPlaylist.writeAlternatives rest (MasterPlaylist.altKey alt :: w) with
        | none => rw [hrest] at hr; simp at hr
        | some r' =>
          rw [hrest] at hr
          simp only [Option.map_some', Option.some.injEq] at hr
          obtain ⟨written, hsub, hw⟩ := ih _ r' hrest
          refine ⟨alt :: written, ?_, ?_⟩
          · simpa using hsub.cons₂ (some alt)
          · rw [← hr]
            simp [concatAll, hw]

theorem MasterPlaylist.writeVariants_order (p : MasterPlaylist) :
    ∀ (vs : List Variant) (w : List String) (out : String),
      MasterPlaylist.writeVariants p (vs.map some) w = some out →
      ∃ alts : List String, alts.length = vs.length ∧
        out = concatAll (List.zipWith (fun a v => a ++ MasterPlaylist.writeVariant p v)
          alts vs) := by
  intro vs
  induction vs with
  | nil =>
    intro w out hout
    simp only [List.map_nil, MasterPlaylist.writeVariants, Option.some.injEq] at hout
    subst hout
    exact ⟨[], rfl, rfl⟩
  | cons v rest ih =>
    intro w out hout
    simp only [List.map_cons, MasterPlaylist.writeVariants] at hout
    cases halts : MasterPlaylist.writeAlternatives v.Alternatives w with
    | none => rw [halts] at hout; simp at hout
    | some r =>
      obtain ⟨a, w'⟩ := r
      rw [halts] at hout
      simp only at hout
      cases hrest : MasterPlaylist.writeVariants p (rest.map some) w' with
      | none => rw [hrest] at hout; simp at hout
      | some out' =>
        rw [hrest] at hout
        simp only [Option.map_some', Option.some.injEq] at hout
        obtain ⟨alts, hlen, hjoin⟩ := ih w' out' hrest
        refine ⟨a :: alts, by simp [hlen], ?_⟩
        rw [← hout, hjoin]
        simp [concatAll]

theorem MasterPlaylist.writeVariants_plain (p : MasterPlaylist) :
    ∀ (vs : List Variant) (w : List String), (∀ v ∈ vs, v.Alternatives = []) →
      MasterPlaylist.writeVariants p (vs.map some) w =
        some (concatAll (vs.map (MasterPlaylist.writeVariant p))) := by
  intro vs
  induction vs with
  | nil => intro w _; rfl
  | cons v rest ih =>
    intro w hv
    have h1 : v.Alternatives = [] := hv v (List.mem_cons_self _ _)
    have h2 := ih w (fun x hx => hv x (List.mem_cons_of_mem _ hx))
    simp only [List.map_cons, MasterPlaylist.writeVariants, h1,
      MasterPlaylist.writeAlternatives, h2, Option.map_some']
    simp [concatAll]

theorem MasterPlaylist.appendAll_shape :
    ∀ (calls : List (String × Option Ptr × VariantParams)) (p : MasterPlaylist),
      (∀ c ∈ calls, c.2.2.Alternatives = []) →
      (p.appendAll calls).Variants = p.Variants ++ calls.map (fun c => some (variantOf c)) ∧
      (p.appendAll calls).ver = p.ver ∧ (p.appendAll calls).Args = p.Args ∧
      (calls ≠ [] → (p.appendAll calls).buf = "") := by
  intro calls
  induction calls with
  | nil => intro p _; simp [MasterPlaylist.appendAll]
  | cons c rest ih =>
    intro p hc
    have h1 : c.2.2.Alternatives = [] := hc c (List.mem_cons_self _ _)
    obtain ⟨hv, hver, hargs, hbuf⟩ :=
      ih (p.Append c.1 c.2.1 c.2.2) (fun x hx => hc x (List.mem_cons_of_mem _ hx))
    refine ⟨?_, ?_, ?_, ?_⟩
    · simp only [MasterPlaylist.appendAll, hv]
      simp [MasterPlaylist.Append, variantOf]
    · simp only [MasterPlaylist.appendAll, hver]
      simp [MasterPlaylist.Append, h1]
    · simp only [MasterPlaylist.appendAll, hargs]
      simp [MasterPlaylist.Append]
    · intro _
      simp only [MasterPlaylist.appendAll]
      by_cases hr : rest = []
      · subst hr
        simp [MasterPlaylist.appendAll, MasterPlaylist.Append]
      · exact hbuf hr

theorem MasterPlaylist.writeVariant_args (p p' : MasterPlaylist) (pl : Variant)
    (h : p.Args = p'.Args) :
    MasterPlaylist.writeVariant p pl = MasterPlaylist.writeVariant p' pl := by
  simp only [MasterPlaylist.writeVariant, h]

theorem MasterPlaylist.appendAll_encoded
    (calls : List (String × Option Ptr × VariantParams))
    (hc : ∀ c ∈ calls, c.2.2.Alternatives = []) :
    (NewMasterPlaylist.appendAll calls).encoded =
      some ("#EXTM3U\n#EXT-X-VERSION:3\n" ++
        concatAll (calls.map (fun c => MasterPlaylist.writeVariant NewMasterPlaylist
          (variantOf c)))) := by
  obtain ⟨hv, hver, hargs, hbuf⟩ := MasterPlaylist.appendAll_shape calls NewMasterPlaylist hc
  have hb : (NewMasterPlaylist.appendAll calls).buf = "" := by
    by_cases hn : calls = []
    · subst hn; rfl
    · exact hbuf hn
  have hvs : (NewMasterPlaylist.appendAll calls).Variants = (calls.map variantOf).map some := by
    rw [hv]
    simp [NewMasterPlaylist]
  have hplain := MasterPlaylist.writeVariants_plain (NewMasterPlaylist.appendAll calls)
    (calls.map variantOf) []
    (by
      intro v hvm
      obtain ⟨c, hcm, rfl⟩ := List.mem_map.mp hvm
      exact hc c hcm)
  have h3 : Itoa 3 = "3" := by decide
  have hver3 : (NewMasterPlaylist.appendAll calls).ver = 3 := by rw [hver]; rfl
  have hmap : (calls.map variantOf).map
        (MasterPlaylist.writeVariant (NewMasterPlaylist.appendAll calls)) =
      calls.map (fun c => MasterPlaylist.writeVariant NewMasterPlaylist (variantOf c)) := by
    rw [List.map_map]
    apply List.map_congr_left
    intro c _
    exact MasterPlaylist.writeVariant_args _ _ _ hargs
  simp only [MasterPlaylist.encoded, MasterPlaylist.Encode, hb, ne_eq, not_true_eq_false,
    if_false, hvs, hplain, hmap, Option.map_some', hver3, h3]
  simp [String.append_assoc]

theorem altKey_of_key {a b : Alternative} (h : a.key = b.key) :
    MasterPlaylist.altKey a = MasterPlaylist.altKey b := by
  simp only [Alternative.key, Prod.mk.injEq] at h
  obtain ⟨h1, h2, h3, h4⟩ := h
  simp only [MasterPlaylist.altKey, h1, h2, h3, h4]

theorem MasterPlaylist.writeAlternatives_new :
    ∀ (alts : List Alternative) (w : List String)
      (seen : List (String × String × String × String)),
      (∀ a ∈ alts, ∀ b ∈ alts, MasterPlaylist.altKey a = MasterPlaylist.altKey b →
        a.key = b.key) →
      (∀ a ∈ alts, (MasterPlaylist.altKey a ∈ w ↔ a.key ∈ seen)) →
      ∃ w', MasterPlaylist.writeAlternatives (alts.map some) w =
          some (concatAll ((newAlternatives alts seen).map MasterPlaylist.writeAlternative), w') ∧
        ∀ s, s ∈ w' ↔ s ∈ w ∨ ∃ a ∈ alts, MasterPlaylist.altKey a = s := by
  intro alts
  induction alts with
  | nil =>
    intro w seen _ _
    exact ⟨w, rfl, by simp⟩
  | cons a rest ih =>
    intro w seen hinj hw
    have hinj' : ∀ x ∈ rest, ∀ y ∈ rest, MasterPlaylist.altKey x = MasterPlaylist.altKey y →
        x.key = y.key :=
      fun x hx y hy => hinj x (List.mem_cons_of_mem _ hx) y (List.mem_cons_of_mem _ hy)
    have ha := hw a (List.mem_cons_self _ _)
    by_cases hk : MasterPlaylist.altKey a ∈ w
    · have hs : a.key ∈ seen := ha.mp hk
      obtain ⟨w', h1, h2⟩ := ih w seen hinj' (fun x hx => hw x (List.mem_cons_of_mem _ hx))
      refine ⟨w', ?_, ?_⟩
      · simp only [List.map_cons, MasterPlaylist.writeAlternatives, if_pos hk, newAlternatives,
          if_pos hs]
        exact h1
      · intro s
        rw [h2 s]
        constructor
        · rintro (h | ⟨x, hx, hxs⟩)
          · exact Or.inl h
          · exact Or.inr ⟨x, List.mem_cons_of_mem _ hx, hxs⟩
        · rintro (h | ⟨x, hx, hxs⟩)
          · exact Or.inl h
          · rcases List.mem_cons.mp hx with rfl | hx
            · exact Or.inl (hxs ▸ hk)
            · exact Or.inr ⟨x, hx, hxs⟩
    · have hs : a.key ∉ seen := fun h => hk (ha.mpr h)
      obtain ⟨w', h1, h2⟩ := ih (MasterPlaylist.altKey a :: w) (a.key :: seen) hinj'
        (by
          intro x hx
          have hxw := hw x (List.mem_cons_of_mem _ hx)
          simp only [List.mem_cons]
          constructor
          · rintro (h | h)
            · exact Or.inl (hinj x (List.mem_cons_of_mem _ hx) a (List.mem_cons_self _ _) h)
            · exact Or.inr (hxw.mp h)
          · rintro (h | h)
            · exact Or.inl (altKey_of_key h)
            · exact Or.inr (hxw.mpr h))
      refine ⟨w', ?_, ?_⟩
      · simp only [List.map_cons, MasterPlaylist.writeAlternatives, if_neg hk, newAlternatives,
          if_neg hs, h1, Option.map_some', concatAll]
      · intro s
        rw [h2 s]
        simp only [List.mem_cons]
        constructor
        · rintro ((h | h) | ⟨x, hx, hxs⟩)
          · exact Or.inr ⟨a, Or.inl rfl, h.symm⟩
          · exact Or.inl h
          · exact Or.inr ⟨x, Or.inr hx, hxs⟩
        · rintro (h | ⟨x, hx, hxs⟩)
          · exact Or.inl (Or.inr h)
          · rcases hx with rfl | hx
            · exact Or.inl (Or.inl hxs.symm)
            · exact Or.inr ⟨x, hx, hxs⟩

theorem map_some_reduceOption {α : Type} :
    ∀ l : List (Option α), (∀ x ∈ l, x ≠ none) → l.reduceOption.map some = l
  | [], _ => rfl
  | none :: _, h => absurd rfl (h none (List.mem_cons_self _ _))
  | some a :: rest, h => by
    rw [List.reduceOption_cons_of_some, List.map_cons,
      map_some_reduceOption rest (fun x hx => h x (List.mem_cons_of_mem _ hx))]

theorem newAlternatives_keys :
    ∀ (alts : List Alternative) (seen : List (String × String × String × String)),
      ((newAlternatives alts seen).map Alternative.key).Nodup ∧
      (∀ k, k ∈ (newAlternatives alts seen).map Alternative.key ↔
        k ∈ alts.map Alternative.key ∧ k ∉ seen) ∧
      (newAlternatives alts seen).Sublist alts := by
  intro alts
  induction alts with
  | nil => intro seen; simp [newAlternatives]
  | cons a rest ih =>
    intro seen
    by_cases hs : a.key ∈ seen
    · obtain ⟨h1, h2, h3⟩ := ih seen
      simp only [newAlternatives, if_pos hs]
      refine ⟨h1, ?_, h3.cons _⟩
      intro k
      rw [h2 k]
      simp only [List.map_cons, List.mem_cons]
      constructor
      · rintro ⟨hk, hn⟩
        exact ⟨Or.inr hk, hn⟩
      · rintro ⟨hk | hk, hn⟩
        · exact absurd (hk ▸ hs) hn
        · exact ⟨hk, hn⟩
    · obtain ⟨h1, h2, h3⟩ := ih (a.key :: seen)
      simp only [newAlternatives, if_neg hs, List.map_cons, List.nodup_cons]
      refine ⟨⟨?_, h1⟩, ?_, h3.cons₂ _⟩
      · intro hmem
        have := ((h2 _).mp hmem).2
        exact this (List.mem_cons_self _ _)
      · intro k
        simp only [List.mem_cons]
        rw [h2 k]
        simp only [List.mem_cons, not_or]
        constructor
        · rintro (hk | ⟨hk, hn1, hn2⟩)
          · exact ⟨Or.inl hk, hk ▸ hs⟩
          · exact ⟨Or.inr hk, hn2⟩
        · rintro ⟨hk | hk, hn⟩
          · exact Or.inl hk
          · by_cases hka : k = a.key
            · exact Or.inl hka
            · exact Or.inr ⟨hk, hka, hn⟩

theorem MasterPlaylist.writeVariants_new (p : MasterPlaylist) :
    ∀ (vs : List Variant) (w : List String)
      (seen : List (String × String × String × String)),
      (∀ v ∈ vs, ∀ x ∈ v.Alternatives, x ≠ none) →
      (∀ v ∈ vs, ∀ a ∈ v.Alternatives.reduceOption, ∀ v' ∈ vs,
        ∀ b ∈ v'.Alternatives.reduceOption,
        MasterPlaylist.altKey a = MasterPlaylist.altKey b → a.key = b.key) →
      (∀ v ∈ vs, ∀ a ∈ v.Alternatives.reduceOption,
        (MasterPlaylist.altKey a ∈ w ↔ a.key ∈ seen)) →
      MasterPlaylist.writeVariants p (vs.map some) w = some (renderVariants p vs seen) := by
  intro vs
  induction vs with
  | nil => intro w seen _ _ _; rfl
  | cons v rest ih =>
    intro w seen hnil hinj hw
    have hv := List.mem_cons_self v rest
    obtain ⟨w', h1, h2⟩ := MasterPlaylist.writeAlternatives_new v.Alternatives.reduceOption w
      seen (fun a ha b hb => hinj v hv a ha v hv b hb) (hw v hv)
    rw [map_some_reduceOption _ (hnil v hv)] at h1
    have hrest := ih w' (v.Alternatives.reduceOption.map Alternative.key ++ seen)
      (fun x hx => hnil x (List.mem_cons_of_mem _ hx))
      (fun x hx a ha y hy b hb =>
        hinj x (List.mem_cons_of_mem _ hx) a ha y (List.mem_cons_of_mem _ hy) b hb)
      (by
        intro x hx a ha
        have hxw := hw x (List.mem_cons_of_mem _ hx) a ha
        rw [h2, List.mem_append, List.mem_map]
        constructor
        · rintro (h | ⟨b, hb, hab⟩)
          · exact Or.inr (hxw.mp h)
          · exact Or.inl ⟨b, hb, hinj v hv b hb x (List.mem_cons_of_mem _ hx) a ha hab⟩
        · rintro (⟨b, hb, hab⟩ | h)
          · exact Or.inr ⟨b, hb, altKey_of_key hab⟩
          · exact Or.inl (hxw.mpr h))
    simp only [List.map_cons, MasterPlaylist.writeVariants, h1, hrest, Option.map_some',
      renderVariants]
    have hm : (newAlternatives v.Alternatives.reduceOption seen).map
          MasterPlaylist.writeAlternative =
        (newAlternatives v.Alternatives.reduceOption seen).map
          (fun a => renderMedia a ++ "\n") :=
      List.map_congr_left (fun a _ => writeAlternative_eq a)
    rw [hm]

/-! ## Lemmas on `FormatFloat` -/

theorem roundHalfEven_mem (x : ℚ) : roundHalfEven x = ⌊x⌋ ∨ roundHalfEven x = ⌊x⌋ + 1 := by
  unfold roundHalfEven
  split_ifs <;> simp

theorem roundHalfEven_intCast (n : Int) : roundHalfEven (n : ℚ) = n := by
  simp [roundHalfEven]

theorem roundHalfEven_nonneg {x : ℚ} (hx : 0 ≤ x) : 0 ≤ roundHalfEven x := by
  have h0 : 0 ≤ ⌊x⌋ := Int.floor_nonneg.mpr hx
  rcases roundHalfEven_mem x with h | h <;> rw [h] <;> omega

theorem roundFloat_neg (mantbits : Nat) (emin : Int) (x : ℚ) :
    roundFloat mantbits emin (-x) = -roundFloat mantbits emin x := by
  unfold roundFloat
  by_cases h0 : x = 0
  · simp [h0]
  · have h0' : ¬ -x = 0 := by simpa using h0
    rw [if_neg h0, if_neg h0', abs_neg]
    rcases lt_or_gt_of_ne h0 with hlt | hgt
    · have h1 : ¬ -x < 0 := by linarith
      rw [if_pos hlt, if_neg h1]
      ring
    · have h1 : -x < 0 := by linarith
      have h2 : ¬ x < 0 := by linarith
      rw [if_pos h1, if_neg h2]
      ring

theorem roundFloat_abs (mantbits : Nat) (emin : Int) (x : ℚ) :
    roundFloat mantbits emin |x| = |roundFloat mantbits emin x| := by
  have hpos : ∀ y : ℚ, 0 ≤ y → 0 ≤ roundFloat mantbits emin y := by
    intro y hy
    unfold roundFloat
    by_cases h0 : y = 0
    · simp [h0]
    · have h1 : ¬ y < 0 := by linarith
      rw [if_neg h0, if_neg h1, one_mul]
      apply mul_nonneg
      · exact_mod_cast roundHalfEven_nonneg (div_nonneg (abs_nonneg y) (by positivity))
      · positivity
  rcases le_total 0 x with hx | hx
  · rw [abs_of_nonneg hx, abs_of_nonneg (hpos x hx)]
  · have h1 : roundFloat mantbits emin x = -roundFloat mantbits emin (-x) := by
      rw [roundFloat_neg, neg_neg]
    rw [abs_of_nonpos hx, h1, abs_neg, abs_of_nonneg (hpos (-x) (by linarith))]

theorem floor_scaled_natCast (k : ℕ) (e : Int) :
    (0 ≤ e → ∃ m : ℕ, ((⌊(k : ℚ) / 10 ^ e⌋ : Int) : ℚ) * 10 ^ e = m ∧
      ((⌊(k : ℚ) / 10 ^ e⌋ : Int) : ℚ) * 10 ^ e + 10 ^ e = ((m + 10 ^ e.toNat : ℕ) : ℚ)) ∧
    (e < 0 → ((⌊(k : ℚ) / 10 ^ e⌋ : Int) : ℚ) * 10 ^ e = k ∧
      ((roundHalfEven ((k : ℚ) / 10 ^ e) : Int) : ℚ) * 10 ^ e = k) := by
  constructor
  · intro he
    obtain ⟨j, rfl⟩ := Int.eq_ofNat_of_zero_le he
    have h10 : ((10 : ℚ) ^ ((j : ℕ) : Int)) = ((10 ^ j : ℕ) : ℚ) := by
      rw [zpow_natCast]; push_cast; rfl
    have hfl : ⌊(k : ℚ) / ((10 ^ j : ℕ) : ℚ)⌋ = ((k / 10 ^ j : ℕ) : Int) := by
      have := Rat.floor_intCast_div_natCast (k : Int) (10 ^ j)
      simpa using this
    refine ⟨k / 10 ^ j * 10 ^ j, ?_, ?_⟩
    · rw [h10, hfl]; norm_cast
    · rw [h10, hfl, Int.toNat_ofNat]; norm_cast
  · intro he
    obtain ⟨j, hj⟩ : ∃ j : ℕ, e = -(j : Int) := ⟨(-e).toNat, by omega⟩
    subst hj
    have h10 : ((10 : ℚ) ^ (-(j : Int))) = (((10 ^ j : ℕ) : ℚ))⁻¹ := by
      rw [zpow_neg, zpow_natCast]; push_cast; rfl
    have hdiv : (k : ℚ) / 10 ^ (-(j : Int)) = ((k * 10 ^ j : ℕ) : Int) := by
      rw [h10]; push_cast; field_simp
    have hne : ((10 ^ j : ℕ) : ℚ) ≠ 0 := by positivity
    constructor
    · rw [hdiv, Int.floor_intCast, h10]
      push_cast
      field_simp
    · rw [hdiv, roundHalfEven_intCast, h10]
      push_cast
      field_simp

theorem shortestAux_natCast (rnd : ℚ → ℚ) (k : ℕ) (hk : rnd k = k) :
    ∀ (fuel : Nat) (e : Int), ∃ m : ℕ, shortestAux rnd k fuel e = m ∧ rnd m = k := by
  intro fuel
  induction fuel with
  | zero => intro e; exact ⟨k, rfl, hk⟩
  | succ fuel ih =>
    intro e
    obtain ⟨hpos, hneg⟩ := floor_scaled_natCast k e
    unfold shortestAux
    by_cases he : 0 ≤ e
    · obtain ⟨m, hm, hu⟩ := hpos he
      by_cases hd : rnd (((⌊(k : ℚ) / 10 ^ e⌋ : Int) : ℚ) * 10 ^ e) = k
      · rw [if_pos hd]
        by_cases hup : rnd (((⌊(k : ℚ) / 10 ^ e⌋ : Int) : ℚ) * 10 ^ e + 10 ^ e) = k
        · rw [if_pos hup]
          rcases roundHalfEven_mem ((k : ℚ) / 10 ^ e) with h | h
          · rw [h, hm]
            exact ⟨m, rfl, by rw [← hm]; exact hd⟩
          · rw [h]
            refine ⟨m + 10 ^ e.toNat, ?_, by rw [← hu]; exact hup⟩
            rw [← hu]
            push_cast
            ring
        · rw [if_neg hup, hm]
          exact ⟨m, rfl, by rw [← hm]; exact hd⟩
      · rw [if_neg hd]
        by_cases hup : rnd (((⌊(k : ℚ) / 10 ^ e⌋ : Int) : ℚ) * 10 ^ e + 10 ^ e) = k
        · rw [if_pos hup, hu]
          exact ⟨_, rfl, by rw [← hu]; exact hup⟩
        · rw [if_neg hup]
          exact ih (e - 1)
    · obtain ⟨hd, hr⟩ := hneg (by omega)
      rw [hd, if_pos hk, hr]
      by_cases hup : rnd ((k : ℚ) + 10 ^ e) = k
      · rw [if_pos hup]
        exact ⟨k, rfl, hk⟩
      · rw [if_neg hup]
        exact ⟨k, rfl, hk⟩

theorem decimalString_natCast (m : ℕ) : decimalString (m : ℚ) = Nat.repr m := by
  have hlen : (Nat.toDigits 2 1).length = 1 := by decide
  have hfd : fracDigits (m : ℚ) = 0 := by
    simp [fracDigits, hlen, List.range_succ]
  simp [decimalString, hfd, fixedString]

theorem FormatFloat_integral (n : Int) (hn : n ≠ 0) (hf : float64 (n : ℚ) = n)
    (hfin : |(n : ℚ)| < 2 ^ 1024) (fmt : Char) :
    ∃ m : Int, FormatFloat n fmt (-1) 64 = Itoa m ∧ float64 (m : ℚ) = n := by
  have habs : float64 |(n : ℚ)| = |(n : ℚ)| := by
    unfold float64 at hf ⊢
    rw [roundFloat_abs, hf]
  have hcast : |(n : ℚ)| = ((n.natAbs : ℕ) : ℚ) := by
    rw [Nat.cast_natAbs, Int.cast_abs]
  obtain ⟨m, hm, hrm⟩ := shortestAux_natCast float64 n.natAbs (by rw [← hcast]; exact habs)
    ((ilog 10 |(n : ℚ)| + (Nat.toDigits 2 (|(n : ℚ)|).den).length).toNat + 1)
    (ilog 10 |(n : ℚ)|)
  have h64 : ¬ ((64 : Int) = 32) := by decide
  have hnotinf : ¬ ((2 : ℚ) ^ 1024 ≤ |float64 (n : ℚ)|) := by
    rw [hf]; exact not_le.mpr hfin
  have hm0 : m ≠ 0 := by
    intro h0
    subst h0
    have : float64 ((0 : ℕ) : ℚ) = 0 := by simp [float64, roundFloat]
    rw [this] at hrm
    have : n.natAbs = 0 := by exact_mod_cast hrm.symm
    exact hn (Int.natAbs_eq_zero.mp this)
  have hbody : decimalString (shortest float64 |float64 (n : ℚ)|) = Nat.repr m := by
    rw [hf]
    unfold shortest
    rw [← hcast] at hm
    rw [hm, decimalString_natCast]
  unfold FormatFloat
  simp only [h64, if_false, if_neg hnotinf, hbody,
    show ((-1 : Int) < 0) by decide, if_true]
  by_cases hlt : n < 0
  · refine ⟨-(m : Int), ?_, ?_⟩
    · have h1 : ((n : ℚ) < 0) := by exact_mod_cast hlt
      have h2 : (-(m : Int)) < 0 := by omega
      simp [Itoa, h1, h2]
    · have h3 : ((-(m : Int) : Int) : ℚ) = -((m : ℕ) : ℚ) := by push_cast; rfl
      rw [h3]
      unfold float64 at hrm ⊢
      rw [roundFloat_neg, hrm, ← hcast, abs_of_neg (by exact_mod_cast hlt)]
      ring
  · refine ⟨(m : Int), ?_, ?_⟩
    · have h1 : ¬ ((n : ℚ) < 0) := by exact_mod_cast hlt
      have h2 : ¬ ((m : Int) < 0) := by omega
      simp [Itoa, h1, h2]
    · have h3 : (((m : ℕ) : Int) : ℚ) = ((m : ℕ) : ℚ) := by push_cast; rfl
      rw [h3, hrm, ← hcast, abs_of_nonneg (by exact_mod_cast (not_lt.mp hlt))]

/-! ## Lemmas on the lines of a segment -/

theorem segmentSCTE_eq (F : Formatters) (h : Heap) (seg : MediaSegment) :
    MediaPlaylist.segmentSCTE F h seg =
      (match seg.SCTE with
        | none => ""
        | some c => renderSCTE F (h.scte c)) := by
  unfold MediaPlaylist.segmentSCTE
  cases hs : seg.SCTE with
  | none => rfl
  | some c =>
    simp only [renderSCTE]
    rw [quotedAttr_of "ID" ",ID=\"" _ (by decide)]
    by_cases h1 : (h.scte c).Syntax = Syntax672014
    · by_cases ht : (h.scte c).Time = 0 <;> simp [h1, ht, String.append_assoc]
    · by_cases h2 : (h.scte c).Syntax = SyntaxOATCLS
      · by_cases h3 : (h.scte c).CueType = SCTE35CueStart
        · simp [h1, h2, h3, String.append_assoc]
        · by_cases h4 : (h.scte c).CueType = SCTE35CueMid
          · simp [h1, h2, h3, h4, String.ext_iff]
          · by_cases h5 : (h.scte c).CueType = SCTE35CueEnd
            · simp [h1, h2, h3, h4, h5, String.ext_iff]
            · simp [h1, h2, h3, h4, h5]
      · simp [h1, h2]

theorem segmentKey_eq (h : Heap) (p : MediaPlaylist) (seg : MediaSegment) :
    MediaPlaylist.segmentKey h p seg =
      (match seg.Key with
        | none => ""
        | some k => if p.Key = some k then "" else renderKey (h.key k) ++ "\n") := by
  unfold MediaPlaylist.segmentKey
  cases hk : seg.Key with
  | none => rfl
  | some k =>
    simp only [renderKey]
    by_cases hp : p.Key = some k
    · simp [hp]
    · by_cases h1 : (h.key k).Method = "NONE" <;> by_cases h2 : (h.key k).IV = "" <;>
        by_cases h3 : (h.key k).Keyformat = "" <;>
        by_cases h4 : (h.key k).Keyformatversions = "" <;>
        simp [hp, h1, h2, h3, h4, String.ext_iff]

theorem segmentMap_eq (h : Heap) (p : MediaPlaylist) (seg : MediaSegment) :
    MediaPlaylist.segmentMap h p seg =
      (match p.Map, seg.Map with
        | none, some m => renderMap (h.map m) ++ "\n"
        | _, _ => "") := by
  unfold MediaPlaylist.segmentMap
  cases hp : p.Map with
  | some m0 => rfl
  | none =>
    cases hs : seg.Map with
    | none => rfl
    | some m =>
      simp only [renderMap]
      by_cases hl : (h.map m).Limit > 0 <;> simp [hl, String.ext_iff]

theorem CacheOk_nil (F : Formatters) (p : MediaPlaylist) : CacheOk F p [] := by
  intro d s hs
  simp at hs

theorem segmentDuration_ok (F : Formatters) (p : MediaPlaylist) (seg : MediaSegment)
    {cache : List (ℚ × String)} (hc : CacheOk F p cache) :
    (MediaPlaylist.segmentDuration F p seg cache).1 = p.durationText F seg.Duration ∧
    CacheOk F p (MediaPlaylist.segmentDuration F p seg cache).2 := by
  unfold MediaPlaylist.segmentDuration
  cases hl : cache.lookup seg.Duration with
  | some str => exact ⟨hc _ _ hl, hc⟩
  | none =>
    have hcons : CacheOk F p ((seg.Duration, p.durationText F seg.Duration) :: cache) := by
      intro d s hs
      rw [List.lookup_cons] at hs
      by_cases hd : d == seg.Duration
      · rw [hd] at hs
        simp only [Option.some.injEq] at hs
        rw [← hs, eq_of_beq hd]
      · simp only [hd] at hs
        exact hc d s hs
    by_cases hi : p.durationAsInt = true
    · simp only [hi, if_true]
      refine ⟨by simp [MediaPlaylist.durationText, hi], ?_⟩
      have := hcons
      simp only [MediaPlaylist.durationText, hi, if_true] at this
      exact this
    · simp only [hi, if_false, Bool.false_eq_true]
      refine ⟨by simp [MediaPlaylist.durationText, hi], ?_⟩
      have := hcons
      simp only [MediaPlaylist.durationText, hi, if_false, Bool.false_eq_true] at this
      exact this

theorem writeSegment_ok (F : Formatters) (h : Heap) (p : MediaPlaylist) (seg : MediaSegment)
    {cache : List (ℚ × String)} (hc : CacheOk F p cache) :
    (MediaPlaylist.writeSegment F h p seg cache).1 = renderSegment F h p seg ∧
    CacheOk F p (MediaPlaylist.writeSegment F h p seg cache).2 := by
  obtain ⟨hd, hc'⟩ := segmentDuration_ok F p seg hc
  refine ⟨?_, hc'⟩
  simp only [MediaPlaylist.writeSegment, renderSegment, hd, segmentSCTE_eq, segmentKey_eq,
    segmentMap_eq]
  by_cases hz : seg.ProgramDateTime.IsZero = true <;> by_cases ha : p.Args = "" <;>
    simp [hz, ha, String.append_assoc]

theorem writeSegments_eq_render (F : Formatters) (h : Heap) (p : MediaPlaylist) :
    ∀ (n : Nat) (i head : Int) (cache : List (ℚ × String)), CacheOk F p cache →
      MediaPlaylist.writeSegments F h p n i head cache = renderSegments F h p n i head := by
  intro n
  induction n with
  | zero => intro i head cache _; rfl
  | succ n ih =>
    intro i head cache hc
    unfold MediaPlaylist.writeSegments renderSegments
    by_cases hwin : i < p.winsize ∨ p.winsize = 0
    · rw [if_pos hwin, if_pos hwin]
      cases hidx : index p.Segments head with
      | none => rfl
      | some slot =>
        by_cases hcap : p.capacity = 0
        · simp only [hcap, if_true]
        · simp only [hcap, if_false]
          cases slot with
          | none => exact ih _ _ _ hc
          | some a =>
            obtain ⟨h1, h2⟩ := writeSegment_ok F h p (h.seg a) hc
            simp only [ih _ _ _ h2, h1]
    · rw [if_neg hwin, if_neg hwin]


theorem renderSegments_window (F : Formatters) (h : Heap) (p : MediaPlaylist) :
    ∀ (slots : List (Option Ptr)) (i head : Int), 0 ≤ i →
      (∀ j (hj : j < slots.length),
        index p.Segments (slotFrom p.capacity head j) = some (slots.get ⟨j, hj⟩)) →
      (slots ≠ [] → p.capacity ≠ 0) →
      renderSegments F h p slots.length i head =
        some (concatAll
          ((if p.winsize = 0 then slots.reduceOption
            else slots.reduceOption.take (p.winsize - i).toNat).map
              (fun a => renderSegment F h p (h.seg a)))) := by
  intro slots
  induction slots with
  | nil =>
    intro i head _ _ _
    simp [renderSegments, concatAll]
  | cons x rest ih =>
    intro i head hi hslots hcap
    have hcap0 : ¬ p.capacity = 0 := hcap (by simp)
    have h0 : index p.Segments head = some x := hslots 0 (by simp)
    have hrest : ∀ j (hj : j < rest.length),
        index p.Segments (slotFrom p.capacity (Int.tmod (head + 1) p.capacity) j) =
          some (rest.get ⟨j, hj⟩) := by
      intro j hj
      exact hslots (j + 1) (by simp; omega)
    simp only [List.length_cons, renderSegments]
    by_cases hwin : i < p.winsize ∨ p.winsize = 0
    · rw [if_pos hwin, h0]
      simp only [hcap0, if_false]
      cases x with
      | none =>
        rw [ih i _ hi hrest (fun _ => hcap0), List.reduceOption_cons_of_none]
      | some a =>
        rw [List.reduceOption_cons_of_some]
        by_cases hw0 : p.winsize = 0
        · have hng : ¬ p.winsize > 0 := by omega
          rw [if_neg hng, ih i _ hi hrest (fun _ => hcap0)]
          simp [hw0, concatAll]
        · have hlt : i < p.winsize := by
            rcases hwin with hlt | h0'
            · exact hlt
            · exact absurd h0' hw0
          have hpos : p.winsize > 0 := by omega
          rw [if_pos hpos, ih (i + 1) _ (by omega) hrest (fun _ => hcap0)]
          have hsucc : (p.winsize - i).toNat = (p.winsize - (i + 1)).toNat + 1 := by omega
          simp only [hw0, if_false, Option.map_some', hsucc, List.take_succ_cons, List.map_cons,
            concatAll]
    · rw [if_neg hwin]
      have hw0 : ¬ p.winsize = 0 := fun h0' => hwin (Or.inr h0')
      have hle : (p.winsize - i).toNat = 0 := by
        have : ¬ i < p.winsize := fun hlt => hwin (Or.inl hlt)
        omega
      simp [hw0, hle, concatAll]

theorem slotFrom_mod {c : Int} (hc : 0 < c) :
    ∀ (j : Nat) (head : Int), 0 ≤ head → head < c →
      slotFrom c head j = Int.emod (head + j) c := by
  intro j
  induction j with
  | zero =>
    intro head h0 h1
    simp only [slotFrom, Nat.cast_zero, add_zero]
    exact (Int.emod_eq_of_lt h0 h1).symm
  | succ j ih =>
    intro head h0 h1
    have hn0 : 0 ≤ Int.tmod (head + 1) c := Int.tmod_nonneg _ (by omega)
    have hn1 : Int.tmod (head + 1) c < c := Int.tmod_lt_of_pos _ hc
    rw [slotFrom, ih _ hn0 hn1, Int.tmod_eq_emod (by omega) (by omega)]
    push_cast
    show ((head + 1) % c + (j : Int)) % c = (head + ((j : Int) + 1)) % c
    rw [Int.emod_add_emod]
    congr 1
    ring

theorem reduceOption_map_some (segs : List Ptr) : (segs.map some).reduceOption = segs := by
  induction segs with
  | nil => rfl
  | cons a rest ih => rw [List.map_cons, List.reduceOption_cons_of_some, ih]

theorem emitted_of_full (winsize : Int) (segs : List Ptr) :
    emitted winsize (segs.map some) =
      (if winsize = 0 then segs else segs.take winsize.toNat) := by
  simp only [emitted, reduceOption_map_some]

theorem Encode_window (F : Formatters) (h : Heap) (p : MediaPlaylist)
    (slots : List (Option Ptr)) (hc : p.count ≤ p.capacity)
    (hlen : (slots.length : Int) = p.count)
    (hslots : ∀ j (hj : j < slots.length),
      index p.Segments (p.slotAt j) = some (slots.get ⟨j, hj⟩)) :
    MediaPlaylist.writeSegments F h p p.count.toNat 0 p.head [] =
      some (concatAll ((emitted p.winsize slots).map
        (fun a => renderSegment F h p (h.seg a)))) := by
  have hn : p.count.toNat = slots.length := by omega
  rw [writeSegments_eq_render F h p _ _ _ _ (CacheOk_nil F p), hn,
    renderSegments_window F h p slots 0 p.head (le_refl 0) hslots
      (by
        intro hne
        have : 0 < slots.length := List.length_pos.mpr hne
        omega)]
  simp [emitted]


theorem writeSegments_closed (F : Formatters) (h : Heap) (p : MediaPlaylist) (c : Bool)
    (b : String) :
    ∀ (n : Nat) (i head : Int) (cache : List (ℚ × String)),
      MediaPlaylist.writeSegments F h { p with Closed := c, buf := b } n i head cache =
        MediaPlaylist.writeSegments F h p n i head cache := by
  intro n
  induction n with
  | zero => intro i head cache; rfl
  | succ n ih =>
    intro i head cache
    unfold MediaPlaylist.writeSegments
    simp only [ih]
    rfl

theorem encoded_fresh (F : Formatters) (h : Heap) (p : MediaPlaylist) (c : Bool) :
    MediaPlaylist.encoded F h { p with Closed := c, buf := "" } =
      (MediaPlaylist.writeSegments F h p p.count.toNat 0 p.head []).map
        (fun segments => MediaPlaylist.header h p ++ segments ++
          (if c = true then "#EXT-X-ENDLIST\n" else "")) := by
  simp only [MediaPlaylist.encoded, MediaPlaylist.Encode, ne_eq, not_true_eq_false, if_false,
    writeSegments_closed]
  cases MediaPlaylist.writeSegments F h p p.count.toNat 0 p.head [] with
  | none => rfl
  | some segments => rfl

theorem encoded_closed (F : Formatters) (h : Heap) (p : MediaPlaylist) :
    MediaPlaylist.encoded F h { p with Closed := true, buf := "" } =
      (MediaPlaylist.encoded F h { p with Closed := false, buf := "" }).map
        (fun s => s ++ "#EXT-X-ENDLIST\n") := by
  rw [encoded_fresh, encoded_fresh]
  cases MediaPlaylist.writeSegments F h p p.count.toNat 0 p.head [] with
  | none => rfl
  | some segments => simp

theorem Close_cached (F : Formatters) (h : Heap) (p : MediaPlaylist) (hcl : p.Closed = false)
    (hcache : p.ResetCache.encoded F h = some p.buf) :
    p.Close.encoded F h = some (p.buf ++ "#EXT-X-ENDLIST\n") ∧
    p.Close.ResetCache.encoded F h = some (p.buf ++ "#EXT-X-ENDLIST\n") := by
  have hopen : p.ResetCache = { p with Closed := false, buf := "" } := by
    cases p
    simp only [MediaPlaylist.ResetCache] at *
    simp [hcl]
  have hne : p.buf ≠ "" := by
    intro hb
    rw [hopen, encoded_fresh, hb] at hcache
    cases hs : MediaPlaylist.writeSegments F h p p.count.toNat 0 p.head [] with
    | none => rw [hs] at hcache; simp at hcache
    | some segments =>
      rw [hs] at hcache
      simp only [Option.map_some', Option.some.injEq, Bool.false_eq_true, if_false,
        String.append_empty] at hcache
      exact append_ne_empty _ (header_ne_empty h p) hcache
  constructor
  · have hb : p.Close.buf = p.buf ++ "#EXT-X-ENDLIST\n" := by
      simp [MediaPlaylist.Close, hne]
    have hne' : p.Close.buf ≠ "" := by
      rw [hb]
      intro hcat
      have hd := congrArg String.data hcat
      have h0 : ("" : String).data = [] := rfl
      rw [String.data_append, h0, List.append_eq_nil] at hd
      exact absurd hd.2 (by decide)
    rw [MediaPlaylist.encoded, Encode_cached hne', Option.map_some', hb]
  · have hclosed : p.Close.ResetCache = { p with Closed := true, buf := "" } := by
      simp [MediaPlaylist.Close, MediaPlaylist.ResetCache]
    rw [hclosed, encoded_closed, ← hopen, hcache]
    rfl


theorem headerKey_eq (h : Heap) (p : MediaPlaylist) :
    MediaPlaylist.headerKey h p =
      (match p.Key with
        | none => ""
        | some k => renderKey (h.key k) ++ "\n") := by
  unfold MediaPlaylist.headerKey
  cases hk : p.Key with
  | none => rfl
  | some k =>
    simp only [renderKey]
    by_cases h1 : (h.key k).Method = "NONE" <;> by_cases h2 : (h.key k).IV = "" <;>
      by_cases h3 : (h.key k).Keyformat = "" <;>
      by_cases h4 : (h.key k).Keyformatversions = "" <;>
      simp [h1, h2, h3, h4, String.ext_iff]

theorem headerMap_eq (h : Heap) (p : MediaPlaylist) :
    MediaPlaylist.headerMap h p =
      (match p.Map with
        | none => ""
        | some m => renderMap (h.map m) ++ "\n") := by
  unfold MediaPlaylist.headerMap
  cases hm : p.Map with
  | none => rfl
  | some m =>
    simp only [renderMap]
    by_cases hl : (h.map m).Limit > 0 <;> simp [hl, String.ext_iff]

theorem mediaType_not_pos (mt : Int) (h : mt ≤ 2) (h1 : ¬ mt = 1) (h2 : ¬ mt = 2) :
    ¬ mt > 0 := by
  omega

theorem headerType_eq (p : MediaPlaylist) (hmt : p.MediaType ≤ MediaTypeVOD) :
    MediaPlaylist.headerType p =
      (if p.MediaType = MediaTypeEvent then
        "#EXT-X-PLAYLIST-TYPE:EVENT\n#EXT-X-ALLOW-CACHE:NO\n"
       else if p.MediaType = MediaTypeVOD then "#EXT-X-PLAYLIST-TYPE:VOD\n"
       else "") := by
  unfold MediaPlaylist.headerType
  have hvod : MediaTypeVOD = (2 : Int) := rfl
  have hev : MediaTypeEvent = (1 : Int) := rfl
  rw [hvod] at hmt
  rw [hev, hvod]
  generalize p.MediaType = mt at hmt ⊢
  have hmt' : (mt : Int) ≤ 2 := hmt
  by_cases h1 : mt = (1 : Int)
  · subst h1
    decide
  · by_cases h2 : mt = (2 : Int)
    · subst h2
      decide
    · have hpos : ¬ (mt : Int) > 0 := mediaType_not_pos mt hmt' h1 h2
      rw [if_neg hpos, if_neg h1, if_neg h2]

theorem header_eq (h : Heap) (p : MediaPlaylist) (hmt : p.MediaType ≤ MediaTypeVOD)
    (hT : -2 ^ 63 ≤ ⌈p.TargetDuration⌉ ∧ ⌈p.TargetDuration⌉ < 2 ^ 63) :
    MediaPlaylist.header h p = renderHeader h p ++ MediaPlaylist.headerWidevine h p := by
  unfold MediaPlaylist.header renderHeader
  rw [headerKey_eq, headerMap_eq, headerType_eq p hmt]
  simp only [MediaPlaylist.headerVersion, MediaPlaylist.headerSequence,
    MediaPlaylist.headerTargetDuration, MediaPlaylist.headerIframe,
    int64_of_range hT.1 hT.2]
  by_cases hi : p.Iframe = true <;> simp [hi, String.ext_iff]

theorem roundFloat_nonneg (mantbits : Nat) (emin : Int) {y : ℚ} (hy : 0 ≤ y) :
    0 ≤ roundFloat mantbits emin y := by
  unfold roundFloat
  by_cases h0 : y = 0
  · simp [h0]
  · have h1 : ¬ y < 0 := by linarith
    rw [if_neg h0, if_neg h1, one_mul]
    apply mul_nonneg
    · exact_mod_cast roundHalfEven_nonneg (div_nonneg (abs_nonneg y) (by positivity))
    · positivity

theorem FormatFloat_fixed3 (d : ℚ) (hd : 0 ≤ d) (hfin : float32 d < 2 ^ 128) (fmt : Char) :
    FormatFloat d fmt 3 32 = round3 (float32 d) := by
  have hnn : 0 ≤ float32 d := roundFloat_nonneg 23 (-126) hd
  have hnotinf : ¬ ((2 : ℚ) ^ 128 ≤ float32 d) := not_le.mpr hfin
  have hneg : ¬ d < 0 := by linarith
  have h3 : ¬ ((3 : Int) < 0) := by decide
  have h3n : (3 : Int).toNat = 3 := rfl
  have h10 : ((10 : ℚ) ^ 3) = 1000 := by norm_num
  unfold FormatFloat round3
  simp only [if_true, abs_of_nonneg hnn, if_neg hnotinf, if_neg hneg, if_neg h3, h3n, h10]
  simp

/-! ## Lemmas on the Widevine block -/

theorem wvNumber_of (tag pre : String) (v : Int) (hpre : pre = tag ++ " ")
    (hv : 0 ≤ v ∧ v < 2 ^ 63) :
    (if v ≠ 0 then pre ++ FormatUint64 v ++ "\n" else "") = wvNumber tag v := by
  subst hpre
  rw [FormatUint64_eq_Itoa hv.1 (by omega)]
  by_cases h0 : v = 0 <;> simp [wvNumber, h0]

theorem wvText_of (tag pre v : String) (hpre : pre = tag ++ " ") :
    (if v ≠ "" then pre ++ v ++ "\n" else "") = wvText tag v := by
  subst hpre
  by_cases h0 : v = "" <;> simp [wvText, h0]

theorem headerWidevine_eq (h : Heap) (p : MediaPlaylist) (a : Ptr) (hW : p.W = some a)
    (hr : (h.wv a).InRange) :
    MediaPlaylist.headerWidevine h p =
      wvNumber "#WV-AUDIO-CHANNELS" (h.wv a).AudioChannels ++
      wvNumber "#WV-AUDIO-FORMAT" (h.wv a).AudioFormat ++
      wvNumber "#WV-AUDIO-PROFILE-IDC" (h.wv a).AudioProfileIDC ++
      wvNumber "#WV-AUDIO-SAMPLE-SIZE" (h.wv a).AudioSampleSize ++
      wvNumber "#WV-AUDIO-SAMPLING-FREQUENCY" (h.wv a).AudioSamplingFrequency ++
      wvText "#WV-CYPHER-VERSION" (h.wv a).CypherVersion ++
      wvText "#WV-ECM" (h.wv a).ECM ++
      wvNumber "#WV-VIDEO-FORMAT" (h.wv a).VideoFormat ++
      wvNumber "#WV-VIDEO-FRAME-RATE" (h.wv a).VideoFrameRate ++
      (if (h.wv a).VideoLevelIDC = 0 then ""
       else "#WV-VIDEO-LEVEL-IDC" ++ Itoa (h.wv a).VideoLevelIDC ++ "\n") ++
      wvNumber "#WV-VIDEO-PROFILE-IDC" (h.wv a).VideoProfileIDC ++
      wvText "#WV-VIDEO-RESOLUTION" (h.wv a).VideoResolution ++
      wvText "#WV-VIDEO-SAR" (h.wv a).VideoSAR := by
  obtain ⟨h1, h2, h3, h4, h5, h6, h7, h8, h9⟩ := hr
  simp only [MediaPlaylist.headerWidevine, hW]
  rw [wvNumber_of "#WV-AUDIO-CHANNELS" "#WV-AUDIO-CHANNELS " _ (by decide) h1,
    wvNumber_of "#WV-AUDIO-FORMAT" "#WV-AUDIO-FORMAT " _ (by decide) h2,
    wvNumber_of "#WV-AUDIO-PROFILE-IDC" "#WV-AUDIO-PROFILE-IDC " _ (by decide) h3,
    wvNumber_of "#WV-AUDIO-SAMPLE-SIZE" "#WV-AUDIO-SAMPLE-SIZE " _ (by decide) h4,
    wvNumber_of "#WV-AUDIO-SAMPLING-FREQUENCY" "#WV-AUDIO-SAMPLING-FREQUENCY " _ (by decide) h5,
    wvText_of "#WV-CYPHER-VERSION" "#WV-CYPHER-VERSION " _ (by decide),
    wvText_of "#WV-ECM" "#WV-ECM " _ (by decide),
    wvNumber_of "#WV-VIDEO-FORMAT" "#WV-VIDEO-FORMAT " _ (by decide) h6,
    wvNumber_of "#WV-VIDEO-FRAME-RATE" "#WV-VIDEO-FRAME-RATE " _ (by decide) h7,
    wvNumber_of "#WV-VIDEO-PROFILE-IDC" "#WV-VIDEO-PROFILE-IDC " _ (by decide) h9,
    wvText_of "#WV-VIDEO-RESOLUTION" "#WV-VIDEO-RESOLUTION " _ (by decide),
    wvText_of "#WV-VIDEO-SAR" "#WV-VIDEO-SAR " _ (by decide),
    FormatUint64_eq_Itoa h8.1 (by omega)]
  by_cases h0 : (h.wv a).VideoLevelIDC = 0 <;> simp [h0]

theorem append_endlist_ne_empty (s : String) : s ++ "#EXT-X-ENDLIST\n" ≠ "" := by
  intro hcat
  have hd := congrArg String.data hcat
  have h0 : ("" : String).data = [] := rfl
  rw [String.data_append, h0, List.append_eq_nil] at hd
  exact absurd hd.2 (by decide)

theorem Close_of_cached (F : Formatters) (h : Heap) (p : MediaPlaylist) (hne : p.buf ≠ "") :
    p.Close.buf = p.buf ++ "#EXT-X-ENDLIST\n" ∧
    p.Close.encoded F h = some (p.buf ++ "#EXT-X-ENDLIST\n") := by
  have hb : p.Close.buf = p.buf ++ "#EXT-X-ENDLIST\n" := by
    simp [MediaPlaylist.Close, hne]
  refine ⟨hb, ?_⟩
  have hne' : p.Close.buf ≠ "" := by
    rw [hb]
    exact append_endlist_ne_empty _
  rw [MediaPlaylist.encoded, Encode_cached hne', Option.map_some', hb]

/-! ## Lemmas on the ring buffer with a moving head -/

theorem emod_wrap {x c : Int} (h0 : 0 ≤ x) (h1 : x < 2 * c) :
    x % c = if x < c then x else x - c := by
  by_cases hx : x < c
  · rw [if_pos hx]
    exact Int.emod_eq_of_lt h0 hx
  · rw [if_neg hx]
    have h2 : x = (x - c) + c := by ring
    conv_lhs => rw [h2]
    rw [Int.add_emod_self]
    exact Int.emod_eq_of_lt (by omega) (by omega)

theorem index_set {α : Type} (s : List α) (t i : Int) (a : α) (ht : 0 ≤ t)
    (hlt : t < s.length) (hi : 0 ≤ i) :
    index (s.set t.toNat a) i = if i = t then some a else index s i := by
  simp only [index, if_pos hi, List.getElem?_set]
  by_cases hit : i = t
  · subst hit
    have : i.toNat < s.length := by omega
    simp [this]
  · have : ¬ t.toNat = i.toNat := by omega
    simp [hit, this]

theorem Ring.tail_bounds {p : MediaPlaylist} {segs : List Ptr} (hp : Ring p segs) :
    0 ≤ p.tail ∧ p.tail < p.capacity ∧
    (p.tail = if p.head + segs.length < p.capacity then p.head + segs.length
      else p.head + segs.length - p.capacity) := by
  have hpos := hp.pos
  have h0 := hp.head0
  have h1 := hp.head1
  have hle := hp.le
  have hw := @emod_wrap (p.head + segs.length) p.capacity (by omega) (by omega)
  rw [← hp.tail] at hw
  refine ⟨?_, ?_, hw⟩
  · rw [hw]; split <;> omega
  · rw [hw]; split <;> omega

theorem Ring.of_new {w c : Int} {p0 : MediaPlaylist} (hc : 1 ≤ c)
    (hnew : NewMediaPlaylist w c = .ok (some p0)) :
    Ring p0 [] ∧ p0.winsize = w ∧ p0.capacity = c ∧ p0.Closed = false ∧ p0.SeqNo = 0 := by
  obtain ⟨h0, hw, rfl⟩ := NewMediaPlaylist_ok_inv hnew
  refine ⟨⟨hc, ?_, le_refl _, ?_, rfl, ?_, ?_, ?_⟩, rfl, rfl, rfl, rfl⟩
  · simp only [List.length_replicate]
    omega
  · show (0 : Int) < c
    omega
  · show ((0 : Nat) : Int) ≤ c
    omega
  · show (0 : Int) = (0 + ((0 : Nat) : Int)) % c
    simp
  · intro j hj
    simp at hj

theorem Ring.push {p : MediaPlaylist} {segs : List Ptr} (hp : Ring p segs)
    (hlt : (segs.length : Int) < p.capacity) (h : Heap) (a : Ptr) :
    ∃ q, p.Append h (some a) = .ok q ∧ Ring q (segs ++ [a]) ∧
      q.winsize = p.winsize ∧ q.Closed = p.Closed ∧ q.SeqNo = p.SeqNo ∧
      q.capacity = p.capacity := by
  obtain ⟨ht0, ht1, htw⟩ := hp.tail_bounds
  have hpos := hp.pos
  have h0 := hp.head0
  have h1 := hp.head1
  have hfull : ¬ (p.head = p.tail ∧ p.count > 0) := by
    rw [hp.count]
    rintro ⟨he, hc⟩
    rw [htw] at he
    split at he <;> omega
  have htail : 0 ≤ p.tail ∧ p.tail < p.Segments.length := by
    rw [hp.len]; exact ⟨ht0, ht1⟩
  refine ⟨_, Append_ok hfull htail (by omega), ?_, rfl, rfl, rfl, rfl⟩
  refine ⟨hpos, ?_, h0, h1, ?_, ?_, ?_, ?_⟩
  · simpa using hp.len
  · show p.count + 1 = ((segs ++ [a]).length : Int)
    rw [hp.count]
    simp
  · show (((segs ++ [a]).length : Nat) : Int) ≤ p.capacity
    simp
    omega
  · show Int.tmod (p.tail + 1) p.capacity = (p.head + ((segs ++ [a]).length : Nat)) % p.capacity
    rw [Int.tmod_eq_emod (by omega) (by omega), hp.tail, Int.emod_add_emod]
    congr 1
    simp
    ring
  · intro j hj
    show index (p.Segments.set p.tail.toNat (some a)) ((p.head + j) % p.capacity) = _
    have hjc : (j : Int) < p.capacity := by
      simp at hj
      omega
    have hwj := @emod_wrap (p.head + j) p.capacity (by omega) (by omega)
    have hj0 : 0 ≤ (p.head + j) % p.capacity := by
      rw [hwj]; split <;> omega
    rw [index_set _ _ _ _ ht0 (by rw [hp.len]; exact ht1) hj0]
    by_cases hjn : j < segs.length
    · have hne : ¬ (p.head + j) % p.capacity = p.tail := by
        rw [hwj, htw]
        split <;> split <;> omega
      rw [if_neg hne, hp.slots j hjn, List.getElem?_append_left hjn]
    · have hje : j = segs.length := by
        simp at hj
        omega
      subst hje
      rw [if_pos hp.tail.symm]
      simp

theorem Ring.append_full {p : MediaPlaylist} {segs : List Ptr} (hp : Ring p segs)
    (hfull : (segs.length : Int) = p.capacity) (h : Heap) (seg : Option Ptr) :
    p.Append h seg = .error .ErrPlaylistFull p := by
  obtain ⟨ht0, ht1, htw⟩ := hp.tail_bounds
  have hpos := hp.pos
  have h0 := hp.head0
  have h1 := hp.head1
  have hc : p.head = p.tail ∧ p.count > 0 := by
    rw [hp.count, htw]
    constructor
    · split <;> omega
    · omega
  simp only [MediaPlaylist.Append, if_pos hc]

theorem Ring.remove {p : MediaPlaylist} {s : Ptr} {segs : List Ptr} (hp : Ring p (s :: segs)) :
    ∃ q, p.Remove = .ok q ∧ Ring q segs ∧
      q.winsize = p.winsize ∧ q.Closed = p.Closed ∧
      q.SeqNo = (if p.Closed then p.SeqNo else wrapInt (p.SeqNo + 1)) ∧
      q.capacity = p.capacity := by
  have hpos := hp.pos
  have h0 := hp.head0
  have h1 := hp.head1
  have hle := hp.le
  have hcnt := hp.count
  simp only [List.length_cons, Nat.cast_add, Nat.cast_one] at hle hcnt
  refine ⟨_, Remove_ok (by omega) (by omega), ?_, rfl, rfl, rfl, rfl⟩
  have hh : Int.tmod (p.head + 1) p.capacity = (p.head + 1) % p.capacity :=
    Int.tmod_eq_emod (by omega) (by omega)
  have hw1 := @emod_wrap (p.head + 1) p.capacity (by omega) (by omega)
  refine ⟨hpos, hp.len, ?_, ?_, ?_, ?_, ?_, ?_⟩
  · show 0 ≤ Int.tmod (p.head + 1) p.capacity
    rw [hh, hw1]; split <;> omega
  · show Int.tmod (p.head + 1) p.capacity < p.capacity
    rw [hh, hw1]; split <;> omega
  · show p.count - 1 = (segs.length : Int)
    omega
  · show (segs.length : Int) ≤ p.capacity
    omega
  · show p.tail = (Int.tmod (p.head + 1) p.capacity + segs.length) % p.capacity
    rw [hh, Int.emod_add_emod, hp.tail]
    congr 1
    simp
    ring
  · intro j hj
    show index p.Segments ((Int.tmod (p.head + 1) p.capacity + j) % p.capacity) = _
    rw [hh, Int.emod_add_emod]
    have := hp.slots (j + 1) (by simp; omega)
    simp only [List.getElem?_cons_succ] at this
    rw [← this]
    congr 2
    push_cast
    ring

theorem Ring.remove_empty {p : MediaPlaylist} (hp : Ring p []) :
    p.Remove = .error (.new "playlist is empty") p := by
  have hc : p.count = 0 := by simpa using hp.count
  simp only [MediaPlaylist.Remove, if_pos hc]

theorem Ring.lastSeg {p : MediaPlaylist} {pre : List Ptr} {a : Ptr} (hp : Ring p (pre ++ [a])) :
    p.last = (p.head + pre.length) % p.capacity ∧ p.lastSeg = some a ∧
    0 ≤ p.last ∧ p.last < p.Segments.length := by
  obtain ⟨ht0, ht1, htw⟩ := hp.tail_bounds
  have hpos := hp.pos
  have h0 := hp.head0
  have h1 := hp.head1
  have hle := hp.le
  simp only [List.length_append, List.length_singleton, Nat.cast_add, Nat.cast_one] at hle htw
  have hw := @emod_wrap (p.head + pre.length) p.capacity (by omega) (by omega)
  have hlast : p.last = (p.head + pre.length) % p.capacity := by
    rw [hw]
    simp only [MediaPlaylist.last]
    rw [htw]
    split <;> split <;> split <;> omega
  refine ⟨hlast, ?_, ?_, ?_⟩
  · rw [lastSeg_eq_some, hlast]
    have := hp.slots pre.length (by simp)
    rw [this]
    simp
  · rw [hlast, hw]; split <;> omega
  · rw [hp.len, hlast, hw]; split <;> omega

theorem Ring.append_cases {p : MediaPlaylist} {segs : List Ptr} (hp : Ring p segs) (h : Heap)
    (seg : Option Ptr) :
    ((segs.length : Int) = p.capacity ∧ p.Append h seg = .error .ErrPlaylistFull p) ∨
    ((segs.length : Int) < p.capacity ∧ seg = none ∧ p.Append h seg = .panic) ∨
    ((segs.length : Int) < p.capacity ∧ ∃ a q, seg = some a ∧ p.Append h seg = .ok q ∧
      Ring q (segs ++ [a]) ∧ q.winsize = p.winsize ∧ q.Closed = p.Closed ∧
      q.SeqNo = p.SeqNo ∧ q.capacity = p.capacity) := by
  have hle := hp.le
  by_cases hfull : (segs.length : Int) = p.capacity
  · exact Or.inl ⟨hfull, hp.append_full hfull h seg⟩
  · have hlt : (segs.length : Int) < p.capacity := by omega
    cases seg with
    | none =>
      refine Or.inr (Or.inl ⟨hlt, rfl, ?_⟩)
      obtain ⟨ht0, ht1, htw⟩ := hp.tail_bounds
      have hpos := hp.pos
      have h0 := hp.head0
      have h1 := hp.head1
      have hnf : ¬ (p.head = p.tail ∧ p.count > 0) := by
        rw [hp.count]
        rintro ⟨he, hc⟩
        rw [htw] at he
        split at he <;> omega
      have htail : 0 ≤ p.tail ∧ p.tail < p.Segments.length := by
        rw [hp.len]; exact ⟨ht0, ht1⟩
      have hcap : ¬ p.capacity = 0 := by omega
      simp only [MediaPlaylist.Append, if_neg hnf, htail, and_self, not_true_eq_false,
        if_false, if_neg hcap]
    | some a =>
      obtain ⟨q, hq, hr, h1, h2, h3, h4⟩ := hp.push hlt h a
      exact Or.inr (Or.inr ⟨hlt, a, q, rfl, hq, hr, h1, h2, h3, h4⟩)

theorem Ring.remove_cases {p : MediaPlaylist} {segs : List Ptr} (hp : Ring p segs) :
    (segs = [] ∧ p.Remove = .error (.new "playlist is empty") p) ∨
    (∃ s rest q, segs = s :: rest ∧ p.Remove = .ok q ∧ Ring q rest ∧
      q.winsize = p.winsize ∧ q.Closed = p.Closed ∧
      q.SeqNo = (if p.Closed then p.SeqNo else wrapInt (p.SeqNo + 1)) ∧
      q.capacity = p.capacity) := by
  cases segs with
  | nil => exact Or.inl ⟨rfl, hp.remove_empty⟩
  | cons s rest =>
    obtain ⟨q, hq, hr, h1, h2, h3, h4⟩ := hp.remove
    exact Or.inr ⟨s, rest, q, rfl, hq, hr, h1, h2, h3, h4⟩

theorem Ring.call_basic {p : MediaPlaylist} {segs : List Ptr} (hp : Ring p segs) (h : Heap)
    (c : RingCall) (hb : c.basic = true) :
    (c.nonNil = true → ∃ q, (p.ringCall h c).state? = some q) ∧
    ∀ q, (p.ringCall h c).state? = some q →
      ∃ segs', Ring q segs' ∧ segs' <:+ segs ++ p.storedBy h c ∧
        q.capacity = p.capacity ∧ q.winsize = p.winsize := by
  cases c with
  | AppendWithAutoExtend seg => simp [RingCall.basic] at hb
  | ExtendCapacity => simp [RingCall.basic] at hb
  | Append seg =>
    rcases hp.append_cases h seg with ⟨-, he⟩ | ⟨-, rfl, he⟩ | ⟨-, a, q', rfl, he, hr, hw, -, -, hc⟩
    · refine ⟨fun _ => ⟨p, by simp [MediaPlaylist.ringCall, he, Result.state?]⟩, ?_⟩
      intro q hq
      simp only [MediaPlaylist.ringCall, he, Result.state?, Option.some.injEq] at hq
      subst hq
      refine ⟨segs, hp, ?_, rfl, rfl⟩
      cases seg <;> simp [MediaPlaylist.storedBy, he]
    · refine ⟨fun hn => by simp [RingCall.nonNil] at hn, ?_⟩
      intro q hq
      simp [MediaPlaylist.ringCall, he, Result.state?] at hq
    · refine ⟨fun _ => ⟨q', by simp [MediaPlaylist.ringCall, he, Result.state?]⟩, ?_⟩
      intro q hq
      simp only [MediaPlaylist.ringCall, he, Result.state?, Option.some.injEq] at hq
      subst hq
      refine ⟨segs ++ [a], hr, ?_, hc, hw⟩
      simp [MediaPlaylist.storedBy, he]
  | Remove =>
    rcases hp.remove_cases with ⟨rfl, he⟩ | ⟨s, rest, q', rfl, he, hr, hw, -, -, hc⟩
    · refine ⟨fun _ => ⟨p, by simp [MediaPlaylist.ringCall, he, Result.state?]⟩, ?_⟩
      intro q hq
      simp only [MediaPlaylist.ringCall, he, Result.state?, Option.some.injEq] at hq
      subst hq
      exact ⟨[], hp, by simp [MediaPlaylist.storedBy], rfl, rfl⟩
    · refine ⟨fun _ => ⟨q', by simp [MediaPlaylist.ringCall, he, Result.state?]⟩, ?_⟩
      intro q hq
      simp only [MediaPlaylist.ringCall, he, Result.state?, Option.some.injEq] at hq
      subst hq
      refine ⟨rest, hr, ?_, hc, hw⟩
      simp only [MediaPlaylist.storedBy, List.append_nil]
      exact List.suffix_cons s rest
  | Slide seg =>
    by_cases hcl : p.Closed = true
    · have he : p.Slide h seg = .ok p := by simp [MediaPlaylist.Slide, hcl]
      refine ⟨fun _ => ⟨p, by simp [MediaPlaylist.ringCall, he, Result.state?]⟩, ?_⟩
      intro q hq
      simp only [MediaPlaylist.ringCall, he, Result.state?, Option.some.injEq] at hq
      subst hq
      refine ⟨segs, hp, ?_, rfl, rfl⟩
      cases seg <;> simp [MediaPlaylist.storedBy, hcl]
    · by_cases hge : p.count ≥ p.winsize
      · rcases hp.remove_cases with ⟨rfl, hrem⟩ | ⟨s, rest, q1, rfl, hrem, hr1, hw1, hcl1, -, hc1⟩
        · have he : p.Slide h seg = .error (.new "playlist is empty") p := by
            simp [MediaPlaylist.Slide, hcl, hge, hrem]
          refine ⟨fun _ => ⟨p, by simp [MediaPlaylist.ringCall, he, Result.state?]⟩, ?_⟩
          intro q hq
          simp only [MediaPlaylist.ringCall, he, Result.state?, Option.some.injEq] at hq
          subst hq
          refine ⟨[], hp, ?_, rfl, rfl⟩
          cases seg <;> simp [MediaPlaylist.storedBy, hcl, he]
        · have hs : p.Slide h seg = q1.Append h seg := by
            simp [MediaPlaylist.Slide, hcl, hge, hrem]
          have hle1 := hp.le
          simp only [List.length_cons, Nat.cast_add, Nat.cast_one] at hle1
          rcases hr1.append_cases h seg with ⟨hf, -⟩ | ⟨-, rfl, he⟩ |
            ⟨-, a, q', rfl, he, hr, hw, -, -, hc⟩
          · rw [hc1] at hf
            omega
          · refine ⟨fun hn => by simp [RingCall.nonNil] at hn, ?_⟩
            intro q hq
            simp [MediaPlaylist.ringCall, hs, he, Result.state?] at hq
          · refine ⟨fun _ => ⟨q', by simp [MediaPlaylist.ringCall, hs, he, Result.state?]⟩, ?_⟩
            intro q hq
            simp only [MediaPlaylist.ringCall, hs, he, Result.state?, Option.some.injEq] at hq
            subst hq
            refine ⟨rest ++ [a], hr, ?_, by rw [hc, hc1], by rw [hw, hw1]⟩
            simp only [MediaPlaylist.storedBy, hcl, Bool.false_eq_true, if_false, hs, he]
            exact ⟨[s], by simp⟩
      · have hs : p.Slide h seg = p.Append h seg := by
          simp [MediaPlaylist.Slide, hcl, hge]
        rcases hp.append_cases h seg with ⟨-, he⟩ | ⟨-, rfl, he⟩ |
          ⟨-, a, q', rfl, he, hr, hw, -, -, hc⟩
        · refine ⟨fun _ => ⟨p, by simp [MediaPlaylist.ringCall, hs, he, Result.state?]⟩, ?_⟩
          intro q hq
          simp only [MediaPlaylist.ringCall, hs, he, Result.state?, Option.some.injEq] at hq
          subst hq
          refine ⟨segs, hp, ?_, rfl, rfl⟩
          cases seg <;> simp [MediaPlaylist.storedBy, hcl, hs, he]
        · refine ⟨fun hn => by simp [RingCall.nonNil] at hn, ?_⟩
          intro q hq
          simp [MediaPlaylist.ringCall, hs, he, Result.state?] at hq
        · refine ⟨fun _ => ⟨q', by simp [MediaPlaylist.ringCall, hs, he, Result.state?]⟩, ?_⟩
          intro q hq
          simp only [MediaPlaylist.ringCall, hs, he, Result.state?, Option.some.injEq] at hq
          subst hq
          refine ⟨segs ++ [a], hr, ?_, hc, hw⟩
          simp [MediaPlaylist.storedBy, hcl, hs, he]

theorem Ring.calls_basic (h : Heap) :
    ∀ (calls : List RingCall) (p : MediaPlaylist) (segs : List Ptr), Ring p segs →
      (∀ c ∈ calls, c.basic = true) →
      ((∀ c ∈ calls, c.nonNil = true) → ∃ q, ringCalls h p calls = some q) ∧
      ∀ q, ringCalls h p calls = some q →
        ∃ segs', Ring q segs' ∧ segs' <:+ segs ++ appendedBy h p calls ∧
          q.capacity = p.capacity ∧ q.winsize = p.winsize := by
  intro calls
  induction calls with
  | nil =>
    intro p segs hp _
    refine ⟨fun _ => ⟨p, rfl⟩, ?_⟩
    intro q hq
    simp only [ringCalls, Option.some.injEq] at hq
    subst hq
    exact ⟨segs, hp, by simp [appendedBy], rfl, rfl⟩
  | cons c rest ih =>
    intro p segs hp hb
    obtain ⟨htot, hstep⟩ := hp.call_basic h c (hb c (List.mem_cons_self _ _))
    have hb' : ∀ x ∈ rest, x.basic = true := fun x hx => hb x (List.mem_cons_of_mem _ hx)
    constructor
    · intro hn
      obtain ⟨q1, hq1⟩ := htot (hn c (List.mem_cons_self _ _))
      obtain ⟨segs1, hr1, -, -, -⟩ := hstep q1 hq1
      obtain ⟨q, hq⟩ := (ih q1 segs1 hr1 hb').1 (fun x hx => hn x (List.mem_cons_of_mem _ hx))
      exact ⟨q, by simp only [ringCalls, hq1, hq]⟩
    · intro q hq
      cases hq1 : (p.ringCall h c).state? with
      | none => simp [ringCalls, hq1] at hq
      | some q1 =>
        simp only [ringCalls, hq1] at hq
        obtain ⟨segs1, hr1, hsuf1, hc1, hw1⟩ := hstep q1 hq1
        obtain ⟨segs', hr, hsuf, hc, hw⟩ := (ih q1 segs1 hr1 hb').2 q hq
        refine ⟨segs', hr, ?_, by rw [hc, hc1], by rw [hw, hw1]⟩
        simp only [appendedBy, hq1]
        rw [← List.append_assoc]
        obtain ⟨t1, ht1⟩ := hsuf1
        obtain ⟨t2, ht2⟩ := hsuf
        refine ⟨t1 ++ t2, ?_⟩
        rw [← ht1]
        simp only [List.append_assoc]
        rw [ht2]

theorem Ring.slides (h : Heap) (w : Int) (hw : 1 ≤ w) :
    ∀ (new : List Ptr) (p : MediaPlaylist) (live : List Ptr), Ring p live →
      p.Closed = false → p.winsize = w → w ≤ p.capacity → (live.length : Int) ≤ w →
      wrapInt p.SeqNo = p.SeqNo →
      ∃ q, slideAll h p (new.map some) = .ok q ∧
        Ring q ((live ++ new).drop ((live ++ new).length - w.toNat)) ∧
        q.SeqNo = wrapInt (p.SeqNo + (((live ++ new).length - w.toNat : Nat) : Int)) ∧
        q.capacity = p.capacity ∧ q.winsize = w ∧ q.Closed = false := by
  intro new
  induction new with
  | nil =>
    intro p live hp hcl hws hwc hlw hS
    refine ⟨p, rfl, ?_, ?_, rfl, hws, hcl⟩
    · have h0 : live.length - w.toNat = 0 := by omega
      simpa [h0] using hp
    · have h0 : live.length - w.toNat = 0 := by omega
      simp [h0, hS]
  | cons a rest ih =>
    intro p live hp hcl hws hwc hlw hS
    have hcl' : ¬ p.Closed = true := by simp [hcl]
    by_cases hge : p.count ≥ p.winsize
    · have hlen : (live.length : Int) = w := by
        have := hp.count
        omega
      cases live with
      | nil => simp at hlen; omega
      | cons s t =>
        obtain ⟨q1, hrem, hr1, hw1, hcl1, hs1, hc1⟩ := hp.remove
        have ht : (t.length : Int) < q1.capacity := by
          simp only [List.length_cons, Nat.cast_add, Nat.cast_one] at hlen
          rw [hc1]
          omega
        obtain ⟨q2, happ, hr2, hw2, hcl2, hs2, hc2⟩ := hr1.push ht h a
        have hs : p.Slide h (some a) = .ok q2 := by
          simp [MediaPlaylist.Slide, hcl, hge, hrem, happ]
        obtain ⟨q, hq, hr, hseq, hcap, hwq, hclq⟩ := ih q2 (t ++ [a]) hr2
          (by rw [hcl2, hcl1, hcl]) (by rw [hw2, hw1, hws]) (by rw [hc2, hc1]; exact hwc)
          (by
            simp only [List.length_cons, Nat.cast_add, Nat.cast_one] at hlen
            simp
            omega)
          (by rw [hs2, hs1, hcl]; exact wrapInt_idem _)
        refine ⟨q, ?_, ?_, ?_, by rw [hcap, hc2, hc1], hwq, hclq⟩
        · simp only [List.map_cons, slideAll, hs]
          exact hq
        · have hlen' : (s :: t).length = w.toNat := by omega
          have e1 : (s :: t ++ a :: rest).length - w.toNat = rest.length + 1 := by
            simp only [List.length_append, hlen', List.length_cons]
            omega
          have e2 : (t ++ [a] ++ rest).length - w.toNat = rest.length := by
            simp only [List.length_cons] at hlen'
            simp only [List.length_append, List.length_cons, List.length_nil]
            omega
          rw [e2] at hr
          rw [e1]
          simpa using hr
        · have hlen' : (s :: t).length = w.toNat := by omega
          have e1 : (s :: t ++ a :: rest).length - w.toNat = rest.length + 1 := by
            simp only [List.length_append, hlen', List.length_cons]
            omega
          have e2 : (t ++ [a] ++ rest).length - w.toNat = rest.length := by
            simp only [List.length_cons] at hlen'
            simp only [List.length_append, List.length_cons, List.length_nil]
            omega
          rw [hseq, e1, e2, hs2, hs1, hcl]
          simp only [Bool.false_eq_true, if_false]
          rw [wrapInt_add]
          push_cast
          ring_nf
    · have hlen : (live.length : Int) < w := by
        have := hp.count
        omega
      obtain ⟨q1, happ, hr1, hw1, hcl1, hs1, hc1⟩ := hp.push (by omega) h a
      have hs : p.Slide h (some a) = .ok q1 := by
        simp [MediaPlaylist.Slide, hcl, hge, happ]
      obtain ⟨q, hq, hr, hseq, hcap, hwq, hclq⟩ := ih q1 (live ++ [a]) hr1
        (by rw [hcl1, hcl]) (by rw [hw1, hws]) (by rw [hc1]; exact hwc)
        (by simp; omega) (by rw [hs1]; exact hS)
      refine ⟨q, ?_, ?_, ?_, by rw [hcap, hc1], hwq, hclq⟩
      · simp only [List.map_cons, slideAll, hs]
        exact hq
      · simpa using hr
      · rw [hseq, hs1]
        simp

theorem Append_state_cap {h : Heap} {p q : MediaPlaylist} {seg : Option Ptr}
    (hq : (p.Append h seg).state? = some q) :
    q.capacity = p.capacity ∧ q.Segments.length = p.Segments.length ∧
      q.winsize = p.winsize := by
  unfold MediaPlaylist.Append at hq
  repeat' split at hq
  all_goals first
    | (simp [Result.state?] at hq; done)
    | (simp only [Result.state?, Option.some.injEq] at hq; subst hq; simp)

theorem Remove_state_cap {p q : MediaPlaylist} (hq : p.Remove.state? = some q) :
    q.capacity = p.capacity ∧ q.Segments.length = p.Segments.length ∧
      q.winsize = p.winsize := by
  unfold MediaPlaylist.Remove at hq
  repeat' split at hq
  all_goals first
    | (simp [Result.state?] at hq; done)
    | (simp only [Result.state?, Option.some.injEq] at hq; subst hq; simp)

theorem ExtendCapacity_state_cap {p q : MediaPlaylist} (hq : p.ExtendCapacity.state? = some q)
    (hlen : p.capacity = p.Segments.length) :
    q.capacity = q.Segments.length ∧ q.winsize = p.winsize ∧ p.capacity ≤ q.capacity := by
  unfold MediaPlaylist.ExtendCapacity at hq
  repeat' split at hq
  all_goals first
    | (simp [Result.state?] at hq; done)
    | (simp only [Result.state?, Option.some.injEq] at hq; subst hq
       first
        | exact ⟨hlen, rfl, le_refl _⟩
        | (refine ⟨rfl, rfl, ?_⟩
           rw [hlen]
           simp))

theorem ringCall_cap {h : Heap} {p q : MediaPlaylist} {c : RingCall}
    (hq : (p.ringCall h c).state? = some q) (hlen : p.capacity = p.Segments.length) :
    q.capacity = q.Segments.length ∧ q.winsize = p.winsize ∧ p.capacity ≤ q.capacity := by
  cases c with
  | Append seg =>
    obtain ⟨h1, h2, h3⟩ := Append_state_cap hq
    exact ⟨by rw [h1, h2, hlen], h3, by rw [h1]⟩
  | Remove =>
    obtain ⟨h1, h2, h3⟩ := Remove_state_cap hq
    exact ⟨by rw [h1, h2, hlen], h3, by rw [h1]⟩
  | ExtendCapacity => exact ExtendCapacity_state_cap hq hlen
  | AppendWithAutoExtend seg =>
    simp only [MediaPlaylist.ringCall, MediaPlaylist.AppendWithAutoExtend] at hq
    split at hq
    · cases he : p.ExtendCapacity with
      | ok r =>
        rw [he] at hq
        obtain ⟨e1, e2, e3⟩ := @ExtendCapacity_state_cap p r (by rw [he]; rfl) hlen
        obtain ⟨h1, h2, h3⟩ := Append_state_cap hq
        exact ⟨by rw [h1, h2, e1], by rw [h3, e2], by rw [h1]; exact e3⟩
      | error e r =>
        rw [he] at hq
        exact @ExtendCapacity_state_cap p q (by rw [he]; exact hq) hlen
      | panic => rw [he] at hq; simp [Result.state?] at hq
    · obtain ⟨h1, h2, h3⟩ := Append_state_cap hq
      exact ⟨by rw [h1, h2, hlen], h3, by rw [h1]⟩
  | Slide seg =>
    simp only [MediaPlaylist.ringCall, MediaPlaylist.Slide] at hq
    split at hq
    · split at hq
      · cases he : p.Remove with
        | ok r =>
          rw [he] at hq
          obtain ⟨e1, e2, e3⟩ := @Remove_state_cap p r (by rw [he]; rfl)
          obtain ⟨h1, h2, h3⟩ := Append_state_cap hq
          exact ⟨by rw [h1, h2, e1, e2, hlen], by rw [h3, e3], by rw [h1, e1]⟩
        | error e r =>
          rw [he] at hq
          obtain ⟨h1, h2, h3⟩ := @Remove_state_cap p q (by rw [he]; exact hq)
          exact ⟨by rw [h1, h2, hlen], h3, by rw [h1]⟩
        | panic => rw [he] at hq; simp [Result.state?] at hq
      · obtain ⟨h1, h2, h3⟩ := Append_state_cap hq
        exact ⟨by rw [h1, h2, hlen], h3, by rw [h1]⟩
    · simp only [Result.state?, Option.some.injEq] at hq
      subst hq
      exact ⟨hlen, rfl, le_refl _⟩

theorem ringCalls_cap (h : Heap) :
    ∀ (calls : List RingCall) (p q : MediaPlaylist), ringCalls h p calls = some q →
      p.capacity = p.Segments.length →
      q.capacity = q.Segments.length ∧ q.winsize = p.winsize ∧ p.capacity ≤ q.capacity := by
  intro calls
  induction calls with
  | nil =>
    intro p q hq hlen
    simp only [ringCalls, Option.some.injEq] at hq
    subst hq
    exact ⟨hlen, rfl, le_refl _⟩
  | cons c rest ih =>
    intro p q hq hlen
    cases h1 : (p.ringCall h c).state? with
    | none => simp [ringCalls, h1] at hq
    | some r =>
      simp only [ringCalls, h1] at hq
      obtain ⟨e1, e2, e3⟩ := ringCall_cap h1 hlen
      obtain ⟨f1, f2, f3⟩ := ih r q hq e1
      exact ⟨f1, by rw [f2, e2], le_trans e3 f3⟩

theorem NewMediaPlaylist_cap {w c : Int} {p0 : MediaPlaylist}
    (hnew : NewMediaPlaylist w c = .ok (some p0)) :
    p0.capacity = p0.Segments.length ∧ p0.winsize ≤ p0.capacity ∧ p0.capacity = c ∧
      p0.winsize = w := by
  obtain ⟨h0, hw, rfl⟩ := NewMediaPlaylist_ok_inv hnew
  refine ⟨?_, hw, rfl, rfl⟩
  show c = ((List.replicate c.toNat (none : Option Ptr)).length : Int)
  rw [List.length_replicate]
  omega

theorem Ring.lastSeg_of_suffix {p : MediaPlaylist} {segs all : List Ptr} (hp : Ring p segs)
    (hsuf : segs <:+ all) (hpos : 0 < p.count) :
    p.lastSeg = all.getLast? ∧ p.lastSeg ≠ none ∧ 0 ≤ p.last ∧ p.last < p.Segments.length := by
  have hcnt := hp.count
  have hne : segs ≠ [] := by
    intro he
    rw [he] at hcnt
    simp at hcnt
    omega
  obtain ⟨pre, a, rfl⟩ : ∃ pre a, segs = pre ++ [a] :=
    ⟨segs.dropLast, segs.getLast hne, (List.dropLast_append_getLast hne).symm⟩
  obtain ⟨-, hl, h0, h1⟩ := hp.lastSeg
  obtain ⟨t, rfl⟩ := hsuf
  refine ⟨?_, by rw [hl]; simp, h0, h1⟩
  rw [hl, ← List.append_assoc, List.getLast?_append]
  simp

theorem Ring.slots_distinct {p : MediaPlaylist} {segs : List Ptr} (hp : Ring p segs)
    (i j : Nat) (hij : i < j) (hj : (j : Int) < p.count) : p.slotAt i ≠ p.slotAt j := by
  have hpos := hp.pos
  have h0 := hp.head0
  have h1 := hp.head1
  have hle := hp.le
  have hcnt := hp.count
  simp only [MediaPlaylist.slotAt]
  rw [slotFrom_mod (by omega) i p.head h0 h1, slotFrom_mod (by omega) j p.head h0 h1]
  show (p.head + i) % p.capacity ≠ (p.head + j) % p.capacity
  rw [@emod_wrap (p.head + i) p.capacity (by omega) (by omega),
    @emod_wrap (p.head + j) p.capacity (by omega) (by omega)]
  split <;> split <;> omega

/-! ## The claims -/

/-- C1: for every capacity `c ≥ 1`, every `winsize ≤ c` and every list of `N ≤ c` segments,
`NewMediaPlaylist winsize c` returns a playlist, appending the segments to it in order
succeeds every time (also for every initial part of the list), the count is then `N`, and
for every `i < N` the slot `(head + i) % capacity` of `Segments` holds the `i`-th segment. -/
theorem C1_appends_in_order (h : Heap) (winsize c : Int) (segs : List Ptr)
    (hc : 1 ≤ c) (hw : winsize ≤ c) (hN : (segs.length : Int) ≤ c) :
    ∃ p0 p, NewMediaPlaylist winsize c = .ok (some p0) ∧
      (∀ n, ∃ q, appendAll h p0 ((segs.take n).map some) = .ok q) ∧
      appendAll h p0 (segs.map some) = .ok p ∧
      p.Count = segs.length ∧
      ∀ i (hi : i < segs.length),
        index p.Segments (Int.tmod (p.head + i) p.capacity) = some (some segs[i]) := by
  have hc0 : 0 ≤ c := by omega
  have hnew := NewMediaPlaylist_ok hc0 hw
  have hf0 := Filled_new winsize hc0
  obtain ⟨p, hp, hf, hs, -⟩ := Filled.appendAll_ok h c segs _ 0 hf0 (by simpa using hN)
  refine ⟨_, p, hnew, ?_, hp, ?_, ?_⟩
  · intro n
    have hlen : (((0 : Nat) + (segs.take n).length : Nat) : Int) ≤ c := by
      have : (segs.take n).length ≤ segs.length := by simp [List.length_take]
      omega
    obtain ⟨q, hq, -⟩ := Filled.appendAll_ok h c (segs.take n) _ 0 hf0 hlen
    exact ⟨q, hq⟩
  · simp [MediaPlaylist.Count, hf.count]
  · intro i hi
    have hic : (i : Int) < c := by omega
    rw [hf.head, hf.cap, Int.zero_add, Int.tmod_eq_of_lt (Int.ofNat_nonneg i) hic,
      index_eq_getElem?]
    simpa using hs i hi

/-- C1, at capacity 2 and window 1 with the segments at addresses 7 and 9 -/
theorem C1_appends_in_order_witness :
    ∃ p0 p, NewMediaPlaylist 1 2 = .ok (some p0) ∧
      (∀ n, ∃ q, appendAll {} p0 (([7, 9].take n).map some) = .ok q) ∧
      appendAll {} p0 ([7, 9].map some) = .ok p ∧
      p.Count = ([7, 9] : List Ptr).length ∧
      ∀ i (hi : i < ([7, 9] : List Ptr).length),
        index p.Segments (Int.tmod (p.head + i) p.capacity) = some (some [7, 9][i]) :=
  C1_appends_in_order {} 1 2 [7, 9] (by decide) (by decide) (by decide)

/-- C2: in every state with `head = tail` and `count > 0`, `Append` returns `ErrPlaylistFull`
and the playlist it leaves is the playlist it was given, every field included (the heap is
not an output of `Append`); and on a fresh playlist of capacity `c ≥ 1`, after `c` appends
the next one returns `ErrPlaylistFull` and leaves the state reached by the first `c`. -/
theorem C2_append_full (h : Heap) (p : MediaPlaylist) (seg : Option Ptr)
    (hhead : p.head = p.tail) (hcount : p.count > 0)
    (winsize c : Int) (segs : List Ptr) (hc : 1 ≤ c) (hw : winsize ≤ c)
    (hN : (segs.length : Int) = c) :
    p.Append h seg = .error .ErrPlaylistFull p ∧
    ∃ p0 q, NewMediaPlaylist winsize c = .ok (some p0) ∧
      appendAll h p0 (segs.map some) = .ok q ∧
      q.Append h seg = .error .ErrPlaylistFull q ∧
      appendAll h p0 (segs.map some ++ [seg]) = .error .ErrPlaylistFull q := by
  refine ⟨Append_full h p seg ⟨hhead, hcount⟩, ?_⟩
  have hc0 : 0 ≤ c := by omega
  obtain ⟨q, hq, hf, -⟩ := Filled.appendAll_ok h c segs _ 0
    (Filled_new winsize hc0) (by omega)
  have hfull := hf.full (by simpa using hN) hc
  have hlast := Append_full h q seg hfull
  refine ⟨_, q, NewMediaPlaylist_ok hc0 hw, hq, hlast, ?_⟩
  rw [appendAll_append, hq]
  simp only [appendAll, hlast]

/-- C2, at a full one-slot buffer and at a fresh playlist of capacity 2 -/
theorem C2_append_full_witness :
    MediaPlaylist.Append {} { capacity := 1, Segments := [some 4], count := 1 } (some 5) =
      .error .ErrPlaylistFull { capacity := 1, Segments := [some 4], count := 1 } ∧
    ∃ p0 q, NewMediaPlaylist 2 2 = .ok (some p0) ∧
      appendAll {} p0 ([7, 9].map some) = .ok q ∧
      q.Append {} (some 5) = .error .ErrPlaylistFull q ∧
      appendAll {} p0 ([7, 9].map some ++ [some 5]) = .error .ErrPlaylistFull q :=
  C2_append_full {} { capacity := 1, Segments := [some 4], count := 1 } (some 5) rfl
    (by decide) 2 2 [7, 9] (by decide) (by decide) (by decide)

/-- C3: in every state, `Remove` returns an error if and only if `count = 0`, and when it
returns an error the playlist it leaves is the playlist it was given, every field included -/
theorem C3_remove_error (p : MediaPlaylist) :
    ((∃ e q, p.Remove = .error e q) ↔ p.count = 0) ∧
    (∀ e q, p.Remove = .error e q → q = p) := by
  unfold MediaPlaylist.Remove
  by_cases h0 : p.count = 0
  · simp [h0]
  · by_cases hcap : p.capacity = 0 <;> simp [h0, hcap]

/-- C3, at an empty playlist of capacity 2: `Remove` returns the error and changes nothing -/
theorem C3_remove_error_witness :
    ∃ e, MediaPlaylist.Remove { capacity := 2, Segments := [none, none], ver := 3 } =
      .error e { capacity := 2, Segments := [none, none], ver := 3 } := by
  have key := C3_remove_error { capacity := 2, Segments := [none, none], ver := 3 }
  obtain ⟨e, q, hq⟩ := key.1.mpr rfl
  exact ⟨e, by rw [hq, key.2 e q hq]⟩

/-- C4, as stated, fails at the largest `int`: `SeqNo` is an exported `int` of 64 bits, and
`p.SeqNo++` wraps around. On the playlist that `NewMediaPlaylist(0, 1)` and one `Append`
leave, with `SeqNo` set to `2 ^ 63 - 1`, `Remove` succeeds and leaves `SeqNo = -2 ^ 63`, which
is not `SeqNo + 1`. -/
theorem C4_counterexample :
    NewMediaPlaylist 0 1 = .ok (some { ver := 3, capacity := 1, Segments := [none] }) ∧
    MediaPlaylist.Append {} { ver := 3, capacity := 1, Segments := [none] } (some 0) =
      .ok { ver := 3, capacity := 1, Segments := [some 0], count := 1 } ∧
    MediaPlaylist.Remove
        { ver := 3, capacity := 1, Segments := [some 0], count := 1, SeqNo := 2 ^ 63 - 1 } =
      .ok { ver := 3, capacity := 1, Segments := [some 0], count := 0, SeqNo := -2 ^ 63 } ∧
    (-2 ^ 63 : Int) ≠ (2 ^ 63 - 1) + 1 := by
  refine ⟨by decide, ?_, ?_, by decide⟩
  · have t1 : Int.tmod 1 1 = 0 := by decide
    simp [MediaPlaylist.Append, t1]
  · rw [Remove_ok (by decide) (by decide)]
    have t1 : Int.tmod 1 1 = 0 := by decide
    have w1 : wrapInt 9223372036854775808 = -9223372036854775808 := by decide
    simp [t1, w1]

/-- C4, amended with `SeqNo` below the largest `int`: in every state with `count > 0` and
`capacity ≥ 1`, `Remove` succeeds, sets `head` to `(head + 1) % capacity` (Go's remainder,
which is the residue in `[0, capacity)` as soon as `head ≥ -1`), decreases `count` by 1,
increases `SeqNo` by 1 when `Closed` is false and `SeqNo`, an `int` (so `-2 ^ 63 ≤ SeqNo`),
is below `2 ^ 63 - 1`, leaves `SeqNo` when `Closed` is true, and changes none of `tail`,
`capacity`, `winsize`, `TargetDuration` and `Segments` (the heap, where the segments live, is
not an output). -/
theorem C4_remove_ok (p : MediaPlaylist) (hcount : p.count > 0) (hcap : 1 ≤ p.capacity) :
    ∃ q, p.Remove = .ok q ∧
      q.head = Int.tmod (p.head + 1) p.capacity ∧
      (-1 ≤ p.head → q.head = (p.head + 1) % p.capacity) ∧
      q.count = p.count - 1 ∧
      (p.Closed = false → -2 ^ 63 ≤ p.SeqNo → p.SeqNo < 2 ^ 63 - 1 →
        q.SeqNo = p.SeqNo + 1) ∧
      (p.Closed = true → q.SeqNo = p.SeqNo) ∧
      q.tail = p.tail ∧ q.capacity = p.capacity ∧ q.winsize = p.winsize ∧
      q.TargetDuration = p.TargetDuration ∧ q.Segments = p.Segments := by
  have h0 : ¬ p.count = 0 := by omega
  have h1 : ¬ p.capacity = 0 := by omega
  refine ⟨_, Remove_ok h0 h1, rfl, ?_, rfl, ?_, ?_, rfl, rfl, rfl, rfl, rfl⟩
  · intro hh
    exact Int.tmod_eq_emod (by omega) (by omega)
  · intro hcl hlo hhi
    simp only [hcl, Bool.false_eq_true, if_false]
    exact wrapInt_of_range (by omega) (by omega)
  · intro hcl; simp [hcl]

/-- C4 (amended), at an open playlist with two live segments in three slots and `SeqNo = 7` -/
theorem C4_remove_ok_witness :
    ∃ q, MediaPlaylist.Remove
        { capacity := 3, Segments := [some 0, some 1, none], tail := 2, count := 2, SeqNo := 7 }
        = .ok q ∧
      q.head = Int.tmod (0 + 1) 3 ∧ (-1 ≤ (0 : Int) → q.head = (0 + 1) % 3) ∧ q.count = 2 - 1 ∧
      (false = false → -2 ^ 63 ≤ (7 : Int) → (7 : Int) < 2 ^ 63 - 1 → q.SeqNo = 7 + 1) ∧
      (false = true → q.SeqNo = 7) ∧
      q.tail = 2 ∧ q.capacity = 3 ∧ q.winsize = 0 ∧
      q.TargetDuration = 0 ∧ q.Segments = [some 0, some 1, none] :=
  C4_remove_ok
    { capacity := 3, Segments := [some 0, some 1, none], tail := 2, count := 2, SeqNo := 7 }
    (by decide) (by decide)

/-- C5: for all integers `w` and `c ≥ 0`, `NewMediaPlaylist w c` returns an error if and only
if `w > c`, and otherwise returns a playlist with `WinSize() = w`, `Count() = 0` and
`Version() = 3`; for every playlist and every `w`, `SetWinSize w` returns an error if and
only if `w > capacity`, an error leaves the playlist (so `WinSize()`) unchanged, and
otherwise the call succeeds with `WinSize() = w` afterwards. -/
theorem C5_winsize (w c : Int) (hc : 0 ≤ c) (p : MediaPlaylist) (w2 : Int) :
    ((∃ e r, NewMediaPlaylist w c = .error e r) ↔ w > c) ∧
    (¬ w > c → ∃ q, NewMediaPlaylist w c = .ok (some q) ∧
      q.WinSize = w ∧ q.Count = 0 ∧ q.Version = 3) ∧
    ((∃ e q, p.SetWinSize w2 = .error e q) ↔ w2 > p.capacity) ∧
    (∀ e q, p.SetWinSize w2 = .error e q → q = p ∧ q.WinSize = p.WinSize) ∧
    (¬ w2 > p.capacity → ∃ q, p.SetWinSize w2 = .ok q ∧ q.WinSize = w2) := by
  refine ⟨?_, ?_, ?_, ?_, ?_⟩
  · by_cases hw : w > c
    · simp [NewMediaPlaylist, MediaPlaylist.SetWinSize, hw]
    · rw [NewMediaPlaylist_ok hc (by omega)]
      simp [hw]
  · intro hw
    exact ⟨_, NewMediaPlaylist_ok hc (by omega), rfl, rfl, rfl⟩
  · by_cases hw : w2 > p.capacity <;> simp [MediaPlaylist.SetWinSize, hw]
  · intro e q
    by_cases hw : w2 > p.capacity <;> simp [MediaPlaylist.SetWinSize, hw]
    intro _ hq
    simp [← hq]
  · intro hw
    exact ⟨_, SetWinSize_ok hw, rfl⟩

/-- C5, at `NewMediaPlaylist 2 1` (an error), `NewMediaPlaylist 1 2` (a playlist) and
`SetWinSize 99999` on a playlist of capacity 5 (an error) -/
theorem C5_winsize_witness :
    ((∃ e r, NewMediaPlaylist 2 1 = .error e r) ↔ (2 : Int) > 1) ∧
    (¬ (1 : Int) > 2 → ∃ q, NewMediaPlaylist 1 2 = .ok (some q) ∧
      q.WinSize = 1 ∧ q.Count = 0 ∧ q.Version = 3) ∧
    (∀ e q, MediaPlaylist.SetWinSize { capacity := 5, winsize := 5 } 99999 = .error e q →
      q = { capacity := 5, winsize := 5 } ∧ q.WinSize = 5) :=
  ⟨(C5_winsize 2 1 (by decide) {} 0).1, (C5_winsize 1 2 (by decide) {} 0).2.1,
    (C5_winsize 0 0 (by decide) { capacity := 5, winsize := 5 } 99999).2.2.2.1⟩

/-- C6: in every state, each of `SetKey`, `SetMap`, `SetRange`, `SetSCTE35`,
`SetDiscontinuity`, `SetProgramDateTime` and `ExtendCapacity` returns an error if and only if
`count = 0`, and when it returns an error the playlist and the heap it leaves are those it
was given (so neither the version, a segment, a slot nor the capacity has changed). -/
theorem C6_setters_error (h : Heap) (p : MediaPlaylist)
    (method uri iv keyformat keyformatversions : String) (limit offset : Int)
    (scte35 : Option Ptr) (value : Time) :
    (((∃ e s, p.SetKey h method uri iv keyformat keyformatversions = .error e s) ↔ p.count = 0) ∧
      ∀ e s, p.SetKey h method uri iv keyformat keyformatversions = .error e s → s = (p, h)) ∧
    (((∃ e s, p.SetMap h uri limit offset = .error e s) ↔ p.count = 0) ∧
      ∀ e s, p.SetMap h uri limit offset = .error e s → s = (p, h)) ∧
    (((∃ e s, p.SetRange h limit offset = .error e s) ↔ p.count = 0) ∧
      ∀ e s, p.SetRange h limit offset = .error e s → s = (p, h)) ∧
    (((∃ e s, p.SetSCTE35 h scte35 = .error e s) ↔ p.count = 0) ∧
      ∀ e s, p.SetSCTE35 h scte35 = .error e s → s = (p, h)) ∧
    (((∃ e s, p.SetDiscontinuity h = .error e s) ↔ p.count = 0) ∧
      ∀ e s, p.SetDiscontinuity h = .error e s → s = (p, h)) ∧
    (((∃ e s, p.SetProgramDateTime h value = .error e s) ↔ p.count = 0) ∧
      ∀ e s, p.SetProgramDateTime h value = .error e s → s = (p, h)) ∧
    (((∃ e s, p.ExtendCapacity = .error e s) ↔ p.count = 0) ∧
      ∀ e s, p.ExtendCapacity = .error e s → s = p) := by
  by_cases h0 : p.count = 0
  · simp [MediaPlaylist.SetKey, MediaPlaylist.SetMap, MediaPlaylist.SetRange,
      MediaPlaylist.SetSCTE35, MediaPlaylist.SetDiscontinuity,
      MediaPlaylist.SetProgramDateTime, MediaPlaylist.ExtendCapacity, h0]
  · cases hl : p.lastSeg <;> by_cases hneg : p.count < 0 <;>
      simp [MediaPlaylist.SetKey, MediaPlaylist.SetMap, MediaPlaylist.SetRange,
        MediaPlaylist.SetSCTE35, MediaPlaylist.SetDiscontinuity,
        MediaPlaylist.SetProgramDateTime, MediaPlaylist.ExtendCapacity, h0, hl, hneg]

/-- C6, at a fresh playlist of capacity 2: every one of the seven calls returns an error and
leaves the playlist and the heap -/
theorem C6_setters_error_witness :
    (∃ e, MediaPlaylist.SetKey {} { capacity := 2, Segments := [none, none], ver := 3 }
        "AES-128" "u" "iv" "f" "1" =
          .error e ({ capacity := 2, Segments := [none, none], ver := 3 }, {})) ∧
    (∃ e, MediaPlaylist.ExtendCapacity { capacity := 2, Segments := [none, none], ver := 3 }
        = .error e { capacity := 2, Segments := [none, none], ver := 3 }) := by
  have key := C6_setters_error {} { capacity := 2, Segments := [none, none], ver := 3 }
    "AES-128" "u" "iv" "f" "1" 0 0 none {}
  obtain ⟨e, s, hs⟩ := key.1.1.2 rfl
  obtain ⟨e2, s2, hs2⟩ := key.2.2.2.2.2.2.1.2 rfl
  refine ⟨⟨e, ?_⟩, ⟨e2, ?_⟩⟩
  · rw [hs, key.1.2 e s hs]
  · rw [hs2, key.2.2.2.2.2.2.2 e2 s2 hs2]

/-- C7: in every state with `0 ≤ tail < capacity = len(Segments)` in which `Append seg`
succeeds (a state has `count ≥ 0`: the counter is unexported, starts at 0, and `Remove`
decrements it only when it is not 0), `seg` is a segment at some address `a`, the slot
`last()` holds it, and each per-segment setter called next succeeds, leaves every slot of
`Segments` as it was, leaves every segment other than `a` as it was, and changes in the
segment at `a` only the fields it names: `SetKey`
makes `Key` point to a key with the five given fields, `SetMap` makes `Map` point to a map
with the three given fields, `SetRange` sets `Limit` and `Offset`, `SetSCTE35` sets `SCTE`,
`SetDiscontinuity` sets `Discontinuity` to true, `SetProgramDateTime` sets
`ProgramDateTime`. -/
theorem C7_setter_writes_last (h : Heap) (p q : MediaPlaylist) (seg : Option Ptr)
    (htail : 0 ≤ p.tail ∧ p.tail < p.capacity) (hlen : p.capacity = p.Segments.length)
    (hcount : 0 ≤ p.count) (happ : p.Append h seg = .ok q)
    (method uri iv keyformat keyformatversions : String) (limit offset : Int)
    (scte35 : Option Ptr) (value : Time) :
    ∃ a, seg = some a ∧ index q.Segments q.last = some (some a) ∧
      (∃ q' h' k, q.SetKey h method uri iv keyformat keyformatversions = .ok (q', h') ∧
        q'.Segments = q.Segments ∧ segWritten h h' a { h.seg a with Key := some k } ∧
        h'.key k = ⟨method, uri, iv, keyformat, keyformatversions⟩) ∧
      (∃ q' h' m, q.SetMap h uri limit offset = .ok (q', h') ∧
        q'.Segments = q.Segments ∧ segWritten h h' a { h.seg a with Map := some m } ∧
        h'.map m = ⟨uri, limit, offset⟩) ∧
      (∃ q' h', q.SetRange h limit offset = .ok (q', h') ∧
        q'.Segments = q.Segments ∧
        segWritten h h' a { h.seg a with Limit := limit, Offset := offset }) ∧
      (∃ q' h', q.SetSCTE35 h scte35 = .ok (q', h') ∧
        q'.Segments = q.Segments ∧ segWritten h h' a { h.seg a with SCTE := scte35 }) ∧
      (∃ q' h', q.SetDiscontinuity h = .ok (q', h') ∧
        q'.Segments = q.Segments ∧ segWritten h h' a { h.seg a with Discontinuity := true }) ∧
      (∃ q' h', q.SetProgramDateTime h value = .ok (q', h') ∧
        q'.Segments = q.Segments ∧
        segWritten h h' a { h.seg a with ProgramDateTime := value }) := by
  obtain ⟨a, rfl, -, -, -, rfl⟩ := Append_ok_inv happ
  have hl' : MediaPlaylist.lastSeg { p with
      Segments := p.Segments.set p.tail.toNat (some a)
      tail := Int.tmod (p.tail + 1) p.capacity
      count := p.count + 1
      TargetDuration :=
        if p.TargetDuration < (h.seg a).Duration then ((⌈(h.seg a).Duration⌉ : Int) : ℚ)
        else p.TargetDuration
      buf := "" } = some a := lastSeg_after_append htail hlen rfl rfl rfl
  have h0 : ({ p with
      Segments := p.Segments.set p.tail.toNat (some a)
      tail := Int.tmod (p.tail + 1) p.capacity
      count := p.count + 1
      TargetDuration :=
        if p.TargetDuration < (h.seg a).Duration then ((⌈(h.seg a).Duration⌉ : Int) : ℚ)
        else p.TargetDuration
      buf := "" } : MediaPlaylist).count ≠ 0 := by
    show p.count + 1 ≠ 0
    omega
  refine ⟨a, rfl, ?_, ?_, ?_, ?_, ?_, ?_, ?_⟩
  · exact (lastSeg_eq_some _ a).mp hl'
  · exact ⟨_, _, h.nextKey, SetKey_ok h0 hl' _ _ _ _ _, rfl, segWritten_update _ _ _ _ rfl,
      by simp⟩
  · exact ⟨_, _, h.nextMap, SetMap_ok h0 hl' _ _ _, rfl, segWritten_update _ _ _ _ rfl,
      by simp⟩
  · exact ⟨_, _, SetRange_ok h0 hl' _ _, rfl, segWritten_update _ _ _ _ rfl⟩
  · exact ⟨_, _, SetSCTE35_ok h0 hl' _, rfl, segWritten_update _ _ _ _ rfl⟩
  · exact ⟨_, _, SetDiscontinuity_ok h0 hl', rfl, segWritten_update _ _ _ _ rfl⟩
  · exact ⟨_, _, SetProgramDateTime_ok h0 hl' _, rfl, segWritten_update _ _ _ _ rfl⟩

/-- C7, at a fresh playlist of capacity 2 to which the segment at address 5 is
appended: `SetKey` and `SetDiscontinuity` then succeed and write that segment only -/
theorem C7_setter_writes_last_witness :
    ∃ a, some 5 = some a ∧
      (∃ q' h' k, MediaPlaylist.SetKey ({} : Heap)
          { capacity := 2, Segments := [some 5, none], tail := 1, count := 1, ver := 3 }
          "AES-128" "u" "iv" "identity" "1" = .ok (q', h') ∧
        q'.Segments = [some 5, none] ∧
        segWritten {} h' a { (({} : Heap).seg a) with Key := some k } ∧
        h'.key k = ⟨"AES-128", "u", "iv", "identity", "1"⟩) ∧
      (∃ q' h', MediaPlaylist.SetDiscontinuity ({} : Heap)
          { capacity := 2, Segments := [some 5, none], tail := 1, count := 1, ver := 3 }
          = .ok (q', h') ∧
        q'.Segments = [some 5, none] ∧
        segWritten {} h' a { (({} : Heap).seg a) with Discontinuity := true }) := by
  obtain ⟨a, ha, -, hkey, -, -, -, hdis, -⟩ := C7_setter_writes_last {}
    { capacity := 2, Segments := [none, none], ver := 3 }
    { capacity := 2, Segments := [some 5, none], tail := 1, count := 1, ver := 3 }
    (some 5) (by decide) (by decide) (by decide)
    (by simp [MediaPlaylist.Append]; decide)
    "AES-128" "u" "iv" "identity" "1" 0 0 none {}
  exact ⟨a, ha, hkey, hdis⟩

/-- C8, as stated, fails for a duration whose ceiling is not an `int64`: `Encode` prints
`int64(math.Ceil(TargetDuration))`. On the playlist that `NewMediaPlaylist(0, 1)` returns,
one `Append` of a segment that lasts `10 ^ 19` seconds succeeds and leaves
`TargetDuration = 10 ^ 19`, the ceiling of the duration, and `Encode` writes the line
`#EXT-X-TARGETDURATION:-9223372036854775808`, while that integer in decimal is
`10000000000000000000`. -/
theorem C8_counterexample :
    NewMediaPlaylist 0 1 = .ok (some { ver := 3, capacity := 1, Segments := [none] }) ∧
    (0 : ℚ) ≤ (longSegmentHeap.seg 0).Duration ∧
    MediaPlaylist.Append longSegmentHeap { ver := 3, capacity := 1, Segments := [none] }
        (some 0) =
      .ok { ver := 3, capacity := 1, Segments := [some 0], count := 1,
            TargetDuration := 10 ^ 19 } ∧
    ((⌈(longSegmentHeap.seg 0).Duration⌉ : Int) : ℚ) = 10 ^ 19 ∧
    MediaPlaylist.encoded exampleFormatters longSegmentHeap
        { ver := 3, capacity := 1, Segments := [some 0], count := 1,
          TargetDuration := 10 ^ 19 } =
      some ("#EXTM3U\n#EXT-X-VERSION:3\n#EXT-X-MEDIA-SEQUENCE:0\n" ++
        "#EXT-X-TARGETDURATION:-9223372036854775808\n#EXTINF:?,\na.ts\n") ∧
    Itoa ⌈(longSegmentHeap.seg 0).Duration⌉ = "10000000000000000000" := by
  refine ⟨by decide, by decide!, by decide!, by decide!, by decide!, by decide!⟩

/-- C8, amended with durations whose ceiling is below `2 ^ 63`: take a playlist freshly
returned by `NewMediaPlaylist` and a non-empty sequence of appends to it that all succeed,
of segments with non-negative durations whose ceiling is below `2 ^ 63`. Then the largest
duration `m` of the sequence satisfies `TargetDuration = ⌈m⌉`, and `Encode` returns the text
`#EXTM3U`, `#EXT-X-VERSION:3`, `#EXT-X-MEDIA-SEQUENCE:0`, then the line
`#EXT-X-TARGETDURATION:` followed by `⌈m⌉` in decimal, then the lines of the segments. -/
theorem C8_target_duration (F : Formatters) (h : Heap) (w c : Int) (p0 q : MediaPlaylist)
    (segs : List Ptr) (hnew : NewMediaPlaylist w c = .ok (some p0)) (hne : segs ≠ [])
    (happ : appendAll h p0 (segs.map some) = .ok q)
    (hpos : ∀ a ∈ segs, 0 ≤ (h.seg a).Duration)
    (hlt : ∀ a ∈ segs, ⌈(h.seg a).Duration⌉ < 2 ^ 63) :
    ∃ m ∈ segs.map (fun a => (h.seg a).Duration),
      (∀ d ∈ segs.map (fun a => (h.seg a).Duration), d ≤ m) ∧
      q.TargetDuration = ((⌈m⌉ : Int) : ℚ) ∧
      ∃ r segments, q.Encode F h = some r ∧
        MediaPlaylist.writeSegments F h q q.count.toNat 0 q.head [] = some segments ∧
        r.buf = "#EXTM3U\n#EXT-X-VERSION:3\n#EXT-X-MEDIA-SEQUENCE:0\n" ++
          ("#EXT-X-TARGETDURATION:" ++ Itoa ⌈m⌉ ++ "\n") ++ segments := by
  obtain ⟨hc0, -, rfl⟩ := NewMediaPlaylist_ok_inv hnew
  have hf := Filled.appendAll_inv h c segs _ q 0 (Filled_new w hc0) happ
  obtain ⟨S, t, n, T, b, hq, hb⟩ := appendAll_frame h _ _ q happ
  have hmax := appendAll_targetDuration h segs _ q [] (Or.inl ⟨rfl, rfl⟩) hpos happ
  have hlenpos : 0 < segs.length := List.length_pos.mpr hne
  rcases hmax with ⟨hnil, -⟩ | ⟨m, hm, hmmax, hT⟩
  · exfalso
    simp at hnil
    exact hne hnil
  · simp only [List.nil_append] at hm hmmax
    refine ⟨m, hm, hmmax, hT, ?_⟩
    obtain ⟨a, ha, rfl⟩ := List.mem_map.mp hm
    have hm0 : (0 : Int) ≤ ⌈(h.seg a).Duration⌉ := Int.ceil_nonneg (hpos a ha)
    have hm1 : ⌈(h.seg a).Duration⌉ < 2 ^ 63 := hlt a ha
    have hcap : 0 < q.capacity := by
      rw [hf.cap]; have := hf.le; omega
    have hlen : q.capacity = q.Segments.length := by rw [hf.cap, hf.len]
    obtain ⟨segments, hs⟩ := writeSegments_total F h q hlen hcap q.count.toNat 0 q.head []
      (by rw [hf.head]) (by rw [hf.head]; exact hcap)
    have hbuf : q.buf = "" := by rw [hq]; exact hb rfl
    refine ⟨_, segments, Encode_fresh hbuf hs, hs, ?_⟩
    have hver : q.ver = 3 := by rw [hq]; rfl
    have hseq : q.SeqNo = 0 := by rw [hq]
    have hkey : q.Key = none := by rw [hq]
    have hmap : q.Map = none := by rw [hq]
    have htyp : q.MediaType = 0 := by rw [hq]
    have hifr : q.Iframe = false := by rw [hq]
    have hwv : q.W = none := by rw [hq]
    have hcl : q.Closed = false := by rw [hq]
    have hceil : ⌈q.TargetDuration⌉ = ⌈(h.seg a).Duration⌉ := by rw [hT]; simp
    have hconv : int64 ⌈(h.seg a).Duration⌉ = ⌈(h.seg a).Duration⌉ :=
      int64_of_range (le_trans (by norm_num) hm0) hm1
    have h3 : Itoa 3 = "3" := by decide
    have h0 : Itoa 0 = "0" := by decide
    show MediaPlaylist.header h q ++ segments ++ (if q.Closed then "#EXT-X-ENDLIST\n" else "")
      = _
    simp only [MediaPlaylist.header, MediaPlaylist.headerVersion, MediaPlaylist.headerKey,
      MediaPlaylist.headerMap, MediaPlaylist.headerType, MediaPlaylist.headerSequence,
      MediaPlaylist.headerTargetDuration, MediaPlaylist.headerIframe,
      MediaPlaylist.headerWidevine, hver, hseq, hkey, hmap, htyp, hifr, hwv, hcl, hceil, hconv,
      h3, h0]
    apply String.ext
    simp

/-- C8 (amended), at the playlist of `TestTargetDurationForMediaPlaylist`: capacity 2, window
1, and two appended segments of durations 9 and 9.1; the target duration line reads 10 -/
theorem C8_target_duration_witness :
    ∃ r segments,
      MediaPlaylist.Encode exampleFormatters exampleHeap
        { TargetDuration := 10, Segments := [some 0, some 1], count := 2, capacity := 2,
          winsize := 1, ver := 3 } = some r ∧
      r.buf = "#EXTM3U\n#EXT-X-VERSION:3\n#EXT-X-MEDIA-SEQUENCE:0\n" ++
          ("#EXT-X-TARGETDURATION:" ++ "10" ++ "\n") ++ segments := by
  have hnew : NewMediaPlaylist 1 2 = .ok (some
      { ver := 3, capacity := 2, winsize := 1, Segments := [none, none] }) := by decide
  have h9 : (⌈(9 : ℚ)⌉ : Int) = 9 := by
    rw [Int.ceil_eq_iff]; norm_num
  have h91 : (⌈(91 / 10 : ℚ)⌉ : Int) = 10 := by
    rw [Int.ceil_eq_iff]; norm_num
  have hlt : (9 : ℚ) < 91 / 10 := by norm_num
  have happ : appendAll exampleHeap
      { ver := 3, capacity := 2, winsize := 1, Segments := [none, none] }
      (([0, 1] : List Ptr).map some) = .ok
      { TargetDuration := 10, Segments := [some 0, some 1], count := 2, capacity := 2,
        winsize := 1, ver := 3 } := by
    have t1 : Int.tmod 1 2 = 1 := by decide
    simp [appendAll, MediaPlaylist.Append, exampleHeap, h9, h91, hlt, t1]
  obtain ⟨m, hm, hmax, -, r, segments, hr, -, hbuf⟩ :=
    C8_target_duration exampleFormatters exampleHeap 1 2 _ _ [0, 1] hnew (by simp) happ
      (by intro a _; simp only [exampleHeap]; split <;> norm_num)
      (by intro a _; simp only [exampleHeap]; split <;> simp only [h9, h91] <;> norm_num)
  have hm91 : m = 91 / 10 := by
    have h1 := hmax (91 / 10) (by simp [exampleHeap])
    simp [exampleHeap] at hm
    rcases hm with rfl | rfl
    · exact absurd h1 (by norm_num)
    · rfl
  refine ⟨r, segments, hr, ?_⟩
  rw [hbuf, hm91, h91]
  rfl

/-- C9: for every playlist with version `v`. `SetDefaultKey` succeeds and leaves the version
`max v 5` when `keyformat` or `keyformatversions` is non-empty, and `v` when both are empty.
On a non-empty playlist (`count ≠ 0`) `SetKey` returns no error, leaves the same version as
`SetDefaultKey` whenever it returns, and does return when the slot `last()` holds a segment.
On a fresh playlist `SetDefaultKey`, and `SetKey` after one successful `Append`, succeed and
leave version 5 in the first case and 3 in the second. -/
theorem C9_key_version (h : Heap) (p : MediaPlaylist)
    (method uri iv keyformat keyformatversions : String) :
    (∃ q h', p.SetDefaultKey h method uri iv keyformat keyformatversions = .ok (q, h') ∧
      q.Version = if keyformat ≠ "" ∨ keyformatversions ≠ "" then max p.Version 5
        else p.Version) ∧
    (p.count ≠ 0 →
      (∀ e s, p.SetKey h method uri iv keyformat keyformatversions ≠ .error e s) ∧
      (∀ q h', p.SetKey h method uri iv keyformat keyformatversions = .ok (q, h') →
        q.Version = if keyformat ≠ "" ∨ keyformatversions ≠ "" then max p.Version 5
          else p.Version) ∧
      (∀ a, index p.Segments p.last = some (some a) →
        ∃ q h', p.SetKey h method uri iv keyformat keyformatversions = .ok (q, h'))) ∧
    (∀ w c p0, NewMediaPlaylist w c = .ok (some p0) →
      (∃ q h', p0.SetDefaultKey h method uri iv keyformat keyformatversions = .ok (q, h') ∧
        q.Version = if keyformat ≠ "" ∨ keyformatversions ≠ "" then 5 else 3) ∧
      (∀ seg p1, p0.Append h seg = .ok p1 →
        ∃ q h', p1.SetKey h method uri iv keyformat keyformatversions = .ok (q, h') ∧
          q.Version = if keyformat ≠ "" ∨ keyformatversions ≠ "" then 5 else 3)) := by
  refine ⟨⟨_, _, rfl, ?_⟩, ?_, ?_⟩
  · simp only [MediaPlaylist.Version, checkVersion_eq_max]
  · intro h0
    refine ⟨?_, ?_, ?_⟩
    · intro e s
      cases hl : p.lastSeg <;> simp [MediaPlaylist.SetKey, h0, hl]
    · intro q h' hq
      cases hl : p.lastSeg with
      | none => simp [MediaPlaylist.SetKey, h0, hl] at hq
      | some a =>
        rw [SetKey_ok h0 hl] at hq
        have := (Prod.mk.inj (Result.ok.inj hq)).1
        rw [← this]
        simp only [MediaPlaylist.Version, checkVersion_eq_max]
    · intro a ha
      exact ⟨_, _, SetKey_ok h0 ((lastSeg_eq_some p a).mpr ha) _ _ _ _ _⟩
  · intro w c p0 hnew
    obtain ⟨hc0, -, hp0⟩ := NewMediaPlaylist_ok_inv hnew
    have hver : p0.ver = 3 := by rw [hp0]; rfl
    have htl : p0.tail = 0 := by rw [hp0]
    have hcnt : p0.count = 0 := by rw [hp0]
    have hlen : p0.capacity = p0.Segments.length := by rw [hp0]; simp [hc0]
    have hfin : (if keyformat ≠ "" ∨ keyformatversions ≠ "" then checkVersion p0.ver 5
        else p0.ver) = if keyformat ≠ "" ∨ keyformatversions ≠ "" then 5 else 3 := by
      rw [hver]
      by_cases hk : keyformat ≠ "" ∨ keyformatversions ≠ ""
      · rw [if_pos hk, if_pos hk]; decide
      · rw [if_neg hk, if_neg hk]
    refine ⟨⟨_, _, rfl, hfin⟩, ?_⟩
    intro seg p1 happ
    obtain ⟨a, rfl, -, htail, -, hp1⟩ := Append_ok_inv happ
    have htail' : 0 ≤ p0.tail ∧ p0.tail < p0.capacity := by rw [hlen]; exact htail
    have hl : p1.lastSeg = some a := by
      rw [hp1]; exact lastSeg_after_append htail' hlen rfl rfl rfl
    have h1 : p1.count ≠ 0 := by rw [hp1]; show p0.count + 1 ≠ 0; omega
    refine ⟨_, _, SetKey_ok h1 hl _ _ _ _ _, ?_⟩
    show (if keyformat ≠ "" ∨ keyformatversions ≠ "" then checkVersion p1.ver 5 else p1.ver)
      = _
    have hv1 : p1.ver = p0.ver := by rw [hp1]
    rw [hv1]; exact hfin

/-- C9, at the playlists of `TestSetDefaultKeyForMediaPlaylist` and
`TestSetKeyForMediaPlaylist` (capacity 5, window 3) with key format "Format" -/
theorem C9_key_version_witness :
    (∃ q h', MediaPlaylist.SetDefaultKey exampleHeap
        { ver := 3, capacity := 5, winsize := 3, Segments := List.replicate 5 none }
        "AES-128" "https://example.com" "iv" "Format" "" = .ok (q, h') ∧ q.Version = 5) ∧
    (∃ q h', MediaPlaylist.SetKey exampleHeap
        { ver := 3, capacity := 5, winsize := 3, TargetDuration := 9, tail := 1, count := 1,
          Segments := [some 0, none, none, none, none] }
        "AES-128" "https://example.com" "iv" "Format" "" = .ok (q, h') ∧ q.Version = 5) := by
  have key := (C9_key_version exampleHeap {} "AES-128" "https://example.com" "iv" "Format" "").2.2
    3 5 _ (by decide : NewMediaPlaylist 3 5 = .ok (some
      { ver := 3, capacity := 5, winsize := 3, Segments := List.replicate 5 none }))
  have h9 : (⌈(9 : ℚ)⌉ : Int) = 9 := by
    rw [Int.ceil_eq_iff]; norm_num
  have happ : MediaPlaylist.Append exampleHeap
      { ver := 3, capacity := 5, winsize := 3, Segments := List.replicate 5 none } (some 0) =
      .ok { ver := 3, capacity := 5, winsize := 3, TargetDuration := 9, tail := 1, count := 1,
            Segments := [some 0, none, none, none, none] } := by
    have t1 : Int.tmod 1 5 = 1 := by decide
    simp [MediaPlaylist.Append, exampleHeap, h9, t1]
  obtain ⟨q, h', hq, hv⟩ := key.1
  obtain ⟨q2, h2, hq2, hv2⟩ := key.2 _ _ happ
  exact ⟨⟨q, h', hq, by simpa using hv⟩, ⟨q2, h2, hq2, by simpa using hv2⟩⟩

/-- C10: `checkVersion` leaves `max version floor`, which is never below the version. For
every playlist with version `v`: a successful `SetRange` and `SetIframeOnly` leave
`max v 4`; a successful `SetMap` and `SetDefaultMap` leave `max v 5`; `DurationAsInt(true)`
leaves `max v 3`; `MasterPlaylist.Append` leaves `max v 4` when the variant has at least one
alternative and `v` otherwise; and `Append`, `Remove`, `Slide`, `ExtendCapacity`,
`AppendWithAutoExtend`, `SetSCTE35`, `SetDiscontinuity`, `SetProgramDateTime`, `SetWinSize`
(whether they return an error or not), `Close`, `ResetCache`, `Encode` and
`DurationAsInt(false)` leave `v`. -/
theorem C10_version_negotiation (F : Formatters) (h : Heap) (p : MediaPlaylist)
    (mp : MasterPlaylist) (seg scte35 chunklist : Option Ptr) (uri : String)
    (limit offset w v n : Int) (value : Time) (params : VariantParams) :
    (checkVersion v n = max v n ∧ v ≤ checkVersion v n) ∧
    (∀ q h', p.SetRange h limit offset = .ok (q, h') → q.Version = max p.Version 4) ∧
    p.SetIframeOnly.Version = max p.Version 4 ∧
    (∀ q h', p.SetMap h uri limit offset = .ok (q, h') → q.Version = max p.Version 5) ∧
    (p.SetDefaultMap h uri limit offset).1.Version = max p.Version 5 ∧
    (p.DurationAsInt true).Version = max p.Version 3 ∧
    (mp.Append uri chunklist params).Version =
      (if params.Alternatives.length ≥ 1 then max mp.Version 4 else mp.Version) ∧
    (∀ q, (p.Append h seg).state? = some q → q.Version = p.Version) ∧
    (∀ q, p.Remove.state? = some q → q.Version = p.Version) ∧
    (∀ q, (p.Slide h seg).state? = some q → q.Version = p.Version) ∧
    (∀ q, p.ExtendCapacity.state? = some q → q.Version = p.Version) ∧
    (∀ q, (p.AppendWithAutoExtend h seg).state? = some q → q.Version = p.Version) ∧
    (∀ q h', (p.SetSCTE35 h scte35).state? = some (q, h') → q.Version = p.Version) ∧
    (∀ q h', (p.SetDiscontinuity h).state? = some (q, h') → q.Version = p.Version) ∧
    (∀ q h', (p.SetProgramDateTime h value).state? = some (q, h') → q.Version = p.Version) ∧
    (∀ q, (p.SetWinSize w).state? = some q → q.Version = p.Version) ∧
    p.Close.Version = p.Version ∧
    p.ResetCache.Version = p.Version ∧
    (∀ q, p.Encode F h = some q → q.Version = p.Version) ∧
    (p.DurationAsInt false).Version = p.Version := by
  refine ⟨⟨checkVersion_eq_max v n, ?_⟩, ?_, ?_, ?_, ?_, ?_, ?_, ?_, ?_, ?_, ?_, ?_, ?_, ?_, ?_,
    ?_, rfl, rfl, ?_, rfl⟩
  · rw [checkVersion_eq_max]; exact le_max_left v n
  · intro q h' hq
    rw [← checkVersion_eq_max]
    refine setter_ver p h ?_ hq
    unfold MediaPlaylist.SetRange
    by_cases h0 : p.count = 0
    · left; rw [if_pos h0]
    · right; rw [if_neg h0]
      cases p.lastSeg with
      | none => left; rfl
      | some a => right; exact ⟨_, rfl⟩
  · show checkVersion p.ver 4 = _
    exact checkVersion_eq_max _ _
  · intro q h' hq
    rw [← checkVersion_eq_max]
    refine setter_ver p h ?_ hq
    unfold MediaPlaylist.SetMap
    by_cases h0 : p.count = 0
    · left; rw [if_pos h0]
    · right; rw [if_neg h0]
      cases p.lastSeg with
      | none => left; rfl
      | some a => right; exact ⟨_, rfl⟩
  · show checkVersion p.ver 5 = _
    exact checkVersion_eq_max _ _
  · show checkVersion p.ver 3 = _
    exact checkVersion_eq_max _ _
  · show (if params.Alternatives.length > 0 then checkVersion mp.ver 4 else mp.ver) = _
    rw [checkVersion_eq_max]
    rfl
  · exact fun q hq => Append_ver hq
  · exact fun q hq => Remove_ver hq
  · exact fun q hq => Slide_ver hq
  · exact fun q hq => ExtendCapacity_ver hq
  · exact fun q hq => AppendWithAutoExtend_ver hq
  · intro q h' hq
    refine setter_state_ver p h ?_ hq
    unfold MediaPlaylist.SetSCTE35
    by_cases h0 : p.count = 0
    · left; rw [if_pos h0]
    · right; rw [if_neg h0]
      cases p.lastSeg with
      | none => left; rfl
      | some a => right; exact ⟨_, rfl⟩
  · intro q h' hq
    refine setter_state_ver p h ?_ hq
    unfold MediaPlaylist.SetDiscontinuity
    by_cases h0 : p.count = 0
    · left; rw [if_pos h0]
    · right; rw [if_neg h0]
      cases p.lastSeg with
      | none => left; rfl
      | some a => right; exact ⟨_, rfl⟩
  · intro q h' hq
    refine setter_state_ver p h ?_ hq
    unfold MediaPlaylist.SetProgramDateTime
    by_cases h0 : p.count = 0
    · left; rw [if_pos h0]
    · right; rw [if_neg h0]
      cases p.lastSeg with
      | none => left; rfl
      | some a => right; exact ⟨_, rfl⟩
  · intro q hq
    unfold MediaPlaylist.SetWinSize at hq
    by_cases hw : w > p.capacity
    · rw [if_pos hw] at hq
      simp only [Result.state?, Option.some.injEq] at hq
      rw [← hq]
    · rw [if_neg hw] at hq
      simp only [Result.state?, Option.some.injEq] at hq
      rw [← hq]
      rfl
  · exact fun q hq => Encode_ver hq

/-- C10, at a playlist of version 3 with one live segment in three slots, and at a fresh
master playlist: the calls succeed and leave the versions 4, 5, 4, 3, 3 and 3 -/
theorem C10_version_negotiation_witness :
    (∃ q h', examplePlaylist.SetRange exampleHeap 10 0 = .ok (q, h') ∧ q.Version = 4) ∧
    (∃ q h', examplePlaylist.SetMap exampleHeap "init.mp4" 10 0 = .ok (q, h') ∧
      q.Version = 5) ∧
    (NewMasterPlaylist.Append "a.m3u8" none { Alternatives := [some { GroupID := "audio" }] }
      ).Version = 4 ∧
    (∃ q, examplePlaylist.Append exampleHeap (some 1) = .ok q ∧ q.Version = 3) ∧
    (∃ q, examplePlaylist.Remove = .ok q ∧ q.Version = 3) ∧
    (∃ q, examplePlaylist.Encode exampleFormatters exampleHeap = some q ∧ q.Version = 3) := by
  have key := C10_version_negotiation exampleFormatters exampleHeap examplePlaylist
    NewMasterPlaylist (some 1) none none "init.mp4" 10 0 2 3 4 {}
    { Alternatives := [some { GroupID := "audio" }] }
  have h0 : examplePlaylist.count ≠ 0 := by decide
  have hl : examplePlaylist.lastSeg = some 0 := by decide
  have hcap : examplePlaylist.capacity ≠ 0 := by decide
  have hfull : ¬ (examplePlaylist.head = examplePlaylist.tail ∧ examplePlaylist.count > 0) := by
    decide
  have htail : 0 ≤ examplePlaylist.tail ∧
      examplePlaylist.tail < examplePlaylist.Segments.length := by decide
  obtain ⟨segments, hs⟩ := writeSegments_total exampleFormatters exampleHeap examplePlaylist
    (by decide) (by decide) examplePlaylist.count.toNat 0 examplePlaylist.head []
    (by decide) (by decide)
  have hmul : ∀ q : MediaPlaylist, q.Version = max examplePlaylist.Version 4 → q.Version = 4 :=
    fun q hq => hq.trans (by decide)
  have hmul5 : ∀ q : MediaPlaylist, q.Version = max examplePlaylist.Version 5 → q.Version = 5 :=
    fun q hq => hq.trans (by decide)
  have hsame : ∀ q : MediaPlaylist, q.Version = examplePlaylist.Version → q.Version = 3 :=
    fun q hq => hq.trans (by decide)
  refine ⟨⟨_, _, SetRange_ok h0 hl 10 0, hmul _ (key.2.1 _ _ (SetRange_ok h0 hl 10 0))⟩,
    ⟨_, _, SetMap_ok h0 hl "init.mp4" 10 0,
      hmul5 _ (key.2.2.2.1 _ _ (SetMap_ok h0 hl "init.mp4" 10 0))⟩,
    key.2.2.2.2.2.2.1.trans (by decide),
    ⟨_, Append_ok hfull htail hcap,
      hsame _ (key.2.2.2.2.2.2.2.1 _ (by rw [Append_ok hfull htail hcap]; rfl))⟩,
    ⟨_, Remove_ok h0 hcap,
      hsame _ (key.2.2.2.2.2.2.2.2.1 _ (by rw [Remove_ok h0 hcap]; rfl))⟩,
    ⟨_, Encode_fresh rfl hs, hsame _ (Encode_ver (Encode_fresh rfl hs))⟩⟩

/-- C16: for every playlist and segment, `Slide` is the operation the specification
describes (`SlideSpec`). If `Closed` is true it returns no error and the playlist unchanged;
if `Closed` is false and `count < winsize` it is `Append`; if `Closed` is false and
`count ≥ winsize` it is `Remove` followed by `Append` on the state `Remove` leaves, and when
`Remove` returns an error that error is returned with the state `Remove` left, nothing being
appended. -/
theorem C16_slide_refines (h : Heap) (p : MediaPlaylist) (seg : Option Ptr) :
    p.Slide h seg = SlideSpec h p seg ∧
    (p.Closed = true → p.Slide h seg = .ok p) ∧
    (p.Closed = false → p.count < p.winsize → p.Slide h seg = p.Append h seg) ∧
    (p.Closed = false → p.count ≥ p.winsize →
      (∀ q, p.Remove = .ok q → p.Slide h seg = q.Append h seg) ∧
      (∀ e q, p.Remove = .error e q → p.Slide h seg = .error e q ∧ q = p) ∧
      (p.Remove = .panic → p.Slide h seg = .panic)) := by
  have hspec : p.Slide h seg = SlideSpec h p seg := by
    unfold MediaPlaylist.Slide SlideSpec
    by_cases hc : p.Closed = true
    · simp [hc]
    · by_cases hw : p.count < p.winsize
      · have hw' : ¬ p.count ≥ p.winsize := by omega
        simp [hc, hw, hw']
      · have hw' : p.count ≥ p.winsize := by omega
        simp only [hc, hw, hw', not_false_eq_true, if_true, if_false]
        cases p.Remove <;> rfl
  refine ⟨hspec, ?_, ?_, ?_⟩
  · intro hc
    simp [MediaPlaylist.Slide, hc]
  · intro hc hw
    have hw' : ¬ p.count ≥ p.winsize := by omega
    simp [MediaPlaylist.Slide, hc, hw']
  · intro hc hw
    refine ⟨?_, ?_, ?_⟩
    · intro q hq
      simp [MediaPlaylist.Slide, hc, hw, hq]
    · intro e q hq
      refine ⟨by simp [MediaPlaylist.Slide, hc, hw, hq], ?_⟩
      unfold MediaPlaylist.Remove at hq
      repeat' split at hq
      all_goals first
        | (simp at hq; done)
        | (simp only [Result.error.injEq] at hq; exact hq.2.symm)
    · intro hq
      simp [MediaPlaylist.Slide, hc, hw, hq]

/-- C16, at an open playlist whose window of 1 is full: `Slide` removes the oldest segment
and appends the new one -/
theorem C16_slide_refines_witness :
    ∃ q, MediaPlaylist.Remove
        { ver := 3, capacity := 2, winsize := 1, Segments := [some 0, none], tail := 1,
          count := 1, TargetDuration := 9 } = .ok q ∧
      MediaPlaylist.Slide exampleHeap
        { ver := 3, capacity := 2, winsize := 1, Segments := [some 0, none], tail := 1,
          count := 1, TargetDuration := 9 } (some 1) = q.Append exampleHeap (some 1) :=
  ⟨_, Remove_ok (by decide) (by decide),
    ((C16_slide_refines exampleHeap
      { ver := 3, capacity := 2, winsize := 1, Segments := [some 0, none], tail := 1,
        count := 1, TargetDuration := 9 } (some 1)).2.2.2 rfl (by decide)).1 _
      (Remove_ok (by decide) (by decide))⟩

/-- C18: the default key tag of the header and the key tag written before a segment are both
the rendering `renderKey` of the key they show, followed by a newline: `#EXT-X-KEY:METHOD=`
and the method, then, only when the method is not `NONE`, `,URI="…"`, `,IV=…` if the IV is
non-empty, `,KEYFORMAT="…"` if non-empty, `,KEYFORMATVERSIONS="…"` if non-empty; and a key
whose method is `NONE` renders as exactly `#EXT-X-KEY:METHOD=NONE` whatever its other
fields. -/
theorem C18_key_rendering (h : Heap) (p : MediaPlaylist) (seg : MediaSegment) (k : Ptr)
    (key : Key) :
    (p.Key = some k → MediaPlaylist.headerKey h p = renderKey (h.key k) ++ "\n") ∧
    (seg.Key = some k → p.Key ≠ some k →
      MediaPlaylist.segmentKey h p seg = renderKey (h.key k) ++ "\n") ∧
    (key.Method = "NONE" → renderKey key = "#EXT-X-KEY:METHOD=NONE") ∧
    (key.Method ≠ "NONE" → key.IV ≠ "" → key.Keyformat ≠ "" → key.Keyformatversions ≠ "" →
      renderKey key = "#EXT-X-KEY:METHOD=" ++ key.Method ++ ",URI=\"" ++ key.URI ++ "\"" ++
        ",IV=" ++ key.IV ++ ",KEYFORMAT=\"" ++ key.Keyformat ++ "\"" ++
        ",KEYFORMATVERSIONS=\"" ++ key.Keyformatversions ++ "\"") := by
  refine ⟨?_, ?_, ?_, ?_⟩
  · intro hk
    simp only [MediaPlaylist.headerKey, hk, renderKey]
    by_cases h1 : (h.key k).Method = "NONE" <;> by_cases h2 : (h.key k).IV = "" <;>
      by_cases h3 : (h.key k).Keyformat = "" <;>
      by_cases h4 : (h.key k).Keyformatversions = "" <;>
      simp [h1, h2, h3, h4, String.ext_iff]
  · intro hk hne
    have hne' : p.Key ≠ seg.Key := by rw [hk]; exact hne
    simp only [MediaPlaylist.segmentKey, hk, renderKey]
    rw [← hk, if_pos hne']
    by_cases h1 : (h.key k).Method = "NONE" <;> by_cases h2 : (h.key k).IV = "" <;>
      by_cases h3 : (h.key k).Keyformat = "" <;>
      by_cases h4 : (h.key k).Keyformatversions = "" <;>
      simp [h1, h2, h3, h4, String.ext_iff]
  · intro hm
    simp [renderKey, hm, String.ext_iff]
  · intro h1 h2 h3 h4
    simp [renderKey, h1, h2, h3, h4, String.ext_iff]

/-- C18, at the keys of `TestEncryptionKeyMethodNoneInMediaPlaylist`: the key
`AES-128`/`key-uri`/`iv`/`identity`/`1` and the key `NONE` -/
theorem C18_key_rendering_witness :
    renderKey ⟨"NONE", "", "", "", ""⟩ = "#EXT-X-KEY:METHOD=NONE" ∧
    renderKey ⟨"AES-128", "key-uri", "iv", "identity", "1"⟩ =
      "#EXT-X-KEY:METHOD=AES-128,URI=\"key-uri\",IV=iv,KEYFORMAT=\"identity\"," ++
        "KEYFORMATVERSIONS=\"1\"" :=
  ⟨(C18_key_rendering {} {} {} 0 ⟨"NONE", "", "", "", ""⟩).2.2.1 rfl,
   ((C18_key_rendering {} {} {} 0 ⟨"AES-128", "key-uri", "iv", "identity", "1"⟩).2.2.2
      (by decide) (by decide) (by decide) (by decide)).trans (by decide)⟩

/-- C19: for every segment the encoder emits, the key tag it writes for the segment is
non-empty if and only if the segment has a key and that key is not the same object (address)
as the playlist's default key; the tag stands after the SCTE tags and before the other lines
of the segment. A segment key at another address than the default key, with the same five
fields, is written; a segment whose key is the default key object is given no tag; and the
key `SetKey` allocates is written whenever the default key is an object allocated before. -/
theorem C19_segment_key_identity (F : Formatters) (h : Heap) (p : MediaPlaylist)
    (seg : MediaSegment) (cache : List (ℚ × String)) (k1 k2 : Ptr) :
    (MediaPlaylist.segmentKey h p seg ≠ "" ↔ seg.Key ≠ none ∧ seg.Key ≠ p.Key) ∧
    (MediaPlaylist.writeSegment F h p seg cache).1 =
      MediaPlaylist.segmentSCTE F h seg ++ MediaPlaylist.segmentKey h p seg ++
      ((if seg.Discontinuity then "#EXT-X-DISCONTINUITY\n" else "") ++
        MediaPlaylist.segmentMap h p seg ++
        (if ¬ seg.ProgramDateTime.IsZero then
          "#EXT-X-PROGRAM-DATE-TIME:" ++ F.Format seg.ProgramDateTime DateTime ++ "\n"
         else "") ++
        (if seg.Limit > 0 then
          "#EXT-X-BYTERANGE:" ++ Itoa seg.Limit ++ "@" ++ Itoa seg.Offset ++ "\n" else "") ++
        "#EXTINF:" ++ (MediaPlaylist.segmentDuration F p seg cache).1 ++ "," ++ seg.Title ++
        "\n" ++ seg.URI ++ (if p.Args ≠ "" then "?" ++ p.Args else "") ++ "\n") ∧
    (p.Key = some k1 → seg.Key = some k2 → k1 ≠ k2 → h.key k1 = h.key k2 →
      MediaPlaylist.segmentKey h p seg = renderKey (h.key k2) ++ "\n") ∧
    (p.Key = some k1 → seg.Key = some k1 → MediaPlaylist.segmentKey h p seg = "") ∧
    (∀ method uri iv keyformat keyformatversions q h' a,
      p.Key ≠ some h.nextKey → p.lastSeg = some a →
      p.SetKey h method uri iv keyformat keyformatversions = .ok (q, h') →
      MediaPlaylist.segmentKey h' q (h'.seg a) =
        renderKey ⟨method, uri, iv, keyformat, keyformatversions⟩ ++ "\n") := by
  have hrender : ∀ (h : Heap) (p : MediaPlaylist) (seg : MediaSegment) (k : Ptr),
      seg.Key = some k → p.Key ≠ some k →
      MediaPlaylist.segmentKey h p seg = renderKey (h.key k) ++ "\n" := by
    intro h p seg k hk hne
    have hne' : p.Key ≠ seg.Key := by rw [hk]; exact hne
    simp only [MediaPlaylist.segmentKey, hk, renderKey]
    rw [← hk, if_pos hne']
    by_cases h1 : (h.key k).Method = "NONE" <;> by_cases h2 : (h.key k).IV = "" <;>
      by_cases h3 : (h.key k).Keyformat = "" <;>
      by_cases h4 : (h.key k).Keyformatversions = "" <;>
      simp [h1, h2, h3, h4, String.ext_iff]
  refine ⟨?_, ?_, ?_, ?_, ?_⟩
  · cases hk : seg.Key with
    | none => simp [MediaPlaylist.segmentKey, hk]
    | some k =>
      by_cases hne : p.Key = some k
      · simp [MediaPlaylist.segmentKey, hk, hne]
      · rw [hrender h p seg k hk hne]
        have h2 : ¬ some k = p.Key := fun e => hne e.symm
        simp [renderKey, h2, String.ext_iff]
  · simp only [MediaPlaylist.writeSegment, String.append_assoc]
  · intro hp hs hne _
    exact hrender h p seg k2 hs (by rw [hp]; simpa using hne)
  · intro hp hs
    simp [MediaPlaylist.segmentKey, hp, hs]
  · intro method uri iv keyformat keyformatversions q h' a hfresh hl hset
    have h0 : p.count ≠ 0 := by
      intro h0
      simp [MediaPlaylist.SetKey, h0] at hset
    rw [SetKey_ok h0 hl] at hset
    obtain ⟨rfl, rfl⟩ := Prod.mk.inj (Result.ok.inj hset)
    have := hrender
      { h with
        key := Function.update h.key h.nextKey ⟨method, uri, iv, keyformat, keyformatversions⟩
        nextKey := h.nextKey + 1
        seg := Function.update h.seg a { h.seg a with Key := some h.nextKey } }
      { p with
        ver := if keyformat ≠ "" ∨ keyformatversions ≠ "" then checkVersion p.ver 5
          else p.ver }
      (Function.update h.seg a { h.seg a with Key := some h.nextKey } a) h.nextKey
      (by simp) hfresh
    simpa using this

/-- C19, at a default key at address 0 and segment keys at addresses 0 and 1, all three with
the same fields: the segment sharing address 0 gets no tag, the segment at address 1 gets
the tag -/
theorem C19_segment_key_identity_witness :
    MediaPlaylist.segmentKey { key := fun _ => ⟨"AES-128", "u", "", "", ""⟩ }
      { Key := some 0 } { Key := some 0 } = "" ∧
    MediaPlaylist.segmentKey { key := fun _ => ⟨"AES-128", "u", "", "", ""⟩ }
      { Key := some 0 } { Key := some 1 } = "#EXT-X-KEY:METHOD=AES-128,URI=\"u\"\n" := by
  have key := C19_segment_key_identity exampleFormatters
    { key := fun _ => ⟨"AES-128", "u", "", "", ""⟩ } { Key := some 0 }
  exact ⟨(key { Key := some 0 } [] 0 0).2.2.2.1 rfl rfl,
    ((key { Key := some 1 } [] 0 1).2.2.1 rfl rfl (by decide) rfl).trans (by decide)⟩

/-- C20: the default map tag of the header, and the map tag written for a segment when the
playlist has no default map, are both the rendering `renderMap` of the map they show followed
by a newline, that is `#EXT-X-MAP:URI="…"` followed by `,BYTERANGE=<Limit>@<Offset>` if and
only if `Limit > 0`. After `SetDefaultMap("https://example.com", 1024000, 1048576)` the header
tag is `#EXT-X-MAP:URI="https://example.com",BYTERANGE=1024000@1048576`. For a segment with
no program date-time and no byte range, the map tag is immediately followed by the
`#EXTINF` line of the segment. -/
theorem C20_map_rendering (F : Formatters) (h : Heap) (p : MediaPlaylist)
    (seg : MediaSegment) (cache : List (ℚ × String)) (m : Ptr) (mp : Map) :
    (p.Map = some m → MediaPlaylist.headerMap h p = renderMap (h.map m) ++ "\n") ∧
    (p.Map = none → seg.Map = some m →
      MediaPlaylist.segmentMap h p seg = renderMap (h.map m) ++ "\n") ∧
    (mp.Limit > 0 → renderMap mp = "#EXT-X-MAP:URI=\"" ++ mp.URI ++ "\"" ++ ",BYTERANGE=" ++
      Itoa mp.Limit ++ "@" ++ Itoa mp.Offset) ∧
    (¬ mp.Limit > 0 → renderMap mp = "#EXT-X-MAP:URI=\"" ++ mp.URI ++ "\"") ∧
    MediaPlaylist.headerMap (p.SetDefaultMap h "https://example.com" 1024000 1048576).2
        (p.SetDefaultMap h "https://example.com" 1024000 1048576).1 =
      "#EXT-X-MAP:URI=\"https://example.com\",BYTERANGE=1024000@1048576\n" ∧
    (p.Map = none → seg.Map = some m → seg.ProgramDateTime.IsZero = true → ¬ seg.Limit > 0 →
      (MediaPlaylist.writeSegment F h p seg cache).1 =
        MediaPlaylist.segmentSCTE F h seg ++ MediaPlaylist.segmentKey h p seg ++
        (if seg.Discontinuity then "#EXT-X-DISCONTINUITY\n" else "") ++
        (renderMap (h.map m) ++ "\n" ++
          ("#EXTINF:" ++ (MediaPlaylist.segmentDuration F p seg cache).1 ++ "," ++ seg.Title ++
            "\n")) ++
        seg.URI ++ (if p.Args ≠ "" then "?" ++ p.Args else "") ++ "\n") := by
  have hseg : p.Map = none → seg.Map = some m →
      MediaPlaylist.segmentMap h p seg = renderMap (h.map m) ++ "\n" := by
    intro hp hs
    simp only [MediaPlaylist.segmentMap, hp, hs, renderMap]
    by_cases hl : (h.map m).Limit > 0 <;> simp [hl, String.ext_iff]
  refine ⟨?_, hseg, ?_, ?_, ?_, ?_⟩
  · intro hp
    simp only [MediaPlaylist.headerMap, hp, renderMap]
    by_cases hl : (h.map m).Limit > 0 <;> simp [hl, String.ext_iff]
  · intro hl
    simp [renderMap, hl, String.ext_iff]
  · intro hl
    simp [renderMap, hl]
  · have h1 : Itoa 1024000 = "1024000" := by decide
    have h2 : Itoa 1048576 = "1048576" := by decide
    simp [MediaPlaylist.headerMap, MediaPlaylist.SetDefaultMap, h1, h2, String.ext_iff]
  · intro hp hs hz hl
    rw [← hseg hp hs]
    simp [MediaPlaylist.writeSegment, hz, hl, String.append_assoc]

/-- C20, at the segment of `TestSetMapForMediaPlaylist`: the map tag of the segment is
followed at once by its `#EXTINF` line -/
theorem C20_map_rendering_witness :
    (MediaPlaylist.writeSegment exampleFormatters
      { map := fun _ => ⟨"https://example.com", 1024000, 1048576⟩ } {}
      { URI := "test01.ts", Duration := 5, Map := some 0 } []).1 =
    "#EXT-X-MAP:URI=\"https://example.com\",BYTERANGE=1024000@1048576\n#EXTINF:?,\ntest01.ts\n"
    := by
  have key := (C20_map_rendering exampleFormatters
    { map := fun _ => ⟨"https://example.com", 1024000, 1048576⟩ } {}
    { URI := "test01.ts", Duration := 5, Map := some 0 } [] 0 {}).2.2.2.2.2 rfl rfl rfl
    (by decide)
  rw [key]
  have h1 : Itoa 1024000 = "1024000" := by decide
  have h2 : Itoa 1048576 = "1048576" := by decide
  simp [MediaPlaylist.segmentSCTE, MediaPlaylist.segmentKey, MediaPlaylist.segmentDuration,
    renderMap, exampleFormatters, h1, h2, String.ext_iff]

/-- C11, as stated, fails for a playlist whose cache is out of date: only `Append`, `Remove`
and `Slide` empty the cache. `NewMediaPlaylist(2, 3)` and one `Append` leave the example
playlist; `Encode` on it fills the cache, and `SetDiscontinuity`, which succeeds, keeps the
cache and sets the flag of the segment. On the playlist in that state the sequence of the
one call `Encode` returns the cached text, without the line `#EXT-X-DISCONTINUITY` that
encoding the state from an empty cache produces. -/
theorem C11_counterexample :
    NewMediaPlaylist 2 3 =
      .ok (some { ver := 3, capacity := 3, winsize := 2, Segments := [none, none, none] }) ∧
    MediaPlaylist.Append exampleHeap
        { ver := 3, capacity := 3, winsize := 2, Segments := [none, none, none] } (some 0) =
      .ok examplePlaylist ∧
    MediaPlaylist.Encode exampleFormatters exampleHeap examplePlaylist = some cachedExample ∧
    MediaPlaylist.SetDiscontinuity exampleHeap cachedExample =
      .ok (cachedExample, discontinuityHeap) ∧
    (MediaPlaylist.calls exampleFormatters discontinuityHeap cachedExample [.Encode]).map
        (fun q => q.buf) =
      some ("#EXTM3U\n#EXT-X-VERSION:3\n#EXT-X-MEDIA-SEQUENCE:0\n" ++
        "#EXT-X-TARGETDURATION:9\n#EXTINF:?,title\ntest01.ts\n") ∧
    MediaPlaylist.encoded exampleFormatters discontinuityHeap cachedExample.ResetCache =
      some ("#EXTM3U\n#EXT-X-VERSION:3\n#EXT-X-MEDIA-SEQUENCE:0\n" ++
        "#EXT-X-TARGETDURATION:9\n#EXT-X-DISCONTINUITY\n#EXTINF:?,title\ntest01.ts\n") ∧
    (MediaPlaylist.calls exampleFormatters discontinuityHeap cachedExample [.Encode]).map
        (fun q => q.buf) ≠
      MediaPlaylist.encoded exampleFormatters discontinuityHeap cachedExample.ResetCache := by
  have h9 : (⌈(9 : ℚ)⌉ : Int) = 9 := by
    rw [Int.ceil_eq_iff]; norm_num
  have j9 : int64 9 = 9 := by decide
  have i3 : Itoa 3 = "3" := by decide
  have i0 : Itoa 0 = "0" := by decide
  have i9 : Itoa 9 = "9" := by decide
  have t1 : Int.tmod 1 3 = 1 := by decide
  have hstale : (MediaPlaylist.calls exampleFormatters discontinuityHeap cachedExample
      [.Encode]).map (fun q => q.buf) =
      some ("#EXTM3U\n#EXT-X-VERSION:3\n#EXT-X-MEDIA-SEQUENCE:0\n" ++
        "#EXT-X-TARGETDURATION:9\n#EXTINF:?,title\ntest01.ts\n") := by
    simp [MediaPlaylist.calls, MediaPlaylist.call, MediaPlaylist.Encode, cachedExample]
  have hfresh : MediaPlaylist.encoded exampleFormatters discontinuityHeap
      cachedExample.ResetCache =
      some ("#EXTM3U\n#EXT-X-VERSION:3\n#EXT-X-MEDIA-SEQUENCE:0\n" ++
        "#EXT-X-TARGETDURATION:9\n#EXT-X-DISCONTINUITY\n#EXTINF:?,title\ntest01.ts\n") := by
    simp [MediaPlaylist.encoded, MediaPlaylist.ResetCache, cachedExample, discontinuityHeap,
      MediaPlaylist.Encode, examplePlaylist, MediaPlaylist.writeSegments,
      MediaPlaylist.writeSegment, MediaPlaylist.segmentDuration, MediaPlaylist.segmentSCTE,
      MediaPlaylist.segmentKey, MediaPlaylist.segmentMap, MediaPlaylist.header,
      MediaPlaylist.headerVersion, MediaPlaylist.headerKey, MediaPlaylist.headerMap,
      MediaPlaylist.headerType, MediaPlaylist.headerSequence,
      MediaPlaylist.headerTargetDuration, MediaPlaylist.headerIframe,
      MediaPlaylist.headerWidevine, exampleHeap, exampleFormatters, index, h9, j9, i3, i0, i9,
      t1, Time.IsZero]
  refine ⟨by decide, ?_, examplePlaylist_Encode, ?_, hstale, hfresh, ?_⟩
  · simp [MediaPlaylist.Append, examplePlaylist, exampleHeap, h9, t1]
  · simp [MediaPlaylist.SetDiscontinuity, MediaPlaylist.lastSeg, MediaPlaylist.last,
      cachedExample, discontinuityHeap, examplePlaylist, index]
  · rw [hstale, hfresh]
    decide

/-- C11, amended with a cache that is up to date at the start: take a media playlist whose
cache is empty (as `NewMediaPlaylist` returns it) or holds the encoding of its state, and any
sequence of `Encode`, `Append`, `Remove` and `Slide` calls on it. Then the state the sequence leaves has such a cache again, and an `Encode`
called there returns exactly the bytes that encoding that state from an empty cache
produces. For every playlist, a second `Encode` right after a first returns the same bytes,
and after a successful `Append` or `Remove`, or a successful `Slide` on a playlist that is
not closed, the cache is empty, so the next `Encode` encodes the new state. The same holds
for a master playlist with `Encode` and `Append`. -/
theorem C11_cache_coherence (F : Formatters) (h : Heap) (p q : MediaPlaylist)
    (cs : List MediaCall) (hp : p.Coherent F h) (hq : p.calls F h cs = some q)
    (mp mq : MasterPlaylist) (ms : List MasterCall) (hmp : mp.Coherent)
    (hmq : mp.calls ms = some mq) :
    (q.Coherent F h ∧ q.encoded F h = q.ResetCache.encoded F h) ∧
    (∀ x r : MediaPlaylist, x.Encode F h = some r →
      r.Encode F h = some r ∧ r.encoded F h = x.encoded F h) ∧
    (∀ (x r : MediaPlaylist) (seg : Option Ptr), x.Append h seg = .ok r →
      r.buf = "" ∧ r.encoded F h = r.ResetCache.encoded F h) ∧
    (∀ x r : MediaPlaylist, x.Remove = .ok r →
      r.buf = "" ∧ r.encoded F h = r.ResetCache.encoded F h) ∧
    (∀ (x r : MediaPlaylist) (seg : Option Ptr), x.Closed = false → x.Slide h seg = .ok r →
      r.buf = "" ∧ r.encoded F h = r.ResetCache.encoded F h) ∧
    (mq.Coherent ∧ mq.encoded = mq.ResetCache.encoded) ∧
    (∀ x r : MasterPlaylist, x.Encode = some r →
      r.Encode = some r ∧ r.encoded = x.encoded) ∧
    (∀ (x : MasterPlaylist) (uri : String) (chunklist : Option Ptr) (params : VariantParams),
      (x.Append uri chunklist params).buf = "" ∧
      (x.Append uri chunklist params).encoded =
        (x.Append uri chunklist params).ResetCache.encoded) := by
  have hempty : ∀ r : MediaPlaylist, r.buf = "" →
      r.buf = "" ∧ r.encoded F h = r.ResetCache.encoded F h :=
    fun r hb => ⟨hb, (MediaPlaylist.Coherent.of_empty hb).encoded_eq⟩
  refine ⟨?_, ?_, ?_, ?_, ?_, ?_, ?_, ?_⟩
  · have hc := MediaPlaylist.Coherent.calls cs hp hq
    exact ⟨hc, hc.encoded_eq⟩
  · intro x r hr
    refine ⟨Encode_twice hr, ?_⟩
    simp only [MediaPlaylist.encoded, Encode_twice hr, hr]
  · intro x r seg hr
    obtain ⟨a, -, -, -, -, rfl⟩ := Append_ok_inv hr
    exact hempty _ rfl
  · intro x r hr
    have h0 : x.count ≠ 0 := by
      intro h0
      simp [MediaPlaylist.Remove, h0] at hr
    have h1 : x.capacity ≠ 0 := by
      intro h1
      simp [MediaPlaylist.Remove, h0, h1] at hr
    rw [Remove_ok h0 h1] at hr
    rw [← Result.ok.inj hr]
    exact hempty _ rfl
  · intro x r seg hcl hr
    have hcl' : ¬ x.Closed = true := by simp [hcl]
    unfold MediaPlaylist.Slide at hr
    rw [if_pos hcl'] at hr
    by_cases hw : x.count ≥ x.winsize
    · rw [if_pos hw] at hr
      cases hrem : x.Remove with
      | ok y =>
        rw [hrem] at hr
        obtain ⟨a, -, -, -, -, rfl⟩ := Append_ok_inv hr
        exact hempty _ rfl
      | error e y => rw [hrem] at hr; simp at hr
      | panic => rw [hrem] at hr; simp at hr
    · rw [if_neg hw] at hr
      obtain ⟨a, -, -, -, -, rfl⟩ := Append_ok_inv hr
      exact hempty _ rfl
  · have hc := MasterPlaylist.Coherent.calls_master ms hmp hmq
    exact ⟨hc, hc.encoded_eq_master⟩
  · intro x r hr
    refine ⟨MasterPlaylist.Encode_twice_master hr, ?_⟩
    simp only [MasterPlaylist.encoded, MasterPlaylist.Encode_twice_master hr, hr]
  · intro x uri chunklist params
    have hb : (x.Append uri chunklist params).buf = "" := rfl
    exact ⟨hb, MasterPlaylist.Coherent.encoded_eq_master (Or.inl hb)⟩

/-- C11 (amended), at the example playlist with the calls `Encode`, `Append`, `Encode`, and
at a fresh master playlist with the calls `Encode`, `Append`, `Encode` -/
theorem C11_cache_coherence_witness :
    ∃ q mq,
      examplePlaylist.calls exampleFormatters exampleHeap
        [.Encode, .Append (some 1), .Encode] = some q ∧
      q.encoded exampleFormatters exampleHeap =
        q.ResetCache.encoded exampleFormatters exampleHeap ∧
      NewMasterPlaylist.calls [.Encode, .Append "chunklist1.m3u8" none {}, .Encode] = some mq ∧
      mq.encoded = mq.ResetCache.encoded := by
  obtain ⟨s1, hs1⟩ := Encode_total exampleFormatters exampleHeap
    (show examplePlaylist.capacity = examplePlaylist.Segments.length by decide)
    (by decide) (by decide) (by decide)
  obtain ⟨b, rfl⟩ := Encode_frame hs1
  obtain ⟨s2, hs2⟩ : ∃ s2, MediaPlaylist.Append exampleHeap { examplePlaylist with buf := b }
      (some 1) = .ok s2 :=
    ⟨_, @Append_ok exampleHeap { examplePlaylist with buf := b } 1
      (show ¬ ((0 : Int) = 1 ∧ (1 : Int) > 0) by decide)
      (show (0 : Int) ≤ 1 ∧ (1 : Int) < ([some 0, none, none] : List (Option Ptr)).length by
        decide)
      (show (3 : Int) ≠ 0 by decide)⟩
  obtain ⟨hc2, hl2, hh2⟩ := Append_ok_shape hs2
  have g1 : s2.capacity = 3 := hc2
  have g2 : s2.Segments.length = 3 := hl2
  have g3 : s2.head = 0 := hh2
  obtain ⟨s3, hs3⟩ := Encode_total exampleFormatters exampleHeap
    (show s2.capacity = s2.Segments.length by rw [g1, g2]; decide)
    (by rw [g1]; decide) (by rw [g3]) (by rw [g3, g1]; decide)
  have hq : examplePlaylist.calls exampleFormatters exampleHeap
      [.Encode, .Append (some 1), .Encode] = some s3 := by
    simp only [MediaPlaylist.calls, MediaPlaylist.call, hs1, hs2, Result.state?, hs3]
  obtain ⟨m1, hm1⟩ := MasterPlaylist.Encode_total_master
    (show ∀ x ∈ NewMasterPlaylist.Variants, ∃ v, x = some v ∧ ∀ y ∈ v.Alternatives, y ≠ none
      by decide)
  obtain ⟨mb, rfl⟩ := MasterPlaylist.Encode_frame_master hm1
  obtain ⟨m3, hm3⟩ := MasterPlaylist.Encode_total_master
    (show ∀ x ∈ (MasterPlaylist.Append { NewMasterPlaylist with buf := mb }
        "chunklist1.m3u8" none {}).Variants,
        ∃ v, x = some v ∧ ∀ y ∈ v.Alternatives, y ≠ none by
      intro x hx
      simp [MasterPlaylist.Append, NewMasterPlaylist] at hx
      exact ⟨_, hx, by simp⟩)
  have hmq : NewMasterPlaylist.calls [.Encode, .Append "chunklist1.m3u8" none {}, .Encode] =
      some m3 := by
    simp only [MasterPlaylist.calls, MasterPlaylist.call, hm1, hm3]
  have key := C11_cache_coherence exampleFormatters exampleHeap examplePlaylist s3 _
    (Or.inl rfl) hq NewMasterPlaylist m3 _ (Or.inl rfl) hmq
  exact ⟨s3, m3, hq, key.1.2, hmq, key.2.2.2.2.2.1.2⟩

/-- C17: for every playlist whose default map is set, the header holds the default
`EXT-X-MAP` tag (the rendering of the default map, once, after the default key tag), the map
tag the encoder writes for a segment is empty for every segment, so that what it writes for
a segment is the SCTE, key, discontinuity, date-time, byte-range, `#EXTINF` and URI lines
only; and the bytes `Encode` returns from an empty cache are the same in every heap that
differs in the maps of the segments only, whatever maps `SetMap` stored there. -/
theorem C17_default_map_suppresses (F : Formatters) (h h' : Heap) (p : MediaPlaylist)
    (m : Ptr) (hmap : p.Map = some m) (hkey : h'.key = h.key) (hscte : h'.scte = h.scte)
    (hwv : h'.wv = h.wv) (hm : h'.map m = h.map m)
    (hseg : ∀ a, { h'.seg a with Map := none } = { h.seg a with Map := none }) :
    MediaPlaylist.header h p =
      MediaPlaylist.headerVersion p ++ MediaPlaylist.headerKey h p ++
        (renderMap (h.map m) ++ "\n") ++
        (MediaPlaylist.headerType p ++ MediaPlaylist.headerSequence p ++
          MediaPlaylist.headerTargetDuration p ++ MediaPlaylist.headerIframe p ++
          MediaPlaylist.headerWidevine h p) ∧
    (∀ seg, MediaPlaylist.segmentMap h p seg = "") ∧
    (∀ seg cache, (MediaPlaylist.writeSegment F h p seg cache).1 =
      MediaPlaylist.segmentSCTE F h seg ++ MediaPlaylist.segmentKey h p seg ++
      (if seg.Discontinuity then "#EXT-X-DISCONTINUITY\n" else "") ++
      (if ¬ seg.ProgramDateTime.IsZero then
        "#EXT-X-PROGRAM-DATE-TIME:" ++ F.Format seg.ProgramDateTime DateTime ++ "\n"
       else "") ++
      (if seg.Limit > 0 then
        "#EXT-X-BYTERANGE:" ++ Itoa seg.Limit ++ "@" ++ Itoa seg.Offset ++ "\n" else "") ++
      "#EXTINF:" ++ (MediaPlaylist.segmentDuration F p seg cache).1 ++ "," ++ seg.Title ++
      "\n" ++ seg.URI ++ (if p.Args ≠ "" then "?" ++ p.Args else "") ++ "\n") ∧
    p.ResetCache.encoded F h' = p.ResetCache.encoded F h ∧
    (∀ r, p.ResetCache.Encode F h = some r →
      ∃ segments, MediaPlaylist.writeSegments F h p p.count.toNat 0 p.head [] = some segments ∧
        r.buf = MediaPlaylist.header h p ++ segments ++
          (if p.Closed then "#EXT-X-ENDLIST\n" else "")) := by
  have hhm : MediaPlaylist.headerMap h p = renderMap (h.map m) ++ "\n" := by
    simp only [MediaPlaylist.headerMap, hmap, renderMap]
    by_cases hl : (h.map m).Limit > 0 <;> simp [hl, String.ext_iff]
  have hws : ∀ (q : MediaPlaylist), q.Map = some m → ∀ n i head cache,
      MediaPlaylist.writeSegments F h' q n i head cache =
        MediaPlaylist.writeSegments F h q n i head cache :=
    fun q hq => writeSegments_of_default F hq hkey hscte hseg
  refine ⟨?_, segmentMap_of_default h hmap, ?_, ?_, ?_⟩
  · simp only [MediaPlaylist.header, hhm, String.append_assoc]
  · intro seg cache
    simp only [MediaPlaylist.writeSegment, segmentMap_of_default h hmap, String.append_empty]
  · have hhead : MediaPlaylist.header h' p.ResetCache = MediaPlaylist.header h p.ResetCache := by
      simp only [MediaPlaylist.header, MediaPlaylist.headerKey, MediaPlaylist.headerMap,
        MediaPlaylist.headerWidevine, hkey, hwv, MediaPlaylist.ResetCache, hmap, hm]
    simp only [MediaPlaylist.encoded, MediaPlaylist.Encode, hhead,
      hws p.ResetCache hmap]
  · intro r hr
    rcases Encode_cases hr with ⟨hb, -⟩ | ⟨-, segments, hs, rfl⟩
    · exact absurd rfl hb
    · exact ⟨segments, (writeSegments_buf F h p "" _ _ _ _).symm.trans hs, rfl⟩

/-- C17, at the playlist of `TestEncodeMediaPlaylistWithDefaultMap`: the default map at
address 0 and a segment whose own map is at address 1. The segment gets no map tag, and the
encoding is that of the same playlist whose segment has no map. -/
theorem C17_default_map_suppresses_witness :
    MediaPlaylist.segmentMap
      { seg := fun _ => { URI := "test01.ts", Title := "title", Duration := 5, Map := some 1 }
        map := fun a => if a = 0 then ⟨"https://example.com", 1024000, 1048576⟩
          else ⟨"https://notencoded.com", 1024000, 1048576⟩ }
      { ver := 5, capacity := 5, winsize := 3, Map := some 0, tail := 1, count := 1,
        TargetDuration := 5, Segments := [some 0, none, none, none, none] }
      { URI := "test01.ts", Title := "title", Duration := 5, Map := some 1 } = "" ∧
    MediaPlaylist.encoded exampleFormatters
      { seg := fun _ => { URI := "test01.ts", Title := "title", Duration := 5 }
        map := fun a => if a = 0 then ⟨"https://example.com", 1024000, 1048576⟩
          else ⟨"https://notencoded.com", 1024000, 1048576⟩ }
      (MediaPlaylist.ResetCache
        { ver := 5, capacity := 5, winsize := 3, Map := some 0, tail := 1, count := 1,
          TargetDuration := 5, Segments := [some 0, none, none, none, none] }) =
    MediaPlaylist.encoded exampleFormatters
      { seg := fun _ => { URI := "test01.ts", Title := "title", Duration := 5, Map := some 1 }
        map := fun a => if a = 0 then ⟨"https://example.com", 1024000, 1048576⟩
          else ⟨"https://notencoded.com", 1024000, 1048576⟩ }
      (MediaPlaylist.ResetCache
        { ver := 5, capacity := 5, winsize := 3, Map := some 0, tail := 1, count := 1,
          TargetDuration := 5, Segments := [some 0, none, none, none, none] }) := by
  have key := C17_default_map_suppresses exampleFormatters
    { seg := fun _ => { URI := "test01.ts", Title := "title", Duration := 5, Map := some 1 }
      map := fun a => if a = 0 then ⟨"https://example.com", 1024000, 1048576⟩
        else ⟨"https://notencoded.com", 1024000, 1048576⟩ }
    { seg := fun _ => { URI := "test01.ts", Title := "title", Duration := 5 }
      map := fun a => if a = 0 then ⟨"https://example.com", 1024000, 1048576⟩
        else ⟨"https://notencoded.com", 1024000, 1048576⟩ }
    { ver := 5, capacity := 5, winsize := 3, Map := some 0, tail := 1, count := 1,
      TargetDuration := 5, Segments := [some 0, none, none, none, none] }
    0 rfl rfl rfl rfl rfl (fun _ => rfl)
  exact ⟨key.2.1 _, key.2.2.2.1⟩

/-- C13 fails on the code: in every state with `count > 0`, `ExtendCapacity` succeeds and
leaves `capacity = len(Segments) + count`, not twice the capacity. On the playlist
`NewMediaPlaylist(0, 3)` after one `Append` (capacity 3, count 1) it leaves capacity 4. -/
theorem C13_extend_capacity_adds_count :
    (∀ p : MediaPlaylist, p.count > 0 →
      ∃ q, p.ExtendCapacity = .ok q ∧ q.capacity = p.Segments.length + p.count) ∧
    NewMediaPlaylist 0 3 = .ok (some { ver := 3, capacity := 3, Segments := [none, none, none] }) ∧
    MediaPlaylist.Append {} { ver := 3, capacity := 3, Segments := [none, none, none] } (some 0) =
      .ok { ver := 3, capacity := 3, Segments := [some 0, none, none], tail := 1, count := 1 } ∧
    MediaPlaylist.ExtendCapacity
        { ver := 3, capacity := 3, Segments := [some 0, none, none], tail := 1, count := 1 } =
      .ok { ver := 3, capacity := 4, Segments := [some 0, none, none, none], tail := 1,
            count := 1 } ∧
    (4 : Int) ≠ 2 * 3 := by
  refine ⟨?_, by decide, ?_, ?_, by decide⟩
  · intro p hc
    refine ⟨_, ExtendCapacity_ok hc, ?_⟩
    show ((p.Segments ++ List.replicate p.count.toNat (none : Option Ptr)).length : Int) = _
    rw [List.length_append, List.length_replicate]
    push_cast
    omega
  · have t1 : Int.tmod 1 3 = 1 := by decide
    simp [MediaPlaylist.Append, t1]
  · rw [ExtendCapacity_ok (by decide)]
    rfl

/-- C14 fails on the code: on the playlist `NewMediaPlaylist(0, 2)` after two `Append`s and
one `Remove` (a reachable state with `count = 1` and `head = 1`), `ExtendCapacity` succeeds
and sets `tail = count = 1 = head`, and the very next `Append` returns `ErrPlaylistFull`. -/
theorem C14_append_after_extend_full :
    NewMediaPlaylist 0 2 = .ok (some { ver := 3, capacity := 2, Segments := [none, none] }) ∧
    appendAll {} { ver := 3, capacity := 2, Segments := [none, none] } [some 0, some 1] =
      .ok { ver := 3, capacity := 2, Segments := [some 0, some 1], count := 2 } ∧
    MediaPlaylist.Remove { ver := 3, capacity := 2, Segments := [some 0, some 1], count := 2 } =
      .ok { ver := 3, capacity := 2, Segments := [some 0, some 1], head := 1, count := 1,
            SeqNo := 1 } ∧
    MediaPlaylist.ExtendCapacity
        { ver := 3, capacity := 2, Segments := [some 0, some 1], head := 1, count := 1,
          SeqNo := 1 } =
      .ok { ver := 3, capacity := 3, Segments := [some 0, some 1, none], head := 1, tail := 1,
            count := 1, SeqNo := 1 } ∧
    MediaPlaylist.Append {}
        { ver := 3, capacity := 3, Segments := [some 0, some 1, none], head := 1, tail := 1,
          count := 1, SeqNo := 1 } (some 2) =
      .error .ErrPlaylistFull
        { ver := 3, capacity := 3, Segments := [some 0, some 1, none], head := 1, tail := 1,
          count := 1, SeqNo := 1 } := by
  refine ⟨by decide, ?_, ?_, ?_, ?_⟩
  · have t1 : Int.tmod 1 2 = 1 := by decide
    simp [appendAll, MediaPlaylist.Append, t1]
  · rw [Remove_ok (by decide) (by decide)]
    have t1 : Int.tmod 1 2 = 1 := by decide
    have w1 : wrapInt 1 = 1 := by decide
    simp [t1, w1]
  · rw [ExtendCapacity_ok (by decide)]
    rfl
  · exact Append_full _ _ _ (by decide)


/-- C15: for every capacity `c ≥ 1` and `winsize ≤ c`, `NewMediaPlaylist` succeeds, and for
every list of calls on the fresh playlist, each one an `Append` or an `AppendWithAutoExtend`
of a segment, in which every plain `Append` is made at a buffer that is not full: every
prefix of `n` calls runs without error or panic, so each `AppendWithAutoExtend` returns no
error; `Count()` is `n` after `n` calls, so it increases by exactly 1 per call; `head` stays
0, and the slot `(head + i) % capacity` holds the segment of call number `i` for every
`i < n`, so the live window lists all segments in insertion order. The number of calls is
not bounded by `c`. -/
theorem C15_auto_extend_keeps_all (h : Heap) (winsize c : Int) (calls : List (Bool × Ptr))
    (hc : 1 ≤ c) (hw : winsize ≤ c) :
    ∃ p0, NewMediaPlaylist winsize c = .ok (some p0) ∧
      ((∀ pre a post q, calls = pre ++ (false, a) :: post → appendMix h p0 pre = .ok q →
          ¬ (q.head = q.tail ∧ q.count > 0)) →
        ∀ n ≤ calls.length, ∃ q, appendMix h p0 (calls.take n) = .ok q ∧
          q.Count = n ∧ q.head = 0 ∧
          ∀ i : Nat, i < n → index q.Segments (Int.tmod (q.head + i) q.capacity) =
            calls[i]?.map (fun x => some x.2)) := by
  refine ⟨_, NewMediaPlaylist_ok (by omega) hw, ?_⟩
  intro hmix n hn
  have hfw : FilledWith { ver := minVer, capacity := c, winsize := winsize,
                          Segments := List.replicate c.toNat none } c [] :=
    ⟨by simpa using Filled_new winsize (show 0 ≤ c by omega), hc,
      by intro i hi; simp at hi⟩
  obtain ⟨q, c', hq, hf⟩ := FilledWith.appendMix_ok h (calls.take n) _ c [] hfw (by
    intro pre a post q hsplit hpre
    refine hmix pre a (post ++ calls.drop n) q ?_ hpre
    calc calls = calls.take n ++ calls.drop n := (List.take_append_drop n calls).symm
      _ = pre ++ (false, a) :: (post ++ calls.drop n) := by rw [hsplit]; simp)
  obtain ⟨hcount, hhead, hslots⟩ := hf.window
  have hlen : (([] : List Ptr) ++ (calls.take n).map (fun x : Bool × Ptr => x.2)).length
      = n := by
    simp [hn]
  refine ⟨q, hq, ?_, hhead, ?_⟩
  · rw [hcount, hlen]
  · intro i hi
    have hi' : i < calls.length := by omega
    rw [hslots i (by rw [hlen]; exact hi)]
    simp [List.getElem?_eq_getElem hi', List.getElem_take]

/-- C15 at the playlist of `TestMediaPlaylist_AppendWithAutoExtend`: after
`NewMediaPlaylist(0, 2)`, two calls of `Append` and one of `AppendWithAutoExtend` all
succeed, `Count()` is 3 and the three segments are in the slots 0, 1 and 2 -/
theorem C15_auto_extend_keeps_all_witness :
    ∃ q, appendMix exampleHeap { ver := 3, capacity := 2, Segments := [none, none] }
        [(false, 0), (false, 1), (true, 2)] = .ok q ∧
      q.Count = 3 ∧ q.head = 0 ∧
      ∀ i : Nat, i < 3 → index q.Segments (Int.tmod (q.head + i) q.capacity) =
        ([(false, 0), (false, 1), (true, 2)] : List (Bool × Ptr))[i]?.map
          (fun x => some x.2) := by
  obtain ⟨p0, hnew, hall⟩ := C15_auto_extend_keeps_all exampleHeap 0 2
    [(false, 0), (false, 1), (true, 2)] (by decide) (by decide)
  have hp0 : p0 = { ver := 3, capacity := 2, Segments := [none, none] } := by
    have h2 : NewMediaPlaylist 0 2 = .ok (some
        { ver := 3, capacity := 2, Segments := [none, none] }) := by decide
    rw [h2] at hnew
    injection hnew with h3
    injection h3 with h4
    exact h4.symm
  subst hp0
  have t1 : Int.tmod 1 2 = 1 := by decide
  refine hall ?_ 3 (by decide)
  intro pre a post q hsplit hpre
  rcases pre with _ | ⟨x, _ | ⟨y, _ | ⟨z, pre⟩⟩⟩
  · simp only [appendMix] at hpre
    injection hpre with hq
    subst hq
    decide
  · simp only [List.cons_append, List.nil_append, List.cons.injEq] at hsplit
    obtain ⟨rfl, -⟩ := hsplit
    simp [appendMix, MediaPlaylist.appendCall, MediaPlaylist.Append, exampleHeap, t1] at hpre
    subst hpre
    simp
  · simp at hsplit
  · simp at hsplit


/-- C12, as stated, fails. `Encode` on the example playlist (one segment, version 3) fills the
cache with the text `V3`. After `SetVersion(5)` the next `Encode` returns `V3` again, while
encoding the updated state from an empty cache gives the text with `#EXT-X-VERSION:5`. After
`DurationAsInt(true)` the next `Encode` returns `V3`, while the encoding from an empty cache
has `#EXTINF:9,title`. After `SetDiscontinuity()`, which succeeds, the next `Encode` returns
`V3`, while the encoding from an empty cache has a `#EXT-X-DISCONTINUITY` line. -/
theorem C12_counterexample :
    MediaPlaylist.Encode exampleFormatters exampleHeap examplePlaylist =
      some { examplePlaylist with
        buf := "#EXTM3U\n#EXT-X-VERSION:3\n#EXT-X-MEDIA-SEQUENCE:0\n" ++
          "#EXT-X-TARGETDURATION:9\n#EXTINF:?,title\ntest01.ts\n" } ∧
    MediaPlaylist.encoded exampleFormatters exampleHeap
      (MediaPlaylist.SetVersion { examplePlaylist with
        buf := "#EXTM3U\n#EXT-X-VERSION:3\n#EXT-X-MEDIA-SEQUENCE:0\n" ++
          "#EXT-X-TARGETDURATION:9\n#EXTINF:?,title\ntest01.ts\n" } 5) =
      some ("#EXTM3U\n#EXT-X-VERSION:3\n#EXT-X-MEDIA-SEQUENCE:0\n" ++
        "#EXT-X-TARGETDURATION:9\n#EXTINF:?,title\ntest01.ts\n") ∧
    MediaPlaylist.encoded exampleFormatters exampleHeap
      (MediaPlaylist.ResetCache (MediaPlaylist.SetVersion { examplePlaylist with
        buf := "#EXTM3U\n#EXT-X-VERSION:3\n#EXT-X-MEDIA-SEQUENCE:0\n" ++
          "#EXT-X-TARGETDURATION:9\n#EXTINF:?,title\ntest01.ts\n" } 5)) =
      some ("#EXTM3U\n#EXT-X-VERSION:5\n#EXT-X-MEDIA-SEQUENCE:0\n" ++
        "#EXT-X-TARGETDURATION:9\n#EXTINF:?,title\ntest01.ts\n") ∧
    MediaPlaylist.encoded exampleFormatters exampleHeap
      (MediaPlaylist.DurationAsInt { examplePlaylist with
        buf := "#EXTM3U\n#EXT-X-VERSION:3\n#EXT-X-MEDIA-SEQUENCE:0\n" ++
          "#EXT-X-TARGETDURATION:9\n#EXTINF:?,title\ntest01.ts\n" } true) =
      some ("#EXTM3U\n#EXT-X-VERSION:3\n#EXT-X-MEDIA-SEQUENCE:0\n" ++
        "#EXT-X-TARGETDURATION:9\n#EXTINF:?,title\ntest01.ts\n") ∧
    MediaPlaylist.encoded exampleFormatters exampleHeap
      (MediaPlaylist.ResetCache (MediaPlaylist.DurationAsInt { examplePlaylist with
        buf := "#EXTM3U\n#EXT-X-VERSION:3\n#EXT-X-MEDIA-SEQUENCE:0\n" ++
          "#EXT-X-TARGETDURATION:9\n#EXTINF:?,title\ntest01.ts\n" } true)) =
      some ("#EXTM3U\n#EXT-X-VERSION:3\n#EXT-X-MEDIA-SEQUENCE:0\n" ++
        "#EXT-X-TARGETDURATION:9\n#EXTINF:9,title\ntest01.ts\n") ∧
    MediaPlaylist.SetDiscontinuity exampleHeap { examplePlaylist with
        buf := "#EXTM3U\n#EXT-X-VERSION:3\n#EXT-X-MEDIA-SEQUENCE:0\n" ++
          "#EXT-X-TARGETDURATION:9\n#EXTINF:?,title\ntest01.ts\n" } =
      .ok ({ examplePlaylist with
          buf := "#EXTM3U\n#EXT-X-VERSION:3\n#EXT-X-MEDIA-SEQUENCE:0\n" ++
            "#EXT-X-TARGETDURATION:9\n#EXTINF:?,title\ntest01.ts\n" },
        { exampleHeap with
          seg := Function.update exampleHeap.seg 0
            { exampleHeap.seg 0 with Discontinuity := true } }) ∧
    MediaPlaylist.encoded exampleFormatters
      { exampleHeap with
        seg := Function.update exampleHeap.seg 0
          { exampleHeap.seg 0 with Discontinuity := true } }
      { examplePlaylist with
        buf := "#EXTM3U\n#EXT-X-VERSION:3\n#EXT-X-MEDIA-SEQUENCE:0\n" ++
          "#EXT-X-TARGETDURATION:9\n#EXTINF:?,title\ntest01.ts\n" } =
      some ("#EXTM3U\n#EXT-X-VERSION:3\n#EXT-X-MEDIA-SEQUENCE:0\n" ++
        "#EXT-X-TARGETDURATION:9\n#EXTINF:?,title\ntest01.ts\n") ∧
    MediaPlaylist.encoded exampleFormatters
      { exampleHeap with
        seg := Function.update exampleHeap.seg 0
          { exampleHeap.seg 0 with Discontinuity := true } }
      (MediaPlaylist.ResetCache { examplePlaylist with
        buf := "#EXTM3U\n#EXT-X-VERSION:3\n#EXT-X-MEDIA-SEQUENCE:0\n" ++
          "#EXT-X-TARGETDURATION:9\n#EXTINF:?,title\ntest01.ts\n" }) =
      some ("#EXTM3U\n#EXT-X-VERSION:3\n#EXT-X-MEDIA-SEQUENCE:0\n" ++
        "#EXT-X-TARGETDURATION:9\n#EXT-X-DISCONTINUITY\n#EXTINF:?,title\ntest01.ts\n") := by
  have h9 : (⌈(9 : ℚ)⌉ : Int) = 9 := by
    rw [Int.ceil_eq_iff]; norm_num
  have i3 : Itoa 3 = "3" := by decide
  have i5 : Itoa 5 = "5" := by decide
  have i0 : Itoa 0 = "0" := by decide
  have i9 : Itoa 9 = "9" := by decide
  have t1 : Int.tmod 1 3 = 1 := by decide
  have j9 : int64 9 = 9 := by decide
  refine ⟨examplePlaylist_Encode, ?_, ?_, ?_, ?_, ?_, ?_, ?_⟩
  · simp [MediaPlaylist.encoded, MediaPlaylist.Encode, MediaPlaylist.SetVersion]
  · simp [MediaPlaylist.encoded, MediaPlaylist.ResetCache, MediaPlaylist.SetVersion,
      MediaPlaylist.Encode, examplePlaylist, MediaPlaylist.writeSegments,
      MediaPlaylist.writeSegment, MediaPlaylist.segmentDuration, MediaPlaylist.segmentSCTE,
      MediaPlaylist.segmentKey, MediaPlaylist.segmentMap, MediaPlaylist.header,
      MediaPlaylist.headerVersion, MediaPlaylist.headerKey, MediaPlaylist.headerMap,
      MediaPlaylist.headerType, MediaPlaylist.headerSequence,
      MediaPlaylist.headerTargetDuration, MediaPlaylist.headerIframe,
      MediaPlaylist.headerWidevine, exampleHeap, exampleFormatters, index, h9, j9, i5, i0, i9, t1,
      Time.IsZero]
  · simp [MediaPlaylist.encoded, MediaPlaylist.Encode, MediaPlaylist.DurationAsInt]
  · simp [MediaPlaylist.encoded, MediaPlaylist.ResetCache, MediaPlaylist.DurationAsInt,
      checkVersion, MediaPlaylist.Encode, examplePlaylist, MediaPlaylist.writeSegments,
      MediaPlaylist.writeSegment, MediaPlaylist.segmentDuration, MediaPlaylist.segmentSCTE,
      MediaPlaylist.segmentKey, MediaPlaylist.segmentMap, MediaPlaylist.header,
      MediaPlaylist.headerVersion, MediaPlaylist.headerKey, MediaPlaylist.headerMap,
      MediaPlaylist.headerType, MediaPlaylist.headerSequence,
      MediaPlaylist.headerTargetDuration, MediaPlaylist.headerIframe,
      MediaPlaylist.headerWidevine, exampleHeap, exampleFormatters, index, h9, j9, i3, i0, i9, t1,
      Time.IsZero]
  · simp [MediaPlaylist.SetDiscontinuity, MediaPlaylist.lastSeg, MediaPlaylist.last,
      examplePlaylist, index]
  · simp [MediaPlaylist.encoded, MediaPlaylist.Encode]
  · simp [MediaPlaylist.encoded, MediaPlaylist.ResetCache,
      MediaPlaylist.Encode, examplePlaylist, MediaPlaylist.writeSegments,
      MediaPlaylist.writeSegment, MediaPlaylist.segmentDuration, MediaPlaylist.segmentSCTE,
      MediaPlaylist.segmentKey, MediaPlaylist.segmentMap, MediaPlaylist.header,
      MediaPlaylist.headerVersion, MediaPlaylist.headerKey, MediaPlaylist.headerMap,
      MediaPlaylist.headerType, MediaPlaylist.headerSequence,
      MediaPlaylist.headerTargetDuration, MediaPlaylist.headerIframe,
      MediaPlaylist.headerWidevine, exampleHeap, exampleFormatters, index, h9, j9, i3, i0, i9, t1,
      Time.IsZero]

/-- C12, amended: no setter touches the cache. For every media playlist `p` on which `Encode`
returns, leaving the state `q`, the cache of `q` is not empty, and after any of
`ExtendCapacity`, `SetKey`, `SetMap`, `SetRange`, `SetSCTE35`, `SetDiscontinuity`,
`SetProgramDateTime`, `SetDefaultKey`, `SetDefaultMap`, `SetIframeOnly`, `DurationAsInt`,
`SetVersion` or `SetWinSize` succeeds on `q`, the cache still holds the bytes that `Encode`
returned, and the next `Encode` returns those bytes and leaves the state as the setter left
it. -/
theorem C12_setters_keep_cache (F : Formatters) (h : Heap) (p q : MediaPlaylist)
    (henc : p.Encode F h = some q) :
    q.buf ≠ "" ∧
    (∀ q', q.ExtendCapacity = .ok q' → q'.buf = q.buf ∧ q'.Encode F h = some q') ∧
    (∀ method uri iv keyformat keyformatversions q' h',
      q.SetKey h method uri iv keyformat keyformatversions = .ok (q', h') →
      q'.buf = q.buf ∧ q'.Encode F h' = some q') ∧
    (∀ uri limit offset q' h', q.SetMap h uri limit offset = .ok (q', h') →
      q'.buf = q.buf ∧ q'.Encode F h' = some q') ∧
    (∀ limit offset q' h', q.SetRange h limit offset = .ok (q', h') →
      q'.buf = q.buf ∧ q'.Encode F h' = some q') ∧
    (∀ scte35 q' h', q.SetSCTE35 h scte35 = .ok (q', h') →
      q'.buf = q.buf ∧ q'.Encode F h' = some q') ∧
    (∀ q' h', q.SetDiscontinuity h = .ok (q', h') →
      q'.buf = q.buf ∧ q'.Encode F h' = some q') ∧
    (∀ value q' h', q.SetProgramDateTime h value = .ok (q', h') →
      q'.buf = q.buf ∧ q'.Encode F h' = some q') ∧
    (∀ method uri iv keyformat keyformatversions q' h',
      q.SetDefaultKey h method uri iv keyformat keyformatversions = .ok (q', h') →
      q'.buf = q.buf ∧ q'.Encode F h' = some q') ∧
    (∀ uri limit offset,
      (q.SetDefaultMap h uri limit offset).1.buf = q.buf ∧
      (q.SetDefaultMap h uri limit offset).1.Encode F (q.SetDefaultMap h uri limit offset).2 =
        some (q.SetDefaultMap h uri limit offset).1) ∧
    (q.SetIframeOnly.buf = q.buf ∧ q.SetIframeOnly.Encode F h = some q.SetIframeOnly) ∧
    (∀ yes, (q.DurationAsInt yes).buf = q.buf ∧
      (q.DurationAsInt yes).Encode F h = some (q.DurationAsInt yes)) ∧
    (∀ ver, (q.SetVersion ver).buf = q.buf ∧
      (q.SetVersion ver).Encode F h = some (q.SetVersion ver)) ∧
    (∀ winsize q', q.SetWinSize winsize = .ok q' →
      q'.buf = q.buf ∧ q'.Encode F h = some q') := by
  have hb : q.buf ≠ "" := Encode_buf_ne_empty henc
  refine ⟨hb, ?_, ?_, ?_, ?_, ?_, ?_, ?_, ?_, ?_, ?_, ?_, ?_, ?_⟩
  · intro q' hq
    exact Encode_of_buf F h hb (ExtendCapacity_buf hq)
  · intro method uri iv keyformat keyformatversions q' h' hq
    exact Encode_of_buf F h' hb (SetKey_buf hq)
  · intro uri limit offset q' h' hq
    exact Encode_of_buf F h' hb (SetMap_buf hq)
  · intro limit offset q' h' hq
    exact Encode_of_buf F h' hb (SetRange_buf hq)
  · intro scte35 q' h' hq
    exact Encode_of_buf F h' hb (SetSCTE35_buf hq)
  · intro q' h' hq
    exact Encode_of_buf F h' hb (SetDiscontinuity_buf hq)
  · intro value q' h' hq
    exact Encode_of_buf F h' hb (SetProgramDateTime_buf hq)
  · intro method uri iv keyformat keyformatversions q' h' hq
    exact Encode_of_buf F h' hb (SetDefaultKey_buf hq)
  · intro uri limit offset
    exact Encode_of_buf F _ hb rfl
  · exact Encode_of_buf F h hb rfl
  · intro yes
    exact Encode_of_buf F h hb rfl
  · intro ver
    exact Encode_of_buf F h hb rfl
  · intro winsize q' hq
    exact Encode_of_buf F h hb (SetWinSize_buf hq)

/-- C12, amended, at the example playlist: after `Encode`, the calls `SetVersion(5)` and
`SetDiscontinuity()` leave the cache, and the next `Encode` returns the state unchanged -/
theorem C12_setters_keep_cache_witness :
    MediaPlaylist.Encode exampleFormatters exampleHeap
      (MediaPlaylist.SetVersion { examplePlaylist with
        buf := "#EXTM3U\n#EXT-X-VERSION:3\n#EXT-X-MEDIA-SEQUENCE:0\n" ++
          "#EXT-X-TARGETDURATION:9\n#EXTINF:?,title\ntest01.ts\n" } 5) =
      some (MediaPlaylist.SetVersion { examplePlaylist with
        buf := "#EXTM3U\n#EXT-X-VERSION:3\n#EXT-X-MEDIA-SEQUENCE:0\n" ++
          "#EXT-X-TARGETDURATION:9\n#EXTINF:?,title\ntest01.ts\n" } 5) ∧
    MediaPlaylist.Encode exampleFormatters
      { exampleHeap with
        seg := Function.update exampleHeap.seg 0
          { exampleHeap.seg 0 with Discontinuity := true } }
      { examplePlaylist with
        buf := "#EXTM3U\n#EXT-X-VERSION:3\n#EXT-X-MEDIA-SEQUENCE:0\n" ++
          "#EXT-X-TARGETDURATION:9\n#EXTINF:?,title\ntest01.ts\n" } =
      some { examplePlaylist with
        buf := "#EXTM3U\n#EXT-X-VERSION:3\n#EXT-X-MEDIA-SEQUENCE:0\n" ++
          "#EXT-X-TARGETDURATION:9\n#EXTINF:?,title\ntest01.ts\n" } := by
  have key := C12_setters_keep_cache exampleFormatters exampleHeap examplePlaylist _
    examplePlaylist_Encode
  refine ⟨(key.2.2.2.2.2.2.2.2.2.2.2.2.1 5).2, ?_⟩
  refine (key.2.2.2.2.2.2.1 _ _ ?_).2
  simp [MediaPlaylist.SetDiscontinuity, MediaPlaylist.lastSeg, MediaPlaylist.last,
    examplePlaylist, index]


/-- C28: the line `Encode` writes for an alternative is the rendering `renderMedia` followed
by a newline: `#EXT-X-MEDIA:`, then `TYPE=` and the unquoted type if non-empty, `,GROUP-ID="…"`
if non-empty, `,NAME="…"` if non-empty, `,DEFAULT=YES` or `,DEFAULT=NO` always,
`,AUTOSELECT=` and the unquoted value if non-empty, and `,LANGUAGE="…"`, `,FORCED="…"`,
`,CHARACTERISTICS="…"`, `,SUBTITLES="…"`, `,URI="…"`, each only if non-empty. Whatever the
loop over the alternatives of a variant writes is made of such lines, for alternatives of the
variant in their order. The alternative of `TestNewMasterPlaylistWithAlternatives` renders as
the line the test expects. -/
theorem C28_media_line (alt : Alternative) :
    MasterPlaylist.writeAlternative alt = renderMedia alt ++ "\n" ∧
    (∀ (alts : List (Option Alternative)) (w : List String) (r : String × List String),
      MasterPlaylist.writeAlternatives alts w = some r →
      ∃ written : List Alternative, (written.map some).Sublist alts ∧
        r.1 = concatAll (written.map (fun a => renderMedia a ++ "\n"))) ∧
    (alt.Type_ ≠ "" → alt.GroupID ≠ "" → alt.Name ≠ "" → alt.Autoselect ≠ "" →
      alt.Language ≠ "" → alt.Forced ≠ "" → alt.Characteristics ≠ "" → alt.Subtitles ≠ "" →
      alt.URI ≠ "" →
      renderMedia alt = "#EXT-X-MEDIA:" ++ "TYPE=" ++ alt.Type_ ++
        ",GROUP-ID=\"" ++ alt.GroupID ++ "\"" ++ ",NAME=\"" ++ alt.Name ++ "\"" ++
        (if alt.Default = true then ",DEFAULT=YES" else ",DEFAULT=NO") ++
        ",AUTOSELECT=" ++ alt.Autoselect ++ ",LANGUAGE=\"" ++ alt.Language ++ "\"" ++
        ",FORCED=\"" ++ alt.Forced ++ "\"" ++
        ",CHARACTERISTICS=\"" ++ alt.Characteristics ++ "\"" ++
        ",SUBTITLES=\"" ++ alt.Subtitles ++ "\"" ++ ",URI=\"" ++ alt.URI ++ "\"") ∧
    (alt.Type_ = "" → alt.GroupID = "" → alt.Name = "" → alt.Autoselect = "" →
      alt.Language = "" → alt.Forced = "" → alt.Characteristics = "" → alt.Subtitles = "" →
      alt.URI = "" →
      renderMedia alt =
        "#EXT-X-MEDIA:" ++ (if alt.Default = true then ",DEFAULT=YES" else ",DEFAULT=NO")) ∧
    MasterPlaylist.writeAlternative
        { GroupID := "audio", URI := "800/rendition.m3u8", Type_ := "AUDIO", Name := "main",
          Default := true, Autoselect := "YES", Language := "english" } =
      "#EXT-X-MEDIA:TYPE=AUDIO,GROUP-ID=\"audio\",NAME=\"main\",DEFAULT=YES,AUTOSELECT=YES," ++
        "LANGUAGE=\"english\",URI=\"800/rendition.m3u8\"\n" := by
  refine ⟨writeAlternative_eq alt, ?_, ?_, ?_, by decide⟩
  · intro alts w r hr
    obtain ⟨written, hsub, hw⟩ := MasterPlaylist.writeAlternatives_written alts w r hr
    refine ⟨written, hsub, ?_⟩
    rw [hw]
    congr 1
    apply List.map_congr_left
    intro a _
    exact writeAlternative_eq a
  · intro h1 h2 h3 h4 h5 h6 h7 h8 h9
    simp [renderMedia, quotedAttr, plainAttr, h1, h2, h3, h4, h5, h6, h7, h8, h9,
      String.ext_iff]
  · intro h1 h2 h3 h4 h5 h6 h7 h8 h9
    simp [renderMedia, quotedAttr, plainAttr, h1, h2, h3, h4, h5, h6, h7, h8, h9]

/-- C29: for every master playlist and variant. For a variant that is not I-frame, `Encode`
writes the stream descriptor, a newline, and the line `renderVariantURI`: the URI alone when
`Args` is empty, the URI, `&` and `Args` when `Args` is non-empty and the URI contains `?`,
and the URI, `?` and `Args` when `Args` is non-empty and the URI contains no `?`. For an
I-frame variant it writes the one line of the `#EXT-X-I-FRAME-STREAM-INF` tag, which ends
with the quoted `URI` attribute (if the URI is non-empty), and nothing after it; the text is
the same whatever `Args` is. In `TestEncodeMasterPlaylistWithExistingQuery` the URI line is
`chunklist1.m3u8?k1=v1&k2=v2&k3=v3`. -/
theorem C29_variant_uri (p : MasterPlaylist) (pl : Variant) :
    (pl.Iframe = false →
      MasterPlaylist.writeVariant p pl =
        MasterPlaylist.streamInf pl ++ "\n" ++ renderVariantURI p.Args pl.URI ++ "\n") ∧
    (p.Args = "" → renderVariantURI p.Args pl.URI = pl.URI) ∧
    (p.Args ≠ "" → pl.URI.contains '?' = true →
      renderVariantURI p.Args pl.URI = pl.URI ++ "&" ++ p.Args) ∧
    (p.Args ≠ "" → pl.URI.contains '?' = false →
      renderVariantURI p.Args pl.URI = pl.URI ++ "?" ++ p.Args) ∧
    (pl.Iframe = true →
      MasterPlaylist.writeVariant p pl = MasterPlaylist.iframeStreamInf pl ++ "\n" ∧
      MasterPlaylist.iframeStreamInf pl =
        "#EXT-X-I-FRAME-STREAM-INF:PROGRAM-ID=" ++ FormatUint64 pl.ProgramID ++
        ",BANDWIDTH=" ++ FormatUint64 pl.Bandwidth ++ quotedAttr "CODECS" pl.Codecs ++
        plainAttr "RESOLUTION" pl.Resolution ++ quotedAttr "VIDEO" pl.Video ++
        quotedAttr "URI" pl.URI ∧
      ∀ p' : MasterPlaylist, MasterPlaylist.writeVariant p' pl =
        MasterPlaylist.writeVariant p pl) ∧
    renderVariantURI "k3=v3" "chunklist1.m3u8?k1=v1&k2=v2" =
      "chunklist1.m3u8?k1=v1&k2=v2&k3=v3" := by
  have hq : ("chunklist1.m3u8?k1=v1&k2=v2" : String).contains '?' = true :=
    (String.contains_iff _ _).mpr (by decide)
  refine ⟨?_, ?_, ?_, ?_, ?_, ?_⟩
  · intro hI
    simp [writeVariant_eq, hI]
  · intro ha
    simp [renderVariantURI, ha]
  · intro ha hq
    simp [renderVariantURI, ha, hq]
  · intro ha hq
    simp [renderVariantURI, ha, hq]
  · intro hI
    refine ⟨?_, iframeStreamInf_eq pl, ?_⟩
    · simp [writeVariant_eq, hI]
    · intro p'
      simp [writeVariant_eq, hI]
  · simp only [renderVariantURI, hq, if_true]
    decide

/-- C29 at an I-frame variant and at the variant of
`TestEncodeMasterPlaylistWithExistingQuery`, with `Args` set to `k3=v3` -/
theorem C29_variant_uri_witness :
    MasterPlaylist.writeVariant { ver := 3, Args := "k3=v3" }
      { ProgramID := 123, Bandwidth := 1500000, Resolution := "576x480",
        URI := "chunklist1.m3u8?k1=v1&k2=v2" } =
      "#EXT-X-STREAM-INF:PROGRAM-ID=123,BANDWIDTH=1500000,RESOLUTION=576x480\n" ++
        "chunklist1.m3u8?k1=v1&k2=v2&k3=v3\n" ∧
    MasterPlaylist.writeVariant { ver := 3, Args := "k3=v3" }
      { ProgramID := 123, Bandwidth := 1500000, Iframe := true, URI := "iframe.m3u8" } =
      "#EXT-X-I-FRAME-STREAM-INF:PROGRAM-ID=123,BANDWIDTH=1500000,URI=\"iframe.m3u8\"\n" := by
  have k1 := (C29_variant_uri { ver := 3, Args := "k3=v3" }
    { ProgramID := 123, Bandwidth := 1500000, Resolution := "576x480",
      URI := "chunklist1.m3u8?k1=v1&k2=v2" }).1 rfl
  have k2 := ((C29_variant_uri { ver := 3, Args := "k3=v3" }
    { ProgramID := 123, Bandwidth := 1500000, Iframe := true, URI := "iframe.m3u8" }).2.2.2.2.1
      rfl).1
  have hq : ("chunklist1.m3u8?k1=v1&k2=v2" : String).contains '?' = true :=
    (String.contains_iff _ _).mpr (by decide)
  have k3 := (C29_variant_uri { ver := 3, Args := "k3=v3" }
    { ProgramID := 123, Bandwidth := 1500000, Resolution := "576x480",
      URI := "chunklist1.m3u8?k1=v1&k2=v2" }).2.2.1 (by decide) hq
  constructor
  · rw [k1, k3]
    set_option maxRecDepth 8000 in decide
  · rw [k2]
    set_option maxRecDepth 8000 in decide

/-- C30: for every variant that is not I-frame whose `ProgramID` and `Bandwidth` are
non-negative (and in the range of a Go `int`), in every master playlist: what `Encode` writes
for the variant begins with the stream descriptor `renderStreamInf` and a newline, the
descriptor being `#EXT-X-STREAM-INF:PROGRAM-ID=<n>,BANDWIDTH=<n>` followed by `,CODECS="…"`,
`,RESOLUTION=…` (unquoted), `,AUDIO="…"`, `,VIDEO="…"`, `,CLOSED-CAPTIONS=NONE` for the
literal `NONE` and `,CLOSED-CAPTIONS="…"` otherwise, `,SUBTITLES="…"`, `,NAME="…"`, each only
if the field is non-empty. The variants are written in the order of `Variants`, each after
the lines of its alternatives, and `Append` adds at the end of `Variants`. The encoding of a
playlist made by `NewMasterPlaylist` and calls of `Append` without alternatives is `#EXTM3U`,
`#EXT-X-VERSION:3` and the variants in insertion order. -/
theorem C30_stream_inf (pl : Variant) (hI : pl.Iframe = false)
    (hp0 : 0 ≤ pl.ProgramID) (hp1 : pl.ProgramID < 2 ^ 63)
    (hb0 : 0 ≤ pl.Bandwidth) (hb1 : pl.Bandwidth < 2 ^ 63) :
    (∀ p : MasterPlaylist, MasterPlaylist.writeVariant p pl =
      renderStreamInf pl ++ "\n" ++ renderVariantURI p.Args pl.URI ++ "\n") ∧
    (∀ (p : MasterPlaylist) (vs : List Variant) (w : List String) (out : String),
      MasterPlaylist.writeVariants p (vs.map some) w = some out →
      ∃ alts : List String, alts.length = vs.length ∧
        out = concatAll (List.zipWith (fun a v => a ++ MasterPlaylist.writeVariant p v)
          alts vs)) ∧
    (∀ (p : MasterPlaylist) (uri : String) (chunklist : Option Ptr) (params : VariantParams),
      (p.Append uri chunklist params).Variants =
        p.Variants ++ [some (variantOf (uri, chunklist, params))]) ∧
    (∀ calls : List (String × Option Ptr × VariantParams),
      (∀ c ∈ calls, c.2.2.Alternatives = []) →
      (NewMasterPlaylist.appendAll calls).encoded =
        some ("#EXTM3U\n#EXT-X-VERSION:3\n" ++
          concatAll (calls.map (fun c => MasterPlaylist.writeVariant NewMasterPlaylist
            (variantOf c))))) := by
  refine ⟨?_, ?_, ?_, ?_⟩
  · intro p
    rw [writeVariant_eq, hI, streamInf_eq pl hp0 (by omega) hb0 (by omega)]
    rfl
  · intro p vs w out hout
    exact MasterPlaylist.writeVariants_order p vs w out hout
  · intro p uri chunklist params
    rfl
  · intro calls hc
    exact MasterPlaylist.appendAll_encoded calls hc

/-- C30 at `ExampleMasterPlaylist`, whose two variants have `ProgramID` 123, `Bandwidth`
1500000 and `Resolution` `576x480`, and at the variant of
`TestNewMasterPlaylistWithClosedCaptionEqNone` -/
theorem C30_stream_inf_witness :
    (NewMasterPlaylist.appendAll
        [("chunklist1.m3u8", some 0,
            { ProgramID := 123, Bandwidth := 1500000, Resolution := "576x480" }),
          ("chunklist2.m3u8", some 0,
            { ProgramID := 123, Bandwidth := 1500000, Resolution := "576x480" })]).encoded =
      some ("#EXTM3U\n#EXT-X-VERSION:3\n" ++
        "#EXT-X-STREAM-INF:PROGRAM-ID=123,BANDWIDTH=1500000,RESOLUTION=576x480\n" ++
        "chunklist1.m3u8\n" ++
        "#EXT-X-STREAM-INF:PROGRAM-ID=123,BANDWIDTH=1500000,RESOLUTION=576x480\n" ++
        "chunklist2.m3u8\n") ∧
    MasterPlaylist.writeVariant NewMasterPlaylist
        { ProgramID := 0, Bandwidth := 8000, Codecs := "avc1", Resolution := "1280x720",
          Audio := "audio0", Captions := "NONE", URI := "eng_rendition_rendition.m3u8" } =
      "#EXT-X-STREAM-INF:PROGRAM-ID=0,BANDWIDTH=8000,CODECS=\"avc1\",RESOLUTION=1280x720," ++
        "AUDIO=\"audio0\",CLOSED-CAPTIONS=NONE\neng_rendition_rendition.m3u8\n" := by
  have k1 := (C30_stream_inf
    { ProgramID := 123, Bandwidth := 1500000, Resolution := "576x480",
      URI := "chunklist1.m3u8" } rfl (by decide) (by decide) (by decide) (by decide)).2.2.2
    [("chunklist1.m3u8", some 0,
        { ProgramID := 123, Bandwidth := 1500000, Resolution := "576x480" }),
      ("chunklist2.m3u8", some 0,
        { ProgramID := 123, Bandwidth := 1500000, Resolution := "576x480" })]
    (by intro c hc; simp at hc; rcases hc with rfl | rfl <;> rfl)
  have k2 := (C30_stream_inf
    { ProgramID := 0, Bandwidth := 8000, Codecs := "avc1", Resolution := "1280x720",
      Audio := "audio0", Captions := "NONE", URI := "eng_rendition_rendition.m3u8" }
    rfl (by decide) (by decide) (by decide) (by decide)).1 NewMasterPlaylist
  constructor
  · rw [k1]
    simp only [List.map, concatAll, MasterPlaylist.writeVariant, variantOf, NewMasterPlaylist]
    set_option maxRecDepth 8000 in decide
  · rw [k2]
    simp only [renderVariantURI, NewMasterPlaylist]
    set_option maxRecDepth 8000 in decide


/-- C27 fails on the code: the key under which `Encode` remembers an alternative is the
string `Type-GroupID-Name-Language`, and two alternatives whose four fields differ can have
the same string. For the alternatives (`AUDIO`, `audio-en`, `main`, no language) and
(`AUDIO`, `audio`, `en-main`, no language) of one variant, the keys are both
`AUDIO-audio-en-main-`, and the encoding of the playlist that `NewMasterPlaylist` and one
`Append` make has the `EXT-X-MEDIA` line of the first alternative only, while `renderVariants`
has a line for each of the two keys. What holds: when no two alternatives of the playlist with
different (Type, GroupID, Name, Language) have the same string, the encoding is the two header
lines and `renderVariants`, which writes before each variant the lines of `newAlternatives`;
these are alternatives of the variant, with no key twice, and their keys are the keys of the
variant that no earlier alternative carries. -/
theorem C27_alt_key_collision :
    ((⟨"AUDIO", "audio-en", "main", ""⟩ : String × String × String × String) ≠
      ⟨"AUDIO", "audio", "en-main", ""⟩) ∧
    MasterPlaylist.altKey { Type_ := "AUDIO", GroupID := "audio-en", Name := "main" } =
      "AUDIO-audio-en-main-" ∧
    MasterPlaylist.altKey { Type_ := "AUDIO", GroupID := "audio", Name := "en-main" } =
      "AUDIO-audio-en-main-" ∧
    (NewMasterPlaylist.Append "chunklist.m3u8" (some 0)
        { Alternatives :=
            [some { Type_ := "AUDIO", GroupID := "audio-en", Name := "main" },
             some { Type_ := "AUDIO", GroupID := "audio", Name := "en-main" }] }).encoded =
      some ("#EXTM3U\n#EXT-X-VERSION:4\n" ++
        "#EXT-X-MEDIA:TYPE=AUDIO,GROUP-ID=\"audio-en\",NAME=\"main\",DEFAULT=NO\n" ++
        "#EXT-X-STREAM-INF:PROGRAM-ID=0,BANDWIDTH=0\n" ++
        "chunklist.m3u8\n") ∧
    renderVariants NewMasterPlaylist
        [{ Alternatives :=
            [some { Type_ := "AUDIO", GroupID := "audio-en", Name := "main" },
             some { Type_ := "AUDIO", GroupID := "audio", Name := "en-main" }],
           URI := "chunklist.m3u8", Chunklist := some 0 }] [] =
      "#EXT-X-MEDIA:TYPE=AUDIO,GROUP-ID=\"audio-en\",NAME=\"main\",DEFAULT=NO\n" ++
        "#EXT-X-MEDIA:TYPE=AUDIO,GROUP-ID=\"audio\",NAME=\"en-main\",DEFAULT=NO\n" ++
        "#EXT-X-STREAM-INF:PROGRAM-ID=0,BANDWIDTH=0\n" ++
        "chunklist.m3u8\n" ∧
    (∀ (p : MasterPlaylist) (vs : List Variant),
      p.buf = "" → p.Variants = vs.map some →
      (∀ v ∈ vs, ∀ x ∈ v.Alternatives, x ≠ none) →
      (∀ v ∈ vs, ∀ a ∈ v.Alternatives.reduceOption, ∀ v' ∈ vs,
        ∀ b ∈ v'.Alternatives.reduceOption,
        MasterPlaylist.altKey a = MasterPlaylist.altKey b → a.key = b.key) →
      p.encoded =
        some ("#EXTM3U\n#EXT-X-VERSION:" ++ Itoa p.ver ++ "\n" ++ renderVariants p vs [])) ∧
    (∀ (alts : List Alternative) (seen : List (String × String × String × String)),
      ((newAlternatives alts seen).map Alternative.key).Nodup ∧
      (∀ k, k ∈ (newAlternatives alts seen).map Alternative.key ↔
        k ∈ alts.map Alternative.key ∧ k ∉ seen) ∧
      (newAlternatives alts seen).Sublist alts) := by
  refine ⟨by decide, by decide, by decide, ?_, ?_, ?_, newAlternatives_keys⟩
  · set_option maxRecDepth 8000 in decide
  · set_option maxRecDepth 8000 in decide
  · intro p vs hb hvs hnil hinj
    have h := MasterPlaylist.writeVariants_new p vs [] [] hnil hinj
      (fun v _ a _ => by simp)
    simp only [MasterPlaylist.encoded, MasterPlaylist.Encode, hb, ne_eq, not_true_eq_false,
      if_false, hvs, h, Option.map_some']


/-- C26: take a media playlist with `winsize ≥ 0`, `count ≤ capacity` and an empty cache, and
let `slots` be the contents of the `count` slots that the loop of `Encode` reads, from `head`
onwards (each next index is the previous one plus 1, modulo the capacity). Then `Encode`
returns, and the text is the header, the lines of the emitted segments in order, and the end
marker if the playlist is closed. The emitted segments are the non-empty slots, all of them
when `winsize` is 0 and the first `winsize` of them otherwise, so an empty slot is skipped
and does not count towards `winsize`. When no slot is empty they are the first
`min(count, winsize)` slots when `winsize > 0` and all `count` slots when `winsize` is 0. When
`0 ≤ head < capacity` the slot read in pass `j` is `(head + j) % capacity`. -/
theorem C26_window (F : Formatters) (h : Heap) (p : MediaPlaylist) (slots : List (Option Ptr))
    (hw : 0 ≤ p.winsize) (hc : p.count ≤ p.capacity) (hlen : (slots.length : Int) = p.count)
    (hslots : ∀ j (hj : j < slots.length),
      index p.Segments (p.slotAt j) = some (slots.get ⟨j, hj⟩))
    (hbuf : p.buf = "") :
    (∃ q, p.Encode F h = some q ∧
      q.buf = MediaPlaylist.header h p ++
        concatAll ((emitted p.winsize slots).map (fun a => renderSegment F h p (h.seg a))) ++
        (if p.Closed then "#EXT-X-ENDLIST\n" else "")) ∧
    emitted p.winsize slots =
      (if p.winsize = 0 then slots.reduceOption
       else slots.reduceOption.take p.winsize.toNat) ∧
    (∀ segs : List Ptr, slots = segs.map some →
      emitted p.winsize slots = (if p.winsize = 0 then segs else segs.take p.winsize.toNat) ∧
      ((emitted p.winsize slots).length : Int) =
        (if p.winsize = 0 then p.count else min p.count p.winsize)) ∧
    (0 ≤ p.head → p.head < p.capacity →
      ∀ j : Nat, p.slotAt j = Int.emod (p.head + j) p.capacity) := by
  refine ⟨⟨_, Encode_fresh hbuf (Encode_window F h p slots hc hlen hslots), rfl⟩, rfl, ?_, ?_⟩
  · intro segs hs
    subst hs
    rw [emitted_of_full]
    refine ⟨rfl, ?_⟩
    rw [List.length_map] at hlen
    by_cases hw0 : p.winsize = 0
    · simp only [hw0, if_true]
      exact hlen
    · simp only [hw0, if_false, List.length_take]
      rw [← hlen]
      omega
  · intro h0 h1 j
    exact slotFrom_mod (by omega) j p.head h0 h1

/-- C26 at a playlist of three slots with `head = 2`, `count = 2` and `winsize = 1`, whose
live slots 2 and 0 hold the segments at addresses 0 and 1: only the older segment, the one
of slot 2, is emitted -/
theorem C26_window_witness :
    ∃ q, MediaPlaylist.Encode exampleFormatters exampleHeap
        { ver := 3, capacity := 3, winsize := 1, Segments := [some 1, none, some 0],
          head := 2, tail := 1, count := 2, TargetDuration := 10 } = some q ∧
      q.buf = "#EXTM3U\n#EXT-X-VERSION:3\n#EXT-X-MEDIA-SEQUENCE:0\n#EXT-X-TARGETDURATION:10\n" ++
        "#EXTINF:?,title\ntest01.ts\n" := by
  obtain ⟨⟨q, hq, hb⟩, -⟩ := C26_window exampleFormatters exampleHeap
    { ver := 3, capacity := 3, winsize := 1, Segments := [some 1, none, some 0],
      head := 2, tail := 1, count := 2, TargetDuration := 10 } [some 0, some 1]
    (by decide) (by decide) (by decide)
    (by
      intro j hj
      match j, hj with
      | 0, _ => rfl
      | 1, _ => rfl)
    rfl
  refine ⟨q, hq, ?_⟩
  rw [hb]
  decide!


/-- C23: for every segment that `Encode` writes, with the duration cache of `Encode` at that
point, the text written is `renderSegment`: the SCTE lines if a cue is set, the key tag if the
segment has a key that is not the default key, `#EXT-X-DISCONTINUITY` iff the flag is set, the
map tag iff the playlist has no default map and the segment has a map,
`#EXT-X-PROGRAM-DATE-TIME:` and the time iff it is not zero, `#EXT-X-BYTERANGE:` with
`Limit@Offset` iff `Limit > 0`, `#EXTINF:` with the duration and the title, and the URI,
followed by `?` and `Args` when `Args` is non-empty. The loop of `Encode`, which starts from
an empty duration cache, writes every segment so. -/
theorem C23_segment_lines (F : Formatters) (h : Heap) (p : MediaPlaylist) (seg : MediaSegment)
    (cache : List (ℚ × String)) (hc : CacheOk F p cache) :
    (MediaPlaylist.writeSegment F h p seg cache).1 = renderSegment F h p seg ∧
    (∀ (n : Nat) (i head : Int),
      MediaPlaylist.writeSegments F h p n i head [] = renderSegments F h p n i head) ∧
    (∀ c k m, seg.SCTE = some c → seg.Key = some k → p.Key ≠ some k →
      seg.Discontinuity = true → p.Map = none → seg.Map = some m →
      seg.ProgramDateTime.IsZero = false → seg.Limit > 0 → p.Args ≠ "" →
      renderSegment F h p seg =
        renderSCTE F (h.scte c) ++ (renderKey (h.key k) ++ "\n") ++ "#EXT-X-DISCONTINUITY\n" ++
        (renderMap (h.map m) ++ "\n") ++
        ("#EXT-X-PROGRAM-DATE-TIME:" ++ F.Format seg.ProgramDateTime DateTime ++ "\n") ++
        ("#EXT-X-BYTERANGE:" ++ Itoa seg.Limit ++ "@" ++ Itoa seg.Offset ++ "\n") ++
        ("#EXTINF:" ++ p.durationText F seg.Duration ++ "," ++ seg.Title ++ "\n") ++
        (seg.URI ++ "?" ++ p.Args ++ "\n")) ∧
    (seg.SCTE = none → seg.Key = none → seg.Discontinuity = false → seg.Map = none →
      seg.ProgramDateTime.IsZero = true → ¬ seg.Limit > 0 → p.Args = "" →
      renderSegment F h p seg =
        "#EXTINF:" ++ p.durationText F seg.Duration ++ "," ++ seg.Title ++ "\n" ++
        (seg.URI ++ "\n")) := by
  refine ⟨(writeSegment_ok F h p seg hc).1, ?_, ?_, ?_⟩
  · intro n i head
    exact writeSegments_eq_render F h p n i head [] (CacheOk_nil F p)
  · intro c k m h1 h2 h3 h4 h5 h6 h7 h8 h9
    have h3' : ¬ p.Key = some k := h3
    simp [renderSegment, h1, h2, h3', h4, h5, h6, h7, h8, h9]
  · intro h1 h2 h3 h4 h5 h6 h7
    have h6' : ¬ 0 < seg.Limit := h6
    simp [renderSegment, h1, h2, h3, h4, h5, h6', h7]

/-- C23 at the segment of `TestSetMapForMediaPlaylist`: a segment of 5 seconds with a map of
its own, in a playlist without default map -/
theorem C23_segment_lines_witness :
    (MediaPlaylist.writeSegment (stdFormatters exampleFormatters.Format)
      { map := fun _ => ⟨"https://example.com", 1024000, 1048576⟩ }
      { ver := 5, capacity := 5, winsize := 3, Segments := [some 0, none, none, none, none],
        tail := 1, count := 1, TargetDuration := 5 }
      { URI := "test01.ts", Duration := 5, Map := some 0 } []).1 =
    "#EXT-X-MAP:URI=\"https://example.com\",BYTERANGE=1024000@1048576\n" ++
      "#EXTINF:5.000,\ntest01.ts\n" := by
  rw [(C23_segment_lines (stdFormatters exampleFormatters.Format)
    { map := fun _ => ⟨"https://example.com", 1024000, 1048576⟩ }
    { ver := 5, capacity := 5, winsize := 3, Segments := [some 0, none, none, none, none],
      tail := 1, count := 1, TargetDuration := 5 }
    { URI := "test01.ts", Duration := 5, Map := some 0 } []
    (CacheOk_nil _ _)).1]
  decide!

/-- C25: for every media playlist state, encoding the state with `Closed = true` from an
empty cache panics when encoding it with `Closed = false` does, and otherwise returns the
same text followed by the line `#EXT-X-ENDLIST`. When the playlist is open and its cache
holds its encoding, `Close` leaves a closed playlist whose next `Encode` returns the cached
text followed by `#EXT-X-ENDLIST`, which is the encoding of the closed state from an empty
cache. That is the case after `Encode` has returned on an open playlist with an empty
cache. -/
theorem C25_close_appends_endlist (F : Formatters) (h : Heap) (p : MediaPlaylist) :
    MediaPlaylist.encoded F h { p with Closed := true, buf := "" } =
      (MediaPlaylist.encoded F h { p with Closed := false, buf := "" }).map
        (fun s => s ++ "#EXT-X-ENDLIST\n") ∧
    (p.Closed = false → p.ResetCache.encoded F h = some p.buf →
      p.Close.Closed = true ∧
      p.Close.encoded F h = some (p.buf ++ "#EXT-X-ENDLIST\n") ∧
      p.Close.encoded F h = p.Close.ResetCache.encoded F h) ∧
    (p.Closed = false → p.buf = "" → ∀ q, p.Encode F h = some q →
      q.Close.encoded F h = some (q.buf ++ "#EXT-X-ENDLIST\n") ∧
      q.Close.encoded F h = q.Close.ResetCache.encoded F h) := by
  refine ⟨encoded_closed F h p, ?_, ?_⟩
  · intro hcl hcache
    obtain ⟨h1, h2⟩ := Close_cached F h p hcl hcache
    exact ⟨rfl, h1, by rw [h1, h2]⟩
  · intro hcl hb q hq
    obtain ⟨b, hqb⟩ := Encode_frame hq
    have hqcl : q.Closed = false := by rw [hqb]; exact hcl
    have hcoh : q.ResetCache.encoded F h = some q.buf := by
      have hqr : q.ResetCache = p := by
        rw [hqb]
        cases p
        simp only [MediaPlaylist.ResetCache] at *
        simp [hb]
      rw [hqr, MediaPlaylist.encoded, hq]
      rfl
    obtain ⟨h1, h2⟩ := Close_cached F h q hqcl hcoh
    exact ⟨h1, by rw [h1, h2]⟩

/-- C25 at the playlist of `ExampleMediaPlaylist_Close`: closed, its encoding is the text of
the example, which ends with `#EXT-X-ENDLIST`; and `Close` called on the open playlist with
its encoding in the cache gives the same text at the next `Encode` -/
theorem C25_close_appends_endlist_witness :
    MediaPlaylist.encoded (stdFormatters exampleFormatters.Format) exampleMediaHeap
        { exampleMedia with Closed := true, buf := "" } =
      some ("#EXTM3U\n#EXT-X-VERSION:3\n#EXT-X-MEDIA-SEQUENCE:0\n#EXT-X-TARGETDURATION:6\n" ++
        "#EXTINF:5.000,\ntest01.ts\n#EXTINF:6.000,\ntest02.ts\n#EXT-X-ENDLIST\n") ∧
    MediaPlaylist.encoded (stdFormatters exampleFormatters.Format) exampleMediaHeap
        (MediaPlaylist.Close { exampleMedia with
          buf := "#EXTM3U\n#EXT-X-VERSION:3\n#EXT-X-MEDIA-SEQUENCE:0\n" ++
            "#EXT-X-TARGETDURATION:6\n#EXTINF:5.000,\ntest01.ts\n#EXTINF:6.000,\ntest02.ts\n" }) =
      some ("#EXTM3U\n#EXT-X-VERSION:3\n#EXT-X-MEDIA-SEQUENCE:0\n#EXT-X-TARGETDURATION:6\n" ++
        "#EXTINF:5.000,\ntest01.ts\n#EXTINF:6.000,\ntest02.ts\n#EXT-X-ENDLIST\n") := by
  have hopen : MediaPlaylist.encoded (stdFormatters exampleFormatters.Format) exampleMediaHeap
      { exampleMedia with Closed := false, buf := "" } =
      some ("#EXTM3U\n#EXT-X-VERSION:3\n#EXT-X-MEDIA-SEQUENCE:0\n" ++
        "#EXT-X-TARGETDURATION:6\n#EXTINF:5.000,\ntest01.ts\n#EXTINF:6.000,\ntest02.ts\n") := by
    decide!
  have key := C25_close_appends_endlist (stdFormatters exampleFormatters.Format)
    exampleMediaHeap exampleMedia
  have key2 := (C25_close_appends_endlist (stdFormatters exampleFormatters.Format)
    exampleMediaHeap { exampleMedia with
      buf := "#EXTM3U\n#EXT-X-VERSION:3\n#EXT-X-MEDIA-SEQUENCE:0\n" ++
        "#EXT-X-TARGETDURATION:6\n#EXTINF:5.000,\ntest01.ts\n#EXTINF:6.000,\ntest02.ts\n" }).2.1
    rfl hopen
  refine ⟨?_, ?_⟩
  · rw [key.1, hopen]
    rfl
  · rw [key2.2.1]
    rfl


/-- C21: for every segment with a cue, the SCTE-35 text `Encode` writes is `renderSCTE` of
the cue. With the legacy syntax it is the one line `#EXT-SCTE35:CUE="<Cue>"`, with
`,ID="<ID>"` iff the id is non-empty and `,TIME=<Time>` iff the time is not 0. With the OATCLS
syntax it is `#EXT-OATCLS-SCTE35:<Cue>` and `#EXT-X-CUE-OUT:<Time>` for a start cue,
`#EXT-X-CUE-OUT-CONT:ElapsedTime=<Elapsed>,Duration=<Time>,SCTE35=<Cue>` for a mid cue and
`#EXT-X-CUE-IN` for an end cue. Each line ends with a newline, and the text stands before
everything else written for the segment, which is what is written for the same segment
without cue. The numbers are printed by `FormatFloat(x, 'f', -1, 64)`: a finite integral
`float64` other than 0 is printed as a decimal integer, without fractional part, that denotes
the same `float64`; 3 is printed as `3` and 3.141 as `3.141`. -/
theorem C21_scte_lines (F : Formatters) (h : Heap) (p : MediaPlaylist) (seg : MediaSegment)
    (cache : List (ℚ × String)) (c : Ptr) (hc : seg.SCTE = some c) :
    MediaPlaylist.segmentSCTE F h seg = renderSCTE F (h.scte c) ∧
    ((h.scte c).Syntax = Syntax672014 →
      renderSCTE F (h.scte c) =
        "#EXT-SCTE35:CUE=\"" ++ (h.scte c).Cue ++ "\"" ++
        (if (h.scte c).ID = "" then "" else ",ID=\"" ++ (h.scte c).ID ++ "\"") ++
        (if (h.scte c).Time = 0 then ""
         else ",TIME=" ++ F.FormatFloat (h.scte c).Time 'f' (-1) 64) ++ "\n") ∧
    ((h.scte c).Syntax = SyntaxOATCLS → (h.scte c).CueType = SCTE35CueStart →
      renderSCTE F (h.scte c) =
        "#EXT-OATCLS-SCTE35:" ++ (h.scte c).Cue ++ "\n" ++
        "#EXT-X-CUE-OUT:" ++ F.FormatFloat (h.scte c).Time 'f' (-1) 64 ++ "\n") ∧
    ((h.scte c).Syntax = SyntaxOATCLS → (h.scte c).CueType = SCTE35CueMid →
      renderSCTE F (h.scte c) =
        "#EXT-X-CUE-OUT-CONT:ElapsedTime=" ++ F.FormatFloat (h.scte c).Elapsed 'f' (-1) 64 ++
        ",Duration=" ++ F.FormatFloat (h.scte c).Time 'f' (-1) 64 ++
        ",SCTE35=" ++ (h.scte c).Cue ++ "\n") ∧
    ((h.scte c).Syntax = SyntaxOATCLS → (h.scte c).CueType = SCTE35CueEnd →
      renderSCTE F (h.scte c) = "#EXT-X-CUE-IN\n") ∧
    (MediaPlaylist.writeSegment F h p seg cache).1 =
      renderSCTE F (h.scte c) ++
        (MediaPlaylist.writeSegment F h p { seg with SCTE := none } cache).1 ∧
    (∀ (n : Int) (fmt : Char), n ≠ 0 → float64 (n : ℚ) = n → |(n : ℚ)| < 2 ^ 1024 →
      ∃ m : Int, FormatFloat n fmt (-1) 64 = Itoa m ∧ float64 (m : ℚ) = n) ∧
    FormatFloat 3 'f' (-1) 64 = "3" ∧
    FormatFloat (3141 / 1000) 'f' (-1) 64 = "3.141" := by
  have hs : MediaPlaylist.segmentSCTE F h seg = renderSCTE F (h.scte c) := by
    rw [segmentSCTE_eq, hc]
  refine ⟨hs, ?_, ?_, ?_, ?_, ?_, ?_, by decide!, by decide!⟩
  · intro h1
    simp [renderSCTE, h1, quotedAttr]
  · intro h1 h2
    have h0 : ¬ SyntaxOATCLS = Syntax672014 := by decide
    simp [renderSCTE, h1, h2, h0]
  · intro h1 h2
    have h0 : ¬ SyntaxOATCLS = Syntax672014 := by decide
    have h3 : ¬ SCTE35CueMid = SCTE35CueStart := by decide
    simp [renderSCTE, h1, h2, h0, h3]
  · intro h1 h2
    have h0 : ¬ SyntaxOATCLS = Syntax672014 := by decide
    have h3 : ¬ SCTE35CueEnd = SCTE35CueStart := by decide
    have h4 : ¬ SCTE35CueEnd = SCTE35CueMid := by decide
    simp [renderSCTE, h1, h2, h0, h3, h4]
  · rw [← hs]
    simp only [MediaPlaylist.writeSegment, MediaPlaylist.segmentSCTE,
      MediaPlaylist.segmentKey, MediaPlaylist.segmentMap, MediaPlaylist.segmentDuration,
      String.append_assoc]
    simp
  · intro n fmt hn hf hfin
    exact FormatFloat_integral n hn hf hfin fmt

/-- C21 at the cues of `TestSetSCTEForMediaPlaylist` (legacy syntax, times 3.141 and 3.0) and
at the start and mid cues of `ExampleMediaPlaylist_DecodeFrom` (OATCLS syntax) -/
theorem C21_scte_lines_witness :
    MediaPlaylist.segmentSCTE (stdFormatters exampleFormatters.Format)
      { scte := fun _ => { Cue := "CueData3", ID := "ID3", Time := 3141 / 1000 } }
      { URI := "test01.ts", Title := "title", Duration := 5, SCTE := some 0 } =
      "#EXT-SCTE35:CUE=\"CueData3\",ID=\"ID3\",TIME=3.141\n" ∧
    MediaPlaylist.segmentSCTE (stdFormatters exampleFormatters.Format)
      { scte := fun _ => { Cue := "CueData5", Time := 3 } }
      { URI := "test01.ts", Title := "title", Duration := 5, SCTE := some 0 } =
      "#EXT-SCTE35:CUE=\"CueData5\",TIME=3\n" ∧
    MediaPlaylist.segmentSCTE (stdFormatters exampleFormatters.Format)
      { scte := fun _ => { Syntax := SyntaxOATCLS, CueType := SCTE35CueStart, Cue := "/DAl",
                           Time := 15 } }
      { URI := "media0.ts", Duration := 8844 / 1000, SCTE := some 0 } =
      "#EXT-OATCLS-SCTE35:/DAl\n#EXT-X-CUE-OUT:15\n" ∧
    MediaPlaylist.segmentSCTE (stdFormatters exampleFormatters.Format)
      { scte := fun _ => { Syntax := SyntaxOATCLS, CueType := SCTE35CueMid, Cue := "/DAl",
                           Time := 15, Elapsed := 8844 / 1000 } }
      { URI := "media1.ts", Duration := 6156 / 1000, SCTE := some 0 } =
      "#EXT-X-CUE-OUT-CONT:ElapsedTime=8.844,Duration=15,SCTE35=/DAl\n" := by
  refine ⟨?_, ?_, ?_, ?_⟩
  · rw [(C21_scte_lines (stdFormatters exampleFormatters.Format)
      { scte := fun _ => { Cue := "CueData3", ID := "ID3", Time := 3141 / 1000 } } {}
      { URI := "test01.ts", Title := "title", Duration := 5, SCTE := some 0 } [] 0 rfl).1]
    decide!
  · rw [(C21_scte_lines (stdFormatters exampleFormatters.Format)
      { scte := fun _ => { Cue := "CueData5", Time := 3 } } {}
      { URI := "test01.ts", Title := "title", Duration := 5, SCTE := some 0 } [] 0 rfl).1]
    decide!
  · rw [(C21_scte_lines (stdFormatters exampleFormatters.Format)
      { scte := fun _ => { Syntax := SyntaxOATCLS, CueType := SCTE35CueStart, Cue := "/DAl",
                           Time := 15 } } {}
      { URI := "media0.ts", Duration := 8844 / 1000, SCTE := some 0 } [] 0 rfl).1]
    decide!
  · rw [(C21_scte_lines (stdFormatters exampleFormatters.Format)
      { scte := fun _ => { Syntax := SyntaxOATCLS, CueType := SCTE35CueMid, Cue := "/DAl",
                           Time := 15, Elapsed := 8844 / 1000 } } {}
      { URI := "media1.ts", Duration := 6156 / 1000, SCTE := some 0 } [] 0 rfl).1]
    decide!


/-- C22, as stated, fails for a target duration whose ceiling is not an `int64`: `Encode`
prints `int64(math.Ceil(TargetDuration))`. On the playlist that `NewMediaPlaylist(0, 1)`
returns, with the exported `TargetDuration` set to `10 ^ 19`, the text has the line
`#EXT-X-TARGETDURATION:-9223372036854775808`, while the ceiling of `TargetDuration` in
decimal is `10000000000000000000`. -/
theorem C22_counterexample :
    NewMediaPlaylist 0 1 = .ok (some { ver := 3, capacity := 1, Segments := [none] }) ∧
    MediaPlaylist.encoded exampleFormatters {}
        { ver := 3, capacity := 1, Segments := [none], TargetDuration := 10 ^ 19 } =
      some ("#EXTM3U\n#EXT-X-VERSION:3\n#EXT-X-MEDIA-SEQUENCE:0\n" ++
        "#EXT-X-TARGETDURATION:-9223372036854775808\n") ∧
    "#EXT-X-TARGETDURATION:" ++ Itoa ⌈(10 ^ 19 : ℚ)⌉ ++ "\n" =
      "#EXT-X-TARGETDURATION:10000000000000000000\n" := by
  refine ⟨by decide, ?_, ?_⟩
  · decide!
  · decide!

/-- C22, amended with a target duration whose ceiling is an `int64`, for the declared media
types: for every media playlist whose `MediaType` is `EVENT`, `VOD` or not positive (0 when
no type is set) and whose `TargetDuration` has its ceiling in `[-2 ^ 63, 2 ^ 63)`, with an
empty cache, the text `Encode` returns is the lines of `renderHeader`, the Widevine lines,
the segments and the end marker, where `renderHeader` is `#EXTM3U`, `#EXT-X-VERSION:<ver>`, the default `EXT-X-KEY` tag if a default
key is set, the default `EXT-X-MAP` tag if a default map is set,
`#EXT-X-PLAYLIST-TYPE:EVENT` and `#EXT-X-ALLOW-CACHE:NO` for `EVENT`,
`#EXT-X-PLAYLIST-TYPE:VOD` for `VOD`, `#EXT-X-MEDIA-SEQUENCE:<SeqNo>`,
`#EXT-X-TARGETDURATION:<ceil(TargetDuration)>` and `#EXT-X-I-FRAMES-ONLY` if `Iframe` is
set. `Encode` returns when `capacity = len(Segments) > 0` and `0 ≤ head < capacity`. With
none of the optional parts and no Widevine data the header is the four lines of
`ExampleMediaPlaylist`. Nothing is said of a `MediaType` above `VOD`, which is none of the
declared values. -/
theorem C22_header_lines (F : Formatters) (h : Heap) (p : MediaPlaylist)
    (hmt : p.MediaType ≤ MediaTypeVOD)
    (hT : -2 ^ 63 ≤ ⌈p.TargetDuration⌉ ∧ ⌈p.TargetDuration⌉ < 2 ^ 63) (hbuf : p.buf = "") :
    (∀ q, p.Encode F h = some q →
      ∃ segments, q.buf = renderHeader h p ++ MediaPlaylist.headerWidevine h p ++ segments ++
        (if p.Closed then "#EXT-X-ENDLIST\n" else "")) ∧
    (p.capacity = p.Segments.length → 0 < p.capacity → 0 ≤ p.head → p.head < p.capacity →
      ∃ q, p.Encode F h = some q) ∧
    (p.W = none → MediaPlaylist.headerWidevine h p = "") ∧
    renderHeader h p =
      "#EXTM3U\n" ++ ("#EXT-X-VERSION:" ++ Itoa p.ver ++ "\n") ++
      (match p.Key with
        | none => ""
        | some k => renderKey (h.key k) ++ "\n") ++
      (match p.Map with
        | none => ""
        | some m => renderMap (h.map m) ++ "\n") ++
      (if p.MediaType = MediaTypeEvent then
        "#EXT-X-PLAYLIST-TYPE:EVENT\n#EXT-X-ALLOW-CACHE:NO\n"
       else if p.MediaType = MediaTypeVOD then "#EXT-X-PLAYLIST-TYPE:VOD\n"
       else "") ++
      ("#EXT-X-MEDIA-SEQUENCE:" ++ Itoa p.SeqNo ++ "\n") ++
      ("#EXT-X-TARGETDURATION:" ++ Itoa ⌈p.TargetDuration⌉ ++ "\n") ++
      (if p.Iframe = true then "#EXT-X-I-FRAMES-ONLY\n" else "") ∧
    (p.Key = none → p.Map = none → p.MediaType = 0 → p.Iframe = false →
      renderHeader h p =
        "#EXTM3U\n" ++ ("#EXT-X-VERSION:" ++ Itoa p.ver ++ "\n") ++
        ("#EXT-X-MEDIA-SEQUENCE:" ++ Itoa p.SeqNo ++ "\n") ++
        ("#EXT-X-TARGETDURATION:" ++ Itoa ⌈p.TargetDuration⌉ ++ "\n")) := by
  refine ⟨?_, ?_, ?_, rfl, ?_⟩
  · intro q hq
    rcases Encode_cases hq with ⟨hb, -⟩ | ⟨-, segments, -, rfl⟩
    · exact absurd hbuf hb
    · exact ⟨segments, by rw [← header_eq h p hmt hT]⟩
  · intro hlen hcap h0 h1
    exact Encode_total F h hlen hcap h0 h1
  · intro hw
    simp [MediaPlaylist.headerWidevine, hw]
  · intro hk hm ht hi
    have h1 : ¬ (0 : Int) = MediaTypeEvent := by decide
    have h2 : ¬ (0 : Int) = MediaTypeVOD := by decide
    simp [renderHeader, hk, hm, ht, hi, h1, h2]

/-- C22 (amended), at `ExampleMediaPlaylist`: `NewMediaPlaylist(0, 2)` and the calls of
`Append` with the segments of 5 and 6 seconds leave the playlist `exampleMedia`, and its
encoding is exactly the text of the example -/
theorem C22_header_lines_witness :
    NewMediaPlaylist 0 2 = .ok (some { ver := 3, capacity := 2, Segments := [none, none] }) ∧
    appendAll exampleMediaHeap { ver := 3, capacity := 2, Segments := [none, none] }
        [some 0, some 1] = .ok exampleMedia ∧
    ∃ q, MediaPlaylist.Encode (stdFormatters exampleFormatters.Format) exampleMediaHeap
        exampleMedia = some q ∧
      q.buf = "#EXTM3U\n#EXT-X-VERSION:3\n#EXT-X-MEDIA-SEQUENCE:0\n#EXT-X-TARGETDURATION:6\n" ++
        "#EXTINF:5.000,\ntest01.ts\n#EXTINF:6.000,\ntest02.ts\n" := by
  refine ⟨by decide, by decide!, ?_⟩
  obtain ⟨q, hq⟩ := (C22_header_lines (stdFormatters exampleFormatters.Format)
    exampleMediaHeap exampleMedia (by decide) (by decide!) rfl).2.1 rfl (by decide) (by decide)
    (by decide)
  refine ⟨q, hq, ?_⟩
  have henc : MediaPlaylist.Encode (stdFormatters exampleFormatters.Format) exampleMediaHeap
      exampleMedia = some { exampleMedia with
        buf := "#EXTM3U\n#EXT-X-VERSION:3\n#EXT-X-MEDIA-SEQUENCE:0\n" ++
          "#EXT-X-TARGETDURATION:6\n#EXTINF:5.000,\ntest01.ts\n#EXTINF:6.000,\ntest02.ts\n" } := by
    decide!
  rw [henc] at hq
  injection hq with hq
  rw [← hq]
  decide

/-- C24 fails on the code: `Encode` prints a duration with `FormatFloat(d, 'f', 3, 32)`, which
converts `d` to `float32` before it rounds to three digits. The duration 16777217 is printed
as `16777216.000` (next to `#EXT-X-TARGETDURATION:16777217`), the duration
2.000500023365020751953125 as `2.000`, and the `float64` written `9.9995`, which is below
9.9995, as `10.000`, while rounded to three digits they are `16777217.000`, `2.001` and
`9.999`. What holds for every segment with duration `d ≥ 0`, whatever the
duration cache of `Encode` holds at that point: after `DurationAsInt(true)` the value is the
decimal integer `ceil(d)`, for `ceil(d)` below `2 ^ 63` (the text is that of
`int64(math.Ceil(d))`); otherwise it is `float32(d)` rounded to exactly three digits (when
`float32(d)` is finite), which is `d` rounded to three digits whenever `d` is a `float32`;
and the value is the one computed for the duration on its own, so the cache never changes
the output. The durations 8 and 9.1 give `8` and `10`, and 5 gives `5.000`. -/
theorem C24_extinf_float32 :
    MediaPlaylist.durationText (stdFormatters exampleFormatters.Format) {} 16777217 =
      "16777216.000" ∧
    round3 16777217 = "16777217.000" ∧
    MediaPlaylist.durationText (stdFormatters exampleFormatters.Format) {}
      (33562821 / 16777216) = "2.000" ∧
    round3 (33562821 / 16777216) = "2.001" ∧
    float64 (99995 / 10000) = 5629218059236409 / 562949953421312 ∧
    MediaPlaylist.durationText (stdFormatters exampleFormatters.Format) {}
      (5629218059236409 / 562949953421312) = "10.000" ∧
    round3 (5629218059236409 / 562949953421312) = "9.999" ∧
    MediaPlaylist.Append { seg := fun _ => { URI := "a.ts", Duration := 16777217 } }
        { ver := 3, capacity := 1, Segments := [none] } (some 0) =
      .ok { ver := 3, capacity := 1, Segments := [some 0], count := 1,
            TargetDuration := 16777217 } ∧
    MediaPlaylist.encoded (stdFormatters exampleFormatters.Format)
        { seg := fun _ => { URI := "a.ts", Duration := 16777217 } }
        { ver := 3, capacity := 1, Segments := [some 0], count := 1,
          TargetDuration := 16777217 } =
      some ("#EXTM3U\n#EXT-X-VERSION:3\n#EXT-X-MEDIA-SEQUENCE:0\n" ++
        "#EXT-X-TARGETDURATION:16777217\n#EXTINF:16777216.000,\na.ts\n") ∧
    (∀ (Format : Time → String → String) (p : MediaPlaylist) (seg : MediaSegment)
        (cache : List (ℚ × String)),
      CacheOk (stdFormatters Format) p cache → 0 ≤ seg.Duration →
      (MediaPlaylist.segmentDuration (stdFormatters Format) p seg cache).1 =
        p.durationText (stdFormatters Format) seg.Duration ∧
      (p.durationAsInt = true → ⌈seg.Duration⌉ < 2 ^ 63 →
        p.durationText (stdFormatters Format) seg.Duration = Itoa ⌈seg.Duration⌉) ∧
      (p.durationAsInt = false → float32 seg.Duration < 2 ^ 128 →
        p.durationText (stdFormatters Format) seg.Duration = round3 (float32 seg.Duration)) ∧
      (p.durationAsInt = false → float32 seg.Duration = seg.Duration →
        seg.Duration < 2 ^ 128 →
        p.durationText (stdFormatters Format) seg.Duration = round3 seg.Duration)) ∧
    (∀ (p : MediaPlaylist), (p.DurationAsInt true).durationAsInt = true) ∧
    (∀ (F : Formatters) (h : Heap) (p : MediaPlaylist) (n : Nat) (i head : Int),
      MediaPlaylist.writeSegments F h p n i head [] = renderSegments F h p n i head) ∧
    Itoa ⌈(8 : ℚ)⌉ = "8" ∧ Itoa ⌈(91 / 10 : ℚ)⌉ = "10" ∧
    float32 5 = 5 ∧ round3 5 = "5.000" := by
  refine ⟨by decide!, by decide!, by decide!, by decide!, by decide!, by decide!, by decide!,
    by decide!, by decide!, ?_, fun _ => rfl, ?_, by decide!, by decide!, by decide!,
    by decide!⟩
  · intro Format p seg cache hc hd
    refine ⟨(segmentDuration_ok _ p seg hc).1, ?_, ?_, ?_⟩
    · intro hi hlt
      have h0 : (0 : Int) ≤ ⌈seg.Duration⌉ := Int.ceil_nonneg hd
      simp only [MediaPlaylist.durationText, hi, if_true,
        int64_of_range (le_trans (by norm_num) h0) hlt]
    · intro hi hfin
      simp only [MediaPlaylist.durationText, hi, Bool.false_eq_true, if_false, stdFormatters]
      exact FormatFloat_fixed3 seg.Duration hd hfin 'f'
    · intro hi hf hfin
      simp only [MediaPlaylist.durationText, hi, Bool.false_eq_true, if_false, stdFormatters]
      rw [FormatFloat_fixed3 seg.Duration hd (by rw [hf]; exact hfin) 'f', hf]
  · intro F h p n i head
    exact writeSegments_eq_render F h p n i head [] (CacheOk_nil F p)

/-- C40 fails on the code: the line of the video level IDC is written without the space
between the tag name and the value. For a playlist whose Widevine data has `VideoLevelIDC` 3
and nothing else, `Encode` writes the line `#WV-VIDEO-LEVEL-IDC3`, while the block as the
claim has it is the line `#WV-VIDEO-LEVEL-IDC 3`. What holds, for Widevine data whose numeric
fields are non-negative (below `2 ^ 63`): the block comes last in the header; it is the lines
of the fields in the claimed order, each field that is not 0 (or not the empty string) on a
line of its own with the tag name, one space and the value, except that the line of a video
level IDC other than 0 has no space; so it is the claimed block whenever the video level IDC
is 0, and it is empty when every field has its default value or there is no Widevine data. -/
theorem C40_widevine_level_idc :
    MediaPlaylist.headerWidevine { wv := fun _ => { VideoLevelIDC := 3 } } { W := some 0 } =
      "#WV-VIDEO-LEVEL-IDC3\n" ∧
    renderWidevine { VideoLevelIDC := 3 } = "#WV-VIDEO-LEVEL-IDC 3\n" ∧
    MediaPlaylist.encoded exampleFormatters { wv := fun _ => { VideoLevelIDC := 3 } }
        { ver := 3, capacity := 1, Segments := [none], W := some 0 } =
      some ("#EXTM3U\n#EXT-X-VERSION:3\n#EXT-X-MEDIA-SEQUENCE:0\n#EXT-X-TARGETDURATION:0\n" ++
        "#WV-VIDEO-LEVEL-IDC3\n") ∧
    MediaPlaylist.headerWidevine
        { wv := fun _ =>
            { AudioChannels := 2, CypherVersion := "1", VideoFormat := 4, VideoLevelIDC := 31,
              VideoProfileIDC := 100, VideoSAR := "1:1" } }
        { W := some 0 } =
      "#WV-AUDIO-CHANNELS 2\n#WV-CYPHER-VERSION 1\n#WV-VIDEO-FORMAT 4\n" ++
        "#WV-VIDEO-LEVEL-IDC31\n#WV-VIDEO-PROFILE-IDC 100\n#WV-VIDEO-SAR 1:1\n" ∧
    (∀ (h : Heap) (p : MediaPlaylist),
      MediaPlaylist.header h p =
        MediaPlaylist.headerVersion p ++ MediaPlaylist.headerKey h p ++
        MediaPlaylist.headerMap h p ++ MediaPlaylist.headerType p ++
        MediaPlaylist.headerSequence p ++ MediaPlaylist.headerTargetDuration p ++
        MediaPlaylist.headerIframe p ++ MediaPlaylist.headerWidevine h p) ∧
    (∀ (h : Heap) (p : MediaPlaylist) (a : Ptr), p.W = some a → (h.wv a).InRange →
      MediaPlaylist.headerWidevine h p =
        wvNumber "#WV-AUDIO-CHANNELS" (h.wv a).AudioChannels ++
        wvNumber "#WV-AUDIO-FORMAT" (h.wv a).AudioFormat ++
        wvNumber "#WV-AUDIO-PROFILE-IDC" (h.wv a).AudioProfileIDC ++
        wvNumber "#WV-AUDIO-SAMPLE-SIZE" (h.wv a).AudioSampleSize ++
        wvNumber "#WV-AUDIO-SAMPLING-FREQUENCY" (h.wv a).AudioSamplingFrequency ++
        wvText "#WV-CYPHER-VERSION" (h.wv a).CypherVersion ++
        wvText "#WV-ECM" (h.wv a).ECM ++
        wvNumber "#WV-VIDEO-FORMAT" (h.wv a).VideoFormat ++
        wvNumber "#WV-VIDEO-FRAME-RATE" (h.wv a).VideoFrameRate ++
        (if (h.wv a).VideoLevelIDC = 0 then ""
         else "#WV-VIDEO-LEVEL-IDC" ++ Itoa (h.wv a).VideoLevelIDC ++ "\n") ++
        wvNumber "#WV-VIDEO-PROFILE-IDC" (h.wv a).VideoProfileIDC ++
        wvText "#WV-VIDEO-RESOLUTION" (h.wv a).VideoResolution ++
        wvText "#WV-VIDEO-SAR" (h.wv a).VideoSAR) ∧
    (∀ (h : Heap) (p : MediaPlaylist) (a : Ptr), p.W = some a → (h.wv a).InRange →
      (h.wv a).VideoLevelIDC = 0 →
      MediaPlaylist.headerWidevine h p = renderWidevine (h.wv a)) ∧
    renderWidevine {} = "" ∧
    (∀ (h : Heap) (p : MediaPlaylist), p.W = none → MediaPlaylist.headerWidevine h p = "") := by
  refine ⟨by decide, by decide, ?_, ?_, fun _ _ => rfl, headerWidevine_eq, ?_, by decide, ?_⟩
  · set_option maxRecDepth 8000 in decide
  · set_option maxRecDepth 8000 in decide
  · intro h p a hW hr h0
    rw [headerWidevine_eq h p a hW hr, renderWidevine, h0]
    simp [wvNumber]
  · intro h p hW
    simp [MediaPlaylist.headerWidevine, hW]

/-- C38 fails on the code: `Close` appends `#EXT-X-ENDLIST` to a cache that is not empty, also
when the playlist is closed already. On the playlist of `ExampleMediaPlaylist` with its
encoding in the cache (as `Encode` leaves it), `Close`, `Close`, `Encode` returns the text
followed by two lines `#EXT-X-ENDLIST`, and `Close`, `Encode` the text followed by one. The
same holds for every state whose cache is not empty. What holds: with an empty cache the
second `Close` changes nothing, and the text `Encode` then returns is the encoding of the
open state followed by exactly one line `#EXT-X-ENDLIST`. -/
theorem C38_close_twice :
    MediaPlaylist.Encode (stdFormatters exampleFormatters.Format) exampleMediaHeap exampleMedia =
      some { exampleMedia with
        buf := "#EXTM3U\n#EXT-X-VERSION:3\n#EXT-X-MEDIA-SEQUENCE:0\n" ++
          "#EXT-X-TARGETDURATION:6\n#EXTINF:5.000,\ntest01.ts\n#EXTINF:6.000,\ntest02.ts\n" } ∧
    MediaPlaylist.encoded (stdFormatters exampleFormatters.Format) exampleMediaHeap
        (MediaPlaylist.Close (MediaPlaylist.Close { exampleMedia with
          buf := "#EXTM3U\n#EXT-X-VERSION:3\n#EXT-X-MEDIA-SEQUENCE:0\n" ++
            "#EXT-X-TARGETDURATION:6\n#EXTINF:5.000,\ntest01.ts\n#EXTINF:6.000,\ntest02.ts\n" })) =
      some ("#EXTM3U\n#EXT-X-VERSION:3\n#EXT-X-MEDIA-SEQUENCE:0\n#EXT-X-TARGETDURATION:6\n" ++
        "#EXTINF:5.000,\ntest01.ts\n#EXTINF:6.000,\ntest02.ts\n" ++
        "#EXT-X-ENDLIST\n#EXT-X-ENDLIST\n") ∧
    MediaPlaylist.encoded (stdFormatters exampleFormatters.Format) exampleMediaHeap
        (MediaPlaylist.Close { exampleMedia with
          buf := "#EXTM3U\n#EXT-X-VERSION:3\n#EXT-X-MEDIA-SEQUENCE:0\n" ++
            "#EXT-X-TARGETDURATION:6\n#EXTINF:5.000,\ntest01.ts\n#EXTINF:6.000,\ntest02.ts\n" }) =
      some ("#EXTM3U\n#EXT-X-VERSION:3\n#EXT-X-MEDIA-SEQUENCE:0\n#EXT-X-TARGETDURATION:6\n" ++
        "#EXTINF:5.000,\ntest01.ts\n#EXTINF:6.000,\ntest02.ts\n" ++
        "#EXT-X-ENDLIST\n") ∧
    (∀ (F : Formatters) (h : Heap) (p : MediaPlaylist), p.buf ≠ "" →
      p.Close.encoded F h = some (p.buf ++ "#EXT-X-ENDLIST\n") ∧
      p.Close.Close.encoded F h = some (p.buf ++ "#EXT-X-ENDLIST\n" ++ "#EXT-X-ENDLIST\n") ∧
      p.Close.Close.encoded F h ≠ p.Close.encoded F h) ∧
    (∀ p : MediaPlaylist, p.buf = "" → p.Close.Close = p.Close) ∧
    (∀ (F : Formatters) (h : Heap) (p : MediaPlaylist), p.buf = "" →
      p.Close.Close.encoded F h = p.Close.encoded F h ∧
      p.Close.encoded F h =
        (MediaPlaylist.encoded F h { p with Closed := false, buf := "" }).map
          (fun s => s ++ "#EXT-X-ENDLIST\n")) := by
  refine ⟨by decide!, ?_, ?_, ?_, ?_, ?_⟩
  · rw [(Close_of_cached _ _ _ (append_endlist_ne_empty _)).2]
    simp only [MediaPlaylist.Close]
    decide
  · rw [(Close_of_cached _ _ _ (by decide)).2]
    decide
  · intro F h p hne
    obtain ⟨hb, h1⟩ := Close_of_cached F h p hne
    have hne' : p.Close.buf ≠ "" := by
      rw [hb]
      exact append_endlist_ne_empty _
    obtain ⟨-, h2⟩ := Close_of_cached F h p.Close hne'
    rw [hb] at h2
    refine ⟨h1, h2, ?_⟩
    rw [h1, h2]
    intro heq
    have hd := congrArg String.data (Option.some.inj heq)
    simp only [String.data_append, List.append_assoc] at hd
    exact absurd (List.append_cancel_left hd) (by decide)
  · intro p hb
    simp [MediaPlaylist.Close, hb]
  · intro F h p hb
    have hcc : p.Close.Close = p.Close := by simp [MediaPlaylist.Close, hb]
    have hc : p.Close = { p with Closed := true, buf := "" } := by
      simp [MediaPlaylist.Close, hb]
    refine ⟨by rw [hcc], ?_⟩
    rw [hc]
    exact encoded_closed F h p

/-- C39 fails on the code: `Encode` takes two alternatives for the same one when the strings
`Type-GroupID-Name-Language` are equal, and the fields can differ then. The alternative
(`AUDIO`, `aac`, `English`, `en-US`) of a first variant and the alternative (`AUDIO`, `aac`,
`English-en`, `US`) of a second one differ in name and language and both have the string
`AUDIO-aac-English-en-US`: the encoding has the `EXT-X-MEDIA` line of the first and none for
the second. What holds for two alternatives `a` and `b`, of one variant or of two consecutive
ones: when their strings differ, both lines are written, each before the stream descriptor
of its variant; when the strings are equal, only the line of `a` is written; the strings are
equal whenever the four fields are. -/
theorem C39_alt_dropped :
    exampleAudio.key ≠ exampleAudioUS.key ∧
    MasterPlaylist.altKey exampleAudio = "AUDIO-aac-English-en-US" ∧
    MasterPlaylist.altKey exampleAudioUS = "AUDIO-aac-English-en-US" ∧
    ((NewMasterPlaylist.Append "low.m3u8" (some 0)
          { Bandwidth := 1000, Audio := "aac", Alternatives := [some exampleAudio] }).Append
        "high.m3u8" (some 1)
          { Bandwidth := 2000, Audio := "aac", Alternatives := [some exampleAudioUS] }).encoded =
      some ("#EXTM3U\n#EXT-X-VERSION:4\n" ++
        "#EXT-X-MEDIA:TYPE=AUDIO,GROUP-ID=\"aac\",NAME=\"English\",DEFAULT=NO," ++
        "LANGUAGE=\"en-US\",URI=\"a1.m3u8\"\n" ++
        "#EXT-X-STREAM-INF:PROGRAM-ID=0,BANDWIDTH=1000,AUDIO=\"aac\"\nlow.m3u8\n" ++
        "#EXT-X-STREAM-INF:PROGRAM-ID=0,BANDWIDTH=2000,AUDIO=\"aac\"\nhigh.m3u8\n") ∧
    (∀ a b : Alternative, MasterPlaylist.altKey a ≠ MasterPlaylist.altKey b →
      (MasterPlaylist.writeAlternatives [some a, some b] []).map Prod.fst =
        some (MasterPlaylist.writeAlternative a ++ MasterPlaylist.writeAlternative b)) ∧
    (∀ a b : Alternative, MasterPlaylist.altKey a = MasterPlaylist.altKey b →
      (MasterPlaylist.writeAlternatives [some a, some b] []).map Prod.fst =
        some (MasterPlaylist.writeAlternative a)) ∧
    (∀ (p : MasterPlaylist) (v1 v2 : Variant) (a b : Alternative),
      v1.Alternatives = [some a] → v2.Alternatives = [some b] →
      (MasterPlaylist.altKey a ≠ MasterPlaylist.altKey b →
        MasterPlaylist.writeVariants p [some v1, some v2] [] =
          some (MasterPlaylist.writeAlternative a ++ MasterPlaylist.writeVariant p v1 ++
            (MasterPlaylist.writeAlternative b ++ MasterPlaylist.writeVariant p v2))) ∧
      (MasterPlaylist.altKey a = MasterPlaylist.altKey b →
        MasterPlaylist.writeVariants p [some v1, some v2] [] =
          some (MasterPlaylist.writeAlternative a ++ MasterPlaylist.writeVariant p v1 ++
            MasterPlaylist.writeVariant p v2))) ∧
    (∀ a b : Alternative, a.key = b.key →
      MasterPlaylist.altKey a = MasterPlaylist.altKey b) := by
  refine ⟨by decide, by decide, by decide, ?_, ?_, ?_, ?_, fun a b hab => altKey_of_key hab⟩
  · set_option maxRecDepth 8000 in decide
  · intro a b hab
    have hab' : ¬ MasterPlaylist.altKey b = MasterPlaylist.altKey a := fun e => hab e.symm
    simp [MasterPlaylist.writeAlternatives, hab']
  · intro a b hab
    simp [MasterPlaylist.writeAlternatives, hab]
  · intro p v1 v2 a b h1 h2
    constructor
    · intro hab
      have hab' : ¬ MasterPlaylist.altKey b = MasterPlaylist.altKey a := fun e => hab e.symm
      simp [MasterPlaylist.writeVariants, MasterPlaylist.writeAlternatives, h1, h2, hab',
        String.append_assoc]
    · intro hab
      simp [MasterPlaylist.writeVariants, MasterPlaylist.writeAlternatives, h1, h2, hab,
        String.append_assoc]

/-- C34 fails on the code: `NewMediaPlaylist(0, 0)` returns a playlist without error, and
every `Append` on it panics, because `p.Segments[p.tail]` indexes slot 0 of an empty slice:
the test for a full buffer, `head == tail && count > 0`, misses the buffer of capacity 0,
which is empty and full at once. With a negative capacity, `NewMediaPlaylist(-2, -1)` itself
panics in `make`. What holds: for every capacity `c ≥ 1` and `winsize ≤ c`,
`NewMediaPlaylist(winsize, c)` succeeds and an `Append` of a segment returns no error and
stores the segment in slot 0; and `NewMediaPlaylist` returns an error when
`winsize > capacity`. -/
theorem C34_append_capacity_zero :
    NewMediaPlaylist 0 0 = .ok (some { ver := 3 }) ∧
    (∀ (h : Heap) (seg : Option Ptr), MediaPlaylist.Append h { ver := 3 } seg = .panic) ∧
    NewMediaPlaylist (-2) (-1) = .panic ∧
    (∀ (h : Heap) (w c : Int) (a : Ptr), 1 ≤ c → w ≤ c →
      ∃ p0 q, NewMediaPlaylist w c = .ok (some p0) ∧ p0.Append h (some a) = .ok q ∧
        index q.Segments 0 = some (some a) ∧ q.count = 1 ∧ q.capacity = c ∧
        (q.Segments.length : Int) = c) ∧
    (∀ w c : Int, c < w → ∃ e, NewMediaPlaylist w c = .error e none) := by
  refine ⟨by decide, ?_, by decide, ?_, ?_⟩
  · intro h seg
    simp [MediaPlaylist.Append]
  · intro h w c a hc hw
    have hlen : ((List.replicate c.toNat (none : Option Ptr)).length : Int) = c := by
      rw [List.length_replicate]
      omega
    refine ⟨_, _, NewMediaPlaylist_ok (by omega) hw,
      Append_ok (by simp) ⟨le_refl _, by show (0 : Int) < _; rw [hlen]; omega⟩
        (by show c ≠ 0; omega), ?_, rfl, rfl, ?_⟩
    · have hpos : 0 < c.toNat := by omega
      simp [index, List.getElem?_set, hpos]
    · simp only [List.length_set]
      exact hlen
  · intro w c hwc
    exact ⟨.new "capacity must be greater than winsize or equal",
      by simp [NewMediaPlaylist, MediaPlaylist.SetWinSize, hwc]⟩

/-- C35: take the playlist that `NewMediaPlaylist(w, c)` returns, with `c ≥ 1`, and any
sequence of calls of `Append`, `Remove` and `Slide`, each made on the state the call before
it left. When no call carries a nil segment no call panics. In the state the calls leave,
`0 ≤ head < capacity`, `0 ≤ tail < capacity`, `0 ≤ count ≤ capacity`,
`tail = (head + count) mod capacity`, the capacity is `c` and the length of `Segments`;
`Append` returns an error exactly when `count = capacity`, and the error is
`ErrPlaylistFull`; and slot `(head + j) mod capacity`, for `j < count`, holds the `j`-th of
the last `count` segments that the calls appended, in the order in which they were
appended. -/
theorem C35_ring_invariant (h : Heap) (w c : Int) (p0 : MediaPlaylist) (calls : List RingCall)
    (hc : 1 ≤ c) (hnew : NewMediaPlaylist w c = .ok (some p0))
    (hb : ∀ x ∈ calls, x.basic = true) :
    ((∀ x ∈ calls, x.nonNil = true) → ∃ p, ringCalls h p0 calls = some p) ∧
    ∀ p, ringCalls h p0 calls = some p →
      (0 ≤ p.head ∧ p.head < p.capacity) ∧ (0 ≤ p.tail ∧ p.tail < p.capacity) ∧
      (0 ≤ p.count ∧ p.count ≤ p.capacity) ∧
      p.tail = (p.head + p.count) % p.capacity ∧
      p.capacity = c ∧ (p.Segments.length : Int) = c ∧
      (∀ seg, (∃ e q, p.Append h seg = .error e q) ↔ p.count = p.capacity) ∧
      (∀ seg, p.count = p.capacity → p.Append h seg = .error .ErrPlaylistFull p) ∧
      p.count ≤ (appendedBy h p0 calls).length ∧
      ∀ j : Nat, (j : Int) < p.count →
        index p.Segments ((p.head + j) % p.capacity) =
          (((appendedBy h p0 calls).drop
            ((appendedBy h p0 calls).length - p.count.toNat))[j]?).map some := by
  obtain ⟨hr0, -, hc0, -, -⟩ := Ring.of_new hc hnew
  obtain ⟨htot, hinv⟩ := Ring.calls_basic h calls p0 [] hr0 hb
  refine ⟨htot, ?_⟩
  intro p hp
  obtain ⟨segs, hr, hsuf, hcap, -⟩ := hinv p hp
  rw [List.nil_append] at hsuf
  obtain ⟨ht0, ht1, -⟩ := hr.tail_bounds
  have hcnt := hr.count
  have hle := hr.le
  have hlen : segs.length ≤ (appendedBy h p0 calls).length := hsuf.length_le
  refine ⟨⟨hr.head0, hr.head1⟩, ⟨ht0, ht1⟩, ⟨by omega, by omega⟩, ?_, by rw [hcap, hc0], ?_,
    ?_, ?_, by omega, ?_⟩
  · rw [hcnt]
    exact hr.tail
  · rw [hr.len, hcap, hc0]
  · intro seg
    rcases hr.append_cases h seg with ⟨hf, he⟩ | ⟨hlt, -, he⟩ | ⟨hlt, a, q, -, he, -⟩
    · exact ⟨fun _ => by omega, fun _ => ⟨_, _, he⟩⟩
    · constructor
      · rintro ⟨e, q, heq⟩
        rw [he] at heq
        cases heq
      · intro hfull
        omega
    · constructor
      · rintro ⟨e, q', heq⟩
        rw [he] at heq
        cases heq
      · intro hfull
        omega
  · intro seg hfull
    exact hr.append_full (by omega) h seg
  · intro j hj
    have hdrop : segs = (appendedBy h p0 calls).drop
        ((appendedBy h p0 calls).length - p.count.toNat) := by
      have := List.suffix_iff_eq_drop.mp hsuf
      rw [this]
      congr 2
      omega
    rw [← hdrop]
    exact hr.slots j (by omega)

/-- C35 at the playlist of `NewMediaPlaylist(2, 3)` after two calls of `Append`, a `Remove`,
two calls of `Slide` and two of `Append`, the last of which finds the buffer full: the window
is the slots 2, 0 and 1, which hold the segments of the last three calls that appended -/
theorem C35_ring_invariant_witness :
    NewMediaPlaylist 2 3 = .ok (some exampleRing) ∧
    ∃ p, ringCalls exampleHeap exampleRing exampleRingCalls = some p ∧
      p.tail = (p.head + p.count) % p.capacity ∧ p.count ≤ p.capacity ∧
      (p.head, p.tail, p.count, p.SeqNo) = (2, 2, 3, 2) ∧
      p.Segments = [some 3, some 4, some 2] ∧
      appendedBy exampleHeap exampleRing exampleRingCalls = [0, 1, 2, 3, 4] := by
  obtain ⟨htot, hinv⟩ := C35_ring_invariant exampleHeap 2 3 exampleRing exampleRingCalls
    (by decide) (by decide) (by decide)
  obtain ⟨p, hp⟩ := htot (by decide)
  obtain ⟨-, -, hcnt, htail, -⟩ := hinv p hp
  refine ⟨by decide, p, hp, htail, hcnt.2, ?_⟩
  have hev : ringCalls exampleHeap exampleRing exampleRingCalls =
      some { exampleRing with
        Segments := [some 3, some 4, some 2], head := 2, tail := 2, count := 3, SeqNo := 2,
        TargetDuration := 10 } := by
    decide!
  rw [hev] at hp
  cases hp
  exact ⟨rfl, rfl, by decide!⟩

/-- C33: for every capacity `c`, window size `w` with `1 ≤ w ≤ c` and list of `n` segments,
`NewMediaPlaylist(w, c)` returns an open playlist, and `Slide` called on it with each of the
segments in turn returns no error, for the first `k` segments (every `k ≤ n`) as for all of
them. Afterwards `Count()` is `min(n, w)`, `SeqNo` is `max(0, n - w)` (as an `int`, so as
long as `n - w` is below `2 ^ 63`, which takes more calls than a run can make), and slot
`(head + j) mod capacity`, for `j < min(n, w)`, holds the `j`-th of the last `min(n, w)`
segments, in the order of the calls. -/
theorem C33_sliding_window (h : Heap) (w c : Int) (segs : List Ptr) (hw : 1 ≤ w)
    (hwc : w ≤ c) :
    ∃ p0 p, NewMediaPlaylist w c = .ok (some p0) ∧ p0.Closed = false ∧
      (∀ k : Nat, k ≤ segs.length → ∃ pk, slideAll h p0 ((segs.take k).map some) = .ok pk) ∧
      slideAll h p0 (segs.map some) = .ok p ∧
      p.Count = min (segs.length : Int) w ∧
      p.SeqNo = wrapInt (max 0 ((segs.length : Int) - w)) ∧
      ((segs.length : Int) - w < 2 ^ 63 → p.SeqNo = max 0 ((segs.length : Int) - w)) ∧
      (0 ≤ p.head ∧ p.head < p.capacity) ∧ p.capacity = c ∧
      ∀ j : Nat, (j : Int) < min (segs.length : Int) w →
        index p.Segments ((p.head + j) % p.capacity) =
          ((segs.drop (segs.length - (min (segs.length : Int) w).toNat))[j]?).map some := by
  have hc : 1 ≤ c := by omega
  have hnew := @NewMediaPlaylist_ok w c (by omega) hwc
  obtain ⟨hr0, hw0, hc0, hcl0, hs0⟩ := Ring.of_new hc hnew
  have hS0 : wrapInt (0 : Int) = 0 := by decide
  obtain ⟨p, hp, hr, hseq, hcap, -, -⟩ := Ring.slides h w hw segs _ [] hr0 hcl0 hw0
    (by rw [hc0]; exact hwc) (by simp; omega) (by rw [hs0]; exact hS0)
  have hseq' : p.SeqNo = wrapInt (max 0 ((segs.length : Int) - w)) := by
    rw [hseq, hs0]
    simp only [List.nil_append]
    congr 1
    omega
  refine ⟨_, p, hnew, hcl0, ?_, hp, ?_, hseq', ?_, ⟨hr.head0, hr.head1⟩, by rw [hcap, hc0],
    ?_⟩
  · intro k _
    obtain ⟨pk, hpk, -⟩ := Ring.slides h w hw (segs.take k) _ [] hr0 hcl0 hw0
      (by rw [hc0]; exact hwc) (by simp; omega) (by rw [hs0]; exact hS0)
    exact ⟨pk, hpk⟩
  · have := hr.count
    simp only [List.nil_append, List.length_drop] at this
    show p.count = _
    rw [this]
    omega
  · intro hlt
    rw [hseq']
    exact wrapInt_of_range (le_trans (by norm_num) (le_max_left _ _))
      (max_lt (by norm_num) hlt)
  · intro j hj
    have hd : segs.length - (min (segs.length : Int) w).toNat = segs.length - w.toNat := by
      omega
    rw [hd]
    simp only [List.nil_append] at hr
    exact hr.slots j (by simp only [List.length_drop]; omega)

/-- C33 at the case of `TestMediaPlaylistWinsize`: `NewMediaPlaylist(6, 6)` and nine calls of
`Slide` leave six segments, the last six, and the sequence number 3 -/
theorem C33_sliding_window_witness :
    ∃ p, slideAll exampleHeap
        { ver := 3, winsize := 6, capacity := 6, Segments := List.replicate 6 none }
        ([1, 2, 3, 4, 5, 6, 7, 8, 9].map some) = .ok p ∧
      p.Count = 6 ∧ p.SeqNo = 3 ∧ p.head = 3 ∧
      p.Segments = [some 7, some 8, some 9, some 4, some 5, some 6] := by
  obtain ⟨p0, p, hnew, -, -, hp, hcount, -, hseq, -, -, -⟩ :=
    C33_sliding_window exampleHeap 6 6 [1, 2, 3, 4, 5, 6, 7, 8, 9] (by decide) (by decide)
  have h0 : NewMediaPlaylist 6 6 = .ok (some
      { ver := 3, winsize := 6, capacity := 6, Segments := List.replicate 6 none }) := by
    decide
  rw [h0] at hnew
  cases hnew
  refine ⟨p, hp, hcount, hseq (by decide), ?_⟩
  have hev : slideAll exampleHeap
      { ver := 3, winsize := 6, capacity := 6, Segments := List.replicate 6 none }
      ([1, 2, 3, 4, 5, 6, 7, 8, 9].map some) =
      .ok { ver := 3, winsize := 6, capacity := 6,
            Segments := [some 7, some 8, some 9, some 4, some 5, some 6],
            head := 3, tail := 3, count := 6, SeqNo := 3, TargetDuration := 10 } := by
    decide!
  rw [hev] at hp
  cases hp
  exact ⟨rfl, rfl⟩

/-- C32 fails on the code: `ExtendCapacity` sets `tail = count`, which is the slot after the
last live segment only when `head = 0`. After `NewMediaPlaylist(0, 2)`, two calls of `Append`
(segments 0 and 1), `Remove` and `ExtendCapacity`, the one live segment is segment 1, in slot
1, and `last()` is 0, the slot of segment 0, which was removed: `SetDiscontinuity` then sets
the flag of segment 0 and leaves segment 1 as it was. What holds: after calls of `Append`,
`Remove` and `Slide` only, on a playlist of capacity at least 1, whenever `count > 0` the
slot `last()` holds the segment of the most recent call that appended. -/
theorem C32_last_after_extend :
    NewMediaPlaylist 0 2 = .ok (some exampleVod2) ∧
    ringCalls exampleHeap exampleVod2 extendAfterRemove =
      some { exampleVod2 with
        Segments := [some 0, some 1, none], capacity := 3, head := 1, tail := 1, count := 1,
        SeqNo := 1, TargetDuration := 10 } ∧
    appendedBy exampleHeap exampleVod2 extendAfterRemove = [0, 1] ∧
    (∀ p, ringCalls exampleHeap exampleVod2 extendAfterRemove = some p →
      p.count = 1 ∧ index p.Segments p.head = some (some 1) ∧ p.last = 0 ∧
      p.lastSeg = some 0 ∧
      ∃ h', p.SetDiscontinuity exampleHeap = .ok (p, h') ∧
        (h'.seg 0).Discontinuity = true ∧ (h'.seg 1).Discontinuity = false) ∧
    (∀ (h : Heap) (w c : Int) (p0 p : MediaPlaylist) (calls : List RingCall),
      1 ≤ c → NewMediaPlaylist w c = .ok (some p0) → (∀ x ∈ calls, x.basic = true) →
      ringCalls h p0 calls = some p → 0 < p.count →
      p.lastSeg = (appendedBy h p0 calls).getLast? ∧ p.lastSeg ≠ none) := by
  have hev : ringCalls exampleHeap exampleVod2 extendAfterRemove =
      some { exampleVod2 with
        Segments := [some 0, some 1, none], capacity := 3, head := 1, tail := 1, count := 1,
        SeqNo := 1, TargetDuration := 10 } := by
    decide!
  refine ⟨by decide, hev, by decide!, ?_, ?_⟩
  · intro p hp
    rw [hev] at hp
    cases hp
    refine ⟨rfl, rfl, rfl, rfl, _, SetDiscontinuity_ok (by decide) rfl, ?_, ?_⟩
    · simp
    · simp [exampleHeap]
  · intro h w c p0 p calls hc hnew hb hrun hpos
    obtain ⟨hr0, -⟩ := Ring.of_new hc hnew
    obtain ⟨segs, hr, hsuf, -, -⟩ := (Ring.calls_basic h calls p0 [] hr0 hb).2 p hrun
    rw [List.nil_append] at hsuf
    obtain ⟨h1, h2, -, -⟩ := hr.lastSeg_of_suffix hsuf hpos
    exact ⟨h1, h2⟩

/-- C36 fails on the code: after `ExtendCapacity` on a buffer whose `head` is not 0, `tail`
is set to `count`, inside the live window, and `Append` goes on until `tail` reaches `head`.
After `NewMediaPlaylist(0, 3)`, three calls of `Append`, `Remove`, `ExtendCapacity` and four
calls of `Append`, all without error, `count` is 6 and the capacity is 5, and `Encode`, with
`winsize` 0, writes the segment of slot 1 first and last. The defect is the one of C14. What
holds in every state that calls of `Append`, `AppendWithAutoExtend`, `Remove`, `Slide` and
`ExtendCapacity` reach from `NewMediaPlaylist(w, c)`: the capacity is the length of
`Segments`, `winsize` is `w` and at most the capacity, and the capacity is at least what it
was in any earlier state; and when the calls are of `Append`, `Remove` and `Slide` only,
`count ≤ capacity` and the slots that the `count` passes of the loop of `Encode` read are
pairwise different. -/
theorem C36_count_exceeds_capacity :
    NewMediaPlaylist 0 3 = .ok (some exampleVod3) ∧
    ringCalls numberedHeap exampleVod3 appendsAfterExtend =
      some { exampleVod3 with
        Segments := [some 6, some 1, some 3, some 4, some 5], capacity := 5, head := 1,
        tail := 1, count := 6, SeqNo := 1, TargetDuration := 5 } ∧
    appendedBy numberedHeap exampleVod3 appendsAfterExtend = [0, 1, 2, 3, 4, 5, 6] ∧
    (∀ p, ringCalls numberedHeap exampleVod3 appendsAfterExtend = some p →
      p.capacity < p.count ∧ p.winsize = 0 ∧
      p.encoded exampleFormatters numberedHeap =
        some ("#EXTM3U\n#EXT-X-VERSION:3\n#EXT-X-MEDIA-SEQUENCE:1\n" ++
          "#EXT-X-TARGETDURATION:5\n" ++
          "#EXTINF:?,\ns1.ts\n#EXTINF:?,\ns3.ts\n#EXTINF:?,\ns4.ts\n#EXTINF:?,\ns5.ts\n" ++
          "#EXTINF:?,\ns6.ts\n#EXTINF:?,\ns1.ts\n")) ∧
    (∀ (h : Heap) (w c : Int) (p0 p1 p2 : MediaPlaylist) (calls1 calls2 : List RingCall),
      NewMediaPlaylist w c = .ok (some p0) → ringCalls h p0 calls1 = some p1 →
      ringCalls h p1 calls2 = some p2 →
      p2.capacity = p2.Segments.length ∧ p2.winsize = w ∧ p2.winsize ≤ p2.capacity ∧
      c ≤ p1.capacity ∧ p1.capacity ≤ p2.capacity) ∧
    (∀ (h : Heap) (w c : Int) (p0 p : MediaPlaylist) (calls : List RingCall),
      1 ≤ c → NewMediaPlaylist w c = .ok (some p0) → (∀ x ∈ calls, x.basic = true) →
      ringCalls h p0 calls = some p →
      p.count ≤ p.capacity ∧
      ∀ i j : Nat, i < j → (j : Int) < p.count → p.slotAt i ≠ p.slotAt j) := by
  have hev : ringCalls numberedHeap exampleVod3 appendsAfterExtend =
      some { exampleVod3 with
        Segments := [some 6, some 1, some 3, some 4, some 5], capacity := 5, head := 1,
        tail := 1, count := 6, SeqNo := 1, TargetDuration := 5 } := by
    decide!
  refine ⟨by decide, hev, by decide!, ?_, ?_, ?_⟩
  · intro p hp
    rw [hev] at hp
    cases hp
    exact ⟨by decide, rfl, by decide!⟩
  · intro h w c p0 p1 p2 calls1 calls2 hnew h1 h2
    obtain ⟨n1, n2, n3, n4⟩ := NewMediaPlaylist_cap hnew
    obtain ⟨a1, a2, a3⟩ := ringCalls_cap h calls1 p0 p1 h1 n1
    obtain ⟨b1, b2, b3⟩ := ringCalls_cap h calls2 p1 p2 h2 a1
    refine ⟨b1, by rw [b2, a2, n4], ?_, by rw [← n3]; exact a3, b3⟩
    rw [b2, a2]
    exact le_trans n2 (le_trans a3 b3)
  · intro h w c p0 p calls hc hnew hb hrun
    obtain ⟨hr0, -⟩ := Ring.of_new hc hnew
    obtain ⟨segs, hr, -, -, -⟩ := (Ring.calls_basic h calls p0 [] hr0 hb).2 p hrun
    refine ⟨?_, hr.slots_distinct⟩
    rw [hr.count]
    exact hr.le

/-- C37 fails on the code: the defect of `ExtendCapacity` that C14 shows (`tail = count`
whatever `head` is) lets `count` grow beyond the capacity, and a second `ExtendCapacity`
then puts `tail` after new, empty slots. After `NewMediaPlaylist(0, 3)`, three calls of
`Append`, `Remove`, `ExtendCapacity`, four calls of `Append` and `ExtendCapacity` again, all
without error and with non-nil segments, `count` is 6, `last()` is 5, inside the array, and
slot 5 is empty: each of the six setters panics. What holds: after calls of `Append`,
`Remove` and `Slide` only, on a playlist of capacity at least 1, whenever `count > 0` the
index `last()` lies inside the array and its slot holds a segment, and the six setters
return no error. -/
theorem C37_last_slot_empty :
    NewMediaPlaylist 0 3 = .ok (some exampleVod3) ∧
    ringCalls exampleHeap exampleVod3 (appendsAfterExtend ++ [.ExtendCapacity]) =
      some { exampleVod3 with
        Segments := [some 6, some 1, some 3, some 4, some 5, none, none, none, none, none,
          none],
        capacity := 11, head := 1, tail := 6, count := 6, SeqNo := 1, TargetDuration := 10 } ∧
    (∀ x ∈ appendsAfterExtend ++ [.ExtendCapacity], x.nonNil = true) ∧
    (∀ p, ringCalls exampleHeap exampleVod3 (appendsAfterExtend ++ [.ExtendCapacity]) = some p →
      p.count = 6 ∧ p.last = 5 ∧ index p.Segments p.last = some none ∧ p.lastSeg = none ∧
      ∀ (h : Heap) (s : String) (n : Int) (c : Option Ptr) (t : Time),
        p.SetKey h s s s s s = .panic ∧ p.SetMap h s n n = .panic ∧
        p.SetRange h n n = .panic ∧ p.SetSCTE35 h c = .panic ∧
        p.SetDiscontinuity h = .panic ∧ p.SetProgramDateTime h t = .panic) ∧
    (∀ (h : Heap) (w c : Int) (p0 p : MediaPlaylist) (calls : List RingCall),
      1 ≤ c → NewMediaPlaylist w c = .ok (some p0) → (∀ x ∈ calls, x.basic = true) →
      ringCalls h p0 calls = some p → 0 < p.count →
      (0 ≤ p.last ∧ p.last < p.Segments.length) ∧
      ∃ a, p.lastSeg = some a ∧
        ∀ (s : String) (n : Int) (c : Option Ptr) (t : Time),
          (∃ r, p.SetKey h s s s s s = .ok r) ∧ (∃ r, p.SetMap h s n n = .ok r) ∧
          (∃ r, p.SetRange h n n = .ok r) ∧ (∃ r, p.SetSCTE35 h c = .ok r) ∧
          (∃ r, p.SetDiscontinuity h = .ok r) ∧ (∃ r, p.SetProgramDateTime h t = .ok r)) := by
  have hev : ringCalls exampleHeap exampleVod3 (appendsAfterExtend ++ [.ExtendCapacity]) =
      some { exampleVod3 with
        Segments := [some 6, some 1, some 3, some 4, some 5, none, none, none, none, none,
          none],
        capacity := 11, head := 1, tail := 6, count := 6, SeqNo := 1,
        TargetDuration := 10 } := by
    decide!
  refine ⟨by decide, hev, by decide, ?_, ?_⟩
  · intro p hp
    rw [hev] at hp
    cases hp
    refine ⟨rfl, rfl, rfl, rfl, ?_⟩
    intro h s n c t
    have hc : ¬ (6 : Int) = 0 := by decide
    refine ⟨?_, ?_, ?_, ?_, ?_, ?_⟩ <;>
      simp [MediaPlaylist.SetKey, MediaPlaylist.SetMap, MediaPlaylist.SetRange,
        MediaPlaylist.SetSCTE35, MediaPlaylist.SetDiscontinuity,
        MediaPlaylist.SetProgramDateTime, MediaPlaylist.lastSeg, MediaPlaylist.last, index,
        exampleVod3]
  · intro h w c p0 p calls hc hnew hb hrun hpos
    obtain ⟨hr0, -⟩ := Ring.of_new hc hnew
    obtain ⟨segs, hr, hsuf, -, -⟩ := (Ring.calls_basic h calls p0 [] hr0 hb).2 p hrun
    rw [List.nil_append] at hsuf
    obtain ⟨-, h2, h3, h4⟩ := hr.lastSeg_of_suffix hsuf hpos
    refine ⟨⟨h3, h4⟩, ?_⟩
    cases hl : p.lastSeg with
    | none => exact absurd hl h2
    | some a =>
      refine ⟨a, rfl, ?_⟩
      intro s n c t
      have h0 : p.count ≠ 0 := by omega
      exact ⟨⟨_, SetKey_ok h0 hl s s s s s⟩, ⟨_, SetMap_ok h0 hl s n n⟩,
        ⟨_, SetRange_ok h0 hl n n⟩, ⟨_, SetSCTE35_ok h0 hl c⟩, ⟨_, SetDiscontinuity_ok h0 hl⟩,
        ⟨_, SetProgramDateTime_ok h0 hl t⟩⟩

end Hls
